import Mathlib

/-! # Fastcap: ring buffer, writer pool, capture-file reader and PCAPNG emitter

A shallow embedding of the capture pipeline of `fastcap`:

* `src/ring_buffer.cpp` / `include/fastcap/ring_buffer.hpp`: the byte ring buffer
  (one producer, several consumers) and its blocking reads;
* `src/writer.cpp`: the constructor of `WriterSet` (shard names, magic, lead
  record), its producer side and the loop of `Writer::work`;
* `src/reader.cpp`: `Reader` and `ReaderSet` (ordered merge of shard files);
* `src/pcapng.cpp`: the PCAPNG emitter `PcapNGWriter`;
* `src/sniffer.cpp`: the constructor of `Sniffer` and the loop of `Sniffer::run`;
* `src/fastcap.cpp`: the option `-b`, `capture` and the signal handler;
* `include/fastcap/lock_free.hpp`: the queue `Spsc` (`LFQueue` with
  `SingleProducer` and `SingleConsumer`).

Machine integers are natural numbers with explicit reduction modulo `2 ^ 64`
(`size_t`, `uint64_t`) or `2 ^ 32`; bytes are natural numbers below `256`.
Operations of different threads are interleaved at operation granularity, so the
atomic cursors are plain fields of the state.
-/

namespace Fastcap

/-! ## Machine words and byte encodings -/

/-- Number of values of a 64-bit word (`size_t`, `uint64_t`). -/
def W64 : Nat := 2 ^ 64

/-- The value of `sizeof(size_t)` on the 64-bit target. -/
def SIZEOF_SIZE_T : Nat := 8

/-- Little-endian encoding of `n` on `k` bytes (the object representation that
`memcpy` copies on the little-endian host). -/
def toLE : Nat → Nat → List Nat
  | 0, _ => []
  | k + 1, n => n % 256 :: toLE k (n / 256)

/-- Value of a little-endian byte string. -/
def fromLE : List Nat → Nat
  | [] => 0
  | b :: bs => b + 256 * fromLE bs

/-! ## Ring buffer (`ring_buffer.cpp`) -/

/-- State of a `RingBuffer`: backing array, capacity, the three cursors and the
producer's private write cursors. `begin_` is signed: a negative value is the
lease sentinel of `try_read`. -/
structure RingBuffer where
  mem_ : Nat → Nat
  cap_ : Nat
  begin_ : Int
  end_ : Nat
  free_end_ : Nat
  write_pos_ : Nat
  write_end_ : Nat

/-- The C conversion `static_cast<size_t>(b)` of a truth value. -/
def boolToSize (b : Bool) : Nat := if b then 1 else 0

/-- Translation of `RingBuffer::offset_add`. -/
def offset_add (cap pos offset : Nat) : Nat :=
  let pos := (pos + offset) % W64
  (pos + W64 - (cap * boolToSize (decide (pos ≥ cap))) % W64) % W64

/-- Translation of `RingBuffer::decrement`. -/
def decrement (cap pos : Nat) : Nat :=
  let cond := boolToSize (decide (pos = 0))
  let not_cond := cond ^^^ 1
  (((pos + W64 - 1) % W64 * not_cond) % W64) ||| (((cap + W64 - 1) % W64 * cond) % W64)

/-- Translation of `RingBuffer::distance`. -/
def distance (cap start end_ : Nat) : Nat :=
  let cond := boolToSize (decide (end_ < start))
  let not_cond := cond ^^^ 1
  (((end_ + W64 - start) % W64 * not_cond) % W64) |||
    ((((cap + W64 - end_) % W64 + start) % W64 * cond) % W64)

/-- The effect of `std::memcpy(mem + dst, src, src.length)` on the array. -/
def memcpy (mem : Nat → Nat) (dst : Nat) (src : List Nat) : Nat → Nat :=
  fun j => if dst ≤ j ∧ j < dst + src.length then src.getD (j - dst) 0 else mem j

/-- The bytes `mem[pos], ..., mem[pos + n - 1]`. -/
def loadBytes (mem : Nat → Nat) (pos n : Nat) : List Nat :=
  (List.range n).map (fun i => mem (pos + i))

/-- Translation of `RingBuffer::write_impl`: copy `len` bytes of `buf` to
position `pos`, wrapping at the capacity. -/
def write_impl (mem : Nat → Nat) (cap pos : Nat) (buf : List Nat) (len : Nat) : Nat → Nat :=
  if (pos + len) % W64 > cap then
    let first_len := (cap + W64 - pos) % W64
    let second_len := (len + W64 - first_len) % W64
    let mem1 := memcpy mem pos (buf.take first_len)
    memcpy mem1 0 ((buf.drop first_len).take second_len)
  else
    memcpy mem pos (buf.take len)

/-- Translation of `RingBuffer::read_impl`: the `len` bytes found from position
`pos` on, wrapping at the capacity. -/
def read_impl (mem : Nat → Nat) (cap pos len : Nat) : List Nat :=
  if (pos + len) % W64 > cap then
    let first_len := (cap + W64 - pos) % W64
    let second_len := (len + W64 - first_len) % W64
    loadBytes mem pos first_len ++ loadBytes mem 0 second_len
  else
    loadBytes mem pos len

namespace RingBuffer

/-- Translation of the constructor `RingBuffer::RingBuffer(capacity)`; `mem0` is
the content of the freshly allocated (uninitialised) array. -/
def new (capacity : Nat) (mem0 : Nat → Nat) : RingBuffer :=
  { mem_ := mem0, cap_ := capacity, begin_ := 0, end_ := 0,
    free_end_ := (capacity + W64 - 1) % W64, write_pos_ := 0, write_end_ := 0 }

/-- Translation of `RingBuffer::prepare_write`. -/
def prepare_write (rb : RingBuffer) (num_bytes : Nat) : Bool × RingBuffer :=
  let needed_bytes := (num_bytes + SIZEOF_SIZE_T) % W64
  let end_ := rb.end_
  let free_end := rb.free_end_
  let free_len := distance rb.cap_ end_ free_end
  if needed_bytes > free_len then
    (false, rb)
  else
    let mem := write_impl rb.mem_ rb.cap_ end_ (toLE SIZEOF_SIZE_T num_bytes) SIZEOF_SIZE_T
    let write_pos := offset_add rb.cap_ end_ SIZEOF_SIZE_T
    let write_end := offset_add rb.cap_ write_pos num_bytes
    (true, { rb with mem_ := mem, write_pos_ := write_pos, write_end_ := write_end })

/-- Translation of `RingBuffer::write_some`. -/
def write_some (rb : RingBuffer) (buf : List Nat) (len : Nat) : RingBuffer :=
  { rb with
    mem_ := write_impl rb.mem_ rb.cap_ rb.write_pos_ buf len
    write_pos_ := offset_add rb.cap_ rb.write_pos_ len }

/-- Translation of `RingBuffer::commit_write` (waking a consumer changes no
state). -/
def commit_write (rb : RingBuffer) : RingBuffer :=
  { rb with end_ := rb.write_end_ }

/-- The conversion `static_cast<std::ptrdiff_t>` of a `size_t`. -/
def toPtrdiff (n : Nat) : Int :=
  if n < 2 ^ 63 then (n : Int) else (n : Int) - (W64 : Int)

/-- Translation of `RingBuffer::try_read`, run without interruption. A call
that returns gives `Except.ok (flag, state, buf)`. A call that never returns
gives `Except.error state`, the state it leaves while spinning: the exchange
loop spins when `begin_` holds a negative value, the compare-exchange loop when
`free_end_` differs from the expected value. -/
def try_read (rb : RingBuffer) (buf : List Nat) :
    Except RingBuffer (Bool × RingBuffer × List Nat) :=
  if rb.begin_ < 0 then Except.error { rb with begin_ := -1 }
  else
    let tmp_begin := rb.begin_
    let begin := tmp_begin.toNat
    if begin = rb.end_ then
      Except.ok (false, { rb with begin_ := tmp_begin }, buf)
    else
      let len := fromLE (read_impl rb.mem_ rb.cap_ begin SIZEOF_SIZE_T)
      let new_begin := offset_add rb.cap_ begin ((len + SIZEOF_SIZE_T) % W64)
      let out := read_impl rb.mem_ rb.cap_ (offset_add rb.cap_ begin SIZEOF_SIZE_T) len
      let new_end := decrement rb.cap_ new_begin
      let expected_end := decrement rb.cap_ begin
      if rb.free_end_ = expected_end then
        Except.ok (true, { rb with begin_ := toPtrdiff new_begin, free_end_ := new_end }, out)
      else Except.error { rb with begin_ := toPtrdiff new_begin }

end RingBuffer

/-! ### Driving the buffer -/

/-- One operation on the buffer: a complete producer write of a payload
(`prepare_write`, `write_some`, `commit_write`) or one `try_read`. -/
inductive Op where
  | write (payload : List Nat)
  | read

/-- Result of a run: final state, payloads committed (in commit order) and
payloads returned by successful `try_read` calls (in call order). -/
structure RunResult where
  rb : RingBuffer
  committed : List (List Nat)
  delivered : List (List Nat)

/-- The producer's complete write of one payload; the flag is the result of
`prepare_write`. A rejected payload is dropped. -/
def produce (rb : RingBuffer) (payload : List Nat) : Bool × RingBuffer :=
  let r := rb.prepare_write payload.length
  if r.1 then (true, (r.2.write_some payload payload.length).commit_write)
  else (false, r.2)

/-- Run a sequence of operations; `none` when a `try_read` does not return. -/
def run : RunResult → List Op → Option RunResult
  | st, [] => some st
  | st, Op.write p :: ops =>
    let r := produce st.rb p
    run { rb := r.2, committed := if r.1 then st.committed ++ [p] else st.committed,
          delivered := st.delivered } ops
  | st, Op.read :: ops =>
    match st.rb.try_read [] with
    | Except.error _ => none
    | Except.ok (ok, rb, buf) =>
      run { rb := rb, committed := st.committed,
            delivered := if ok then st.delivered ++ [buf] else st.delivered } ops

/-- A run from a freshly constructed buffer. -/
def runFresh (capacity : Nat) (mem0 : Nat → Nat) (ops : List Op) : Option RunResult :=
  run { rb := RingBuffer.new capacity mem0, committed := [], delivered := [] } ops

/-- The flags returned by the successive `prepare_write` calls when the
payloads are written one after the other with no `try_read` in between. -/
def writeFlags (rb : RingBuffer) : List (List Nat) → List Bool
  | [] => []
  | p :: ps => (produce rb p).1 :: writeFlags (produce rb p).2 ps

/-! ## Capture records (`writer.hpp`) -/

/-- The struct `PktHdr`. -/
structure PktHdr where
  id : Nat
  secs : Nat
  frac : Nat
  len : Nat
  caplen : Nat
deriving DecidableEq, Repr

/-- The struct `StatHdr`. -/
structure StatHdr where
  id : Nat
  secs : Nat
  frac : Nat
  recv : Nat
  iface_drops : Nat
  os_drops : Nat
deriving DecidableEq, Repr

/-- The value of `sizeof(PktHdr)`. -/
def SIZEOF_PKTHDR : Nat := 32

/-- The value of `sizeof(StatHdr)`. -/
def SIZEOF_STATHDR : Nat := 48

/-- Object representation of a `PktHdr` (three 64-bit and two 32-bit fields, no
padding). -/
def PktHdr.bytes (h : PktHdr) : List Nat :=
  toLE 8 h.id ++ toLE 8 h.secs ++ toLE 8 h.frac ++ toLE 4 h.len ++ toLE 4 h.caplen

/-- Object representation of a `StatHdr` (six 64-bit fields). -/
def StatHdr.bytes (h : StatHdr) : List Nat :=
  toLE 8 h.id ++ toLE 8 h.secs ++ toLE 8 h.frac ++ toLE 8 h.recv ++ toLE 8 h.iface_drops ++
    toLE 8 h.os_drops

/-- The fields of libpcap's `pcap_pkthdr` (`ts.tv_sec`, `ts.tv_usec` are signed
`long`, the lengths are `bpf_u_int32`). -/
structure pcap_pkthdr where
  tv_sec : Int
  tv_usec : Int
  caplen : Nat
  len : Nat

/-- The struct `timeval`. -/
structure timeval where
  tv_sec : Int
  tv_usec : Int

/-- The conversion `static_cast<uint64_t>` of a signed value. -/
def toU64 (x : Int) : Nat := (x % (W64 : Int)).toNat

/-! ## Writer pool (`writer.cpp`) -/

/-- The struct `Config` with its default member initialisers. `stats_interval`,
a `float`, is a number here: the code tests its sign (`>= 0.0f`) and compares
it with clock readings, which are inputs of `Sniffer::run`. -/
structure Config where
  iface : List Nat := []
  fname : List Nat := []
  filter : List Nat := []
  bufsz : Int := 256
  snaplen : Int := 65536
  num_files : Int := 1
  stats_interval : Int := -1
  nano : Bool := false
  promisc : Bool := false
  rfmon : Bool := false
  immediate : Bool := false

/-- The struct `IPv4Subnet`. -/
structure IPv4Subnet where
  addr : List Nat
  mask : List Nat
deriving DecidableEq, Repr

/-- The struct `IPv6Subnet`. -/
structure IPv6Subnet where
  addr : List Nat
  prefix_len : Nat
deriving DecidableEq, Repr

/-- What the `Device` accessors and the host metadata functions return during
the construction of a `WriterSet`. `mac_storage` is the content of the six
bytes of storage of the `std::optional<MAC>` returned by `mac_addr()`, which
`mac->data()` points to whether or not the optional holds a value. -/
structure DeviceInfo where
  cpu_model : List Nat
  os_version : List Nat
  name : List Nat
  ipv4_addrs : List IPv4Subnet
  ipv6_addrs : List IPv6Subnet
  mac_addr : Option (List Nat)
  mac_storage : List Nat
  hardware : List Nat
  speed : Nat

/-- State of a `WriterSet`: the bytes written so far to the file of each
writer, the ring buffer, the stop flag and the two counters. -/
structure WriterSet where
  files_ : List (List Nat)
  buf_ : RingBuffer
  stop_ : Bool
  queue_drops_ : Nat
  entry_count_ : Nat

/-- The file magic `0x46434150`. -/
def MAGIC : Nat := 0x46434150

/-- The bytes of `s.c_str()` up to and including the terminator
(`s.size() + 1` bytes). -/
def cstr (s : List Nat) : List Nat := s ++ [0]

/-- The lead record as the constructor of `WriterSet` writes it to the first
file (source lines 31 to 73). -/
def leadBytes (config : Config) (datalink : Int) (dev : DeviceInfo) : List Nat :=
  toLE 8 0 ++
  cstr dev.cpu_model ++
  cstr dev.os_version ++
  cstr dev.name ++
  [if config.nano then 1 else 0] ++
  cstr config.filter ++
  toLE 4 (config.snaplen % (2 ^ 32 : Int)).toNat ++
  toLE 4 (dev.ipv4_addrs.length % 2 ^ 32) ++
  (dev.ipv4_addrs.map (fun ipv4 => ipv4.addr.take 4 ++ ipv4.mask.take 4)).flatten ++
  toLE 4 (dev.ipv6_addrs.length % 2 ^ 32) ++
  (dev.ipv6_addrs.map (fun ipv6 => ipv6.addr.take 16 ++ [ipv6.prefix_len])).flatten ++
  (match dev.mac_addr with
   | some _ => [0]
   | none => [1] ++ dev.mac_storage.take 6) ++
  cstr dev.hardware ++
  toLE 8 dev.speed ++
  toLE 2 (datalink % (2 ^ 16 : Int)).toNat

namespace WriterSet

/-- Translation of the constructor `WriterSet::WriterSet` (file names apart):
one file per writer, the magic in each, the lead record in the first, the entry
counter incremented once. `mem0` is the content of the freshly allocated ring
buffer array. -/
def new (config : Config) (datalink : Int) (dev : DeviceInfo) (mem0 : Nat → Nat) : WriterSet :=
  let n := if config.num_files = 1 then 1 else config.num_files.toNat
  let files := List.replicate n (toLE 4 MAGIC)
  let files := files.modifyHead (fun f => f ++ leadBytes config datalink dev)
  { files_ := files
    buf_ := RingBuffer.new (toU64 config.bufsz) mem0
    stop_ := false
    queue_drops_ := 0
    entry_count_ := 1 }

/-- The header `PktHdr phdr{...}` that `write_packet` builds (source lines 84
to 90). -/
def pktHdrOf (ws : WriterSet) (hdr : pcap_pkthdr) : PktHdr :=
  { id := ws.entry_count_, secs := toU64 hdr.tv_sec, frac := toU64 hdr.tv_usec,
    len := hdr.len, caplen := hdr.caplen }

/-- The header `StatHdr hdr{...}` that `write_stats` builds (source lines 100
to 107). -/
def statHdrOf (ws : WriterSet) (ts : timeval) (recv iface_drops os_drops : Nat) : StatHdr :=
  { id := ws.entry_count_ ||| 2 ^ 63, secs := toU64 ts.tv_sec, frac := toU64 ts.tv_usec,
    recv := recv, iface_drops := iface_drops, os_drops := os_drops }

/-- Translation of `WriterSet::write_packet`. -/
def write_packet (ws : WriterSet) (hdr : pcap_pkthdr) (bytes : List Nat) : WriterSet :=
  let r := ws.buf_.prepare_write (SIZEOF_PKTHDR + hdr.caplen)
  if r.1 then
    let phdr : PktHdr := ws.pktHdrOf hdr
    let buf := r.2.write_some phdr.bytes SIZEOF_PKTHDR
    let buf := buf.write_some bytes phdr.caplen
    let buf := buf.commit_write
    { ws with buf_ := buf, entry_count_ := (ws.entry_count_ + 1) % W64 }
  else
    { ws with buf_ := r.2 }

/-- Translation of `WriterSet::write_stats` (the log line apart). -/
def write_stats (ws : WriterSet) (ts : timeval) (recv iface_drops os_drops : Nat) : WriterSet :=
  let r := ws.buf_.prepare_write SIZEOF_STATHDR
  if r.1 then
    let hdr : StatHdr := ws.statHdrOf ts recv iface_drops os_drops
    let buf := r.2.write_some hdr.bytes SIZEOF_STATHDR
    let buf := buf.commit_write
    { ws with buf_ := buf, entry_count_ := (ws.entry_count_ + 1) % W64 }
  else
    { ws with buf_ := r.2 }

/-- One round of the loop of `Writer::work` for writer `i`: when the stop flag
is clear, one `try_read`, and on success the record is appended to the writer's
file. A `try_read` that never returns leaves the buffer as it is while
spinning. -/
def work (ws : WriterSet) (i : Nat) : WriterSet :=
  if ws.stop_ then ws
  else
    match ws.buf_.try_read [] with
    | Except.error rb => { ws with buf_ := rb }
    | Except.ok (true, rb, buf) =>
      { ws with buf_ := rb, files_ := ws.files_.modify (fun f => f ++ buf) i }
    | Except.ok (false, rb, _) => { ws with buf_ := rb }

end WriterSet

/-- One step of a capture session: an ingest call of the capture thread or one
round of a writer thread. -/
inductive Step where
  | packet (hdr : pcap_pkthdr) (bytes : List Nat)
  | stats (ts : timeval) (recv iface_drops os_drops : Nat)
  | work (i : Nat)

/-- Whether the step is an ingest call that the ring buffer admits in state
`ws` (the test of `write_packet` and `write_stats`). -/
def Step.admitted (ws : WriterSet) : Step → Bool
  | Step.packet hdr _ => (ws.buf_.prepare_write (SIZEOF_PKTHDR + hdr.caplen)).1
  | Step.stats _ _ _ _ => (ws.buf_.prepare_write SIZEOF_STATHDR).1
  | Step.work _ => false

/-- The state after one step. -/
def Step.apply (ws : WriterSet) : Step → WriterSet
  | Step.packet hdr bytes => ws.write_packet hdr bytes
  | Step.stats ts recv iface_drops os_drops => ws.write_stats ts recv iface_drops os_drops
  | Step.work i => ws.work i

/-- The entry ID field of the header that an ingest call builds in state `ws`
(`phdr.id`, `hdr.id`). -/
def Step.entryId (ws : WriterSet) : Step → Nat
  | Step.packet hdr _ => (ws.pktHdrOf hdr).id
  | Step.stats ts recv iface_drops os_drops => (ws.statHdrOf ts recv iface_drops os_drops).id
  | Step.work _ => 0

/-- Whether the step is a call of `write_stats`. -/
def Step.isStats : Step → Bool
  | Step.stats _ _ _ _ => true
  | _ => false

/-- The entry IDs written by the admitted ingest calls of a session, in call
order, each with the flag telling whether the call was `write_stats`. -/
def admittedIds (ws : WriterSet) : List Step → List (Nat × Bool)
  | [] => []
  | st :: rest =>
    if st.admitted ws then (st.entryId ws, st.isStats) :: admittedIds (st.apply ws) rest
    else admittedIds (st.apply ws) rest

/-- The state after a sequence of steps. -/
def runSteps (ws : WriterSet) (steps : List Step) : WriterSet :=
  steps.foldl Step.apply ws

/-! ## Input file streams

The part of `std::ifstream` that `reader.cpp` uses, with the state flags
`eofbit` and `failbit` of the C++ standard library: an input function first
checks that the stream is good and otherwise only sets `failbit`; a read that
meets the end of the file sets `eofbit` and `failbit`; `seekg` clears `eofbit`
and then does nothing on a failed stream. -/

/-- State of a `std::ifstream` opened on a file with the given content. -/
structure IFStream where
  content : List Nat
  pos : Nat
  eofbit : Bool
  failbit : Bool
deriving DecidableEq, Repr

namespace IFStream

/-- A stream just opened on a file. -/
def ofFile (content : List Nat) : IFStream :=
  { content := content, pos := 0, eofbit := false, failbit := false }

/-- The member `good()`. -/
def good (f : IFStream) : Bool := !f.eofbit && !f.failbit

/-- The member `eof()`. -/
def eof (f : IFStream) : Bool := f.eofbit

/-- The member `read(buf, len)`: the bytes extracted and the new state. -/
def read (f : IFStream) (len : Nat) : List Nat × IFStream :=
  if f.good then
    let got := (f.content.drop f.pos).take len
    if got.length < len then
      (got, { f with pos := f.pos + got.length, eofbit := true, failbit := true })
    else (got, { f with pos := f.pos + len })
  else ([], { f with failbit := true })

/-- The call `std::getline(file, str, delim)`: the new value of `str` and the
new state. -/
def getline (f : IFStream) (str : List Nat) (delim : Nat) : List Nat × IFStream :=
  if f.good then
    let rest := f.content.drop f.pos
    let line := rest.takeWhile (fun c => c != delim)
    if line.length < rest.length then
      (line, { f with pos := f.pos + line.length + 1 })
    else
      (line, { f with pos := f.pos + line.length, eofbit := true,
                      failbit := f.failbit || line.isEmpty })
  else (str, { f with failbit := true })

/-- The member `tellg()`; `-1` on failure. -/
def tellg (f : IFStream) : Int × IFStream :=
  if f.good then ((f.pos : Int), f) else (-1, { f with failbit := true })

/-- The member `seekg(off, std::ios::cur)`. -/
def seekg_cur (f : IFStream) (off : Int) : IFStream :=
  let f := { f with eofbit := false }
  if f.failbit then f
  else if (f.pos : Int) + off < 0 then { f with failbit := true }
  else { f with pos := ((f.pos : Int) + off).toNat }

/-- The member `seekg(pos)`. -/
def seekg (f : IFStream) (p : Int) : IFStream :=
  let f := { f with eofbit := false }
  if f.failbit then f
  else if p < 0 then { f with failbit := true }
  else { f with pos := p.toNat }

end IFStream

/-! ## Shard reader (`reader.cpp`) -/

/-- The bytes of an object after `got` was copied over its beginning. -/
def overwrite (old got : List Nat) : List Nat := got ++ old.drop got.length

/-- Translation of `byteswap` on a `k`-byte unsigned integer
(`__builtin_bswap16/32/64`). -/
def byteswap (k x : Nat) : Nat := fromLE (toLE k x).reverse

/-- The value of type `std::variant<PktHdr, StatHdr>`. -/
inductive Hdr where
  | pkt (h : PktHdr)
  | stat (h : StatHdr)
deriving DecidableEq, Repr

/-- The pair `(hdr.id, is_pkt)` that the visitor of `ReaderSet::next`
computes. -/
def Hdr.visit : Hdr → Nat × Bool
  | Hdr.pkt h => (h.id, true)
  | Hdr.stat h => (h.id, false)

/-- State of a `Reader`. -/
structure Reader where
  file_ : IFStream
  hdr_ : Hdr
  data_ : List Nat
  native_ : Int
  has_lead_ : Bool
  done_ : Bool
deriving DecidableEq, Repr

/-- The effect of `std::vector::resize(n)` on a byte vector. -/
def resize (v : List Nat) (n : Nat) : List Nat :=
  v.take n ++ List.replicate (n - v.length) 0

/-- The magic of a shard in the byte order of the reading host. -/
def NATIVE_MAGIC : Nat := 0x46434150

/-- The magic of a shard in the opposite byte order. -/
def NON_NATIVE_MAGIC : Nat := 0x50414346

namespace Reader

/-- Translation of `Reader::read_next`. -/
def read_next (r : Reader) : Reader :=
  if r.file_.eof then { r with done_ := true }
  else
    let rd := r.file_.read 8
    let entry_id := fromLE (overwrite (toLE 8 0) rd.1)
    let f := rd.2
    if f.eof then { r with file_ := f, done_ := true }
    else if entry_id &&& 2 ^ 63 > 0 then
      let id := entry_id &&& (W64 - 1 - 2 ^ 63)
      let rd := f.read (SIZEOF_STATHDR - 8)
      let raw := overwrite (List.replicate (SIZEOF_STATHDR - 8) 0) rd.1
      let hdr : StatHdr :=
        { id := id
          secs := fromLE (raw.take 8)
          frac := fromLE ((raw.drop 8).take 8)
          recv := fromLE ((raw.drop 16).take 8)
          iface_drops := fromLE ((raw.drop 24).take 8)
          os_drops := fromLE ((raw.drop 32).take 8) }
      let hdr : StatHdr :=
        if r.native_ = 0 then
          { id := byteswap 8 hdr.id
            secs := byteswap 8 hdr.secs
            frac := byteswap 8 hdr.frac
            recv := byteswap 8 hdr.recv
            iface_drops := byteswap 8 hdr.iface_drops
            os_drops := byteswap 8 hdr.os_drops }
        else hdr
      { r with file_ := rd.2, hdr_ := Hdr.stat hdr }
    else
      let rd := f.read (SIZEOF_PKTHDR - 8)
      let raw := overwrite (List.replicate (SIZEOF_PKTHDR - 8) 0) rd.1
      let hdr : PktHdr :=
        { id := entry_id
          secs := fromLE (raw.take 8)
          frac := fromLE ((raw.drop 8).take 8)
          len := fromLE ((raw.drop 16).take 4)
          caplen := fromLE ((raw.drop 20).take 4) }
      let data := resize r.data_ hdr.caplen
      let rd := rd.2.read data.length
      let data := overwrite data rd.1
      let hdr : PktHdr :=
        if r.native_ = 0 then
          { id := byteswap 8 hdr.id
            secs := byteswap 8 hdr.secs
            frac := byteswap 8 hdr.frac
            len := byteswap 4 hdr.len
            caplen := byteswap 4 hdr.caplen }
        else hdr
      { r with file_ := rd.2, hdr_ := Hdr.pkt hdr, data_ := data }

/-- Translation of the constructor `Reader::Reader` on a file with the given
content. -/
def new (content : List Nat) : Reader :=
  let rd := (IFStream.ofFile content).read 4
  let magic := fromLE (overwrite (toLE 4 0) rd.1)
  let r : Reader :=
    { file_ := rd.2, hdr_ := Hdr.pkt ⟨0, 0, 0, 0, 0⟩, data_ := [], native_ := 0,
      has_lead_ := false, done_ := false }
  if magic = NATIVE_MAGIC ∨ magic = NON_NATIVE_MAGIC then
    let native : Int := if magic = NATIVE_MAGIC then 1 else 0
    let rd := r.file_.read 8
    let entry_id := fromLE (overwrite (toLE 8 0) rd.1)
    let f := rd.2.seekg_cur (-8)
    { r with file_ := f, native_ := native, has_lead_ := decide (entry_id = 0) }
  else
    { r with native_ := -1 }

end Reader

/-- The conversion of a 32-bit pattern to `int`. -/
def toInt32 (x : Nat) : Int :=
  if x % 2 ^ 32 < 2 ^ 31 then ((x % 2 ^ 32 : Nat) : Int) else ((x % 2 ^ 32 : Nat) : Int) - 2 ^ 32

/-- The 32-bit pattern of an `int`. -/
def ofInt32 (x : Int) : Nat := (x % (2 ^ 32 : Int)).toNat

/-- State of a `ReaderSet`; `warnings_` records the IDs reported by the
`missing entry` log lines, oldest first. -/
structure ReaderSet where
  readers_ : List Reader
  cpu_model_ : List Nat
  os_version_ : List Nat
  dev_name_ : List Nat
  nano_ : Bool
  filter_ : List Nat
  snaplen_ : Int
  ipv4s_ : List IPv4Subnet
  ipv6s_ : List IPv6Subnet
  mac_ : Option (List Nat)
  hardware_ : List Nat
  speed_ : Nat
  link_ : Nat
  start_sec_ : Nat
  start_frac_ : Nat
  next_ : Nat
  warnings_ : List Nat
deriving DecidableEq, Repr

/-- The first loop of `read_lead`: `count` subnets read into value-initialised
elements. -/
def readIPv4s (f : IFStream) : Nat → List IPv4Subnet × IFStream
  | 0 => ([], f)
  | count + 1 =>
    let a := f.read 4
    let m := a.2.read 4
    let rest := readIPv4s m.2 count
    ({ addr := overwrite (List.replicate 4 0) a.1,
       mask := overwrite (List.replicate 4 0) m.1 } :: rest.1, rest.2)

/-- The second loop of `read_lead`. -/
def readIPv6s (f : IFStream) : Nat → List IPv6Subnet × IFStream
  | 0 => ([], f)
  | count + 1 =>
    let a := f.read 16
    let p := a.2.read 1
    let rest := readIPv6s p.2 count
    ({ addr := overwrite (List.replicate 16 0) a.1,
       prefix_len := fromLE (overwrite [0] p.1) } :: rest.1, rest.2)

namespace ReaderSet

/-- A `ReaderSet` before the body of its constructor runs; `snaplen0` is the
indeterminate initial value of the member `snaplen_`, which has no
initialiser. -/
def init (snaplen0 : Int) : ReaderSet :=
  { readers_ := [], cpu_model_ := [], os_version_ := [], dev_name_ := [], nano_ := false,
    filter_ := [], snaplen_ := snaplen0, ipv4s_ := [], ipv6s_ := [], mac_ := none,
    hardware_ := [], speed_ := 0, link_ := 0, start_sec_ := 0, start_frac_ := 0, next_ := 1,
    warnings_ := [] }

/-- Translation of `ReaderSet::read_lead`: the new metadata and the new state
of the reader. -/
def read_lead (rs : ReaderSet) (r : Reader) : ReaderSet × Reader :=
  let swap := decide (r.native_ = 0)
  let f := (r.file_.read 8).2
  let cpu := f.getline rs.cpu_model_ 0
  let os := cpu.2.getline rs.os_version_ 0
  let dev := os.2.getline rs.dev_name_ 0
  let nano := dev.2.read 1
  let nano_ := decide (fromLE (overwrite [0] nano.1) ≠ 0)
  let filter := nano.2.getline rs.filter_ 0
  let sl := filter.2.read 4
  let snaplen := fromLE (overwrite (toLE 4 (ofInt32 rs.snaplen_)) sl.1)
  let snaplen := if swap then byteswap 4 snaplen else snaplen
  let c4 := sl.2.read 4
  let ipv4_count := fromLE (overwrite (toLE 4 0) c4.1)
  let ipv4_count := if swap then byteswap 4 ipv4_count else ipv4_count
  let v4 := readIPv4s c4.2 ipv4_count
  let c6 := v4.2.read 4
  let ipv6_count := fromLE (overwrite (toLE 4 0) c6.1)
  let ipv6_count := if swap then byteswap 4 ipv6_count else ipv6_count
  let v6 := readIPv6s c6.2 ipv6_count
  let hm := v6.2.read 1
  let has_mac := fromLE (overwrite [0] hm.1)
  let mc := if has_mac ≠ 0 then hm.2.read 6 else ([], hm.2)
  let mac := if has_mac ≠ 0 then some (overwrite (List.replicate 6 0) mc.1) else rs.mac_
  let hw := mc.2.getline rs.hardware_ 0
  let sp := hw.2.read 8
  let speed := fromLE (overwrite (toLE 8 rs.speed_) sp.1)
  let speed := if swap then byteswap 8 speed else speed
  let lk := sp.2.read 2
  let link := fromLE (overwrite (toLE 2 rs.link_) lk.1)
  let link := if swap then byteswap 2 link else link
  let pos := lk.2.tellg
  let f := pos.2.seekg_cur 8
  let ss := f.read 8
  let start_sec := fromLE (overwrite (toLE 8 rs.start_sec_) ss.1)
  let start_sec := if swap then byteswap 8 start_sec else start_sec
  let sf := ss.2.read 8
  let start_frac := fromLE (overwrite (toLE 8 rs.start_frac_) sf.1)
  let start_frac := if swap then byteswap 8 start_frac else start_frac
  let f := sf.2.seekg pos.1
  ({ rs with
     cpu_model_ := cpu.1, os_version_ := os.1, dev_name_ := dev.1, nano_ := nano_,
     filter_ := filter.1, snaplen_ := toInt32 snaplen,
     ipv4s_ := rs.ipv4s_ ++ v4.1, ipv6s_ := rs.ipv6s_ ++ v6.1, mac_ := mac,
     hardware_ := hw.1, speed_ := speed, link_ := link,
     start_sec_ := start_sec, start_frac_ := start_frac },
   { r with file_ := f })

/-- The first loop of the constructor of `ReaderSet`: open every shard and
parse the lead record where one is announced. The flag is `ok`. -/
def openAll (rs : ReaderSet) (ok : Bool) : List (List Nat) → ReaderSet × Bool
  | [] => (rs, ok)
  | path :: paths =>
    let reader := Reader.new path
    if reader.native_ < 0 then
      openAll { rs with readers_ := rs.readers_ ++ [reader] } false paths
    else if reader.has_lead_ then
      let r := rs.read_lead reader
      openAll { r.1 with readers_ := rs.readers_ ++ [r.2] } ok paths
    else
      openAll { rs with readers_ := rs.readers_ ++ [reader] } ok paths

/-- Translation of the constructor `ReaderSet::ReaderSet` on the contents of
the shard files: `Except.error 1` is `std::exit(1)`. -/
def new (snaplen0 : Int) (paths : List (List Nat)) : Except Nat ReaderSet :=
  let r := openAll (init snaplen0) true paths
  if !r.2 then Except.error 1
  else Except.ok { r.1 with readers_ := r.1.readers_.map Reader.read_next }

/-- The scan of the readers inside `ReaderSet::next` (the inner `for` loop):
either the header returned, with the new readers and the new content of
`data`, or the final value of `done_count`. -/
def scan (next_ : Nat) (data : List Nat) : List Reader → Nat →
    Sum (Hdr × List Reader × List Nat) Nat
  | [], done_count => Sum.inr done_count
  | reader :: rest, done_count =>
    if !reader.done_ then
      if reader.hdr_.visit.1 = next_ then
        let data1 := if reader.hdr_.visit.2 then reader.data_ else data
        let rdata := if reader.hdr_.visit.2 then data else reader.data_
        let hdr := reader.hdr_
        Sum.inl (hdr, ({ reader with data_ := rdata }).read_next :: rest, data1)
      else
        match scan next_ data rest done_count with
        | Sum.inl (hdr, rest1, data1) => Sum.inl (hdr, reader :: rest1, data1)
        | Sum.inr dc => Sum.inr dc
    else
      match scan next_ data rest (done_count + 1) with
      | Sum.inl (hdr, rest1, data1) => Sum.inl (hdr, reader :: rest1, data1)
      | Sum.inr dc => Sum.inr dc

/-- Translation of `ReaderSet::next`, the outer loop bounded by `fuel` rounds:
`none` when the loop has not returned after `fuel` rounds, otherwise the
returned optional, the new state and the new content of `data`. -/
def next : Nat → ReaderSet → List Nat → Option (Option Hdr × ReaderSet × List Nat)
  | 0, _, _ => none
  | fuel + 1, rs, data =>
    match scan rs.next_ data rs.readers_ 0 with
    | Sum.inl (hdr, readers, data1) =>
      some (some hdr, { rs with readers_ := readers, next_ := (rs.next_ + 1) % W64 }, data1)
    | Sum.inr done_count =>
      if done_count = rs.readers_.length then some (none, rs, data)
      else
        next fuel { rs with warnings_ := rs.warnings_ ++ [rs.next_],
                            next_ := (rs.next_ + 1) % W64 } data

end ReaderSet

/-- An entry as the merge returns it: the header and, for a packet, the payload
left in `data`. -/
structure Entry where
  hdr : Hdr
  payload : Option (List Nat)
deriving DecidableEq, Repr

/-- Call `ReaderSet::next` up to `n` times, each call bounded by `fuel` rounds,
stopping at end-of-stream: the entries returned, and whether end-of-stream was
reached. `none` when a call has not returned after `fuel` rounds. -/
def drain (fuel : Nat) : Nat → ReaderSet → List Nat → Option (List Entry × Bool)
  | 0, _, _ => some ([], false)
  | n + 1, rs, data =>
    match rs.next fuel data with
    | none => none
    | some (none, _, _) => some ([], true)
    | some (some hdr, rs1, data1) =>
      match drain fuel n rs1 data1 with
      | none => none
      | some (es, eos) =>
        some ({ hdr := hdr, payload := if hdr.visit.2 then some data1 else none } :: es, eos)

/-- Outcome of opening a shard set and calling `ReaderSet::next` repeatedly. -/
inductive MergeResult where
  | exit (status : Nat)
  | unfinished
  | entries (es : List Entry) (endOfStream : Bool)
deriving DecidableEq, Repr

/-- Construct a `ReaderSet` on the shard files and call `next` up to `n` times,
each call bounded by `fuel` rounds: `exit` when the constructor ends the
process, `unfinished` when a call has not returned after `fuel` rounds,
otherwise the entries returned and whether end-of-stream was reached. -/
def merge (fuel n : Nat) (paths : List (List Nat)) : MergeResult :=
  match ReaderSet.new 0 paths with
  | Except.error status => MergeResult.exit status
  | Except.ok rs =>
    match drain fuel n rs [] with
    | none => MergeResult.unfinished
    | some (es, eos) => MergeResult.entries es eos

/-! ## Shards in the opposite byte order -/

/-- Big-endian encoding of `n` on `k` bytes: the object representation on a
host of the opposite byte order. -/
def toBE (k n : Nat) : List Nat := (toLE k n).reverse

/-- A `PktHdr` as a host of the opposite byte order stores it. -/
def PktHdr.bytesBE (h : PktHdr) : List Nat :=
  toBE 8 h.id ++ toBE 8 h.secs ++ toBE 8 h.frac ++ toBE 4 h.len ++ toBE 4 h.caplen

/-- A `StatHdr` as a host of the opposite byte order stores it. -/
def StatHdr.bytesBE (h : StatHdr) : List Nat :=
  toBE 8 h.id ++ toBE 8 h.secs ++ toBE 8 h.frac ++ toBE 8 h.recv ++ toBE 8 h.iface_drops ++
    toBE 8 h.os_drops

/-! ## Sample inputs -/

/-- A capture configuration with two output files and a buffer of 256
bytes. -/
def sampleConfig : Config :=
  { iface := [101, 116, 104, 48], fname := [111, 117, 116], filter := [], bufsz := 256,
    snaplen := 65536, num_files := 2, nano := false, promisc := false, rfmon := false,
    immediate := false }

/-- Metadata of a device without addresses. -/
def sampleDevice : DeviceInfo :=
  { cpu_model := [99, 112, 117], os_version := [111, 115], name := [101, 116, 104, 48],
    ipv4_addrs := [], ipv6_addrs := [], mac_addr := some [2, 0, 0, 0, 0, 1],
    mac_storage := [2, 0, 0, 0, 0, 1], hardware := [110, 105, 99], speed := 1000 }

/-- A packet of two bytes as libpcap delivers it. -/
def samplePacket : pcap_pkthdr := { tv_sec := 100, tv_usec := 5, caplen := 2, len := 2 }

/-- The shard files of a session with two writers in which one packet is
ingested and the first writer takes it: the second file holds the magic
only. -/
def sampleSession : List (List Nat) :=
  (runSteps (WriterSet.new sampleConfig 1 sampleDevice (fun _ => 0))
    [Step.packet samplePacket [170, 187], Step.work 0]).files_

/-- Two shard files written by hand: the first holds the magic, the lead
record and the packet entries 1 and 2, the second the magic only. -/
def sampleShards : List (List Nat) :=
  [toLE 4 MAGIC ++ leadBytes sampleConfig 1 sampleDevice ++
     ((PktHdr.mk 1 100 5 2 2).bytes ++ [170, 187]) ++ ((PktHdr.mk 2 100 6 1 1).bytes ++ [204]),
   toLE 4 MAGIC]

/-- Two shard files written by hand, without lead record: the first holds the
magic and the packet entry 1, the second the magic only. -/
def emptyShardSet : List (List Nat) :=
  [toLE 4 MAGIC ++ ((PktHdr.mk 1 100 5 2 2).bytes ++ [170, 187]), toLE 4 MAGIC]

/-- The check that the first call of `next` on the shard set returns the header
`e` in its first round and leaves, with the cursor at 2, a set in which every
reader is done or holds the entry ID 0 while not all are done. -/
def stuckAfterFirst (paths : List (List Nat)) (e : Hdr) : Bool :=
  match ReaderSet.new 0 paths with
  | Except.error _ => false
  | Except.ok rs =>
    match ReaderSet.scan rs.next_ [] rs.readers_ 0 with
    | Sum.inr _ => false
    | Sum.inl (hdr, readers, _) =>
      decide (hdr = e) && decide (rs.next_ = 1) &&
        readers.all (fun r => r.done_ || decide (r.hdr_.visit.1 = 0)) &&
        decide ((readers.filter (fun r => r.done_)).length ≠ readers.length)

/-- The header as stored in a shard in native byte order: bit 63 of the entry
ID marks a statistics entry. -/
def Hdr.diskBytes : Hdr → List Nat
  | Hdr.pkt h => h.bytes
  | Hdr.stat h => ({ h with id := h.id ||| 2 ^ 63 }).bytes

/-- The entry ID of an entry. -/
def Entry.id (e : Entry) : Nat := e.hdr.visit.1

/-- The record of an entry in a shard: header, then the payload of a packet. -/
def Entry.bytes (e : Entry) : List Nat := e.hdr.diskBytes ++ e.payload.getD []

/-- Whether the entry is one that a shard can hold: the entry ID fits in 63
bits, every field fits its width, a packet carries `caplen` payload bytes and a
statistics entry none. -/
def Entry.wf (e : Entry) : Bool :=
  match e.hdr with
  | Hdr.pkt h =>
    decide (h.id < 2 ^ 63) && decide (h.secs < W64) && decide (h.frac < W64) &&
      decide (h.len < 2 ^ 32) && decide (h.caplen < 2 ^ 32) &&
      decide (e.payload.map List.length = some h.caplen)
  | Hdr.stat h =>
    decide (h.id < 2 ^ 63) && decide (h.secs < W64) && decide (h.frac < W64) &&
      decide (h.recv < W64) && decide (h.iface_drops < W64) && decide (h.os_drops < W64) &&
      decide (e.payload = none)

/-- The content of a shard file: the magic, the lead record if any (`lead` is
empty otherwise), then the records of the entries. -/
def shardFile (lead : List Nat) (es : List Entry) : List Nat :=
  toLE 4 MAGIC ++ lead ++ (es.map Entry.bytes).flatten

/-- Reference merge, following the specification: the union of the entries of
all shards sorted by entry ID. -/
def sortedUnion (shards : List (List Entry)) : List Entry :=
  List.insertionSort (fun a b => a.id ≤ b.id) shards.flatten

/-- A good stream positioned after `pre`, with `rest` still to read. -/
def IFStream.positioned (pre rest : List Nat) : IFStream :=
  { content := pre ++ rest, pos := pre.length, eofbit := false, failbit := false }

/-- What the state of a reader is when the entries `es` of its shard are still
to be returned, the first of them being the current one: the reader is not
done, holds the header and payload of the first entry and its stream stands
before the records of the others. With nothing left the reader is done, or
holds the entry ID 0. -/
def Reader.Holds (r : Reader) : List Entry → Prop
  | [] => r.done_ = true ∨ r.hdr_.visit.1 = 0
  | e :: rest =>
    r.done_ = false ∧ r.hdr_ = e.hdr ∧ (e.hdr.visit.2 = true → e.payload = some r.data_) ∧
      r.native_ = 1 ∧ ∃ pre, r.file_ = IFStream.positioned pre (rest.map Entry.bytes).flatten

/-- Every reader is done or holds a nonzero entry ID. -/
def NoStuck (readers : List Reader) : Prop :=
  ∀ r ∈ readers, r.done_ = true ∨ r.hdr_.visit.1 ≠ 0

/-- Remove from the first shard whose first entry has ID `k` that entry. -/
def popId (k : Nat) : List (List Entry) → Option (Entry × List (List Entry))
  | [] => none
  | [] :: ss => (popId k ss).map (fun p => (p.1, [] :: p.2))
  | (e :: es) :: ss =>
    if e.id = k then some (e, es :: ss)
    else (popId k ss).map (fun p => (p.1, (e :: es) :: p.2))

/-- The shards as the merge requires them: well-formed entries, IDs strictly
increasing inside each shard, no ID twice, every ID at least `k`. -/
structure ShardsOk (k : Nat) (shards : List (List Entry)) : Prop where
  wf : ∀ s ∈ shards, ∀ e ∈ s, e.wf = true
  sorted : ∀ s ∈ shards, s.Pairwise (fun a b => a.id < b.id)
  nodup : (shards.flatten.map Entry.id).Nodup
  lower : ∀ e ∈ shards.flatten, k ≤ e.id

/-- The metadata of a session as the host can supply it: the strings hold no
NUL byte (they come from C strings), the address arrays have their fixed sizes
and the subnet counts fit in 32 bits. -/
def LeadOk (config : Config) (dev : DeviceInfo) : Prop :=
  0 ∉ dev.cpu_model ∧ 0 ∉ dev.os_version ∧ 0 ∉ dev.name ∧ 0 ∉ config.filter ∧
  0 ∉ dev.hardware ∧ dev.ipv4_addrs.length < 2 ^ 32 ∧ dev.ipv6_addrs.length < 2 ^ 32 ∧
  (∀ a ∈ dev.ipv4_addrs, a.addr.length = 4 ∧ a.mask.length = 4) ∧
  (∀ a ∈ dev.ipv6_addrs, a.addr.length = 16) ∧ dev.mac_storage.length = 6

/-- The constructor of `ReaderSet` accepts the shard file and leaves its
reader, once advanced to the first record, holding the entries `es`. -/
def OpensTo (file : List Nat) (es : List Entry) : Prop :=
  ¬ (Reader.new file).native_ < 0 ∧
  ∀ rs : ReaderSet,
    (if (Reader.new file).has_lead_ then (rs.read_lead (Reader.new file)).2
     else Reader.new file).read_next.Holds es

/-- The shard files of a shard set: `leads` gives for each shard its lead
record, empty for a shard without one. -/
def shardFiles (leads : List (List Nat)) (shards : List (List Entry)) : List (List Nat) :=
  List.zipWith shardFile leads shards

/-- What a lead record of a shard file may be: none, or the lead record that a
`WriterSet` writes for metadata satisfying `LeadOk`. -/
def ValidLead (lead : List Nat) : Prop :=
  lead = [] ∨ ∃ config datalink dev, LeadOk config dev ∧ lead = leadBytes config datalink dev

/-- The entries that successive admitted calls of `write_packet` enqueue,
starting in state `ws`: the header is the one `write_packet` builds, the
payload the `caplen` bytes it copies, and the entry counter advances as in
`write_packet`. -/
def ingestEntries (ws : WriterSet) : List (pcap_pkthdr × List Nat) → List Entry
  | [] => []
  | p :: rest =>
    { hdr := Hdr.pkt (ws.pktHdrOf p.1), payload := some (p.2.take p.1.caplen) } ::
      ingestEntries { ws with entry_count_ := (ws.entry_count_ + 1) % W64 } rest

/-- The shard files of a session: what the constructor of `WriterSet` wrote to
each file, followed by the records of the entries that the writer of that file
took from the ring buffer. -/
def sessionFiles (config : Config) (datalink : Int) (dev : DeviceInfo) (mem0 : Nat → Nat)
    (shards : List (List Entry)) : List (List Nat) :=
  List.zipWith (fun f es => f ++ (es.map Entry.bytes).flatten)
    (WriterSet.new config datalink dev mem0).files_ shards

/-- Three shards with the lead record in the first: packet and statistics
entries with IDs that leave gaps. -/
def gapShards : List (List Entry) :=
  [[⟨Hdr.pkt ⟨1, 100, 5, 2, 2⟩, some [170, 187]⟩, ⟨Hdr.pkt ⟨4, 101, 0, 1, 1⟩, some [9]⟩],
   [⟨Hdr.pkt ⟨2, 100, 6, 1, 1⟩, some [204]⟩, ⟨Hdr.stat ⟨7, 102, 0, 3, 0, 0⟩, none⟩],
   [⟨Hdr.pkt ⟨5, 101, 1, 0, 0⟩, some []⟩]]

/-- Three packets as libpcap delivers them. -/
def samplePackets : List (pcap_pkthdr × List Nat) :=
  [(⟨100, 5, 2, 2⟩, [170, 187]), (⟨100, 6, 1, 4⟩, [204, 1, 2, 3]), (⟨101, 0, 0, 0⟩, [])]

/-! ## Records appended to the shards -/

/-- The entry ID that a record carries in its first eight bytes, bit 63 (the
mark of a statistics record) left out. -/
def recordId (rec : List Nat) : Nat := fromLE (rec.take 8) % 2 ^ 63

/-- The records that writer `i` appends to its file during the steps of a
session, in the order of appending: one for each round of `Writer::work` of
that writer whose `try_read` succeeds. -/
def appendedBy (i : Nat) (ws : WriterSet) : List Step → List (List Nat)
  | [] => []
  | Step.work j :: rest =>
    (if j = i ∧ ws.stop_ = false then
      match ws.buf_.try_read [] with
      | Except.ok (true, _, buf) => [buf]
      | _ => []
     else []) ++ appendedBy i (ws.work j) rest
  | st :: rest => appendedBy i (st.apply ws) rest

/-- A capture configuration with one output file and a buffer of 128 bytes. -/
def tinyConfig : Config := { sampleConfig with bufsz := 128, num_files := 1 }

/-- Packet bytes as the network can deliver them: 48 zero bytes, then the
eight bytes of the number 32 and the eight bytes of the number 1. -/
def craftedPayload : List Nat := List.replicate 48 0 ++ toLE 8 32 ++ toLE 8 1

/-- Steps of a session with one writer: a packet is ingested and written out,
then two more packets are ingested before the writer runs again. -/
def overrunSteps : List Step :=
  [Step.packet ⟨100, 1, 0, 0⟩ [], Step.work 0, Step.packet ⟨100, 2, 0, 0⟩ [],
   Step.packet ⟨100, 3, 64, 64⟩ craftedPayload, Step.work 0]

/-! ## Sample shard files -/

/-- A shard whose second and final record is cut short: the magic, the complete
packet record 1, then the first `keep` bytes of the packet record 2 (32 header
bytes and 4 payload bytes). -/
def truncatedShard (keep : Nat) : List Nat :=
  toLE 4 MAGIC ++ ((PktHdr.mk 1 100 5 2 2).bytes ++ [170, 187]) ++
    ((PktHdr.mk 2 100 6 4 4).bytes ++ [1, 2, 3, 4]).take keep

/-- Two shard files: the first holds the packet entries 1 and 3, the second
the magic only. -/
def gapAndEmptyShard : List (List Nat) :=
  [toLE 4 MAGIC ++ ((PktHdr.mk 1 100 5 2 2).bytes ++ [170, 187]) ++
     ((PktHdr.mk 3 100 6 1 1).bytes ++ [204]), toLE 4 MAGIC]

/-- A capture configuration with nanosecond timestamps and two output files. -/
def nanoConfig : Config := { sampleConfig with nano := true }

/-- The shard files of a session with nanosecond timestamps and two writers in
which one packet is ingested and the first writer takes it. -/
def nanoSession : List (List Nat) :=
  (runSteps (WriterSet.new nanoConfig 1 sampleDevice (fun _ => 0))
    [Step.packet samplePacket [170, 187], Step.work 0]).files_

/-- Metadata of a device without MAC address; `mac_storage` is what the six
bytes of storage of the empty optional happen to hold. -/
def noMacDevice : DeviceInfo :=
  { sampleDevice with mac_addr := none, mac_storage := [9, 9, 9, 9, 9, 9] }

/-! ## Observing the merge -/

/-- The loop of `ReaderSet::next` observed for at most `fuel` rounds: whether
the call has returned, and the state of the set at that point. -/
def ReaderSet.nextRounds : Nat → ReaderSet → List Nat → Bool × ReaderSet
  | 0, rs, _ => (false, rs)
  | fuel + 1, rs, data =>
    match ReaderSet.scan rs.next_ data rs.readers_ 0 with
    | Sum.inl (_, readers, _) =>
      (true, { rs with readers_ := readers, next_ := (rs.next_ + 1) % W64 })
    | Sum.inr done_count =>
      if done_count = rs.readers_.length then (true, rs)
      else
        ReaderSet.nextRounds fuel
          { rs with warnings_ := rs.warnings_ ++ [rs.next_], next_ := (rs.next_ + 1) % W64 } data

/-- The state of the set and the content of `data` after `n` calls of
`ReaderSet::next`, each bounded by `fuel` rounds; `none` when a call has not
returned. -/
def callNext (fuel : Nat) : Nat → ReaderSet → List Nat → Option (ReaderSet × List Nat)
  | 0, rs, data => some (rs, data)
  | n + 1, rs, data =>
    match rs.next fuel data with
    | none => none
    | some (_, rs1, data1) => callNext fuel n rs1 data1

/-- Open the shard files, call `next` `n` times and observe the following call
for `rounds` rounds: the warnings logged before that call, whether that call
has returned, and the warnings logged by then. -/
def warningsOfMerge (fuel n rounds : Nat) (paths : List (List Nat)) :
    Option (List Nat × Bool × List Nat) :=
  match ReaderSet.new 0 paths with
  | Except.error _ => none
  | Except.ok rs =>
    (callNext fuel n rs []).map (fun p =>
      (p.1.warnings_, (p.1.nextRounds rounds p.2).1, (p.1.nextRounds rounds p.2).2.warnings_))

/-- The entry IDs from 1 to the largest ID present that occur in no shard, in
increasing order: the IDs for which a full merge is to warn. -/
def missingIds (shards : List (List Entry)) : List Nat :=
  (List.range' 1 ((shards.flatten.map Entry.id).foldl max 0)).filter
    (fun k => decide (k ∉ shards.flatten.map Entry.id))

/-! ## Names of the shard files (`writer.cpp`, lines 15 to 24) -/

/-- The character `.`. -/
def DOT : Nat := 46

/-- The character `/`, the directory separator of the host. -/
def SLASH : Nat := 47

/-- The member `std::filesystem::path::filename()` on a pathname of the host:
the part after the last directory separator. -/
def filename (p : List Nat) : List Nat :=
  (p.reverse.takeWhile (fun c => c != SLASH)).reverse

/-- The member `std::filesystem::path::extension()` as the C++ standard defines
it: with `f` the filename, empty when `f` contains no period other than a
leading one or consists solely of one or two periods, otherwise the part of `f`
that begins at its last period. -/
def extension (p : List Nat) : List Nat :=
  let f := filename p
  if f = [DOT, DOT] ∨ DOT ∉ f.tail then []
  else DOT :: (f.reverse.takeWhile (fun c => c != DOT)).reverse

/-- The decimal digits of `n`, most significant first, in at most `fuel`
digits. -/
def decimalDigits : Nat → Nat → List Nat
  | 0, _ => []
  | fuel + 1, n => if n < 10 then [48 + n] else decimalDigits fuel (n / 10) ++ [48 + n % 10]

/-- The text that `fmt::format("{}", i)` produces for a non-negative `int`. -/
def decimal (n : Nat) : List Nat := decimalDigits (n + 1) n

/-- The names of the files that the constructor of `WriterSet` opens, in the
order of the writers. The subtraction of the sizes does not wrap: the extension
is part of the name. -/
def WriterSet.fileNames (config : Config) : List (List Nat) :=
  if config.num_files = 1 then [config.fname]
  else
    let ext := extension config.fname
    let fname := config.fname.take (config.fname.length - ext.length)
    (List.range config.num_files.toNat).map (fun i => fname ++ [DOT] ++ decimal i ++ ext)

/-- The extension in the words of the specification: the longest trailing
segment of the name that begins with a period, empty if the name has none. -/
def specExt (name : List Nat) : List Nat := name.dropWhile (fun c => c != DOT)

/-- The shard names in the words of the specification: `base.i.ext` for `n > 1`
shards, the name itself for one. -/
def specFileNames (name : List Nat) (n : Nat) : List (List Nat) :=
  if n = 1 then [name]
  else (List.range n).map (fun i =>
    name.take (name.length - (specExt name).length) ++ [DOT] ++ decimal i ++ specExt name)

/-! ## Output file streams

The part of `std::ofstream` that `pcapng.cpp` uses, for a stream that was
opened on a fresh file and whose writes succeed: `write` stores bytes at the
put position, over what is there and beyond the end, `tellp` reports the
position and `seekp` sets it. -/

/-- State of a `std::ofstream`: the bytes of the file and the put position. -/
structure OFStream where
  content : List Nat
  pos : Nat
deriving DecidableEq, Repr

namespace OFStream

/-- The member `write(buf, len)`. -/
def write (f : OFStream) (buf : List Nat) (len : Nat) : OFStream :=
  let bytes := buf.take len
  { content := f.content.take f.pos ++ List.replicate (f.pos - f.content.length) 0 ++ bytes ++
      f.content.drop (f.pos + bytes.length)
    pos := f.pos + bytes.length }

/-- The member `tellp()`. -/
def tellp (f : OFStream) : Int := (f.pos : Int)

/-- The member `seekp(pos)`. -/
def seekp (f : OFStream) (p : Int) : OFStream := { f with pos := p.toNat }

end OFStream

/-! ## PCAPNG emitter (`pcapng.cpp`) -/

/-- The array `PADDING`. -/
def PADDING : List Nat := [0, 0, 0, 0]

/-- Translation of the function template `padding` (for `uint16_t` the
arithmetic is done in `int`, for `size_t` in `size_t`; the result is the same
number below 4). -/
def padding (len : Nat) : Nat := (4 - len % 4) % 4

/-- State of a `PcapNGWriter`; `readers_` holds the state of the `ReaderSet`
that the member of this name points to. -/
structure PcapNGWriter where
  file_ : OFStream
  readers_ : ReaderSet
  start_time_ : Nat
  pkt_count_ : Nat
deriving DecidableEq, Repr

namespace PcapNGWriter

/-- Translation of the constructor: a fresh output file and the reader set. -/
def new (readers : ReaderSet) : PcapNGWriter :=
  { file_ := { content := [], pos := 0 }, readers_ := readers, start_time_ := 0,
    pkt_count_ := 0 }

/-- Translation of `PcapNGWriter::write(buf, len)`. -/
def write (w : PcapNGWriter) (buf : List Nat) (len : Nat) : PcapNGWriter :=
  { w with file_ := w.file_.write buf len }

/-- Translation of the template `PcapNGWriter::write(const T* buf)` for an
unsigned integer `x` of `k` bytes. -/
def writeT (w : PcapNGWriter) (k x : Nat) : PcapNGWriter := w.write (toLE k x) k

/-- Translation of `PcapNGWriter::position`. -/
def position (w : PcapNGWriter) : Int := w.file_.tellp

/-- Translation of `PcapNGWriter::seek`. -/
def seek (w : PcapNGWriter) (pos : Int) : PcapNGWriter :=
  { w with file_ := w.file_.seekp pos }

/-- Translation of `PcapNGWriter::write_shb`. -/
def write_shb (w : PcapNGWriter) : PcapNGWriter :=
  let shb_id : Nat := 0x0A0D0D0A
  let magic : Nat := 0x1A2B3C4D
  let major : Nat := 1
  let minor : Nat := 0
  let section_len : Nat := 0xFFFFFFFFFFFFFFFF
  let block_len : Nat := 0
  let w : PcapNGWriter := w.writeT 4 shb_id
  let block_len_pos : Int := w.position
  let w : PcapNGWriter := w.writeT 4 block_len
  let w : PcapNGWriter := w.writeT 4 magic
  let w : PcapNGWriter := w.writeT 2 major
  let w : PcapNGWriter := w.writeT 2 minor
  let w : PcapNGWriter := w.writeT 8 section_len
  let opt_id : Nat := 2
  let opt_len : Nat := w.readers_.cpu_model_.length % 2 ^ 16
  let padding_len : Nat := padding opt_len
  let w : PcapNGWriter := w.writeT 2 opt_id
  let w : PcapNGWriter := w.writeT 2 opt_len
  let w : PcapNGWriter := w.write w.readers_.cpu_model_ w.readers_.cpu_model_.length
  let w : PcapNGWriter := if padding_len ≠ 0 then w.write PADDING padding_len else w
  let opt_id : Nat := 3
  let opt_len : Nat := w.readers_.os_version_.length % 2 ^ 16
  let padding_len : Nat := padding opt_len
  let w : PcapNGWriter := w.writeT 2 opt_id
  let w : PcapNGWriter := w.writeT 2 opt_len
  let w : PcapNGWriter := w.write w.readers_.os_version_ w.readers_.os_version_.length
  let w : PcapNGWriter := if padding_len ≠ 0 then w.write PADDING padding_len else w
  let app_name : List Nat := [70, 97, 115, 116, 99, 97, 112]
  let opt_id : Nat := 4
  let opt_len : Nat := app_name.length % 2 ^ 16
  let padding_len : Nat := padding opt_len
  let w : PcapNGWriter := w.writeT 2 opt_id
  let w : PcapNGWriter := w.writeT 2 opt_len
  let w : PcapNGWriter := w.write app_name app_name.length
  let w : PcapNGWriter := if padding_len ≠ 0 then w.write PADDING padding_len else w
  let opt_id : Nat := 0
  let opt_len : Nat := 0
  let w : PcapNGWriter := w.writeT 2 opt_id
  let w : PcapNGWriter := w.writeT 2 opt_len
  let tmp : Int := w.position
  let block_len : Nat := (((tmp - block_len_pos) + 8) % (2 ^ 32 : Int)).toNat
  let w : PcapNGWriter := w.seek block_len_pos
  let w : PcapNGWriter := w.writeT 4 block_len
  let w : PcapNGWriter := w.seek tmp
  let w : PcapNGWriter := w.writeT 4 block_len
  w

/-- Translation of `PcapNGWriter::write_idb`. -/
def write_idb (w : PcapNGWriter) : PcapNGWriter :=
  let idb_id : Nat := 1
  let block_len : Nat := 0
  let link : Nat := w.readers_.link_
  let reserved : Nat := 0
  let snaplen : Nat := ofInt32 w.readers_.snaplen_
  let w : PcapNGWriter := w.writeT 4 idb_id
  let block_len_pos : Int := w.position
  let w : PcapNGWriter := w.writeT 4 block_len
  let w : PcapNGWriter := w.writeT 2 link
  let w : PcapNGWriter := w.writeT 2 reserved
  let w : PcapNGWriter := w.writeT 4 snaplen
  let opt_id : Nat := 2
  let opt_len : Nat := w.readers_.dev_name_.length % 2 ^ 16
  let padding_len : Nat := padding opt_len
  let w : PcapNGWriter := w.writeT 2 opt_id
  let w : PcapNGWriter := w.writeT 2 opt_len
  let w : PcapNGWriter := w.write w.readers_.dev_name_ w.readers_.dev_name_.length
  let w : PcapNGWriter := if padding_len ≠ 0 then w.write PADDING padding_len else w
  let opt_id : Nat := 4
  let opt_len : Nat := 8
  let w : PcapNGWriter := w.readers_.ipv4s_.foldl (fun (w : PcapNGWriter) (ipv4 : IPv4Subnet) =>
    let w : PcapNGWriter := w.writeT 2 opt_id
    let w : PcapNGWriter := w.writeT 2 opt_len
    let w : PcapNGWriter := w.write ipv4.addr 4
    w.write ipv4.mask 4) w
  let opt_id : Nat := 5
  let opt_len : Nat := 17
  let w : PcapNGWriter := w.readers_.ipv6s_.foldl (fun (w : PcapNGWriter) (ipv6 : IPv6Subnet) =>
    let w : PcapNGWriter := w.writeT 2 opt_id
    let w : PcapNGWriter := w.writeT 2 opt_len
    let w : PcapNGWriter := w.write ipv6.addr 16
    let w : PcapNGWriter := w.writeT 1 ipv6.prefix_len
    w.write PADDING 3) w
  let w : PcapNGWriter :=
    match w.readers_.mac_ with
    | some mac =>
      let opt_id : Nat := 6
      let opt_len : Nat := 6
      let w : PcapNGWriter := w.writeT 2 opt_id
      let w : PcapNGWriter := w.writeT 2 opt_len
      let w : PcapNGWriter := w.write mac 6
      w.write PADDING 2
    | none => w
  let opt_id : Nat := 8
  let opt_len : Nat := 8
  let speed : Nat := w.readers_.speed_
  let w : PcapNGWriter := w.writeT 2 opt_id
  let w : PcapNGWriter := w.writeT 2 opt_len
  let w : PcapNGWriter := w.writeT 8 speed
  let opt_id : Nat := 9
  let opt_len : Nat := 1
  let tsresol : Nat := if w.readers_.nano_ then 9 else 6
  let w : PcapNGWriter := w.writeT 2 opt_id
  let w : PcapNGWriter := w.writeT 2 opt_len
  let w : PcapNGWriter := w.writeT 1 tsresol
  let w : PcapNGWriter := w.write PADDING 3
  let w : PcapNGWriter :=
    if ¬ w.readers_.filter_.isEmpty then
      let opt_id : Nat := 11
      let opt_len : Nat := (w.readers_.filter_.length + 1) % 2 ^ 16
      let padding_len : Nat := padding opt_len
      let w : PcapNGWriter := w.writeT 2 opt_id
      let w : PcapNGWriter := w.writeT 2 opt_len
      let w : PcapNGWriter := w.writeT 1 0
      let w : PcapNGWriter := w.write w.readers_.filter_ w.readers_.filter_.length
      if padding_len ≠ 0 then w.write PADDING padding_len else w
    else w
  let opt_id : Nat := 12
  let opt_len : Nat := w.readers_.os_version_.length % 2 ^ 16
  let padding_len : Nat := padding opt_len
  let w : PcapNGWriter := w.writeT 2 opt_id
  let w : PcapNGWriter := w.writeT 2 opt_len
  let w : PcapNGWriter := w.write w.readers_.os_version_ w.readers_.os_version_.length
  let w : PcapNGWriter := if padding_len ≠ 0 then w.write PADDING padding_len else w
  let opt_id : Nat := 14
  let opt_len : Nat := 8
  let tsoffset : Nat := w.readers_.start_sec_
  let w : PcapNGWriter := w.writeT 2 opt_id
  let w : PcapNGWriter := w.writeT 2 opt_len
  let w : PcapNGWriter := w.writeT 8 tsoffset
  let opt_id : Nat := 15
  let opt_len : Nat := w.readers_.hardware_.length % 2 ^ 16
  let padding_len : Nat := padding opt_len
  let w : PcapNGWriter := w.writeT 2 opt_id
  let w : PcapNGWriter := w.writeT 2 opt_len
  let w : PcapNGWriter := w.write w.readers_.hardware_ w.readers_.hardware_.length
  let w : PcapNGWriter := if padding_len ≠ 0 then w.write PADDING padding_len else w
  let opt_id : Nat := 0
  let opt_len : Nat := 0
  let w : PcapNGWriter := w.writeT 2 opt_id
  let w : PcapNGWriter := w.writeT 2 opt_len
  let tmp : Int := w.position
  let block_len : Nat := ((((tmp - block_len_pos) % (2 ^ 32 : Int)).toNat) + 8) % 2 ^ 32
  let w : PcapNGWriter := w.seek block_len_pos
  let w : PcapNGWriter := w.writeT 4 block_len
  let w : PcapNGWriter := w.seek tmp
  let w : PcapNGWriter := w.writeT 4 block_len
  w

/-- Translation of `PcapNGWriter::timestamp`: the pair `(hi, lo)`. -/
def timestamp (w : PcapNGWriter) (sec frac : Nat) : Nat × Nat :=
  let sec : Nat := (sec + W64 - w.readers_.start_sec_) % W64
  let sec : Nat := if w.readers_.nano_ then (sec * 1000000000) % W64 else (sec * 1000000) % W64
  let sec : Nat := (sec + frac) % W64
  let hi : Nat := (sec >>> 32) % 2 ^ 32
  let lo : Nat := (sec &&& 0xFFFFFFFF) % 2 ^ 32
  (hi, lo)

/-- Translation of `PcapNGWriter::write_epb`. -/
def write_epb (w : PcapNGWriter) (hdr : PktHdr) (data : List Nat) : PcapNGWriter :=
  let epb_id : Nat := 6
  let iface_id : Nat := 0
  let ts : Nat × Nat := w.timestamp hdr.secs hdr.frac
  let caplen : Nat := hdr.caplen
  let origlen : Nat := hdr.len
  let padding_len : Nat := padding data.length
  let block_len : Nat := (32 + data.length + padding_len) % 2 ^ 32
  let w : PcapNGWriter := w.writeT 4 epb_id
  let w : PcapNGWriter := w.writeT 4 block_len
  let w : PcapNGWriter := w.writeT 4 iface_id
  let w : PcapNGWriter := w.writeT 4 ts.1
  let w : PcapNGWriter := w.writeT 4 ts.2
  let w : PcapNGWriter := w.writeT 4 caplen
  let w : PcapNGWriter := w.writeT 4 origlen
  let w : PcapNGWriter := w.write data data.length
  let w : PcapNGWriter := if padding_len ≠ 0 then w.write PADDING padding_len else w
  let w : PcapNGWriter := w.writeT 4 block_len
  { w with pkt_count_ := (w.pkt_count_ + 1) % W64 }

/-- Translation of `PcapNGWriter::write_isb`. -/
def write_isb (w : PcapNGWriter) (hdr : StatHdr) : PcapNGWriter :=
  let isb_id : Nat := 5
  let block_len : Nat := 64
  let iface_id : Nat := 0
  let ts : Nat × Nat := w.timestamp hdr.secs hdr.frac
  let w : PcapNGWriter := w.writeT 4 isb_id
  let w : PcapNGWriter := w.writeT 4 block_len
  let w : PcapNGWriter := w.writeT 4 iface_id
  let w : PcapNGWriter := w.writeT 4 ts.1
  let w : PcapNGWriter := w.writeT 4 ts.2
  let opt_id : Nat := 4
  let opt_len : Nat := 8
  let w : PcapNGWriter := w.writeT 2 opt_id
  let w : PcapNGWriter := w.writeT 2 opt_len
  let w : PcapNGWriter := w.writeT 8 hdr.recv
  let opt_id : Nat := 5
  let opt_len : Nat := 8
  let w : PcapNGWriter := w.writeT 2 opt_id
  let w : PcapNGWriter := w.writeT 2 opt_len
  let w : PcapNGWriter := w.writeT 8 hdr.iface_drops
  let opt_id : Nat := 7
  let opt_len : Nat := 8
  let w : PcapNGWriter := w.writeT 2 opt_id
  let w : PcapNGWriter := w.writeT 2 opt_len
  let w : PcapNGWriter := w.writeT 8 hdr.os_drops
  let opt_id : Nat := 0
  let opt_len : Nat := 0
  let w : PcapNGWriter := w.writeT 2 opt_id
  let w : PcapNGWriter := w.writeT 2 opt_len
  let w : PcapNGWriter := w.writeT 4 block_len
  w

/-- The loop of `PcapNGWriter::write_all`, bounded by `n` rounds, each call of
`ReaderSet::next` bounded by `fuel` rounds: `none` when the loop has not ended
within these bounds (the progress log lines change no state). -/
def write_entries (fuel : Nat) : Nat → PcapNGWriter → List Nat → Option PcapNGWriter
  | 0, _, _ => none
  | n + 1, w, data =>
    match w.readers_.next fuel data with
    | none => none
    | some (none, rs, _) => some { w with readers_ := rs }
    | some (some (Hdr.pkt hdr), rs, data1) =>
      write_entries fuel n (({ w with readers_ := rs } : PcapNGWriter).write_epb hdr data1) data1
    | some (some (Hdr.stat hdr), rs, data1) =>
      write_entries fuel n (({ w with readers_ := rs } : PcapNGWriter).write_isb hdr) data1

/-- Translation of `PcapNGWriter::write_all`. -/
def write_all (fuel n : Nat) (w : PcapNGWriter) : Option PcapNGWriter :=
  write_entries fuel n w.write_shb.write_idb []

end PcapNGWriter

/-- Translation of `write_pcapng(out_file, in_files)` on the contents of the
shard files (`snaplen0` is the indeterminate initial value of `snaplen_`): the
exit status of the process when the constructor of `ReaderSet` ends it,
otherwise the emitter after `write_all` (`none` when not finished within the
bounds). -/
def write_pcapng (snaplen0 : Int) (fuel n : Nat) (in_files : List (List Nat)) :
    Except Nat (Option PcapNGWriter) :=
  match ReaderSet.new snaplen0 in_files with
  | Except.error status => Except.error status
  | Except.ok readers => Except.ok ((PcapNGWriter.new readers).write_all fuel n)

/-! ## PCAPNG blocks as data -/

/-- The emitter after `bytes` were added at the end of its file. -/
def PcapNGWriter.append (w : PcapNGWriter) (bytes : List Nat) : PcapNGWriter :=
  { w with file_ := { content := w.file_.content ++ bytes,
                      pos := w.file_.content.length + bytes.length } }

/-- A PCAPNG option: code, declared length, value, zero bytes up to the next
4-byte boundary. -/
def optionBytes (code : Nat) (value : List Nat) : List Nat :=
  toLE 2 code ++ toLE 2 value.length ++ value ++ List.replicate (padding value.length) 0

/-- The option that ends a list of options: code 0, length 0. -/
def endOfOptions : List Nat := toLE 2 0 ++ toLE 2 0

/-- A PCAPNG block: block type, total length, body, total length again. -/
def blockBytes (blockType : Nat) (body : List Nat) : List Nat :=
  toLE 4 blockType ++ toLE 4 (body.length + 12) ++ body ++ toLE 4 (body.length + 12)

/-- The body of the Section Header Block for the metadata of a reader set:
byte-order magic, version 1.0, section length -1, the options `shb_hardware`
(CPU model), `shb_os` and `shb_userappl`. -/
def shbBody (rs : ReaderSet) : List Nat :=
  toLE 4 0x1A2B3C4D ++ toLE 2 1 ++ toLE 2 0 ++ toLE 8 0xFFFFFFFFFFFFFFFF ++
    optionBytes 2 rs.cpu_model_ ++ optionBytes 3 rs.os_version_ ++
    optionBytes 4 [70, 97, 115, 116, 99, 97, 112] ++ endOfOptions

/-- The body of the Interface Description Block for the metadata of a reader
set: link type, reserved, snaplen and the options in the order of the
specification. -/
def idbBody (rs : ReaderSet) : List Nat :=
  toLE 2 rs.link_ ++ toLE 2 0 ++ toLE 4 (ofInt32 rs.snaplen_) ++
    optionBytes 2 rs.dev_name_ ++
    (rs.ipv4s_.map (fun ipv4 => optionBytes 4 (ipv4.addr ++ ipv4.mask))).flatten ++
    (rs.ipv6s_.map (fun ipv6 => optionBytes 5 (ipv6.addr ++ toLE 1 ipv6.prefix_len))).flatten ++
    (match rs.mac_ with
     | some mac => optionBytes 6 mac
     | none => []) ++
    optionBytes 8 (toLE 8 rs.speed_) ++
    optionBytes 9 (toLE 1 (if rs.nano_ then 9 else 6)) ++
    (if rs.filter_ = [] then [] else optionBytes 11 (0 :: rs.filter_)) ++
    optionBytes 12 rs.os_version_ ++
    optionBytes 14 (toLE 8 rs.start_sec_) ++
    optionBytes 15 rs.hardware_ ++ endOfOptions

/-- The body of the Enhanced Packet Block of a packet entry: interface 0, the
two halves of the timestamp, captured length, original length, the payload and
zero bytes up to the next 4-byte boundary; no options. -/
def epbBody (ts : Nat × Nat) (hdr : PktHdr) (data : List Nat) : List Nat :=
  toLE 4 0 ++ toLE 4 ts.1 ++ toLE 4 ts.2 ++ toLE 4 hdr.caplen ++ toLE 4 hdr.len ++ data ++
    List.replicate (padding data.length) 0

/-- The body of the Interface Statistics Block of a statistics entry:
interface 0, the two halves of the timestamp, the options `isb_ifrecv`,
`isb_ifdrop` and `isb_osdrop`. -/
def isbBody (ts : Nat × Nat) (hdr : StatHdr) : List Nat :=
  toLE 4 0 ++ toLE 4 ts.1 ++ toLE 4 ts.2 ++ optionBytes 4 (toLE 8 hdr.recv) ++
    optionBytes 5 (toLE 8 hdr.iface_drops) ++ optionBytes 7 (toLE 8 hdr.os_drops) ++
    endOfOptions

/-- The arrays of the metadata have the sizes of their types: 4 bytes for an
IPv4 address and mask, 16 for an IPv6 address, 6 for a MAC address. -/
def ArraysOk (rs : ReaderSet) : Prop :=
  (∀ a ∈ rs.ipv4s_, a.addr.length = 4 ∧ a.mask.length = 4) ∧
  (∀ a ∈ rs.ipv6s_, a.addr.length = 16) ∧ (∀ m, rs.mac_ = some m → m.length = 6)


/-- The options of the Interface Description Block for the metadata of a reader
set, as pairs of option code and value, in the order of the specification:
`if_name`, one `if_IPv4addr` per IPv4 subnet (address and mask), one
`if_IPv6addr` per IPv6 subnet (address and prefix length), `if_MACaddr` if a MAC
address is present, `if_speed`, `if_tsresol`, `if_filter` (one prefix byte and
the filter text) if the filter text is not empty, `if_os`, `if_tsoffset`,
`if_hardware`. -/
def idbOptions (rs : ReaderSet) : List (Nat × List Nat) :=
  [(2, rs.dev_name_)] ++ rs.ipv4s_.map (fun ipv4 => (4, ipv4.addr ++ ipv4.mask)) ++
    rs.ipv6s_.map (fun ipv6 => (5, ipv6.addr ++ [ipv6.prefix_len % 256])) ++
    (match rs.mac_ with
     | some mac => [(6, mac)]
     | none => []) ++
    [(8, toLE 8 rs.speed_), (9, [if rs.nano_ then 9 else 6])] ++
    (if rs.filter_ = [] then [] else [(11, 0 :: rs.filter_)]) ++
    [(12, rs.os_version_), (14, toLE 8 rs.start_sec_), (15, rs.hardware_)]

/-- The declared length of an option: the 16-bit field at offset 2 of its
bytes. -/
def declaredLength (option : List Nat) : Nat := fromLE ((option.drop 2).take 2)

/-- The block that `write_all` emits for an entry of the merged stream: an
Enhanced Packet Block for a packet entry, an Interface Statistics Block for a
statistics entry, with the timestamp relative to the session start of `rs`. -/
def entryBlock (rs : ReaderSet) (e : Entry) : List Nat :=
  match e.hdr with
  | Hdr.pkt h =>
    blockBytes 6 (epbBody ((PcapNGWriter.new rs).timestamp h.secs h.frac) h (e.payload.getD []))
  | Hdr.stat h => blockBytes 5 (isbBody ((PcapNGWriter.new rs).timestamp h.secs h.frac) h)

/-- The bytes added to a file with content `old` form one framed block: `new`
continues `old`, and the 32-bit fields at offset 4 and in the last four of the
added bytes both hold the number of bytes added, which is a multiple of 4. -/
def Framed (old new : List Nat) : Prop :=
  new.take old.length = old ∧
  fromLE (((new.drop old.length).drop 4).take 4) = (new.drop old.length).length ∧
  fromLE ((new.drop old.length).drop ((new.drop old.length).length - 4)) =
    (new.drop old.length).length ∧
  (new.drop old.length).length % 4 = 0

/-- Three shard files with the lead record in the first and no shard without
records. -/
def pcapngShards : List (List Nat) :=
  shardFiles [leadBytes sampleConfig 1 sampleDevice, [], []] gapShards

/-- The reader set that the constructor of `ReaderSet` builds on
`pcapngShards`. -/
def sampleReaders : ReaderSet :=
  match ReaderSet.new 0 pcapngShards with
  | Except.ok rs => rs
  | Except.error _ => ReaderSet.init 0

/-- The metadata of `sampleReaders` with a filter text of 65535 bytes. -/
def longFilterReaders : ReaderSet :=
  { sampleReaders with filter_ := List.replicate 65535 97 }

/-- The metadata of `sampleReaders` with one IPv4 subnet, one IPv6 subnet, a MAC
address and the filter text `tcp`. -/
def richReaders : ReaderSet :=
  { sampleReaders with
    ipv4s_ := [⟨[10, 0, 0, 1], [255, 255, 255, 0]⟩]
    ipv6s_ := [⟨[254, 128, 0, 0, 0, 0, 0, 0, 0, 0, 0, 0, 0, 0, 0, 1], 64⟩]
    mac_ := some [2, 0, 0, 0, 0, 1]
    filter_ := [116, 99, 112] }

/-! ## Command line (`fastcap.cpp`) -/

/-- The value of `std::numeric_limits<int>::max()`. -/
def INT_MAX : Int := 2147483647

/-- The operator `>>` on a non-negative `int`. -/
def shr (x : Int) (k : Nat) : Int := x / 2 ^ k

/-- The operator `<<` on an `int` (the result is the product reduced to the
range of `int`). -/
def shl (x : Int) (k : Nat) : Int := toInt32 (ofInt32 (x * 2 ^ k))

/-- The validator `CLI::Range(1, std::numeric_limits<int>::max() >> (20 - 1))`
of the option `-b,--bufsize`. -/
def bufsizeInRange (b : Int) : Bool := decide (1 ≤ b ∧ b ≤ shr INT_MAX (20 - 1))

/-- The part of `fastcap` that concerns `config.bufsz`: the option
`-b,--bufsize` (`none` when it is not given, so that the default stays), its
validator, and the statement `config.bufsz <<= (20 - 1)` after parsing. The
result is `none` when the command line is rejected. -/
def fastcap_bufsz (config : Config) (b : Option Int) : Option Config :=
  match b with
  | none => some { config with bufsz := shl config.bufsz (20 - 1) }
  | some v =>
    if bufsizeInRange v then some { config with bufsz := shl v (20 - 1) } else none

/-! ## Capture thread (`sniffer.cpp`) -/

/-- The constant `PCAP_ERROR` of libpcap. -/
def PCAP_ERROR : Int := -1

/-- The constant `PCAP_ERROR_NO_SUCH_DEVICE` of libpcap. -/
def PCAP_ERROR_NO_SUCH_DEVICE : Int := -5

/-- The constant `PCAP_ERROR_RFMON_NOTSUP` of libpcap. -/
def PCAP_ERROR_RFMON_NOTSUP : Int := -6

/-- The constant `PCAP_ERROR_PERM_DENIED` of libpcap. -/
def PCAP_ERROR_PERM_DENIED : Int := -8

/-- The constant `PCAP_ERROR_PROMISC_PERM_DENIED` of libpcap. -/
def PCAP_ERROR_PROMISC_PERM_DENIED : Int := -11

/-- The constant `PCAP_WARNING_PROMISC_NOTSUP` of libpcap. -/
def PCAP_WARNING_PROMISC_NOTSUP : Int := 2

/-- What the operating system and libpcap answer to the calls of the
constructor of `Sniffer`: the return values of `eventfd`, `pcap_can_set_rfmon`,
`pcap_set_tstamp_precision`, `pcap_activate`, `pcap_datalink`,
`pcap_setnonblock`, `pcap_compile` and `pcap_setfilter`, and whether
`pcap_create` returns a handle. -/
structure PcapEnv where
  eventfd : Int
  create : Bool
  can_set_rfmon : Int
  set_tstamp_precision : Int
  activate : Int
  datalink : Int
  setnonblock : Int
  compile : Int
  setfilter : Int
deriving DecidableEq, Repr

/-- The settings that the constructor of `Sniffer` makes on the libpcap
handle. -/
structure Pcap where
  snaplen : Int
  promisc : Bool
  rfmon : Bool
  immediate : Bool
  buffer_size : Int
  nano : Bool
deriving DecidableEq, Repr

/-- State of a `Sniffer`. -/
structure Sniffer where
  pcap_ : Option Pcap
  stop_event_ : Int
  stop_flag_ : Bool
  stats_interval_ : Int
  last_ts_ : timeval
  datalink_ : Int

/-- A call that `Sniffer::run` makes: `pcap_dispatch`, which hands a batch of
packets to `sniff_callback`, or `Sniffer::stats`. -/
inductive Call where
  | dispatch (packets : List (pcap_pkthdr × List Nat))
  | stats

/-- Whether a call is the one of `Sniffer::stats`. -/
def Call.isStats : Call → Bool
  | Call.dispatch _ => false
  | Call.stats => true

/-- What one round of the loop of `Sniffer::run` finds: the value of
`stop_flag_` loaded by the loop condition, the return value of `poll`, the
`revents` of the two descriptors, the packets that `pcap_dispatch` hands to the
callback and its return value, whether `end - start >= interval` holds, and the
counters of `pcap_stats` (`none` when it fails) for a call of `stats` in this
round. -/
structure Round where
  stop_flag : Bool
  poll : Int
  stop_revents : Int
  pcap_revents : Int
  packets : List (pcap_pkthdr × List Nat)
  dispatch : Int
  elapsed : Bool
  pcap_stats : Option (Nat × Nat × Nat)

namespace Sniffer

/-- The state of a `Sniffer` after its default member initialisers and the
member initialiser list of the constructor. -/
def init (config : Config) : Sniffer :=
  { pcap_ := none, stop_event_ := -1, stop_flag_ := false,
    stats_interval_ := config.stats_interval, last_ts_ := { tv_sec := 0, tv_usec := 0 },
    datalink_ := 0 }

/-- The `switch` on the result of `pcap_can_set_rfmon` (source lines 41 to
65): whether a case returns from the constructor. -/
def rfmonReturns (config : Config) (rc : Int) : Bool :=
  if rc = PCAP_ERROR_NO_SUCH_DEVICE then true
  else if rc = PCAP_ERROR_PERM_DENIED then config.rfmon
  else if rc = PCAP_ERROR then true
  else if rc = 1 then false
  else if rc = 0 then config.rfmon
  else false

/-- The `switch` on the result of `pcap_activate` (source lines 84 to 108):
whether a case returns from the constructor. -/
def activateReturns (rc : Int) : Bool :=
  if rc = PCAP_WARNING_PROMISC_NOTSUP then true
  else if rc = PCAP_ERROR_NO_SUCH_DEVICE then true
  else if rc = PCAP_ERROR_PERM_DENIED then true
  else if rc = PCAP_ERROR_PROMISC_PERM_DENIED then true
  else if rc = PCAP_ERROR_RFMON_NOTSUP then true
  else if rc = PCAP_ERROR then true
  else false

/-- The settings made on the libpcap handle (source lines 39 to 74);
`pcap_set_rfmon` is called in the case 1 of the first `switch` only. -/
def settings (config : Config) (env : PcapEnv) : Pcap :=
  { snaplen := config.snaplen, promisc := config.promisc,
    rfmon := decide (env.can_set_rfmon = 1) && config.rfmon, immediate := config.immediate,
    buffer_size := config.bufsz, nano := config.nano }

/-- Translation of the constructor `Sniffer::Sniffer`: every `return` before
the final `std::swap` leaves `pcap_` null. -/
def new (config : Config) (env : PcapEnv) : Sniffer :=
  let s := init config
  if env.eventfd < 0 then s
  else if !env.create then s
  else if rfmonReturns config env.can_set_rfmon then s
  else if env.set_tstamp_precision ≠ 0 then s
  else if activateReturns env.activate then s
  else
    let s : Sniffer := { s with datalink_ := env.datalink }
    if env.setnonblock ≠ 0 then s
    else if !config.filter.isEmpty && decide (env.compile ≠ 0) then s
    else if !config.filter.isEmpty && decide (env.setfilter ≠ 0) then s
    else { s with pcap_ := some (settings config env), stop_event_ := env.eventfd }

/-- Translation of `Sniffer::datalink`. -/
def datalink (s : Sniffer) : Int := s.datalink_

/-- Translation of `Sniffer::ok`. -/
def ok (s : Sniffer) : Bool := s.pcap_.isSome

/-- Translation of `Sniffer::stop`; `written` is the return value of `write` on
the stop event. -/
def stop (s : Sniffer) (written : Int) : Int × Sniffer :=
  (if written < 0 then 1 else 0, { s with stop_flag_ := true })

/-- Translation of `Sniffer::sniff_callback`. -/
def sniff_callback (s : Sniffer) (writers : WriterSet) (hdr : pcap_pkthdr) (bytes : List Nat) :
    Sniffer × WriterSet :=
  ({ s with last_ts_ := { tv_sec := hdr.tv_sec, tv_usec := hdr.tv_usec } },
    writers.write_packet hdr bytes)

/-- The calls of `sniff_callback` that one `pcap_dispatch` makes. -/
def dispatch (s : Sniffer) (writers : WriterSet) :
    List (pcap_pkthdr × List Nat) → Sniffer × WriterSet
  | [] => (s, writers)
  | p :: rest =>
    dispatch (s.sniff_callback writers p.1 p.2).1 (s.sniff_callback writers p.1 p.2).2 rest

/-- Translation of `Sniffer::stats`; `counters` is what `pcap_stats` gives. -/
def stats (s : Sniffer) (writers : WriterSet) (counters : Option (Nat × Nat × Nat)) :
    WriterSet :=
  match counters with
  | none => writers
  | some (recv, ifdrop, drop) => writers.write_stats s.last_ts_ recv ifdrop drop

/-- The end of `Sniffer::run` after the loop (source lines 228 to 232). -/
def finish (s : Sniffer) (writers : WriterSet) (just_did_stats : Bool)
    (counters : Option (Nat × Nat × Nat)) (calls : List Call) :
    Int × Sniffer × WriterSet × List Call :=
  if !just_did_stats then (0, s, s.stats writers counters, calls ++ [Call.stats])
  else (0, s, writers, calls)

/-- The loop of `Sniffer::run` over the rounds that the environment gives:
the return value, the states and the calls made, in order; `none` when the
rounds given do not end the loop. -/
def loop (do_stats : Bool) : List Round → Sniffer → WriterSet → Bool → List Call →
    Option (Int × Sniffer × WriterSet × List Call)
  | [], _, _, _, _ => none
  | r :: rest, s, writers, just_did_stats, calls =>
    if r.stop_flag then some (finish s writers just_did_stats r.pcap_stats calls)
    else if r.poll = -1 then some (1, s, writers, calls)
    else if r.poll = 0 then loop do_stats rest s writers just_did_stats calls
    else if r.stop_revents ≠ 0 then some (finish s writers just_did_stats r.pcap_stats calls)
    else if r.pcap_revents ≠ 0 then
      let d := s.dispatch writers r.packets
      let calls := calls ++ [Call.dispatch r.packets]
      if r.dispatch = PCAP_ERROR then some (1, d.1, d.2, calls)
      else if do_stats then
        if r.elapsed then
          loop do_stats rest d.1 (d.1.stats d.2 r.pcap_stats) true (calls ++ [Call.stats])
        else loop do_stats rest d.1 d.2 false calls
      else loop do_stats rest d.1 d.2 just_did_stats calls
    else loop do_stats rest s writers just_did_stats calls

/-- Translation of `Sniffer::run`. -/
def run (s : Sniffer) (writers : WriterSet) (rounds : List Round) :
    Option (Int × Sniffer × WriterSet × List Call) :=
  if !s.ok then some (1, s, writers, [])
  else loop (decide (s.stats_interval_ ≥ 0)) rounds s writers false []

end Sniffer

/-! ## Capture command (`fastcap.cpp`) -/

/-- The value of the global `g_sniffer`: null, the pointer
`reinterpret_cast<Sniffer*>(1)` of the signal handler, or the address of the
`Sniffer` of `capture`. -/
inductive Slot where
  | nullptr
  | invalid_ptr
  | sniffer_ptr
deriving DecidableEq, Repr

/-- The state that the signal handler and the registration in `capture` work
on: `g_sniffer`, the stop flag of the `Sniffer`, the number of calls of
`Sniffer::stop` so far, and the status of `std::exit` once it was called. -/
structure SignalState where
  g_sniffer : Slot
  stop_flag_ : Bool
  stops : Nat
  exited : Option Int
deriving DecidableEq, Repr

/-- Translation of `signal_handler`; `written` is the return value of `write`
on the stop event inside `Sniffer::stop`. -/
def signal_handler (st : SignalState) (written : Int) : SignalState :=
  let sniffer := st.g_sniffer
  let st : SignalState := { st with g_sniffer := Slot.invalid_ptr }
  if sniffer ≠ Slot.nullptr ∧ sniffer ≠ Slot.invalid_ptr then
    let rc : Int := if written < 0 then 1 else 0
    let st : SignalState := { st with stop_flag_ := true, stops := st.stops + 1 }
    if rc ≠ 0 then { st with exited := some rc } else st
  else st

/-- The registration `g_sniffer.compare_exchange_strong(tmp, &sniffer)` of
`capture`, with `tmp` null: whether it succeeded, and the new state. -/
def register (st : SignalState) : Bool × SignalState :=
  if st.g_sniffer = Slot.nullptr then (true, { st with g_sniffer := Slot.sniffer_ptr })
  else (false, st)

/-- What happens to `g_sniffer` during a capture: a delivery of `SIGINT` (with
the return value of `write` on the stop event, should `Sniffer::stop` be
called) or the registration of the `Sniffer`. -/
inductive SignalEvent where
  | sigint (written : Int)
  | registration
deriving DecidableEq, Repr

/-- The state after an event; nothing runs once `std::exit` was called. -/
def SignalEvent.apply (st : SignalState) : SignalEvent → SignalState
  | SignalEvent.sigint written => if st.exited.isSome then st else signal_handler st written
  | SignalEvent.registration => if st.exited.isSome then st else (register st).2

/-- The state after a sequence of events. -/
def runSignals (st : SignalState) (events : List SignalEvent) : SignalState :=
  events.foldl SignalEvent.apply st

/-- The state at the start of the process: `g_sniffer{nullptr}`. -/
def SignalState.init : SignalState :=
  { g_sniffer := Slot.nullptr, stop_flag_ := false, stops := 0, exited := none }

/-- Translation of `WriterSet::join`: the stop flag is set and the workers are
joined; the return value is 0. -/
def WriterSet.join (ws : WriterSet) : Int × WriterSet := (0, { ws with stop_ := true })

/-- The shard files on disk: the names that the constructor of `WriterSet`
opened, each with the bytes written to it so far. -/
def WriterSet.disk (config : Config) (ws : WriterSet) : List (List Nat × List Nat) :=
  (WriterSet.fileNames config).zip ws.files_

/-- Translation of `capture`: the return value and the shard files on disk at
that time; `g_sniffer` is the value of the global at the registration, `rounds`
what the loop of `Sniffer::run` finds. The rounds of the workers are steps of
their own (`WriterSet.work`); none is taken here. `none` when the rounds given
do not end the loop of `Sniffer::run`. -/
def capture (config : Config) (env : PcapEnv) (dev : DeviceInfo) (mem0 : Nat → Nat)
    (g_sniffer : Slot) (rounds : List Round) : Option (Int × List (List Nat × List Nat)) :=
  let sniffer := Sniffer.new config env
  let writers := WriterSet.new config sniffer.datalink dev mem0
  if !sniffer.ok then
    let writers := writers.join.2
    some (1, WriterSet.disk config writers)
  else if g_sniffer = Slot.nullptr then
    match sniffer.run writers rounds with
    | none => none
    | some (rc, _, writers, _) =>
      if rc ≠ 0 then some (rc, WriterSet.disk config writers.join.2)
      else some (writers.join.1, WriterSet.disk config writers.join.2)
  else some (writers.join.1, WriterSet.disk config writers.join.2)

/-- The answers of the operating system and libpcap for an interface that
exists when the user may not capture on it: `pcap_activate` returns
`PCAP_ERROR_PERM_DENIED`. -/
def deniedEnv : PcapEnv :=
  { eventfd := 3, create := true, can_set_rfmon := 0, set_tstamp_precision := 0,
    activate := PCAP_ERROR_PERM_DENIED, datalink := 1, setnonblock := 0, compile := 0,
    setfilter := 0 }

/-- The answers of the operating system and libpcap when every call
succeeds, for an Ethernet interface. -/
def goodEnv : PcapEnv :=
  { eventfd := 3, create := true, can_set_rfmon := 0, set_tstamp_precision := 0,
    activate := 0, datalink := 1, setnonblock := 0, compile := 0, setfilter := 0 }

/-- What one evaluation of the predicate of `cv_.wait` in `try_read_do_while`
finds: the payloads that the producer has written completely since the
previous evaluation, and the value of `pred()`. -/
structure Wakeup where
  produced : List (List Nat)
  pred : Bool

/-- How a call of `try_read_do_while` or `try_read_while` ends: it returns a
flag, it is still blocked in `cv_.wait` after the evaluations given, or its
`try_read` never returns. -/
inductive ReadOutcome where
  | returned (flag : Bool) (rb : RingBuffer) (buf : List Nat)
  | waiting (rb : RingBuffer)
  | spinning (rb : RingBuffer)

/-- The producer's complete writes of a list of payloads. -/
def produceAll (rb : RingBuffer) (payloads : List (List Nat)) : RingBuffer :=
  payloads.foldl (fun rb p => (produce rb p).2) rb

namespace RingBuffer

/-- The loop of `try_read_do_while` from `cv_.wait` on, entered after a
`try_read` that returned `false`: the predicate of the wait is evaluated once
for each element of the list. -/
def wait (rb : RingBuffer) (buf : List Nat) : List Wakeup → ReadOutcome
  | [] => ReadOutcome.waiting rb
  | w :: rest =>
    let rb := produceAll rb w.produced
    let begin := rb.begin_
    let end_ := toPtrdiff rb.end_
    let flag := w.pred
    if !flag || (decide (begin ≥ 0) && decide (begin ≠ end_)) then
      if !flag then ReadOutcome.returned false rb buf
      else
        match rb.try_read buf with
        | Except.error rb1 => ReadOutcome.spinning rb1
        | Except.ok (true, rb1, out) => ReadOutcome.returned true rb1 out
        | Except.ok (false, rb1, out) => wait rb1 out rest
    else wait rb buf rest

/-- Translation of `RingBuffer::try_read_do_while`. -/
def try_read_do_while (rb : RingBuffer) (wakeups : List Wakeup) (buf : List Nat) :
    ReadOutcome :=
  match rb.try_read buf with
  | Except.error rb1 => ReadOutcome.spinning rb1
  | Except.ok (true, rb1, out) => ReadOutcome.returned true rb1 out
  | Except.ok (false, rb1, out) => wait rb1 out wakeups

/-- Translation of `RingBuffer::try_read_while`; `pred` is the value of
`pred()` at the call. -/
def try_read_while (rb : RingBuffer) (pred : Bool) (wakeups : List Wakeup) (buf : List Nat) :
    ReadOutcome :=
  if !pred then ReadOutcome.returned false rb buf
  else rb.try_read_do_while wakeups buf

end RingBuffer

/-- The state of the set after one call of `try_read_while` by writer `i` in
`Writer::work`, with the `file_.write` that follows a call that returned
`true`. -/
def WriterSet.afterRead (ws : WriterSet) (i : Nat) : ReadOutcome → WriterSet
  | ReadOutcome.returned true rb buf =>
    { ws with buf_ := rb, files_ := ws.files_.modify (fun f => f ++ buf) i }
  | ReadOutcome.returned false rb _ => { ws with buf_ := rb }
  | ReadOutcome.waiting rb => { ws with buf_ := rb }
  | ReadOutcome.spinning rb => { ws with buf_ := rb }

/-- A session with two writers in which one packet is ingested and
`WriterSet::join` sets the stop flag before a writer has run. -/
def stoppedSession : WriterSet :=
  ((WriterSet.new sampleConfig 1 sampleDevice (fun _ => 0)).write_packet samplePacket
    [170, 187]).join.2

/-! ## Lock-free queue (`lock_free.hpp`) -/

/-- State of an `LFData<T>` for a trivially destructible integer type `T`: the
storage `data_` and the flag (0 empty, 1 set, -1 held by a caller). -/
structure LFData where
  data_ : Nat
  flag_ : Int
deriving DecidableEq, Repr

/-- Translation of `LFData::set`; `none` when the exchange loop spins, which it
does while the flag is negative. -/
def LFData.set (d : LFData) (v : Nat) : Option LFData :=
  if d.flag_ < 0 then none
  else some { data_ := v, flag_ := 1 }

/-- Translation of `LFData::take`: the optional value returned and the new
state; `none` when the exchange loop spins. -/
def LFData.take (d : LFData) : Option (Option Nat × LFData) :=
  if d.flag_ < 0 then none
  else
    let flag := d.flag_
    let ret := if flag > 0 then some d.data_ else none
    some (ret, { d with flag_ := 0 })

/-- The struct `LFEntry<T>`; a pointer to an entry is its index in `alloc_`,
`none` is `nullptr`. -/
structure LFEntry where
  data : LFData
  next : Option Nat
deriving DecidableEq, Repr

/-- State of an `Spsc<T>`, that is `LFQueue<T, SingleProducer, SingleConsumer>`:
the entries, the members of `SingleProducer` and those of `SingleConsumer`. -/
structure LFQueue where
  alloc_ : List LFEntry
  free_head_ : Option Nat
  tail_ : Option Nat
  free_tail_ : Option Nat
  head_ : Option Nat
deriving DecidableEq, Repr

namespace LFQueue

/-- The entry that a pointer points to; `none` for `nullptr` and for a pointer
outside `alloc_`. -/
def deref (q : LFQueue) (p : Option Nat) : Option LFEntry :=
  match p with
  | none => none
  | some i => q.alloc_[i]?

/-- The effect of a store through a pointer to an entry. -/
def assign (q : LFQueue) (p : Option Nat) (e : LFEntry) : LFQueue :=
  match p with
  | none => q
  | some i => { q with alloc_ := q.alloc_.set i e }

/-- Translation of the constructor `LFQueue::LFQueue(capacity)` with
`producer_init` and `consumer_init`; `storage` is what the uninitialised
storage of an entry holds. -/
def new (capacity : Nat) (storage : Nat) : LFQueue :=
  let n := (capacity + 2) % W64
  let alloc : List LFEntry :=
    (List.range n).map (fun i => { data := { data_ := storage, flag_ := 0 }, next := some (i + 1) })
  let head := n - 1
  let tail := head
  let free_head := 0
  let free_tail := head - 1
  let alloc := alloc.modify (fun e => { e with next := none }) tail
  let alloc := alloc.modify (fun e => { e with next := none }) free_tail
  { alloc_ := alloc, free_head_ := some free_head, tail_ := some tail,
    free_tail_ := some free_tail, head_ := some head }

/-- Translation of `LFQueue::capacity`. -/
def capacity (q : LFQueue) : Nat := (q.alloc_.length + W64 - 2) % W64

/-- Translation of `SingleProducer::new_entry`: the pointer returned and the
new state; `none` when a null pointer is dereferenced. -/
def new_entry (q : LFQueue) : Option (Option Nat × LFQueue) :=
  let head := q.free_head_
  match q.deref head with
  | none => none
  | some e =>
    let next := e.next
    let q := q.assign head { e with next := none }
    if next = none then some (none, q)
    else some (head, { q with free_head_ := next })

/-- Translation of `SingleProducer::try_push`: the optional returned (the value
handed back when the queue is full, nothing on success) and the new state. -/
def try_push (q : LFQueue) (v : Nat) : Option (Option Nat × LFQueue) :=
  match q.new_entry with
  | none => none
  | some (none, q) => some (some v, q)
  | some (some i, q) =>
    let entry := some i
    match q.deref entry with
    | none => none
    | some e =>
      match e.data.set v with
      | none => none
      | some d =>
        let q := q.assign entry { data := d, next := q.tail_ }
        some (none, { q with tail_ := entry })

/-- Translation of `SingleConsumer::del_entry`. -/
def del_entry (q : LFQueue) (entry : Option Nat) : Option LFQueue :=
  match q.deref entry with
  | none => none
  | some e => some { q.assign entry { e with next := q.free_tail_ } with free_tail_ := entry }

/-- Translation of `SingleConsumer::try_pop`: the optional returned and the new
state. -/
def try_pop (q : LFQueue) : Option (Option Nat × LFQueue) :=
  let head := q.head_
  match q.deref head with
  | none => none
  | some e =>
    match e.data.take with
    | none => none
    | some (ret, d) =>
      let q := q.assign head { e with data := d }
      if ret.isSome then
        let next := e.next
        let q := q.assign head { data := d, next := none }
        if next ≠ none then
          (del_entry { q with head_ := next } head).map (fun q => (ret, q))
        else some (ret, q)
      else some (ret, q)

end LFQueue

/-- One call on a queue used by one thread. -/
inductive QueueOp where
  | push (v : Nat)
  | pop
deriving DecidableEq, Repr

/-- The results of a sequence of calls on a queue, in call order: for
`try_push` and for `try_pop` the optional returned; `none` when a call does not
return. -/
def LFQueue.results : LFQueue → List QueueOp → Option (List (Option Nat))
  | _, [] => some []
  | q, QueueOp.push v :: ops =>
    match q.try_push v with
    | none => none
    | some (r, q1) => (LFQueue.results q1 ops).map (fun rs => r :: rs)
  | q, QueueOp.pop :: ops =>
    match q.try_pop with
    | none => none
    | some (r, q1) => (LFQueue.results q1 ops).map (fun rs => r :: rs)

/-- The results that the code gives for a sequence of calls on a queue with
`k` entries left on the free list: a `try_pop` returns nothing, a `try_push`
succeeds while an entry is left and hands the value back afterwards. -/
def stuckResults : Nat → List QueueOp → List (Option Nat)
  | _, [] => []
  | k, QueueOp.pop :: ops => none :: stuckResults k ops
  | k, QueueOp.push v :: ops =>
    if k = 0 then some v :: stuckResults 0 ops else none :: stuckResults (k - 1) ops

/-- The state of a queue whose consumer has never advanced. -/
def LFQueue.Stuck (c storage i : Nat) (q : LFQueue) : Prop :=
  q.free_head_ = some i ∧ q.head_ = some (c + 1) ∧ i ≤ c ∧
  (∀ j, i ≤ j → j ≤ c → q.alloc_[j]? =
    some { data := { data_ := storage, flag_ := 0 },
           next := if j < c then some (j + 1) else none }) ∧
  (∃ e, q.alloc_[c + 1]? = some e ∧ e.data.flag_ = 0)

/-! ## Capture loop with the clock observed (`sniffer.cpp`) -/

/-- What one round of the loop of `Sniffer::run` finds when the clock is
observed: as `Round`, with the reading `clock` of
`high_resolution_clock::now()` in this round instead of the outcome of the
comparison `end - start >= interval`. -/
structure TimedRound where
  stop_flag : Bool
  poll : Int
  stop_revents : Int
  pcap_revents : Int
  packets : List (pcap_pkthdr × List Nat)
  dispatch : Int
  clock : Int
  pcap_stats : Option (Nat × Nat × Nat)

/-- How a run of `Sniffer::run` with the clock observed ends: the return
value, the states, the calls made inside the loop, whether `stats(writers)` was
called after the loop, the value of `start` when the loop was left (the clock
at the most recent call of `stats` in the loop, or at the start of the loop
when there was none), and the clock in the round that left the loop. -/
structure TimedExit where
  rc : Int
  sniffer : Sniffer
  writers : WriterSet
  loop_calls : List Call
  final_stats : Bool
  start : Int
  clock : Int

/-- The calls that a run made, those after the loop included. -/
def TimedExit.calls (e : TimedExit) : List Call :=
  if e.final_stats then e.loop_calls ++ [Call.stats] else e.loop_calls

namespace Sniffer

/-- The end of `Sniffer::run` after the loop (source lines 228 to 232), with
the clock observed. -/
def timedFinish (s : Sniffer) (writers : WriterSet) (just_did_stats : Bool) (r : TimedRound)
    (start : Int) (calls : List Call) : TimedExit :=
  if !just_did_stats then
    { rc := 0, sniffer := s, writers := s.stats writers r.pcap_stats, loop_calls := calls,
      final_stats := true, start := start, clock := r.clock }
  else
    { rc := 0, sniffer := s, writers := writers, loop_calls := calls, final_stats := false,
      start := start, clock := r.clock }

/-- The loop of `Sniffer::run` (source lines 194 to 227) with the clock
observed: `interval`, `do_stats`, `start` and `just_did_stats` are the locals of
the source; `none` when the rounds given do not end the loop. -/
def timedLoop (interval : Int) (do_stats : Bool) : List TimedRound → Sniffer → WriterSet →
    Int → Bool → List Call → Option TimedExit
  | [], _, _, _, _, _ => none
  | r :: rest, s, writers, start, just_did_stats, calls =>
    if r.stop_flag then some (timedFinish s writers just_did_stats r start calls)
    else if r.poll = -1 then
      some { rc := 1, sniffer := s, writers := writers, loop_calls := calls,
             final_stats := false, start := start, clock := r.clock }
    else if r.poll = 0 then timedLoop interval do_stats rest s writers start just_did_stats calls
    else if r.stop_revents ≠ 0 then some (timedFinish s writers just_did_stats r start calls)
    else if r.pcap_revents ≠ 0 then
      let d := s.dispatch writers r.packets
      let calls := calls ++ [Call.dispatch r.packets]
      if r.dispatch = PCAP_ERROR then
        some { rc := 1, sniffer := d.1, writers := d.2, loop_calls := calls,
               final_stats := false, start := start, clock := r.clock }
      else if do_stats then
        let end_ := r.clock
        if end_ - start ≥ interval then
          timedLoop interval do_stats rest d.1 (d.1.stats d.2 r.pcap_stats) end_ true
            (calls ++ [Call.stats])
        else timedLoop interval do_stats rest d.1 d.2 start false calls
      else timedLoop interval do_stats rest d.1 d.2 start just_did_stats calls
    else timedLoop interval do_stats rest s writers start just_did_stats calls

/-- Translation of `Sniffer::run` with the clock observed: `ticks` is the
number of ticks of `high_resolution_clock` in a second, `start` the reading of
the clock before the loop. -/
def timedRun (s : Sniffer) (writers : WriterSet) (ticks start : Int)
    (rounds : List TimedRound) : Option TimedExit :=
  if !s.ok then
    some { rc := 1, sniffer := s, writers := writers, loop_calls := [], final_stats := false,
           start := start, clock := start }
  else
    timedLoop (s.stats_interval_ * ticks) (decide (s.stats_interval_ ≥ 0)) rounds s writers
      start false []

end Sniffer

/-- The round without the clock, given the outcome of the comparison
`end - start >= interval`. -/
def TimedRound.toRound (r : TimedRound) (elapsed : Bool) : Round :=
  { stop_flag := r.stop_flag, poll := r.poll, stop_revents := r.stop_revents,
    pcap_revents := r.pcap_revents, packets := r.packets, dispatch := r.dispatch,
    elapsed := elapsed, pcap_stats := r.pcap_stats }

/-- Whether the round reaches the call of `stats` inside the loop. -/
def TimedRound.emits (r : TimedRound) (interval start : Int) (do_stats : Bool) : Bool :=
  !r.stop_flag && decide (r.poll ≠ -1) && decide (r.poll ≠ 0) && decide (r.stop_revents = 0) &&
    decide (r.pcap_revents ≠ 0) && decide (r.dispatch ≠ PCAP_ERROR) && do_stats &&
    decide (r.clock - start ≥ interval)

/-- The rounds without the clock: each comparison `end - start >= interval`
is made with the value that `start` has in that round. -/
def untimed (interval : Int) (do_stats : Bool) : Int → List TimedRound → List Round
  | _, [] => []
  | start, r :: rest =>
    r.toRound (decide (r.clock - start ≥ interval)) ::
      untimed interval do_stats (if r.emits interval start do_stats then r.clock else start)
        rest

/-! ## Session start and cursor of the merge (`reader.cpp`) -/

/-- The field `secs` of a header. -/
def Hdr.secs : Hdr → Nat
  | Hdr.pkt h => h.secs
  | Hdr.stat h => h.secs

/-- Translation of `ReaderSet::start_seconds`. -/
def ReaderSet.start_seconds (rs : ReaderSet) : Nat := rs.start_sec_

/-- The number of times that one call of `ReaderSet::next` increments the
cursor `next_` within `fuel` rounds. -/
def ReaderSet.increments : Nat → ReaderSet → List Nat → Nat
  | 0, _, _ => 0
  | fuel + 1, rs, data =>
    match ReaderSet.scan rs.next_ data rs.readers_ 0 with
    | Sum.inl _ => 1
    | Sum.inr done_count =>
      if done_count = rs.readers_.length then 0
      else
        1 + ReaderSet.increments fuel
          { rs with warnings_ := rs.warnings_ ++ [rs.next_], next_ := (rs.next_ + 1) % W64 } data

/-- Whether the cursor `next_` stays below `2 ^ 64` during up to `n` successive
calls of `ReaderSet::next`, each bounded by `fuel` rounds, that is, whether no
increment wraps it. -/
def noWrap (fuel : Nat) : Nat → ReaderSet → List Nat → Bool
  | 0, _, _ => true
  | n + 1, rs, data =>
    decide (rs.next_ + rs.increments fuel data < W64) &&
      match rs.next fuel data with
      | some (some _, rs1, data1) => noWrap fuel n rs1 data1
      | _ => true

/-- What is left to read in each shard: for each reader the flag `done_`, the
read position and the length of the file. -/
def ReaderSet.progress (rs : ReaderSet) : List (Bool × Nat × Nat) :=
  rs.readers_.map (fun r => (r.done_, r.file_.pos, r.file_.content.length))

/-! # Theorems -/

/-! ## Ring buffer -/

theorem W64_val : W64 = 18446744073709551616 := by norm_num [W64]

theorem distance_of_le {cap s e : Nat} (hse : s ≤ e) (he : e < W64) :
    distance cap s e = e - s := by
  rw [W64_val] at he
  unfold distance boolToSize
  have h : ¬ e < s := by omega
  simp only [W64_val, h, decide_False, Bool.false_eq_true, if_false,
    show (0:Nat) ^^^ 1 = 1 from rfl, Nat.mul_zero, Nat.mul_one, Nat.zero_mod, Nat.or_zero,
    Nat.mod_mod]
  omega

theorem offset_add_of_lt {cap pos off : Nat} (h : pos + off < cap) (hc : cap ≤ W64) :
    offset_add cap pos off = pos + off := by
  rw [W64_val] at hc
  unfold offset_add boolToSize
  have h1 : (pos + off) % 18446744073709551616 = pos + off := Nat.mod_eq_of_lt (by omega)
  have h2 : ¬ (pos + off ≥ cap) := by omega
  simp only [W64_val, h1, h2, decide_False, Bool.false_eq_true, if_false, Nat.mul_zero,
    Nat.zero_mod, Nat.sub_zero]
  omega

theorem produce_of_room (rb : RingBuffer) (p : List Nat)
    (hroom : rb.end_ + (p.length + SIZEOF_SIZE_T) ≤ rb.free_end_)
    (hfree : rb.free_end_ < rb.cap_) (hcap : rb.cap_ ≤ W64) :
    (produce rb p).1 = true ∧ (produce rb p).2.end_ = rb.end_ + (p.length + SIZEOF_SIZE_T) ∧
      (produce rb p).2.free_end_ = rb.free_end_ ∧ (produce rb p).2.cap_ = rb.cap_ := by
  have hW := W64_val
  have h8 : SIZEOF_SIZE_T = 8 := rfl
  rw [h8] at hroom
  have hd : distance rb.cap_ rb.end_ rb.free_end_ = rb.free_end_ - rb.end_ :=
    distance_of_le (by omega) (by omega)
  have hn : (p.length + 8) % W64 = p.length + 8 := Nat.mod_eq_of_lt (by omega)
  have hadm : (rb.prepare_write p.length).1 = true := by
    unfold RingBuffer.prepare_write
    simp only [h8, hd, hn]
    rw [if_neg (by omega)]
  have hpos : offset_add rb.cap_ rb.end_ 8 = rb.end_ + 8 := offset_add_of_lt (by omega) hcap
  have hend : offset_add rb.cap_ (rb.end_ + 8) p.length = rb.end_ + 8 + p.length :=
    offset_add_of_lt (by omega) hcap
  have hst : (rb.prepare_write p.length).2.write_end_ = rb.end_ + 8 + p.length ∧
      (rb.prepare_write p.length).2.free_end_ = rb.free_end_ ∧
      (rb.prepare_write p.length).2.cap_ = rb.cap_ := by
    unfold RingBuffer.prepare_write
    simp only [h8, hd, hn]
    rw [if_neg (by omega)]
    simp only [hpos, hend, and_self]
  unfold produce
  simp only [hadm, if_true, RingBuffer.commit_write, RingBuffer.write_some, h8]
  refine ⟨trivial, ?_, hst.2.1, hst.2.2⟩
  rw [hst.1]; omega

theorem writeFlags_of_room (ps : List (List Nat)) : ∀ (rb : RingBuffer),
    rb.end_ + (ps.map (fun p => p.length + SIZEOF_SIZE_T)).sum ≤ rb.free_end_ →
    rb.free_end_ < rb.cap_ → rb.cap_ ≤ W64 →
    writeFlags rb ps = List.replicate ps.length true := by
  induction ps with
  | nil => intro rb _ _ _; rfl
  | cons p ps ih =>
    intro rb hroom hfree hcap
    simp only [List.map_cons, List.sum_cons] at hroom
    obtain ⟨h1, h2, h3, h4⟩ := produce_of_room rb p (by omega) hfree hcap
    simp only [writeFlags, List.length_cons, List.replicate_succ, h1]
    rw [ih (produce rb p).2 (by rw [h2, h3]; omega) (by rw [h3, h4]; exact hfree)
      (by rw [h4]; exact hcap)]

/-- C5. On a freshly constructed ring buffer of capacity `C`, when the framed
sizes `n_i + sizeof(size_t)` of a list of payloads sum to at most `C - 1`,
writing the payloads one after the other (`prepare_write`, `write_some`,
`commit_write`) with no `try_read` in between makes every `prepare_write`
return `true`. -/
theorem prepare_all_succeed_on_fresh (C : Nat) (mem0 : Nat → Nat) (ps : List (List Nat))
    (hC : C < W64)
    (hsum : (ps.map (fun p => p.length + SIZEOF_SIZE_T)).sum ≤ C - 1) :
    writeFlags (RingBuffer.new C mem0) ps = List.replicate ps.length true := by
  cases ps with
  | nil => rfl
  | cons p ps =>
    have hW := W64_val
    have h8 : SIZEOF_SIZE_T = 8 := rfl
    have hpos : 0 < C := by
      simp only [List.map_cons, List.sum_cons, h8] at hsum
      omega
    have hfe : (RingBuffer.new C mem0).free_end_ = C - 1 := by
      show (C + W64 - 1) % W64 = C - 1
      rw [hW] at hC ⊢
      omega
    apply writeFlags_of_room
    · rw [hfe]; show 0 + _ ≤ _; omega
    · rw [hfe]; show C - 1 < C; omega
    · exact hC.le

theorem prepare_all_succeed_on_fresh_witness :
    (64 : Nat) < W64 ∧
    (([[1, 2, 3], [4, 5], []] : List (List Nat)).map (fun p => p.length + SIZEOF_SIZE_T)).sum
      ≤ 64 - 1 ∧
    writeFlags (RingBuffer.new 64 (fun _ => 0)) [[1, 2, 3], [4, 5], []] =
      List.replicate 3 true :=
  ⟨by decide, by decide,
    prepare_all_succeed_on_fresh 64 (fun _ => 0) [[1, 2, 3], [4, 5], []] (by decide) (by decide)⟩

/-- C8. `prepare_write(n)` returns `false` exactly when `n + sizeof(size_t)`,
computed in `size_t` (which is the plain sum whenever it is below `2 ^ 64`), is
greater than `distance(end, free_end)`; and when it returns `false` the whole
state (the cursors `begin`, `end`, `free_end`, the write cursors and every byte
of the backing array) is unchanged. -/
theorem prepare_write_rejects_iff (rb : RingBuffer) (n : Nat) :
    ((rb.prepare_write n).1 = false ↔
      (n + SIZEOF_SIZE_T) % W64 > distance rb.cap_ rb.end_ rb.free_end_) ∧
    (n + SIZEOF_SIZE_T < W64 →
      ((rb.prepare_write n).1 = false ↔
        n + SIZEOF_SIZE_T > distance rb.cap_ rb.end_ rb.free_end_)) ∧
    ((rb.prepare_write n).1 = false → (rb.prepare_write n).2 = rb) := by
  have key : (rb.prepare_write n).1 = false ↔
      (n + SIZEOF_SIZE_T) % W64 > distance rb.cap_ rb.end_ rb.free_end_ := by
    unfold RingBuffer.prepare_write
    by_cases h : (n + SIZEOF_SIZE_T) % W64 > distance rb.cap_ rb.end_ rb.free_end_
    · simp only [h, if_true]
    · simp only [h, if_false, Bool.true_eq_false]
  refine ⟨key, ?_, ?_⟩
  · intro hlt
    rw [key, Nat.mod_eq_of_lt hlt]
  · intro hf
    have h := key.mp hf
    unfold RingBuffer.prepare_write
    simp only [h, if_true]

/-- C1 fails on the code. Capacity 64: two records `A` and `B` of 8 payload
bytes are committed and `A` is read (`begin = 16`, `end = 32`, `free_end = 15`,
47 bytes free). A record of 48 payload bytes (framed size 56) is then admitted,
because `distance(end = 32, free_end = 15)` evaluates to `64 - 15 + 32 = 81`,
and its bytes overwrite the length header of the unread record `B`. The second
successful `try_read` then returns the empty payload instead of the payload of
`B`, the second committed record. -/
theorem ring_record_overwritten_before_read :
    (runFresh 64 (fun _ => 0)
      [Op.write [1, 2, 3, 4, 5, 6, 7, 8], Op.write [11, 12, 13, 14, 15, 16, 17, 18], Op.read,
       Op.write (List.replicate 48 0), Op.read]).map (fun r => (r.committed, r.delivered)) =
    some ([[1, 2, 3, 4, 5, 6, 7, 8], [11, 12, 13, 14, 15, 16, 17, 18], List.replicate 48 0],
      [[1, 2, 3, 4, 5, 6, 7, 8], []]) := by
  decide

/-- C6 fails on the code. Capacity 64: after two committed records of 8
payload bytes and one read, one record is still unread (`begin = 16`,
`end = 32`, `free_end = 15`), and yet `prepare_write(55)`, whose framed size is
`55 + 8 = 63 = C - 1`, returns `true`: `distance(32, 15)` evaluates to 81. -/
theorem prepare_write_admits_cap_minus_one_when_not_empty :
    (runFresh 64 (fun _ => 0)
      [Op.write [1, 2, 3, 4, 5, 6, 7, 8], Op.write [11, 12, 13, 14, 15, 16, 17, 18],
       Op.read]).map (fun r => (r.committed.length, r.delivered.length)) = some (2, 1) ∧
    (runFresh 64 (fun _ => 0)
      [Op.write [1, 2, 3, 4, 5, 6, 7, 8], Op.write [11, 12, 13, 14, 15, 16, 17, 18],
       Op.read]).map (fun r => (r.rb.begin_, r.rb.end_, r.rb.free_end_)) = some (16, 32, 15) ∧
    (runFresh 64 (fun _ => 0)
      [Op.write [1, 2, 3, 4, 5, 6, 7, 8], Op.write [11, 12, 13, 14, 15, 16, 17, 18],
       Op.read]).map (fun r => (distance r.rb.cap_ r.rb.end_ r.rb.free_end_,
         (r.rb.prepare_write 55).1)) = some (81, true) := by
  decide

/-- C7 fails on the code. Capacity 64: after one committed record of 8 payload
bytes and one read (`begin = end = 16`, `free_end = 15`), `prepare_write(56)`,
whose framed size is `56 + 8 = 64 = C`, returns `true`: `distance(16, 15)`
evaluates to `64 - 15 + 16 = 65`. -/
theorem prepare_write_admits_full_capacity :
    (runFresh 64 (fun _ => 0) [Op.write [1, 2, 3, 4, 5, 6, 7, 8], Op.read]).map
      (fun r => (r.rb.begin_, r.rb.end_, r.rb.free_end_)) = some (16, 16, 15) ∧
    (runFresh 64 (fun _ => 0) [Op.write [1, 2, 3, 4, 5, 6, 7, 8], Op.read]).map
      (fun r => (distance r.rb.cap_ r.rb.end_ r.rb.free_end_, (r.rb.prepare_write 56).1)) =
        some (65, true) := by
  decide

/-- C10 fails on the code. With a buffer of 256 bytes that holds one packet of
100 bytes, `write_packet` of a packet of 200 bytes is rejected by
`prepare_write`, and the counter `queue_drops_` is still 0 afterwards: no path
of `write_packet` increments it. -/
theorem write_packet_rejected_counts_no_drop :
    ((runSteps (WriterSet.new sampleConfig 1 sampleDevice (fun _ => 0))
        [Step.packet ⟨100, 5, 100, 100⟩ (List.replicate 100 7)]).buf_.prepare_write
          (SIZEOF_PKTHDR + 200)).1 = false ∧
    ((runSteps (WriterSet.new sampleConfig 1 sampleDevice (fun _ => 0))
        [Step.packet ⟨100, 5, 100, 100⟩ (List.replicate 100 7)]).write_packet
          ⟨100, 6, 200, 200⟩ (List.replicate 200 9)).queue_drops_ = 0 ∧
    (runSteps (WriterSet.new sampleConfig 1 sampleDevice (fun _ => 0))
        [Step.packet ⟨100, 5, 100, 100⟩ (List.replicate 100 7)]).queue_drops_ = 0 := by
  decide

/-- C4 fails on the code. A statistics record with entry ID 1 is decoded from a
native-order shard as a statistics entry with ID 1; from a shard in the
opposite byte order (magic read as `0x50414346`, every field byte-swapped)
`read_next` tests bit 63 of the entry ID before swapping it, takes the record
for a packet and yields a packet header with ID `2 ^ 63 + 1`. -/
theorem swapped_stats_record_decoded_as_packet :
    (Reader.new (toLE 4 MAGIC ++ (StatHdr.mk (1 ||| 2 ^ 63) 100 7 0 0 0).bytes)).read_next.hdr_ =
      Hdr.stat ⟨1, 100, 7, 0, 0, 0⟩ ∧
    (Reader.new (toBE 4 MAGIC ++ (StatHdr.mk (1 ||| 2 ^ 63) 100 7 0 0 0).bytesBE)).native_ = 0 ∧
    (Reader.new (toBE 4 MAGIC ++ (StatHdr.mk (1 ||| 2 ^ 63) 100 7 0 0 0).bytesBE)).read_next.hdr_ =
      Hdr.pkt ⟨1 ||| 2 ^ 63, 100, 7, 0, 0⟩ := by
  decide

theorem or_bit63 {c : Nat} (hc : c < 2 ^ 63) : c ||| 2 ^ 63 = 2 ^ 63 + c := by
  have h := Nat.mul_add_lt_is_or hc 1
  rw [Nat.mul_one] at h
  rw [h, Nat.or_comm]

theorem or_bit63_mod {c : Nat} (hc : c < 2 ^ 63) : (c ||| 2 ^ 63) % 2 ^ 63 = c := by
  rw [or_bit63 hc, Nat.add_mod_left, Nat.mod_eq_of_lt hc]

/-- When no reader that is not done holds the ID `k`, the scan returns the
number of readers that are done. -/
theorem scan_of_no_match (k : Nat) (data : List Nat) (readers : List Reader) :
    ∀ dc, (∀ r ∈ readers, r.done_ = true ∨ r.hdr_.visit.1 ≠ k) →
    ReaderSet.scan k data readers dc =
      Sum.inr (dc + (readers.filter (fun r => r.done_)).length) := by
  induction readers with
  | nil => intro dc _; rfl
  | cons r rest ih =>
    intro dc h
    have hr := h r (List.mem_cons_self _ _)
    have hrest : ∀ r' ∈ rest, r'.done_ = true ∨ r'.hdr_.visit.1 ≠ k :=
      fun r' hr' => h r' (List.mem_cons_of_mem _ hr')
    by_cases hd : r.done_ = true
    · simp only [ReaderSet.scan, hd, Bool.not_true, Bool.false_eq_true, if_false,
        ih (dc + 1) hrest, List.filter_cons_of_pos, List.length_cons]
      congr 1; omega
    · have hne : r.hdr_.visit.1 ≠ k := hr.resolve_left hd
      simp only [Bool.not_eq_true] at hd
      simp only [ReaderSet.scan, hd, Bool.not_false, if_true, hne, if_false, ih dc hrest,
        Bool.false_eq_true, not_false_eq_true, List.filter_cons_of_neg]

theorem next_none_of_stuck (fuel : Nat) : ∀ (rs : ReaderSet) (data : List Nat),
    (∀ r ∈ rs.readers_, r.done_ = true ∨ r.hdr_.visit.1 = 0) →
    (rs.readers_.filter (fun r => r.done_)).length ≠ rs.readers_.length →
    1 ≤ rs.next_ → rs.next_ + fuel ≤ W64 →
    rs.next fuel data = none := by
  induction fuel with
  | zero => intro rs data _ _ _ _; rfl
  | succ fuel ih =>
    intro rs data h0 hnd h1 h2
    have hscan := scan_of_no_match rs.next_ data rs.readers_ 0
      (fun r hr => (h0 r hr).imp id (fun h => by rw [h]; omega))
    rw [Nat.zero_add] at hscan
    simp only [ReaderSet.next, hscan, hnd, if_false]
    cases fuel with
    | zero => rfl
    | succ fuel =>
      have hW := W64_val
      have hn : (rs.next_ + 1) % W64 = rs.next_ + 1 := Nat.mod_eq_of_lt (by omega)
      exact ih _ data h0 hnd (by show 1 ≤ (rs.next_ + 1) % W64; omega)
        (by show (rs.next_ + 1) % W64 + (fuel + 1) ≤ _; omega)

theorem merge_unfinished_of_stuck (paths : List (List Nat)) (e : Hdr)
    (h : stuckAfterFirst paths e = true) (fuel : Nat) (hf : fuel + 2 ≤ W64) :
    merge fuel 2 paths = MergeResult.unfinished := by
  unfold stuckAfterFirst at h
  unfold merge
  cases hnew : ReaderSet.new 0 paths with
  | error s => rw [hnew] at h; simp at h
  | ok rs =>
    rw [hnew] at h
    simp only at h ⊢
    cases hscan : ReaderSet.scan rs.next_ [] rs.readers_ 0 with
    | inr d => rw [hscan] at h; simp at h
    | inl x =>
      obtain ⟨hdr, readers, data1⟩ := x
      rw [hscan] at h
      simp only [Bool.and_eq_true, decide_eq_true_eq, List.all_eq_true, Bool.or_eq_true] at h
      obtain ⟨⟨⟨h1, h2⟩, h3⟩, h4⟩ := h
      cases fuel with
      | zero => rfl
      | succ fuel =>
        have hW := W64_val
        have hn : (rs.next_ + 1) % W64 = 2 := by rw [h2, hW]
        have hstuck := next_none_of_stuck (fuel + 1)
          { rs with readers_ := readers, next_ := (rs.next_ + 1) % W64 } data1 h3 h4
          (by show 1 ≤ (rs.next_ + 1) % W64; omega)
          (by show (rs.next_ + 1) % W64 + (fuel + 1) ≤ W64; omega)
        have hfirst : rs.next (fuel + 1) [] =
            some (some hdr, { rs with readers_ := readers, next_ := (rs.next_ + 1) % W64 },
              data1) := by
          simp only [ReaderSet.next, hscan]
        rw [drain, hfirst]
        simp only []
        rw [drain, hstuck]


set_option maxRecDepth 100000 in
/-- C2 fails on the code. Shard 0 holds the packet entry 1, shard 1 the magic
only. The first call of `next` returns entry 1; the second call does not return
end-of-stream: within any number of rounds up to `2 ^ 64 - 2` it is still
looping, because the reader of the shard without entries is never marked
done. -/
theorem merge_never_ends_with_empty_shard :
    merge 1 1 emptyShardSet =
      MergeResult.entries [⟨Hdr.pkt ⟨1, 100, 5, 2, 2⟩, some [170, 187]⟩] false ∧
    ∀ fuel, fuel + 2 ≤ W64 → merge fuel 2 emptyShardSet = MergeResult.unfinished :=
  ⟨by decide, merge_unfinished_of_stuck emptyShardSet (Hdr.pkt ⟨1, 100, 5, 2, 2⟩) (by decide)⟩

set_option maxRecDepth 100000 in
/-- A session with two writers ingests one packet, which the first writer
takes; the second shard holds the magic only. Merging the two shards returns
the packet, and the following call of `next` does not return end-of-stream
within any number of rounds up to `2 ^ 64 - 2`. -/
theorem round_trip_never_ends_with_empty_shard :
    merge 1 1 sampleSession =
      MergeResult.entries [⟨Hdr.pkt ⟨1, 100, 5, 2, 2⟩, some [170, 187]⟩] false ∧
    ∀ fuel, fuel + 2 ≤ W64 → merge fuel 2 sampleSession = MergeResult.unfinished :=
  ⟨by decide, merge_unfinished_of_stuck sampleSession (Hdr.pkt ⟨1, 100, 5, 2, 2⟩) (by decide)⟩

/-! ## Reading records -/

theorem toLE_length (k n : Nat) : (toLE k n).length = k := by
  induction k generalizing n with
  | zero => rfl
  | succ k ih => simp [toLE, ih]

theorem fromLE_toLE (k : Nat) : ∀ n, n < 256 ^ k → fromLE (toLE k n) = n := by
  induction k with
  | zero => intro n h; simp at h; subst h; rfl
  | succ k ih =>
    intro n h
    have h2 : n / 256 < 256 ^ k := by
      rw [Nat.div_lt_iff_lt_mul (by norm_num)]
      rw [pow_succ] at h; exact h
    simp only [toLE, fromLE, ih _ h2]
    omega

theorem overwrite_full {old got : List Nat} (h : old.length ≤ got.length) :
    overwrite old got = got := by
  unfold overwrite
  rw [List.drop_of_length_le h, List.append_nil]

theorem read_positioned (pre x rest : List Nat) {n : Nat} (hx : x.length = n) :
    (IFStream.positioned pre (x ++ rest)).read n =
      (x, IFStream.positioned (pre ++ x) rest) := by
  subst hx
  simp [IFStream.read, IFStream.positioned, IFStream.good, List.take_left']

theorem resize_length (v : List Nat) (n : Nat) : (resize v n).length = n := by
  simp [resize]; omega

theorem and_bit63_of_lt {x : Nat} (h : x < 2 ^ 63) : x &&& 2 ^ 63 = 0 := by
  apply Nat.eq_of_testBit_eq
  intro i
  rw [Nat.testBit_and, Nat.testBit_two_pow, Nat.zero_testBit]
  by_cases hi : 63 = i
  · subst hi; rw [Nat.testBit_lt_two_pow h]; rfl
  · simp [hi]

theorem split4 (a b c d : List Nat) (ha : a.length = 8) (hb : b.length = 8)
    (hc : c.length = 4) (hd : d.length = 4) :
    (a ++ b ++ c ++ d).take 8 = a ∧ ((a ++ b ++ c ++ d).drop 8).take 8 = b ∧
    ((a ++ b ++ c ++ d).drop 16).take 4 = c ∧ ((a ++ b ++ c ++ d).drop 20).take 4 = d := by
  refine ⟨?_, ?_, ?_, ?_⟩
  · rw [List.append_assoc, List.append_assoc, List.take_left' ha]
  · rw [List.append_assoc, List.append_assoc, List.drop_left' ha, List.take_left' hb]
  · rw [List.append_assoc,
      List.drop_left' (by rw [List.length_append, ha, hb]), List.take_left' hc]
  · rw [List.drop_left' (by simp only [List.length_append, ha, hb, hc]), List.take_of_length_le (by omega)]

theorem read_next_pkt (r : Reader) (pre rest p : List Nat) (h : PktHdr)
    (hf : r.file_ = IFStream.positioned pre ((h.bytes ++ p) ++ rest)) (hn : r.native_ = 1)
    (hid : h.id < 2 ^ 63) (hsecs : h.secs < W64) (hfrac : h.frac < W64)
    (hlen : h.len < 2 ^ 32) (hcap : h.caplen < 2 ^ 32) (hp : p.length = h.caplen) :
    r.read_next =
      { r with file_ := IFStream.positioned (pre ++ (h.bytes ++ p)) rest,
               hdr_ := Hdr.pkt h, data_ := p } := by
  have hW : W64 = 256 ^ 8 := by norm_num [W64]
  have h32 : (2:Nat) ^ 32 = 256 ^ 4 := by norm_num
  have hcontent : (h.bytes ++ p) ++ rest =
      toLE 8 h.id ++ ((toLE 8 h.secs ++ toLE 8 h.frac ++ toLE 4 h.len ++ toLE 4 h.caplen) ++
        (p ++ rest)) := by
    simp only [PktHdr.bytes, List.append_assoc]
  have hr1 := read_positioned pre (toLE 8 h.id)
    ((toLE 8 h.secs ++ toLE 8 h.frac ++ toLE 4 h.len ++ toLE 4 h.caplen) ++ (p ++ rest))
    (toLE_length 8 h.id)
  have hr2 := read_positioned (pre ++ toLE 8 h.id)
    (toLE 8 h.secs ++ toLE 8 h.frac ++ toLE 4 h.len ++ toLE 4 h.caplen) (p ++ rest)
    (n := SIZEOF_PKTHDR - 8) (by simp [toLE_length, SIZEOF_PKTHDR])
  have hr3 := read_positioned
    (pre ++ toLE 8 h.id ++ (toLE 8 h.secs ++ toLE 8 h.frac ++ toLE 4 h.len ++ toLE 4 h.caplen))
    p rest (n := (resize r.data_ h.caplen).length) (by rw [resize_length, hp])
  obtain ⟨s1, s2, s3, s4⟩ := split4 (toLE 8 h.secs) (toLE 8 h.frac) (toLE 4 h.len)
    (toLE 4 h.caplen) (toLE_length _ _) (toLE_length _ _) (toLE_length _ _) (toLE_length _ _)
  have hid' : fromLE (toLE 8 h.id) = h.id := fromLE_toLE 8 _ (by rw [← hW]; unfold W64; omega)
  have hraw : overwrite (List.replicate (SIZEOF_PKTHDR - 8) 0)
      (toLE 8 h.secs ++ toLE 8 h.frac ++ toLE 4 h.len ++ toLE 4 h.caplen) =
      toLE 8 h.secs ++ toLE 8 h.frac ++ toLE 4 h.len ++ toLE 4 h.caplen :=
    overwrite_full (by simp [toLE_length, SIZEOF_PKTHDR])
  have hdata : overwrite (resize r.data_ h.caplen) p = p :=
    overwrite_full (by rw [resize_length, hp])
  unfold Reader.read_next
  rw [hf, hcontent]
  simp only [IFStream.eof, IFStream.positioned, Bool.false_eq_true, if_false]
  simp only [IFStream.positioned] at hr1 hr2 hr3
  rw [hr1]
  simp only [overwrite_full (show (toLE 8 0).length ≤ (toLE 8 h.id).length by simp [toLE_length]),
    hid', and_bit63_of_lt hid, Bool.false_eq_true, if_false, gt_iff_lt, lt_self_iff_false]
  rw [hr2]
  simp only [hraw, s1, s2, s3, s4, fromLE_toLE 8 _ (hW ▸ hsecs), fromLE_toLE 8 _ (hW ▸ hfrac),
    fromLE_toLE 4 _ (h32 ▸ hlen), fromLE_toLE 4 _ (h32 ▸ hcap)]
  rw [hr3]
  simp only [hdata, hn, one_ne_zero, if_false, List.append_assoc, PktHdr.bytes]

theorem or_bit63_and (x : Nat) : (x ||| 2 ^ 63) &&& 2 ^ 63 = 2 ^ 63 := by
  apply Nat.eq_of_testBit_eq
  intro i
  rw [Nat.testBit_and, Nat.testBit_or, Nat.testBit_two_pow]
  by_cases hi : 63 = i <;> simp [hi]

theorem or_bit63_clear {x : Nat} (h : x < 2 ^ 63) :
    (x ||| 2 ^ 63) &&& (W64 - 1 - 2 ^ 63) = x := by
  have : W64 - 1 - 2 ^ 63 = 2 ^ 63 - 1 := by norm_num [W64]
  rw [this, Nat.and_pow_two_sub_one_eq_mod, or_bit63_mod h]

theorem split5 (a b c d e : List Nat) (ha : a.length = 8) (hb : b.length = 8)
    (hc : c.length = 8) (hd : d.length = 8) (he : e.length = 8) :
    (a ++ b ++ c ++ d ++ e).take 8 = a ∧ ((a ++ b ++ c ++ d ++ e).drop 8).take 8 = b ∧
    ((a ++ b ++ c ++ d ++ e).drop 16).take 8 = c ∧
    ((a ++ b ++ c ++ d ++ e).drop 24).take 8 = d ∧
    ((a ++ b ++ c ++ d ++ e).drop 32).take 8 = e := by
  refine ⟨?_, ?_, ?_, ?_, ?_⟩
  · simp only [List.append_assoc]; rw [List.take_left' ha]
  · simp only [List.append_assoc]; rw [List.drop_left' ha, List.take_left' hb]
  · rw [List.append_assoc, List.append_assoc,
      List.drop_left' (by rw [List.length_append, ha, hb]), List.take_left' hc]
  · rw [List.append_assoc,
      List.drop_left' (by simp only [List.length_append, ha, hb, hc]), List.take_left' hd]
  · rw [List.drop_left' (by simp only [List.length_append, ha, hb, hc, hd]),
      List.take_of_length_le (by omega)]

theorem read_next_stat (r : Reader) (pre rest : List Nat) (h : StatHdr)
    (hf : r.file_ = IFStream.positioned pre ((Hdr.stat h).diskBytes ++ rest))
    (hn : r.native_ = 1)
    (hid : h.id < 2 ^ 63) (hsecs : h.secs < W64) (hfrac : h.frac < W64)
    (hrecv : h.recv < W64) (hifd : h.iface_drops < W64) (hosd : h.os_drops < W64) :
    r.read_next =
      { r with file_ := IFStream.positioned (pre ++ (Hdr.stat h).diskBytes) rest,
               hdr_ := Hdr.stat h } := by
  have hW : W64 = 256 ^ 8 := by norm_num [W64]
  have hcontent : (Hdr.stat h).diskBytes ++ rest =
      toLE 8 (h.id ||| 2 ^ 63) ++ ((toLE 8 h.secs ++ toLE 8 h.frac ++ toLE 8 h.recv ++
        toLE 8 h.iface_drops ++ toLE 8 h.os_drops) ++ rest) := by
    simp only [Hdr.diskBytes, StatHdr.bytes, List.append_assoc]
  have hr1 := read_positioned pre (toLE 8 (h.id ||| 2 ^ 63))
    ((toLE 8 h.secs ++ toLE 8 h.frac ++ toLE 8 h.recv ++
        toLE 8 h.iface_drops ++ toLE 8 h.os_drops) ++ rest)
    (toLE_length 8 _)
  have hr2 := read_positioned (pre ++ toLE 8 (h.id ||| 2 ^ 63))
    (toLE 8 h.secs ++ toLE 8 h.frac ++ toLE 8 h.recv ++
        toLE 8 h.iface_drops ++ toLE 8 h.os_drops) rest
    (n := SIZEOF_STATHDR - 8) (by simp [toLE_length, SIZEOF_STATHDR])
  obtain ⟨s1, s2, s3, s4, s5⟩ := split5 (toLE 8 h.secs) (toLE 8 h.frac) (toLE 8 h.recv)
    (toLE 8 h.iface_drops) (toLE 8 h.os_drops) (toLE_length _ _) (toLE_length _ _)
    (toLE_length _ _) (toLE_length _ _) (toLE_length _ _)
  have hid' : fromLE (toLE 8 (h.id ||| 2 ^ 63)) = h.id ||| 2 ^ 63 :=
    fromLE_toLE 8 _ (by rw [or_bit63 hid]; norm_num; omega)
  have hraw : overwrite (List.replicate (SIZEOF_STATHDR - 8) 0)
      (toLE 8 h.secs ++ toLE 8 h.frac ++ toLE 8 h.recv ++
        toLE 8 h.iface_drops ++ toLE 8 h.os_drops) =
      toLE 8 h.secs ++ toLE 8 h.frac ++ toLE 8 h.recv ++
        toLE 8 h.iface_drops ++ toLE 8 h.os_drops :=
    overwrite_full (by simp [toLE_length, SIZEOF_STATHDR])
  unfold Reader.read_next
  rw [hf, hcontent]
  simp only [IFStream.eof, IFStream.positioned, Bool.false_eq_true, if_false]
  simp only [IFStream.positioned] at hr1 hr2
  rw [hr1]
  simp only [overwrite_full (show (toLE 8 0).length ≤ (toLE 8 (h.id ||| 2 ^ 63)).length by
      simp [toLE_length]),
    hid', or_bit63_and, or_bit63_clear hid, Bool.false_eq_true, if_false, gt_iff_lt,
    show (0:Nat) < 2 ^ 63 by norm_num, if_true]
  rw [hr2]
  simp only [hraw, s1, s2, s3, s4, s5, fromLE_toLE 8 _ (hW ▸ hsecs),
    fromLE_toLE 8 _ (hW ▸ hfrac), fromLE_toLE 8 _ (hW ▸ hrecv), fromLE_toLE 8 _ (hW ▸ hifd),
    fromLE_toLE 8 _ (hW ▸ hosd)]
  simp only [hn, one_ne_zero, if_false, List.append_assoc, Hdr.diskBytes, StatHdr.bytes]

theorem read_next_at_end (r : Reader) (pre : List Nat)
    (hf : r.file_ = IFStream.positioned pre []) :
    r.read_next.done_ = true := by
  unfold Reader.read_next
  rw [hf]
  simp [IFStream.eof, IFStream.positioned, IFStream.read, IFStream.good]

theorem holds_advance (r : Reader) (e : Entry) (rest : List Entry) (d : List Nat)
    (h : r.Holds (e :: rest)) (hwf : ∀ e' ∈ rest, e'.wf = true) :
    (({ r with data_ := d } : Reader).read_next).Holds rest := by
  obtain ⟨hd, -, -, hn, pre, hf⟩ := h
  cases rest with
  | nil =>
    left
    exact read_next_at_end _ pre hf
  | cons e' rest' =>
    have hw := hwf e' (List.mem_cons_self _ _)
    have hfl : ((e' :: rest').map Entry.bytes).flatten =
        e'.bytes ++ (rest'.map Entry.bytes).flatten := by
      simp only [List.map_cons, List.flatten_cons]
    rw [hfl] at hf
    obtain ⟨hdr, payload⟩ := e'
    cases hdr with
    | pkt ph =>
      simp only [Entry.wf, Bool.and_eq_true, decide_eq_true_eq] at hw
      obtain ⟨⟨⟨⟨⟨h1, h2⟩, h3⟩, h4⟩, h5⟩, h6⟩ := hw
      cases payload with
      | none => simp at h6
      | some p =>
        simp only [Option.map_some', Option.some.injEq] at h6
        have := read_next_pkt ({ r with data_ := d } : Reader) pre
          ((rest'.map Entry.bytes).flatten) p ph
          (by simpa [Entry.bytes, Hdr.diskBytes] using hf) hn h1 h2 h3 h4 h5 h6
        rw [this]
        refine ⟨hd, rfl, fun _ => rfl, hn, pre ++ (ph.bytes ++ p), rfl⟩
    | stat sh =>
      simp only [Entry.wf, Bool.and_eq_true, decide_eq_true_eq] at hw
      obtain ⟨⟨⟨⟨⟨⟨h1, h2⟩, h3⟩, h4⟩, h5⟩, h6⟩, h7⟩ := hw
      subst h7
      have := read_next_stat ({ r with data_ := d } : Reader) pre
        ((rest'.map Entry.bytes).flatten) sh
        (by simpa [Entry.bytes] using hf) hn h1 h2 h3 h4 h5 h6
      rw [this]
      refine ⟨hd, rfl, fun h => by simp [Hdr.visit] at h, hn, pre ++ (Hdr.stat sh).diskBytes, rfl⟩

theorem holds_advance_not_stuck (r : Reader) (e : Entry) (rest : List Entry) (d : List Nat)
    (h : r.Holds (e :: rest)) (hwf : ∀ e' ∈ rest, e'.wf = true)
    (hpos : ∀ e' ∈ rest, 1 ≤ e'.id) :
    (({ r with data_ := d } : Reader).read_next).done_ = true ∨
      (({ r with data_ := d } : Reader).read_next).hdr_.visit.1 ≠ 0 := by
  have h' := holds_advance r e rest d h hwf
  cases rest with
  | nil =>
    left
    obtain ⟨-, -, -, -, pre, hf⟩ := h
    exact read_next_at_end _ pre hf
  | cons e' rest' =>
    right
    obtain ⟨-, h2, -⟩ := h'
    rw [h2]
    have := hpos e' (List.mem_cons_self _ _)
    unfold Entry.id at this
    omega

theorem entry_eq_of_holds (r : Reader) (e : Entry) (rest : List Entry) (data : List Nat)
    (h : r.Holds (e :: rest)) (hwf : e.wf = true) :
    (⟨e.hdr, if e.hdr.visit.2 = true then
      some (if r.hdr_.visit.2 = true then r.data_ else data) else none⟩ : Entry) = e := by
  obtain ⟨-, h2, h3, -⟩ := h
  obtain ⟨hdr, payload⟩ := e
  cases hdr with
  | pkt ph =>
    have := h3 rfl
    simp only at this h2
    simp [Hdr.visit, this, h2]
  | stat sh =>
    simp only [Entry.wf, Bool.and_eq_true, decide_eq_true_eq] at hwf
    simp [Hdr.visit, hwf.2]

theorem scan_some (k : Nat) (data : List Nat) (hk : 1 ≤ k) (readers : List Reader)
    (shards : List (List Entry)) (hh : List.Forall₂ Reader.Holds readers shards) :
    ∀ (dc : Nat) (e : Entry) (shards' : List (List Entry)),
    (∀ s ∈ shards, ∀ e ∈ s, e.wf = true) →
    popId k shards = some (e, shards') →
    ∃ readers' data1, ReaderSet.scan k data readers dc = Sum.inl (e.hdr, readers', data1) ∧
      List.Forall₂ Reader.Holds readers' shards' ∧
      (⟨e.hdr, if e.hdr.visit.2 = true then some data1 else none⟩ : Entry) = e ∧
      (NoStuck readers → (∀ s ∈ shards, ∀ e ∈ s, 1 ≤ e.id) → NoStuck readers') := by
  induction hh with
  | nil => intro dc e shards' _ h; simp [popId] at h
  | @cons r s rs ss hr hrest ih =>
    intro dc e shards' hwf hpop
    have hwf' : ∀ s ∈ ss, ∀ e ∈ s, e.wf = true :=
      fun s hs => hwf s (List.mem_cons_of_mem _ hs)
    cases s with
    | nil =>
      simp only [popId, Option.map_eq_some', Prod.mk.injEq] at hpop
      obtain ⟨p, hp, hp1, hp2⟩ := hpop
      obtain ⟨readers', data1, h1, h2, h3, h4⟩ := ih (dc + (if r.done_ then 1 else 0)) p.1 p.2
        hwf' (by rw [hp])
      subst hp1 hp2
      refine ⟨r :: readers', data1, ?_, List.Forall₂.cons hr h2, h3, ?_⟩
      · by_cases hd : r.done_ = true
        · simp only [hd, if_true] at h1
          simp only [ReaderSet.scan, hd, Bool.not_true, Bool.false_eq_true, if_false, h1]
        · simp only [Bool.not_eq_true] at hd
          have hid : r.hdr_.visit.1 ≠ k := by
            cases hr with
            | inl h => rw [hd] at h; cases h
            | inr h => rw [h]; omega
          simp only [hd, Bool.false_eq_true, if_false, Nat.add_zero] at h1
          simp only [ReaderSet.scan, hd, Bool.not_false, if_true, hid, if_false, h1]
      · intro hns hpos r' hr'
        rcases List.mem_cons.mp hr' with rfl | hmem
        · exact hns _ (List.mem_cons_self _ _)
        · exact h4 (fun x hx => hns x (List.mem_cons_of_mem _ hx))
            (fun s hs => hpos s (List.mem_cons_of_mem _ hs)) r' hmem
    | cons e0 es =>
      have hr' := hr
      obtain ⟨hd, hhdr, -, -, -⟩ := hr
      by_cases hid : e0.id = k
      · simp only [popId, hid, if_true, Option.some.injEq, Prod.mk.injEq] at hpop
        obtain ⟨rfl, rfl⟩ := hpop
        have hwf0 : ∀ e' ∈ es, e'.wf = true :=
          fun e' he' => hwf _ (List.mem_cons_self _ _) e' (List.mem_cons_of_mem _ he')
        refine ⟨_, _, ?_, List.Forall₂.cons (holds_advance r e0 es
          (if r.hdr_.visit.2 = true then data else r.data_) hr' hwf0) hrest,
          entry_eq_of_holds r e0 es data hr'
            (hwf _ (List.mem_cons_self _ _) e0 (List.mem_cons_self _ _)), ?_⟩
        · have hid' : r.hdr_.visit.1 = k := by rw [hhdr]; exact hid
          simp only [ReaderSet.scan, hd, Bool.not_false, if_true, hid']
          rw [hhdr]
        · intro hns hpos r' hr''
          rcases List.mem_cons.mp hr'' with rfl | hmem
          · exact holds_advance_not_stuck r e0 es _ hr' hwf0
              (fun e' he' => hpos _ (List.mem_cons_self _ _) e' (List.mem_cons_of_mem _ he'))
          · exact hns r' (List.mem_cons_of_mem _ hmem)
      · simp only [popId, hid, if_false, Option.map_eq_some', Prod.mk.injEq] at hpop
        obtain ⟨p, hp, hp1, hp2⟩ := hpop
        obtain ⟨readers', data1, h1, h2, h3, h4⟩ := ih dc p.1 p.2 hwf' (by rw [hp])
        subst hp1 hp2
        refine ⟨r :: readers', data1, ?_, List.Forall₂.cons hr' h2, h3, ?_⟩
        · have hid' : r.hdr_.visit.1 ≠ k := by rw [hhdr]; exact hid
          simp only [ReaderSet.scan, hd, Bool.not_false, if_true, hid', if_false, h1]
        · intro hns hpos r' hr''
          rcases List.mem_cons.mp hr'' with rfl | hmem
          · exact hns _ (List.mem_cons_self _ _)
          · exact h4 (fun x hx => hns x (List.mem_cons_of_mem _ hx))
              (fun s hs => hpos s (List.mem_cons_of_mem _ hs)) r' hmem

theorem scan_none (k : Nat) (data : List Nat) (hk : 1 ≤ k) (readers : List Reader)
    (shards : List (List Entry)) (hh : List.Forall₂ Reader.Holds readers shards) :
    ∀ (dc : Nat), popId k shards = none →
    ReaderSet.scan k data readers dc =
      Sum.inr (dc + (readers.filter (fun r => r.done_)).length) := by
  intro dc hpop
  apply scan_of_no_match
  clear dc
  induction hh with
  | nil => intro r hr; cases hr
  | @cons r s rs ss hr hrest ih =>
    cases s with
    | nil =>
      simp only [popId, Option.map_eq_none'] at hpop
      intro r' hr'
      rcases List.mem_cons.mp hr' with rfl | hmem
      · cases hr with
        | inl h => exact Or.inl h
        | inr h => right; rw [h]; omega
      · exact ih hpop r' hmem
    | cons e0 es =>
      obtain ⟨hd, hhdr, -, -, -⟩ := hr
      by_cases hid : e0.id = k
      · simp [popId, hid] at hpop
      · simp only [popId, hid, if_false, Option.map_eq_none'] at hpop
        intro r' hr'
        rcases List.mem_cons.mp hr' with rfl | hmem
        · right; rw [hhdr]; exact hid
        · exact ih hpop r' hmem

theorem popId_decomp (k : Nat) : ∀ (shards : List (List Entry)) (e : Entry)
    (shards' : List (List Entry)), popId k shards = some (e, shards') →
    ∃ pre es post, shards = pre ++ (e :: es) :: post ∧ shards' = pre ++ es :: post ∧
      e.id = k := by
  intro shards
  induction shards with
  | nil => intro e shards' h; simp [popId] at h
  | cons s ss ih =>
    intro e shards' h
    cases s with
    | nil =>
      simp only [popId, Option.map_eq_some', Prod.mk.injEq] at h
      obtain ⟨p, hp, rfl, rfl⟩ := h
      obtain ⟨pre, es, post, h1, h2, h3⟩ := ih p.1 p.2 (by rw [hp])
      exact ⟨[] :: pre, es, post, by rw [h1]; rfl, by rw [h2]; rfl, h3⟩
    | cons e0 es0 =>
      by_cases hid : e0.id = k
      · simp only [popId, hid, if_true, Option.some.injEq, Prod.mk.injEq] at h
        obtain ⟨rfl, rfl⟩ := h
        exact ⟨[], es0, ss, rfl, rfl, hid⟩
      · simp only [popId, hid, if_false, Option.map_eq_some', Prod.mk.injEq] at h
        obtain ⟨p, hp, rfl, rfl⟩ := h
        obtain ⟨pre, es, post, h1, h2, h3⟩ := ih p.1 p.2 (by rw [hp])
        exact ⟨(e0 :: es0) :: pre, es, post, by rw [h1]; rfl, by rw [h2]; rfl, h3⟩

theorem popId_isSome_of_mem (k : Nat) : ∀ (shards : List (List Entry)),
    (∀ s ∈ shards, s.Pairwise (fun a b => a.id < b.id)) →
    (∀ e ∈ shards.flatten, k ≤ e.id) →
    ∀ e ∈ shards.flatten, e.id = k → popId k shards ≠ none := by
  intro shards
  induction shards with
  | nil => intro _ _ e he; cases he
  | cons s ss ih =>
    intro hs hl e he hid
    have ih' := ih (fun s' hs' => hs s' (List.mem_cons_of_mem _ hs'))
      (fun e' he' => hl e' (by
        rw [List.flatten_cons]; exact List.mem_append_right _ he'))
    rw [List.flatten_cons, List.mem_append] at he
    cases s with
    | nil =>
      rcases he with he | he
      · cases he
      · have := ih' e he hid
        simp only [popId, ne_eq, Option.map_eq_none']
        exact this
    | cons e0 es0 =>
      by_cases h0 : e0.id = k
      · simp [popId, h0]
      · simp only [popId, h0, if_false, ne_eq, Option.map_eq_none']
        rcases he with he | he
        · exfalso
          rcases List.mem_cons.mp he with rfl | he'
          · exact h0 hid
          · have hlt := List.rel_of_pairwise_cons (hs _ (List.mem_cons_self _ _)) he'
            have hge := hl e0 (by
              rw [List.flatten_cons]
              exact List.mem_append_left _ (List.mem_cons_self _ _))
            omega
        · exact ih' e he hid

theorem shardsOk_pop {k : Nat} {shards shards' : List (List Entry)} {e : Entry}
    (hok : ShardsOk k shards) (hpop : popId k shards = some (e, shards')) :
    e.id = k ∧ List.Perm shards.flatten (e :: shards'.flatten) ∧ ShardsOk (k + 1) shards' := by
  obtain ⟨pre, es, post, h1, h2, h3⟩ := popId_decomp k shards e shards' hpop
  have hperm : List.Perm shards.flatten (e :: shards'.flatten) := by
    rw [h1, h2]
    simp only [List.flatten_append, List.flatten_cons, List.cons_append]
    exact List.perm_middle
  have hmem : ∀ s ∈ shards', s ∈ shards ∨ s = es := by
    intro s hs
    rw [h2, List.mem_append, List.mem_cons] at hs
    rw [h1, List.mem_append, List.mem_cons]
    rcases hs with hs | hs | hs
    · exact Or.inl (Or.inl hs)
    · exact Or.inr hs
    · exact Or.inl (Or.inr (Or.inr hs))
  have hes : e :: es ∈ shards := by rw [h1]; simp
  have hnd := (List.Perm.nodup_iff (hperm.map Entry.id)).mp hok.nodup
  rw [List.map_cons, List.nodup_cons] at hnd
  refine ⟨h3, hperm, ?_, ?_, hnd.2, ?_⟩
  · intro s hs e' he'
    rcases hmem s hs with h | rfl
    · exact hok.wf s h e' he'
    · exact hok.wf _ hes e' (List.mem_cons_of_mem _ he')
  · intro s hs
    rcases hmem s hs with h | rfl
    · exact hok.sorted s h
    · exact (List.pairwise_cons.mp (hok.sorted _ hes)).2
  · intro e' he'
    have h1' : k ≤ e'.id := hok.lower e' (hperm.symm.subset (List.mem_cons_of_mem _ he'))
    have h2' : e'.id ≠ e.id := by
      intro heq
      exact hnd.1 (heq ▸ List.mem_map_of_mem Entry.id he')
    omega

theorem shardsOk_skip {k : Nat} {shards : List (List Entry)}
    (hok : ShardsOk k shards) (hpop : popId k shards = none) : ShardsOk (k + 1) shards := by
  refine ⟨hok.wf, hok.sorted, hok.nodup, ?_⟩
  intro e he
  have h1 := hok.lower e he
  have h2 : e.id ≠ k := fun h =>
    popId_isSome_of_mem k shards hok.sorted hok.lower e he h hpop
  omega

theorem exists_not_done (readers : List Reader) (shards : List (List Entry))
    (hh : List.Forall₂ Reader.Holds readers shards) :
    (∃ e, e ∈ shards.flatten) →
    (readers.filter (fun r => r.done_)).length ≠ readers.length := by
  induction hh with
  | nil => rintro ⟨e, he⟩; cases he
  | @cons r s rs ss hr hrest ih =>
    rintro ⟨e, he⟩
    rw [List.flatten_cons, List.mem_append] at he
    have hle : (rs.filter (fun r => r.done_)).length ≤ rs.length := List.length_filter_le _ _
    by_cases hd : r.done_ = true
    · have hf : List.filter (fun r => r.done_) (r :: rs) =
          r :: List.filter (fun r => r.done_) rs := List.filter_cons_of_pos hd
      rw [hf, List.length_cons, List.length_cons]
      rcases he with he | he
      · cases s with
        | nil => cases he
        | cons e0 es => rw [hr.1] at hd; cases hd
      · have := ih ⟨e, he⟩
        omega
    · have hf : List.filter (fun r => r.done_) (r :: rs) =
          List.filter (fun r => r.done_) rs := List.filter_cons_of_neg hd
      rw [hf, List.length_cons]
      omega

theorem all_done_of_empty (readers : List Reader) (shards : List (List Entry))
    (hh : List.Forall₂ Reader.Holds readers shards) (hempty : shards.flatten = [])
    (hns : NoStuck readers) :
    (readers.filter (fun r => r.done_)).length = readers.length := by
  induction hh with
  | nil => rfl
  | @cons r s rs ss hr hrest ih =>
    rw [List.flatten_cons, List.append_eq_nil] at hempty
    have hd : r.done_ = true := by
      rcases hns r (List.mem_cons_self _ _) with h | h
      · exact h
      · rw [hempty.1] at hr
        rcases hr with h' | h'
        · exact h'
        · exact absurd h' h
    have hf : List.filter (fun r => r.done_) (r :: rs) =
        r :: List.filter (fun r => r.done_) rs := List.filter_cons_of_pos hd
    rw [hf, List.length_cons, List.length_cons,
      ih hempty.2 (fun x hx => hns x (List.mem_cons_of_mem _ hx))]

theorem entry_id_lt_of_wf {e : Entry} (h : e.wf = true) : e.id < 2 ^ 63 := by
  obtain ⟨hdr, payload⟩ := e
  cases hdr with
  | pkt ph =>
    simp only [Entry.wf, Bool.and_eq_true, decide_eq_true_eq] at h
    exact h.1.1.1.1.1
  | stat sh =>
    simp only [Entry.wf, Bool.and_eq_true, decide_eq_true_eq] at h
    exact h.1.1.1.1.1.1

theorem mem_shard_of_mem_flatten {shards : List (List Entry)} {e : Entry}
    (he : e ∈ shards.flatten) : ∃ s ∈ shards, e ∈ s := List.mem_flatten.mp he

theorem next_spec (fuel : Nat) : ∀ (rs : ReaderSet) (data : List Nat)
    (shards : List (List Entry)) (e0 : Entry),
    List.Forall₂ Reader.Holds rs.readers_ shards → ShardsOk rs.next_ shards → 1 ≤ rs.next_ →
    e0 ∈ shards.flatten → e0.id < rs.next_ + fuel →
    ∃ e shards' rs' data', rs.next fuel data = some (some e.hdr, rs', data') ∧
      List.Perm shards.flatten (e :: shards'.flatten) ∧
      List.Forall₂ Reader.Holds rs'.readers_ shards' ∧ ShardsOk rs'.next_ shards' ∧
      rs'.next_ = e.id + 1 ∧ rs.next_ ≤ e.id ∧
      (⟨e.hdr, if e.hdr.visit.2 = true then some data' else none⟩ : Entry) = e ∧
      (NoStuck rs.readers_ → NoStuck rs'.readers_) := by
  induction fuel with
  | zero =>
    intro rs data shards e0 _ hok _ he0 hlt
    have := hok.lower e0 he0
    omega
  | succ fuel ih =>
    intro rs data shards e0 hh hok hk he0 hlt
    have hW : W64 = 18446744073709551616 := W64_val
    have h63 : (2:Nat) ^ 63 = 9223372036854775808 := by norm_num
    have hid0 : e0.id < 2 ^ 63 := by
      obtain ⟨s, hs, hes⟩ := mem_shard_of_mem_flatten he0
      exact entry_id_lt_of_wf (hok.wf s hs e0 hes)
    have hlow := hok.lower e0 he0
    have hmod : (rs.next_ + 1) % W64 = rs.next_ + 1 := Nat.mod_eq_of_lt (by omega)
    cases hpop : popId rs.next_ shards with
    | some p =>
      obtain ⟨e, shards'⟩ := p
      obtain ⟨readers', data1, h1, h2, h3, h4⟩ :=
        scan_some rs.next_ data hk rs.readers_ shards hh 0 e shards' hok.wf hpop
      obtain ⟨hid, hperm, hok'⟩ := shardsOk_pop hok hpop
      refine ⟨e, shards', { rs with readers_ := readers', next_ := (rs.next_ + 1) % W64 },
        data1, ?_, hperm, h2, ?_, ?_, ?_, h3, ?_⟩
      · simp only [ReaderSet.next, h1]
      · show ShardsOk ((rs.next_ + 1) % W64) shards'
        rw [hmod]; exact hok'
      · show (rs.next_ + 1) % W64 = e.id + 1
        rw [hmod, hid]
      · omega
      · intro hns
        exact h4 hns (fun s hs e' he' => by
          have := hok.lower e' (List.mem_flatten.mpr ⟨s, hs, he'⟩)
          omega)
    | none =>
      have hscan := scan_none rs.next_ data hk rs.readers_ shards hh 0 hpop
      rw [Nat.zero_add] at hscan
      have hnd := exists_not_done rs.readers_ shards hh ⟨e0, he0⟩
      have hne : e0.id ≠ rs.next_ := fun h =>
        popId_isSome_of_mem rs.next_ shards hok.sorted hok.lower e0 he0 h hpop
      obtain ⟨e, shards', rs', data', h1, h2, h3, h4, h5, h6, h7, h8⟩ :=
        ih { rs with warnings_ := rs.warnings_ ++ [rs.next_], next_ := (rs.next_ + 1) % W64 }
          data shards e0 hh
          (by show ShardsOk ((rs.next_ + 1) % W64) shards
              rw [hmod]; exact shardsOk_skip hok hpop)
          (by show 1 ≤ (rs.next_ + 1) % W64; omega)
          he0
          (by show e0.id < (rs.next_ + 1) % W64 + fuel; omega)
      refine ⟨e, shards', rs', data', ?_, h2, h3, h4, h5, ?_, h7, h8⟩
      · simp only [ReaderSet.next, hscan, hnd, if_false]
        exact h1
      · have : (rs.next_ + 1) % W64 ≤ e.id := h6
        omega

theorem drain_spec (fuel : Nat) : ∀ (n : Nat) (rs : ReaderSet) (data : List Nat)
    (shards : List (List Entry)),
    shards.flatten.length = n → List.Forall₂ Reader.Holds rs.readers_ shards →
    ShardsOk rs.next_ shards → 1 ≤ rs.next_ → (∀ e ∈ shards.flatten, e.id < fuel) →
    ∃ L, drain fuel n rs data = some (L, false) ∧ List.Perm L shards.flatten ∧
      L.Pairwise (fun a b => a.id < b.id) ∧ (∀ e ∈ L, rs.next_ ≤ e.id) ∧
      (NoStuck rs.readers_ → 1 ≤ fuel → drain fuel (n + 1) rs data = some (L, true)) := by
  intro n
  induction n with
  | zero =>
    intro rs data shards hlen hh hok hk _
    have hempty : shards.flatten = [] := List.length_eq_zero.mp hlen
    refine ⟨[], rfl, by rw [hempty], List.Pairwise.nil, fun e he => (by cases he), ?_⟩
    intro hns hf
    obtain ⟨f, rfl⟩ : ∃ f, fuel = f + 1 := ⟨fuel - 1, by omega⟩
    have hpop : popId rs.next_ shards = none := by
      cases h : popId rs.next_ shards with
      | none => rfl
      | some p =>
        obtain ⟨e, shards'⟩ := p
        have := (shardsOk_pop hok h).2.1
        rw [hempty] at this
        exact absurd this.length_eq (by simp)
    have hscan := scan_none rs.next_ data hk rs.readers_ shards hh 0 hpop
    rw [Nat.zero_add] at hscan
    have hall := all_done_of_empty rs.readers_ shards hh hempty hns
    simp only [drain, ReaderSet.next, hscan, hall, if_true]
  | succ n ih =>
    intro rs data shards hlen hh hok hk hfuel
    obtain ⟨e0, he0⟩ : ∃ e0, e0 ∈ shards.flatten := by
      cases hfl : shards.flatten with
      | nil => rw [hfl] at hlen; cases hlen
      | cons a l => exact ⟨a, List.mem_cons_self _ _⟩
    obtain ⟨e, shards', rs', data', h1, h2, h3, h4, h5, h6, h7, h8⟩ :=
      next_spec fuel rs data shards e0 hh hok hk he0 (by have := hfuel e0 he0; omega)
    have hlen' : shards'.flatten.length = n := by
      have := h2.length_eq
      rw [hlen, List.length_cons] at this
      omega
    obtain ⟨L, g1, g2, g3, g4, g5⟩ := ih rs' data' shards' hlen' h3 h4 (by omega)
      (fun e' he' => hfuel e' (h2.symm.subset (List.mem_cons_of_mem _ he')))
    refine ⟨e :: L, ?_, ?_, ?_, ?_, ?_⟩
    · rw [drain, h1]
      simp only [g1, h7]
    · exact (List.Perm.cons e g2).trans h2.symm
    · refine List.Pairwise.cons ?_ g3
      intro e' he'
      have := g4 e' he'
      omega
    · intro e' he'
      rcases List.mem_cons.mp he' with rfl | hm
      · exact h6
      · have := g4 e' hm
        omega
    · intro hns hf
      rw [drain, h1]
      simp only [g5 (h8 hns) hf, h7]

/-- The record of an entry starts with the 8 bytes of its stored entry ID,
which is not 0. -/
theorem entry_bytes_split (e : Entry) (hwf : e.wf = true) (hpos : 1 ≤ e.id) :
    ∃ d tail, e.bytes = toLE 8 d ++ tail ∧ d < W64 ∧ d ≠ 0 := by
  have hW : W64 = 18446744073709551616 := W64_val
  have h63 : (2:Nat) ^ 63 = 9223372036854775808 := by norm_num
  have hid := entry_id_lt_of_wf hwf
  obtain ⟨hdr, payload⟩ := e
  cases hdr with
  | pkt ph =>
    refine ⟨ph.id, toLE 8 ph.secs ++ toLE 8 ph.frac ++ toLE 4 ph.len ++ toLE 4 ph.caplen ++
      payload.getD [], ?_, ?_, ?_⟩
    · simp only [Entry.bytes, Hdr.diskBytes, PktHdr.bytes, List.append_assoc]
    · have : ph.id < 2 ^ 63 := hid
      omega
    · have : 1 ≤ ph.id := hpos
      omega
  | stat sh =>
    have h1 : sh.id < 2 ^ 63 := hid
    refine ⟨sh.id ||| 2 ^ 63, toLE 8 sh.secs ++ toLE 8 sh.frac ++ toLE 8 sh.recv ++
      toLE 8 sh.iface_drops ++ toLE 8 sh.os_drops ++ payload.getD [], ?_, ?_, ?_⟩
    · simp only [Entry.bytes, Hdr.diskBytes, StatHdr.bytes, List.append_assoc]
    · rw [or_bit63 h1]; omega
    · rw [or_bit63 h1]; omega

theorem ofFile_eq_positioned (content : List Nat) :
    IFStream.ofFile content = IFStream.positioned [] content := rfl

theorem positioned_nil_append (pre rest : List Nat) :
    IFStream.positioned ([] ++ pre) rest = IFStream.positioned pre rest := rfl

theorem seekg_back (pre x rest : List Nat) :
    (IFStream.positioned (pre ++ x) rest).seekg_cur (-(x.length : Int)) =
      IFStream.positioned pre (x ++ rest) := by
  simp [IFStream.positioned, IFStream.seekg_cur]

theorem reader_new_nonempty (e : Entry) (rest : List Entry) (hwf : e.wf = true)
    (hpos : 1 ≤ e.id) :
    Reader.new (shardFile [] (e :: rest)) =
      { file_ := IFStream.positioned (toLE 4 MAGIC) ((e :: rest).map Entry.bytes).flatten,
        hdr_ := Hdr.pkt ⟨0, 0, 0, 0, 0⟩, data_ := [], native_ := 1, has_lead_ := false,
        done_ := false } := by
  obtain ⟨d, tail, hb, hd, hd0⟩ := entry_bytes_split e hwf hpos
  have hW : W64 = 256 ^ 8 := by norm_num [W64]
  have hfile : shardFile [] (e :: rest) =
      toLE 4 MAGIC ++ (toLE 8 d ++ (tail ++ (rest.map Entry.bytes).flatten)) := by
    unfold shardFile
    rw [List.map_cons, List.flatten_cons, hb, List.append_nil, List.append_assoc]
  have hfl : ((e :: rest).map Entry.bytes).flatten =
      toLE 8 d ++ (tail ++ (rest.map Entry.bytes).flatten) := by
    rw [List.map_cons, List.flatten_cons, hb, List.append_assoc]
  have hr1 := read_positioned [] (toLE 4 MAGIC)
    (toLE 8 d ++ (tail ++ (rest.map Entry.bytes).flatten)) (n := 4) (toLE_length _ _)
  have hr2 := read_positioned (toLE 4 MAGIC) (toLE 8 d)
    (tail ++ (rest.map Entry.bytes).flatten) (n := 8) (toLE_length _ _)
  have hmagic : fromLE (overwrite (toLE 4 0) (toLE 4 MAGIC)) = NATIVE_MAGIC := by decide
  have hid : fromLE (overwrite (toLE 8 0) (toLE 8 d)) = d := by
    rw [overwrite_full (by simp [toLE_length]), fromLE_toLE 8 d (hW ▸ hd)]
  have hback := seekg_back (toLE 4 MAGIC) (toLE 8 d) (tail ++ (rest.map Entry.bytes).flatten)
  rw [toLE_length] at hback
  unfold Reader.new
  rw [hfile, hfl, ofFile_eq_positioned, hr1]
  simp only [hmagic, true_or, if_true]
  rw [positioned_nil_append, hr2]
  simp only [hid, hd0, decide_False]
  rw [show (-8 : Int) = -((8 : Nat) : Int) from rfl, hback]

theorem reader_opened_holds (es : List Entry) (hwf : ∀ e ∈ es, e.wf = true)
    (hpos : ∀ e ∈ es, 1 ≤ e.id) (hne : es ≠ []) :
    (Reader.new (shardFile [] es)).native_ = 1 ∧
    (Reader.new (shardFile [] es)).has_lead_ = false ∧
    (Reader.new (shardFile [] es)).read_next.Holds es := by
  cases es with
  | nil => exact absurd rfl hne
  | cons e rest =>
    have hnew := reader_new_nonempty e rest (hwf e (List.mem_cons_self _ _))
      (hpos e (List.mem_cons_self _ _))
    rw [hnew]
    refine ⟨rfl, rfl, ?_⟩
    have hdummy : Reader.Holds
        { file_ := IFStream.positioned (toLE 4 MAGIC) ((e :: rest).map Entry.bytes).flatten,
          hdr_ := Hdr.pkt ⟨0, 0, 0, 0, 0⟩, data_ := [], native_ := 1, has_lead_ := false,
          done_ := false }
        (⟨Hdr.pkt ⟨0, 0, 0, 0, 0⟩, some []⟩ :: e :: rest) :=
      ⟨rfl, rfl, fun _ => rfl, rfl, toLE 4 MAGIC, rfl⟩
    exact holds_advance _ _ (e :: rest) [] hdummy hwf

theorem read_failed (f : IFStream) (hf : f.failbit = true) (n : Nat) :
    f.read n = ([], f) := by
  cases f with
  | mk content pos eofbit failbit =>
    simp only at hf
    subst hf
    simp [IFStream.read, IFStream.good]

theorem getline_failed (f : IFStream) (hf : f.failbit = true) (s : List Nat) (d : Nat) :
    f.getline s d = (s, f) := by
  cases f with
  | mk content pos eofbit failbit =>
    simp only at hf
    subst hf
    simp [IFStream.getline, IFStream.good]

theorem tellg_failed (f : IFStream) (hf : f.failbit = true) : f.tellg = (-1, f) := by
  cases f with
  | mk content pos eofbit failbit =>
    simp only at hf
    subst hf
    simp [IFStream.tellg, IFStream.good]

theorem seekg_cur_failed (f : IFStream) (hf : f.failbit = true) (he : f.eofbit = false)
    (off : Int) : f.seekg_cur off = f := by
  cases f with
  | mk content pos eofbit failbit =>
    simp only at hf he
    subst hf he
    simp [IFStream.seekg_cur]

theorem seekg_failed (f : IFStream) (hf : f.failbit = true) (he : f.eofbit = false)
    (p : Int) : f.seekg p = f := by
  cases f with
  | mk content pos eofbit failbit =>
    simp only at hf he
    subst hf he
    simp [IFStream.seekg]

theorem read_lead_failed (rs : ReaderSet) (r : Reader) (hf : r.file_.failbit = true)
    (he : r.file_.eofbit = false) : (rs.read_lead r).2 = r := by
  have h0 : fromLE (overwrite (toLE 4 0) []) = 0 := by decide
  have h1 : fromLE (overwrite [0] []) = 0 := by decide
  have hb : byteswap 4 0 = 0 := by decide
  unfold ReaderSet.read_lead
  simp only [read_failed _ hf, getline_failed _ hf, tellg_failed _ hf, seekg_cur_failed _ hf he,
    seekg_failed _ hf he, h0, h1, hb, ite_self, readIPv4s, readIPv6s, ne_eq, not_true_eq_false,
    if_false]

theorem reader_opened_empty (rs : ReaderSet) :
    (Reader.new (shardFile [] [])).native_ = 1 ∧
    (Reader.new (shardFile [] [])).has_lead_ = true ∧
    (rs.read_lead (Reader.new (shardFile [] []))).2 = Reader.new (shardFile [] []) ∧
    (Reader.new (shardFile [] [])).read_next.Holds [] := by
  refine ⟨by decide, by decide, read_lead_failed rs _ (by decide) (by decide),
    Or.inr (by decide)⟩

theorem opensTo_plain (es : List Entry) (hwf : ∀ e ∈ es, e.wf = true)
    (hpos : ∀ e ∈ es, 1 ≤ e.id) : OpensTo (shardFile [] es) es := by
  by_cases hne : es = []
  · subst hne
    refine ⟨by decide, fun rs => ?_⟩
    obtain ⟨-, h2, h3, h4⟩ := reader_opened_empty rs
    rw [h2, if_pos rfl, h3]
    exact h4
  · obtain ⟨h1, h2, h3⟩ := reader_opened_holds es hwf hpos hne
    refine ⟨by rw [h1]; decide, fun rs => ?_⟩
    rw [h2, if_neg (by decide)]
    exact h3

theorem openAll_spec (files : List (List Nat)) (shards : List (List Entry))
    (hopen : List.Forall₂ OpensTo files shards) : ∀ (rs : ReaderSet) (ok : Bool),
    (ReaderSet.openAll rs ok files).2 = ok ∧
    (ReaderSet.openAll rs ok files).1.next_ = rs.next_ ∧
    ∃ opened, (ReaderSet.openAll rs ok files).1.readers_ = rs.readers_ ++ opened ∧
      List.Forall₂ (fun r es => r.read_next.Holds es) opened shards := by
  induction hopen with
  | nil => intro rs ok; exact ⟨rfl, rfl, [], (List.append_nil _).symm, List.Forall₂.nil⟩
  | @cons file es files ss ho hrest ih =>
    intro rs ok
    obtain ⟨hn, hh⟩ := ho
    by_cases hl : (Reader.new file).has_lead_ = true
    · have hh' := hh rs
      rw [if_pos hl] at hh'
      obtain ⟨g1, g2, opened, g3, g4⟩ := ih
        { (rs.read_lead (Reader.new file)).1 with
          readers_ := rs.readers_ ++ [(rs.read_lead (Reader.new file)).2] } ok
      have hstep : ReaderSet.openAll rs ok (file :: files) =
          ReaderSet.openAll { (rs.read_lead (Reader.new file)).1 with
            readers_ := rs.readers_ ++ [(rs.read_lead (Reader.new file)).2] } ok files := by
        simp only [ReaderSet.openAll, hl, if_true]
        rw [if_neg hn]
      rw [hstep]
      refine ⟨g1, g2, (rs.read_lead (Reader.new file)).2 :: opened, ?_,
        List.Forall₂.cons hh' g4⟩
      rw [g3]
      simp only [List.append_assoc, List.singleton_append]
    · have hh' := hh rs
      rw [if_neg hl] at hh'
      obtain ⟨g1, g2, opened, g3, g4⟩ := ih
        { rs with readers_ := rs.readers_ ++ [Reader.new file] } ok
      have hstep : ReaderSet.openAll rs ok (file :: files) =
          ReaderSet.openAll { rs with readers_ := rs.readers_ ++ [Reader.new file] }
            ok files := by
        simp only [ReaderSet.openAll, hl, Bool.false_eq_true, if_false]
        rw [if_neg hn]
      rw [hstep]
      refine ⟨g1, g2, Reader.new file :: opened, ?_, List.Forall₂.cons hh' g4⟩
      rw [g3]
      simp only [List.append_assoc, List.singleton_append]

theorem noStuck_of_holds (readers : List Reader) (shards : List (List Entry))
    (hh : List.Forall₂ Reader.Holds readers shards) (hne : ∀ s ∈ shards, s ≠ [])
    (hpos : ∀ s ∈ shards, ∀ e ∈ s, 1 ≤ e.id) : NoStuck readers := by
  induction hh with
  | nil => intro r hr; cases hr
  | @cons r s rs ss hr hrest ih =>
    intro r' hr'
    rcases List.mem_cons.mp hr' with rfl | hm
    · cases s with
      | nil => exact absurd rfl (hne [] (List.mem_cons_self _ _))
      | cons e es =>
        right
        rw [hr.2.1]
        have := hpos _ (List.mem_cons_self _ _) e (List.mem_cons_self _ _)
        unfold Entry.id at this
        omega
    · exact ih (fun s hs => hne s (List.mem_cons_of_mem _ hs))
        (fun s hs => hpos s (List.mem_cons_of_mem _ hs)) r' hm

theorem eq_sortedUnion (shards : List (List Entry)) (L : List Entry)
    (hperm : List.Perm L shards.flatten) (hsorted : L.Pairwise (fun a b => a.id < b.id)) :
    L = sortedUnion shards := by
  have hnd : (L.map Entry.id).Nodup := by
    rw [List.Nodup, List.pairwise_map]
    exact hsorted.imp (fun h => Nat.ne_of_lt h)
  have hnd' : ((sortedUnion shards).map Entry.id).Nodup :=
    (List.Perm.nodup_iff ((hperm.trans (List.perm_insertionSort _ _).symm).map Entry.id)).mp hnd
  have htot : IsTotal Entry (fun a b => a.id ≤ b.id) := ⟨fun a b => Nat.le_total _ _⟩
  have htr : IsTrans Entry (fun a b => a.id ≤ b.id) := ⟨fun a b c => Nat.le_trans⟩
  have hs := List.sorted_insertionSort (fun a b : Entry => a.id ≤ b.id) shards.flatten
  have hs' : (sortedUnion shards).Pairwise (fun a b => a.id < b.id) := by
    rw [List.Nodup, List.pairwise_map] at hnd'
    exact (List.Pairwise.and hs hnd').imp (fun h => Nat.lt_of_le_of_ne h.1 h.2)
  have hanti : IsAntisymm Entry (fun a b => a.id < b.id) :=
    ⟨fun a b h1 h2 => absurd h1 (Nat.lt_asymm h2)⟩
  exact List.eq_of_perm_of_sorted (hperm.trans (List.perm_insertionSort _ _).symm) hsorted hs'

theorem merge_of_opensTo (files : List (List Nat)) (shards : List (List Entry)) (fuel : Nat)
    (hopen : List.Forall₂ OpensTo files shards) (hok : ShardsOk 1 shards)
    (hfuel : ∀ e ∈ shards.flatten, e.id < fuel) (hf : 0 < fuel) :
    merge fuel shards.flatten.length files = MergeResult.entries (sortedUnion shards) false ∧
    ((∀ s ∈ shards, s ≠ []) →
      merge fuel (shards.flatten.length + 1) files =
        MergeResult.entries (sortedUnion shards) true) := by
  obtain ⟨h1, h2, opened, h3, h4⟩ := openAll_spec files shards hopen (ReaderSet.init 0) true
  have hnew : ReaderSet.new 0 files =
      Except.ok { (ReaderSet.openAll (ReaderSet.init 0) true files).1 with
        readers_ := (ReaderSet.openAll (ReaderSet.init 0) true files).1.readers_.map
          Reader.read_next } := by
    unfold ReaderSet.new
    simp only [h1, Bool.not_true, Bool.false_eq_true, if_false]
  have hholds : List.Forall₂ Reader.Holds
      ((ReaderSet.openAll (ReaderSet.init 0) true files).1.readers_.map Reader.read_next)
      shards := by
    rw [h3]
    show List.Forall₂ Reader.Holds (([] ++ opened).map Reader.read_next) shards
    rw [List.nil_append, List.forall₂_map_left_iff]
    exact h4
  obtain ⟨L, g1, g2, g3, -, g5⟩ := drain_spec fuel shards.flatten.length
    { (ReaderSet.openAll (ReaderSet.init 0) true files).1 with
        readers_ := (ReaderSet.openAll (ReaderSet.init 0) true files).1.readers_.map
          Reader.read_next } [] shards rfl hholds
    (by show ShardsOk (ReaderSet.openAll (ReaderSet.init 0) true files).1.next_ shards
        rw [h2]; exact hok)
    (by show 1 ≤ (ReaderSet.openAll (ReaderSet.init 0) true files).1.next_
        rw [h2]; exact Nat.le_refl 1)
    hfuel
  have hL := eq_sortedUnion shards L g2 g3
  subst hL
  refine ⟨?_, ?_⟩
  · unfold merge
    rw [hnew]
    simp only [g1]
  · intro hne
    have hns := noStuck_of_holds _ shards hholds hne
      (fun s hs e he => hok.lower e (List.mem_flatten.mpr ⟨s, hs, he⟩))
    unfold merge
    rw [hnew]
    simp only [g5 hns hf]

theorem takeWhile_ne_append (s : List Nat) (d : Nat) (rest : List Nat) (hs : d ∉ s) :
    (s ++ d :: rest).takeWhile (fun c => c != d) = s := by
  induction s with
  | nil => simp [List.takeWhile]
  | cons a s ih =>
    have ha : a ≠ d := fun h => hs (h ▸ List.mem_cons_self _ _)
    have hs' : d ∉ s := fun h => hs (List.mem_cons_of_mem _ h)
    have hb : (a != d) = true := by simp [ha]
    simp [List.takeWhile, hb, ih hs']

theorem getline_positioned (pre s rest str : List Nat) (d : Nat) (hs : d ∉ s) :
    (IFStream.positioned pre (s ++ d :: rest)).getline str d =
      (s, IFStream.positioned (pre ++ (s ++ [d])) rest) := by
  simp [IFStream.getline, IFStream.positioned, IFStream.good, takeWhile_ne_append s d rest hs]
  omega

theorem read_one_positioned (pre rest : List Nat) (b : Nat) :
    (IFStream.positioned pre (b :: rest)).read 1 =
      ([b], IFStream.positioned (pre ++ [b]) rest) :=
  read_positioned pre [b] rest rfl

theorem readIPv4s_positioned (addrs : List IPv4Subnet)
    (hlen : ∀ a ∈ addrs, 4 ≤ a.addr.length ∧ 4 ≤ a.mask.length) :
    ∀ pre rest,
    (readIPv4s (IFStream.positioned pre
      ((addrs.map (fun ipv4 => ipv4.addr.take 4 ++ ipv4.mask.take 4)).flatten ++ rest))
      addrs.length).2 =
    IFStream.positioned
      (pre ++ (addrs.map (fun ipv4 => ipv4.addr.take 4 ++ ipv4.mask.take 4)).flatten) rest := by
  induction addrs with
  | nil => intro pre rest; simp [readIPv4s]
  | cons a as ih =>
    intro pre rest
    obtain ⟨h1, h2⟩ := hlen a (List.mem_cons_self _ _)
    have hr1 := read_positioned pre (a.addr.take 4)
      (a.mask.take 4 ++ ((as.map (fun ipv4 => ipv4.addr.take 4 ++ ipv4.mask.take 4)).flatten
        ++ rest)) (n := 4) (by rw [List.length_take]; omega)
    have hr2 := read_positioned (pre ++ a.addr.take 4) (a.mask.take 4)
      ((as.map (fun ipv4 => ipv4.addr.take 4 ++ ipv4.mask.take 4)).flatten ++ rest) (n := 4)
      (by rw [List.length_take]; omega)
    have ih' := ih (fun x hx => hlen x (List.mem_cons_of_mem _ hx))
      (pre ++ a.addr.take 4 ++ a.mask.take 4) rest
    simp only [List.map_cons, List.flatten_cons, List.length_cons, readIPv4s, List.append_assoc]
    simp only [List.append_assoc] at hr1 hr2 ih'
    rw [hr1]
    simp only []
    rw [hr2]
    simp only []
    rw [ih']

theorem readIPv6s_positioned (addrs : List IPv6Subnet)
    (hlen : ∀ a ∈ addrs, 16 ≤ a.addr.length) :
    ∀ pre rest,
    (readIPv6s (IFStream.positioned pre
      ((addrs.map (fun ipv6 => ipv6.addr.take 16 ++ [ipv6.prefix_len])).flatten ++ rest))
      addrs.length).2 =
    IFStream.positioned
      (pre ++ (addrs.map (fun ipv6 => ipv6.addr.take 16 ++ [ipv6.prefix_len])).flatten) rest := by
  induction addrs with
  | nil => intro pre rest; simp [readIPv6s]
  | cons a as ih =>
    intro pre rest
    have h1 := hlen a (List.mem_cons_self _ _)
    have hr1 := read_positioned pre (a.addr.take 16)
      ([a.prefix_len] ++ ((as.map (fun ipv6 => ipv6.addr.take 16 ++ [ipv6.prefix_len])).flatten
        ++ rest)) (n := 16) (by rw [List.length_take]; omega)
    have hr2 := read_positioned (pre ++ a.addr.take 16) [a.prefix_len]
      ((as.map (fun ipv6 => ipv6.addr.take 16 ++ [ipv6.prefix_len])).flatten ++ rest) (n := 1)
      rfl
    have ih' := ih (fun x hx => hlen x (List.mem_cons_of_mem _ hx))
      (pre ++ a.addr.take 16 ++ [a.prefix_len]) rest
    simp only [List.map_cons, List.flatten_cons, List.length_cons, readIPv6s, List.append_assoc]
    simp only [List.append_assoc] at hr1 hr2 ih'
    rw [hr1]
    simp only []
    rw [hr2]
    simp only []
    rw [ih']

theorem read_state (f : IFStream) (n : Nat) (he : f.eofbit = false) (hf : f.failbit = false)
    (hn : f.pos + n ≤ f.content.length) : (f.read n).2 = { f with pos := f.pos + n } := by
  cases f with
  | mk content pos eofbit failbit =>
    simp only at he hf hn
    subst he hf
    have : ¬ (content.length - pos < n) := by omega
    simp [IFStream.read, IFStream.good, this]

theorem peek_restores (pre recs : List Nat) (h : 24 ≤ recs.length) :
    ((((IFStream.positioned pre recs).tellg.2.seekg_cur 8).read 8).2.read 8).2.seekg
      (IFStream.positioned pre recs).tellg.1 = IFStream.positioned pre recs := by
  have h1 : (IFStream.positioned pre recs).tellg =
      ((pre.length : Int), IFStream.positioned pre recs) := by
    simp [IFStream.tellg, IFStream.positioned, IFStream.good]
  have h2 : (IFStream.positioned pre recs).seekg_cur 8 =
      { content := pre ++ recs, pos := pre.length + 8, eofbit := false, failbit := false } := by
    simp only [IFStream.seekg_cur, IFStream.positioned, Bool.false_eq_true, if_false]
    rw [if_neg (by omega)]
    congr 1
  have h3 := read_state
    { content := pre ++ recs, pos := pre.length + 8, eofbit := false, failbit := false } 8
    rfl rfl (by simp only [List.length_append]; omega)
  have h4 := read_state
    { content := pre ++ recs, pos := pre.length + 8 + 8, eofbit := false, failbit := false } 8
    rfl rfl (by simp only [List.length_append]; omega)
  rw [h1]
  simp only []
  rw [h2, h3]
  simp only []
  rw [h4]
  simp only [IFStream.seekg, IFStream.positioned, Bool.false_eq_true, if_false]
  rw [if_neg (by omega)]
  congr 1

theorem peek_short (pre : List Nat) :
    (((((IFStream.positioned pre []).tellg.2.seekg_cur 8).read 8).2.read 8).2.seekg
      (IFStream.positioned pre []).tellg.1).failbit = true ∧
    (((((IFStream.positioned pre []).tellg.2.seekg_cur 8).read 8).2.read 8).2.seekg
      (IFStream.positioned pre []).tellg.1).eofbit = false := by
  have h1 : (IFStream.positioned pre []).tellg =
      ((pre.length : Int), IFStream.positioned pre []) := by
    simp [IFStream.tellg, IFStream.positioned, IFStream.good]
  have h2 : (IFStream.positioned pre []).seekg_cur 8 =
      { content := pre ++ [], pos := pre.length + 8, eofbit := false, failbit := false } := by
    simp only [IFStream.seekg_cur, IFStream.positioned, Bool.false_eq_true, if_false]
    rw [if_neg (by omega)]
    congr 1
  rw [h1]
  simp only []
  rw [h2]
  simp [IFStream.read, IFStream.good, IFStream.seekg]

theorem read_lead_stream_some (rs : ReaderSet) (r : Reader) (config : Config) (datalink : Int)
    (dev : DeviceInfo) (recs : List Nat) (hwf : LeadOk config dev) (m : List Nat) (hmac : dev.mac_addr = some m)
    (hf : r.file_ = IFStream.positioned (toLE 4 MAGIC) (leadBytes config datalink dev ++ recs))
    (hn : r.native_ = 1) :
    (rs.read_lead r).2 = { r with file_ :=
      (((((IFStream.positioned (toLE 4 MAGIC ++ leadBytes config datalink dev)
        recs).tellg.2.seekg_cur 8).read 8).2.read 8).2.seekg
        (IFStream.positioned (toLE 4 MAGIC ++ leadBytes config datalink dev) recs).tellg.1) } := by
  have hcontent : leadBytes config datalink dev ++ recs = (toLE 8 0 ++ (dev.cpu_model ++ 0 :: (dev.os_version ++ 0 :: (dev.name ++ 0 :: ((if config.nano then 1 else 0) :: (config.filter ++ 0 :: (toLE 4 (config.snaplen % (2 ^ 32 : Int)).toNat ++ (toLE 4 (dev.ipv4_addrs.length % 2 ^ 32) ++ ((dev.ipv4_addrs.map (fun ipv4 => ipv4.addr.take 4 ++ ipv4.mask.take 4)).flatten ++ (toLE 4 (dev.ipv6_addrs.length % 2 ^ 32) ++ ((dev.ipv6_addrs.map (fun ipv6 => ipv6.addr.take 16 ++ [ipv6.prefix_len])).flatten ++ (0 :: (dev.hardware ++ 0 :: (toLE 8 dev.speed ++ (toLE 2 (datalink % (2 ^ 16 : Int)).toNat ++ recs))))))))))))))) := by
    simp only [leadBytes, cstr, hmac, List.append_assoc, List.singleton_append, List.cons_append, List.nil_append]
  have hpre : ((((((((((((((((toLE 4 MAGIC) ++ (toLE 8 0)) ++ (dev.cpu_model ++ [0])) ++ (dev.os_version ++ [0])) ++ (dev.name ++ [0])) ++ [(if config.nano then 1 else 0)]) ++ (config.filter ++ [0])) ++ (toLE 4 (config.snaplen % (2 ^ 32 : Int)).toNat)) ++ (toLE 4 (dev.ipv4_addrs.length % 2 ^ 32))) ++ ((dev.ipv4_addrs.map (fun ipv4 => ipv4.addr.take 4 ++ ipv4.mask.take 4)).flatten)) ++ (toLE 4 (dev.ipv6_addrs.length % 2 ^ 32))) ++ ((dev.ipv6_addrs.map (fun ipv6 => ipv6.addr.take 16 ++ [ipv6.prefix_len])).flatten)) ++ [0]) ++ (dev.hardware ++ [0])) ++ (toLE 8 dev.speed)) ++ (toLE 2 (datalink % (2 ^ 16 : Int)).toNat)) = toLE 4 MAGIC ++ leadBytes config datalink dev := by
    simp only [leadBytes, cstr, hmac, List.append_assoc, List.singleton_append, List.cons_append, List.nil_append]
  have hswap : decide ((1 : Int) = 0) = false := by decide
  have hc4 : fromLE (overwrite (toLE 4 0) (toLE 4 (dev.ipv4_addrs.length % 2 ^ 32))) = dev.ipv4_addrs.length := by
    rw [overwrite_full (by simp [toLE_length]), Nat.mod_eq_of_lt hwf.2.2.2.2.2.1,
      fromLE_toLE 4 _ (by have := hwf.2.2.2.2.2.1; norm_num at this ⊢; omega)]
  have hc6 : fromLE (overwrite (toLE 4 0) (toLE 4 (dev.ipv6_addrs.length % 2 ^ 32))) = dev.ipv6_addrs.length := by
    rw [overwrite_full (by simp [toLE_length]), Nat.mod_eq_of_lt hwf.2.2.2.2.2.2.1,
      fromLE_toLE 4 _ (by have := hwf.2.2.2.2.2.2.1; norm_num at this ⊢; omega)]
  have h1 := read_positioned (toLE 4 MAGIC) (toLE 8 0) (dev.cpu_model ++ 0 :: (dev.os_version ++ 0 :: (dev.name ++ 0 :: ((if config.nano then 1 else 0) :: (config.filter ++ 0 :: (toLE 4 (config.snaplen % (2 ^ 32 : Int)).toNat ++ (toLE 4 (dev.ipv4_addrs.length % 2 ^ 32) ++ ((dev.ipv4_addrs.map (fun ipv4 => ipv4.addr.take 4 ++ ipv4.mask.take 4)).flatten ++ (toLE 4 (dev.ipv6_addrs.length % 2 ^ 32) ++ ((dev.ipv6_addrs.map (fun ipv6 => ipv6.addr.take 16 ++ [ipv6.prefix_len])).flatten ++ (0 :: (dev.hardware ++ 0 :: (toLE 8 dev.speed ++ (toLE 2 (datalink % (2 ^ 16 : Int)).toNat ++ recs)))))))))))))) (n := 8) (toLE_length _ _)
  have h2 := getline_positioned ((toLE 4 MAGIC) ++ (toLE 8 0)) (dev.cpu_model) (dev.os_version ++ 0 :: (dev.name ++ 0 :: ((if config.nano then 1 else 0) :: (config.filter ++ 0 :: (toLE 4 (config.snaplen % (2 ^ 32 : Int)).toNat ++ (toLE 4 (dev.ipv4_addrs.length % 2 ^ 32) ++ ((dev.ipv4_addrs.map (fun ipv4 => ipv4.addr.take 4 ++ ipv4.mask.take 4)).flatten ++ (toLE 4 (dev.ipv6_addrs.length % 2 ^ 32) ++ ((dev.ipv6_addrs.map (fun ipv6 => ipv6.addr.take 16 ++ [ipv6.prefix_len])).flatten ++ (0 :: (dev.hardware ++ 0 :: (toLE 8 dev.speed ++ (toLE 2 (datalink % (2 ^ 16 : Int)).toNat ++ recs))))))))))))) rs.cpu_model_ 0 hwf.1
  have h3 := getline_positioned (((toLE 4 MAGIC) ++ (toLE 8 0)) ++ (dev.cpu_model ++ [0])) (dev.os_version) (dev.name ++ 0 :: ((if config.nano then 1 else 0) :: (config.filter ++ 0 :: (toLE 4 (config.snaplen % (2 ^ 32 : Int)).toNat ++ (toLE 4 (dev.ipv4_addrs.length % 2 ^ 32) ++ ((dev.ipv4_addrs.map (fun ipv4 => ipv4.addr.take 4 ++ ipv4.mask.take 4)).flatten ++ (toLE 4 (dev.ipv6_addrs.length % 2 ^ 32) ++ ((dev.ipv6_addrs.map (fun ipv6 => ipv6.addr.take 16 ++ [ipv6.prefix_len])).flatten ++ (0 :: (dev.hardware ++ 0 :: (toLE 8 dev.speed ++ (toLE 2 (datalink % (2 ^ 16 : Int)).toNat ++ recs)))))))))))) rs.os_version_ 0 hwf.2.1
  have h4 := getline_positioned ((((toLE 4 MAGIC) ++ (toLE 8 0)) ++ (dev.cpu_model ++ [0])) ++ (dev.os_version ++ [0])) (dev.name) ((if config.nano then 1 else 0) :: (config.filter ++ 0 :: (toLE 4 (config.snaplen % (2 ^ 32 : Int)).toNat ++ (toLE 4 (dev.ipv4_addrs.length % 2 ^ 32) ++ ((dev.ipv4_addrs.map (fun ipv4 => ipv4.addr.take 4 ++ ipv4.mask.take 4)).flatten ++ (toLE 4 (dev.ipv6_addrs.length % 2 ^ 32) ++ ((dev.ipv6_addrs.map (fun ipv6 => ipv6.addr.take 16 ++ [ipv6.prefix_len])).flatten ++ (0 :: (dev.hardware ++ 0 :: (toLE 8 dev.speed ++ (toLE 2 (datalink % (2 ^ 16 : Int)).toNat ++ recs))))))))))) rs.dev_name_ 0 hwf.2.2.1
  have h5 := read_one_positioned (((((toLE 4 MAGIC) ++ (toLE 8 0)) ++ (dev.cpu_model ++ [0])) ++ (dev.os_version ++ [0])) ++ (dev.name ++ [0])) (config.filter ++ 0 :: (toLE 4 (config.snaplen % (2 ^ 32 : Int)).toNat ++ (toLE 4 (dev.ipv4_addrs.length % 2 ^ 32) ++ ((dev.ipv4_addrs.map (fun ipv4 => ipv4.addr.take 4 ++ ipv4.mask.take 4)).flatten ++ (toLE 4 (dev.ipv6_addrs.length % 2 ^ 32) ++ ((dev.ipv6_addrs.map (fun ipv6 => ipv6.addr.take 16 ++ [ipv6.prefix_len])).flatten ++ (0 :: (dev.hardware ++ 0 :: (toLE 8 dev.speed ++ (toLE 2 (datalink % (2 ^ 16 : Int)).toNat ++ recs)))))))))) (if config.nano then 1 else 0)
  have h6 := getline_positioned ((((((toLE 4 MAGIC) ++ (toLE 8 0)) ++ (dev.cpu_model ++ [0])) ++ (dev.os_version ++ [0])) ++ (dev.name ++ [0])) ++ [(if config.nano then 1 else 0)]) (config.filter) (toLE 4 (config.snaplen % (2 ^ 32 : Int)).toNat ++ (toLE 4 (dev.ipv4_addrs.length % 2 ^ 32) ++ ((dev.ipv4_addrs.map (fun ipv4 => ipv4.addr.take 4 ++ ipv4.mask.take 4)).flatten ++ (toLE 4 (dev.ipv6_addrs.length % 2 ^ 32) ++ ((dev.ipv6_addrs.map (fun ipv6 => ipv6.addr.take 16 ++ [ipv6.prefix_len])).flatten ++ (0 :: (dev.hardware ++ 0 :: (toLE 8 dev.speed ++ (toLE 2 (datalink % (2 ^ 16 : Int)).toNat ++ recs))))))))) rs.filter_ 0 hwf.2.2.2.1
  have h7 := read_positioned (((((((toLE 4 MAGIC) ++ (toLE 8 0)) ++ (dev.cpu_model ++ [0])) ++ (dev.os_version ++ [0])) ++ (dev.name ++ [0])) ++ [(if config.nano then 1 else 0)]) ++ (config.filter ++ [0])) (toLE 4 (config.snaplen % (2 ^ 32 : Int)).toNat) (toLE 4 (dev.ipv4_addrs.length % 2 ^ 32) ++ ((dev.ipv4_addrs.map (fun ipv4 => ipv4.addr.take 4 ++ ipv4.mask.take 4)).flatten ++ (toLE 4 (dev.ipv6_addrs.length % 2 ^ 32) ++ ((dev.ipv6_addrs.map (fun ipv6 => ipv6.addr.take 16 ++ [ipv6.prefix_len])).flatten ++ (0 :: (dev.hardware ++ 0 :: (toLE 8 dev.speed ++ (toLE 2 (datalink % (2 ^ 16 : Int)).toNat ++ recs)))))))) (n := 4) (toLE_length _ _)
  have h8 := read_positioned ((((((((toLE 4 MAGIC) ++ (toLE 8 0)) ++ (dev.cpu_model ++ [0])) ++ (dev.os_version ++ [0])) ++ (dev.name ++ [0])) ++ [(if config.nano then 1 else 0)]) ++ (config.filter ++ [0])) ++ (toLE 4 (config.snaplen % (2 ^ 32 : Int)).toNat)) (toLE 4 (dev.ipv4_addrs.length % 2 ^ 32)) ((dev.ipv4_addrs.map (fun ipv4 => ipv4.addr.take 4 ++ ipv4.mask.take 4)).flatten ++ (toLE 4 (dev.ipv6_addrs.length % 2 ^ 32) ++ ((dev.ipv6_addrs.map (fun ipv6 => ipv6.addr.take 16 ++ [ipv6.prefix_len])).flatten ++ (0 :: (dev.hardware ++ 0 :: (toLE 8 dev.speed ++ (toLE 2 (datalink % (2 ^ 16 : Int)).toNat ++ recs))))))) (n := 4) (toLE_length _ _)
  have h9 := readIPv4s_positioned dev.ipv4_addrs (fun a ha => by have := hwf.2.2.2.2.2.2.2.1 a ha; omega) (((((((((toLE 4 MAGIC) ++ (toLE 8 0)) ++ (dev.cpu_model ++ [0])) ++ (dev.os_version ++ [0])) ++ (dev.name ++ [0])) ++ [(if config.nano then 1 else 0)]) ++ (config.filter ++ [0])) ++ (toLE 4 (config.snaplen % (2 ^ 32 : Int)).toNat)) ++ (toLE 4 (dev.ipv4_addrs.length % 2 ^ 32))) (toLE 4 (dev.ipv6_addrs.length % 2 ^ 32) ++ ((dev.ipv6_addrs.map (fun ipv6 => ipv6.addr.take 16 ++ [ipv6.prefix_len])).flatten ++ (0 :: (dev.hardware ++ 0 :: (toLE 8 dev.speed ++ (toLE 2 (datalink % (2 ^ 16 : Int)).toNat ++ recs))))))
  have h10 := read_positioned ((((((((((toLE 4 MAGIC) ++ (toLE 8 0)) ++ (dev.cpu_model ++ [0])) ++ (dev.os_version ++ [0])) ++ (dev.name ++ [0])) ++ [(if config.nano then 1 else 0)]) ++ (config.filter ++ [0])) ++ (toLE 4 (config.snaplen % (2 ^ 32 : Int)).toNat)) ++ (toLE 4 (dev.ipv4_addrs.length % 2 ^ 32))) ++ ((dev.ipv4_addrs.map (fun ipv4 => ipv4.addr.take 4 ++ ipv4.mask.take 4)).flatten)) (toLE 4 (dev.ipv6_addrs.length % 2 ^ 32)) ((dev.ipv6_addrs.map (fun ipv6 => ipv6.addr.take 16 ++ [ipv6.prefix_len])).flatten ++ (0 :: (dev.hardware ++ 0 :: (toLE 8 dev.speed ++ (toLE 2 (datalink % (2 ^ 16 : Int)).toNat ++ recs))))) (n := 4) (toLE_length _ _)
  have h11 := readIPv6s_positioned dev.ipv6_addrs (fun a ha => by have := hwf.2.2.2.2.2.2.2.2.1 a ha; omega) (((((((((((toLE 4 MAGIC) ++ (toLE 8 0)) ++ (dev.cpu_model ++ [0])) ++ (dev.os_version ++ [0])) ++ (dev.name ++ [0])) ++ [(if config.nano then 1 else 0)]) ++ (config.filter ++ [0])) ++ (toLE 4 (config.snaplen % (2 ^ 32 : Int)).toNat)) ++ (toLE 4 (dev.ipv4_addrs.length % 2 ^ 32))) ++ ((dev.ipv4_addrs.map (fun ipv4 => ipv4.addr.take 4 ++ ipv4.mask.take 4)).flatten)) ++ (toLE 4 (dev.ipv6_addrs.length % 2 ^ 32))) (0 :: (dev.hardware ++ 0 :: (toLE 8 dev.speed ++ (toLE 2 (datalink % (2 ^ 16 : Int)).toNat ++ recs))))
  have h12 := read_one_positioned ((((((((((((toLE 4 MAGIC) ++ (toLE 8 0)) ++ (dev.cpu_model ++ [0])) ++ (dev.os_version ++ [0])) ++ (dev.name ++ [0])) ++ [(if config.nano then 1 else 0)]) ++ (config.filter ++ [0])) ++ (toLE 4 (config.snaplen % (2 ^ 32 : Int)).toNat)) ++ (toLE 4 (dev.ipv4_addrs.length % 2 ^ 32))) ++ ((dev.ipv4_addrs.map (fun ipv4 => ipv4.addr.take 4 ++ ipv4.mask.take 4)).flatten)) ++ (toLE 4 (dev.ipv6_addrs.length % 2 ^ 32))) ++ ((dev.ipv6_addrs.map (fun ipv6 => ipv6.addr.take 16 ++ [ipv6.prefix_len])).flatten)) (dev.hardware ++ 0 :: (toLE 8 dev.speed ++ (toLE 2 (datalink % (2 ^ 16 : Int)).toNat ++ recs))) 0
  have h13 := getline_positioned (((((((((((((toLE 4 MAGIC) ++ (toLE 8 0)) ++ (dev.cpu_model ++ [0])) ++ (dev.os_version ++ [0])) ++ (dev.name ++ [0])) ++ [(if config.nano then 1 else 0)]) ++ (config.filter ++ [0])) ++ (toLE 4 (config.snaplen % (2 ^ 32 : Int)).toNat)) ++ (toLE 4 (dev.ipv4_addrs.length % 2 ^ 32))) ++ ((dev.ipv4_addrs.map (fun ipv4 => ipv4.addr.take 4 ++ ipv4.mask.take 4)).flatten)) ++ (toLE 4 (dev.ipv6_addrs.length % 2 ^ 32))) ++ ((dev.ipv6_addrs.map (fun ipv6 => ipv6.addr.take 16 ++ [ipv6.prefix_len])).flatten)) ++ [0]) (dev.hardware) (toLE 8 dev.speed ++ (toLE 2 (datalink % (2 ^ 16 : Int)).toNat ++ recs)) rs.hardware_ 0 hwf.2.2.2.2.1
  have h14 := read_positioned ((((((((((((((toLE 4 MAGIC) ++ (toLE 8 0)) ++ (dev.cpu_model ++ [0])) ++ (dev.os_version ++ [0])) ++ (dev.name ++ [0])) ++ [(if config.nano then 1 else 0)]) ++ (config.filter ++ [0])) ++ (toLE 4 (config.snaplen % (2 ^ 32 : Int)).toNat)) ++ (toLE 4 (dev.ipv4_addrs.length % 2 ^ 32))) ++ ((dev.ipv4_addrs.map (fun ipv4 => ipv4.addr.take 4 ++ ipv4.mask.take 4)).flatten)) ++ (toLE 4 (dev.ipv6_addrs.length % 2 ^ 32))) ++ ((dev.ipv6_addrs.map (fun ipv6 => ipv6.addr.take 16 ++ [ipv6.prefix_len])).flatten)) ++ [0]) ++ (dev.hardware ++ [0])) (toLE 8 dev.speed) (toLE 2 (datalink % (2 ^ 16 : Int)).toNat ++ recs) (n := 8) (toLE_length _ _)
  have h15 := read_positioned (((((((((((((((toLE 4 MAGIC) ++ (toLE 8 0)) ++ (dev.cpu_model ++ [0])) ++ (dev.os_version ++ [0])) ++ (dev.name ++ [0])) ++ [(if config.nano then 1 else 0)]) ++ (config.filter ++ [0])) ++ (toLE 4 (config.snaplen % (2 ^ 32 : Int)).toNat)) ++ (toLE 4 (dev.ipv4_addrs.length % 2 ^ 32))) ++ ((dev.ipv4_addrs.map (fun ipv4 => ipv4.addr.take 4 ++ ipv4.mask.take 4)).flatten)) ++ (toLE 4 (dev.ipv6_addrs.length % 2 ^ 32))) ++ ((dev.ipv6_addrs.map (fun ipv6 => ipv6.addr.take 16 ++ [ipv6.prefix_len])).flatten)) ++ [0]) ++ (dev.hardware ++ [0])) ++ (toLE 8 dev.speed)) (toLE 2 (datalink % (2 ^ 16 : Int)).toNat) recs (n := 2) (toLE_length _ _)
  unfold ReaderSet.read_lead
  rw [hf, hcontent, ← hpre]
  simp only [hn, hswap, decide_False, Bool.false_eq_true, if_false, h1, h2, h3, h4, h5, h6, h7, h8, h9, h10, h11, h12, h13, h14, h15, hc4, hc6, show fromLE (overwrite [0] [0]) = 0 from rfl, ne_eq, not_true_eq_false]

theorem read_lead_stream_none (rs : ReaderSet) (r : Reader) (config : Config) (datalink : Int)
    (dev : DeviceInfo) (recs : List Nat) (hwf : LeadOk config dev) (hmac : dev.mac_addr = none)
    (hf : r.file_ = IFStream.positioned (toLE 4 MAGIC) (leadBytes config datalink dev ++ recs))
    (hn : r.native_ = 1) :
    (rs.read_lead r).2 = { r with file_ :=
      (((((IFStream.positioned (toLE 4 MAGIC ++ leadBytes config datalink dev)
        recs).tellg.2.seekg_cur 8).read 8).2.read 8).2.seekg
        (IFStream.positioned (toLE 4 MAGIC ++ leadBytes config datalink dev) recs).tellg.1) } := by
  have hcontent : leadBytes config datalink dev ++ recs = (toLE 8 0 ++ (dev.cpu_model ++ 0 :: (dev.os_version ++ 0 :: (dev.name ++ 0 :: ((if config.nano then 1 else 0) :: (config.filter ++ 0 :: (toLE 4 (config.snaplen % (2 ^ 32 : Int)).toNat ++ (toLE 4 (dev.ipv4_addrs.length % 2 ^ 32) ++ ((dev.ipv4_addrs.map (fun ipv4 => ipv4.addr.take 4 ++ ipv4.mask.take 4)).flatten ++ (toLE 4 (dev.ipv6_addrs.length % 2 ^ 32) ++ ((dev.ipv6_addrs.map (fun ipv6 => ipv6.addr.take 16 ++ [ipv6.prefix_len])).flatten ++ (1 :: (dev.mac_storage.take 6 ++ (dev.hardware ++ 0 :: (toLE 8 dev.speed ++ (toLE 2 (datalink % (2 ^ 16 : Int)).toNat ++ recs)))))))))))))))) := by
    simp only [leadBytes, cstr, hmac, List.append_assoc, List.singleton_append, List.cons_append, List.nil_append]
  have hpre : (((((((((((((((((toLE 4 MAGIC) ++ (toLE 8 0)) ++ (dev.cpu_model ++ [0])) ++ (dev.os_version ++ [0])) ++ (dev.name ++ [0])) ++ [(if config.nano then 1 else 0)]) ++ (config.filter ++ [0])) ++ (toLE 4 (config.snaplen % (2 ^ 32 : Int)).toNat)) ++ (toLE 4 (dev.ipv4_addrs.length % 2 ^ 32))) ++ ((dev.ipv4_addrs.map (fun ipv4 => ipv4.addr.take 4 ++ ipv4.mask.take 4)).flatten)) ++ (toLE 4 (dev.ipv6_addrs.length % 2 ^ 32))) ++ ((dev.ipv6_addrs.map (fun ipv6 => ipv6.addr.take 16 ++ [ipv6.prefix_len])).flatten)) ++ [1]) ++ (dev.mac_storage.take 6)) ++ (dev.hardware ++ [0])) ++ (toLE 8 dev.speed)) ++ (toLE 2 (datalink % (2 ^ 16 : Int)).toNat)) = toLE 4 MAGIC ++ leadBytes config datalink dev := by
    simp only [leadBytes, cstr, hmac, List.append_assoc, List.singleton_append, List.cons_append, List.nil_append]
  have hswap : decide ((1 : Int) = 0) = false := by decide
  have hc4 : fromLE (overwrite (toLE 4 0) (toLE 4 (dev.ipv4_addrs.length % 2 ^ 32))) = dev.ipv4_addrs.length := by
    rw [overwrite_full (by simp [toLE_length]), Nat.mod_eq_of_lt hwf.2.2.2.2.2.1,
      fromLE_toLE 4 _ (by have := hwf.2.2.2.2.2.1; norm_num at this ⊢; omega)]
  have hc6 : fromLE (overwrite (toLE 4 0) (toLE 4 (dev.ipv6_addrs.length % 2 ^ 32))) = dev.ipv6_addrs.length := by
    rw [overwrite_full (by simp [toLE_length]), Nat.mod_eq_of_lt hwf.2.2.2.2.2.2.1,
      fromLE_toLE 4 _ (by have := hwf.2.2.2.2.2.2.1; norm_num at this ⊢; omega)]
  have h1 := read_positioned (toLE 4 MAGIC) (toLE 8 0) (dev.cpu_model ++ 0 :: (dev.os_version ++ 0 :: (dev.name ++ 0 :: ((if config.nano then 1 else 0) :: (config.filter ++ 0 :: (toLE 4 (config.snaplen % (2 ^ 32 : Int)).toNat ++ (toLE 4 (dev.ipv4_addrs.length % 2 ^ 32) ++ ((dev.ipv4_addrs.map (fun ipv4 => ipv4.addr.take 4 ++ ipv4.mask.take 4)).flatten ++ (toLE 4 (dev.ipv6_addrs.length % 2 ^ 32) ++ ((dev.ipv6_addrs.map (fun ipv6 => ipv6.addr.take 16 ++ [ipv6.prefix_len])).flatten ++ (1 :: (dev.mac_storage.take 6 ++ (dev.hardware ++ 0 :: (toLE 8 dev.speed ++ (toLE 2 (datalink % (2 ^ 16 : Int)).toNat ++ recs))))))))))))))) (n := 8) (toLE_length _ _)
  have h2 := getline_positioned ((toLE 4 MAGIC) ++ (toLE 8 0)) (dev.cpu_model) (dev.os_version ++ 0 :: (dev.name ++ 0 :: ((if config.nano then 1 else 0) :: (config.filter ++ 0 :: (toLE 4 (config.snaplen % (2 ^ 32 : Int)).toNat ++ (toLE 4 (dev.ipv4_addrs.length % 2 ^ 32) ++ ((dev.ipv4_addrs.map (fun ipv4 => ipv4.addr.take 4 ++ ipv4.mask.take 4)).flatten ++ (toLE 4 (dev.ipv6_addrs.length % 2 ^ 32) ++ ((dev.ipv6_addrs.map (fun ipv6 => ipv6.addr.take 16 ++ [ipv6.prefix_len])).flatten ++ (1 :: (dev.mac_storage.take 6 ++ (dev.hardware ++ 0 :: (toLE 8 dev.speed ++ (toLE 2 (datalink % (2 ^ 16 : Int)).toNat ++ recs)))))))))))))) rs.cpu_model_ 0 hwf.1
  have h3 := getline_positioned (((toLE 4 MAGIC) ++ (toLE 8 0)) ++ (dev.cpu_model ++ [0])) (dev.os_version) (dev.name ++ 0 :: ((if config.nano then 1 else 0) :: (config.filter ++ 0 :: (toLE 4 (config.snaplen % (2 ^ 32 : Int)).toNat ++ (toLE 4 (dev.ipv4_addrs.length % 2 ^ 32) ++ ((dev.ipv4_addrs.map (fun ipv4 => ipv4.addr.take 4 ++ ipv4.mask.take 4)).flatten ++ (toLE 4 (dev.ipv6_addrs.length % 2 ^ 32) ++ ((dev.ipv6_addrs.map (fun ipv6 => ipv6.addr.take 16 ++ [ipv6.prefix_len])).flatten ++ (1 :: (dev.mac_storage.take 6 ++ (dev.hardware ++ 0 :: (toLE 8 dev.speed ++ (toLE 2 (datalink % (2 ^ 16 : Int)).toNat ++ recs))))))))))))) rs.os_version_ 0 hwf.2.1
  have h4 := getline_positioned ((((toLE 4 MAGIC) ++ (toLE 8 0)) ++ (dev.cpu_model ++ [0])) ++ (dev.os_version ++ [0])) (dev.name) ((if config.nano then 1 else 0) :: (config.filter ++ 0 :: (toLE 4 (config.snaplen % (2 ^ 32 : Int)).toNat ++ (toLE 4 (dev.ipv4_addrs.length % 2 ^ 32) ++ ((dev.ipv4_addrs.map (fun ipv4 => ipv4.addr.take 4 ++ ipv4.mask.take 4)).flatten ++ (toLE 4 (dev.ipv6_addrs.length % 2 ^ 32) ++ ((dev.ipv6_addrs.map (fun ipv6 => ipv6.addr.take 16 ++ [ipv6.prefix_len])).flatten ++ (1 :: (dev.mac_storage.take 6 ++ (dev.hardware ++ 0 :: (toLE 8 dev.speed ++ (toLE 2 (datalink % (2 ^ 16 : Int)).toNat ++ recs)))))))))))) rs.dev_name_ 0 hwf.2.2.1
  have h5 := read_one_positioned (((((toLE 4 MAGIC) ++ (toLE 8 0)) ++ (dev.cpu_model ++ [0])) ++ (dev.os_version ++ [0])) ++ (dev.name ++ [0])) (config.filter ++ 0 :: (toLE 4 (config.snaplen % (2 ^ 32 : Int)).toNat ++ (toLE 4 (dev.ipv4_addrs.length % 2 ^ 32) ++ ((dev.ipv4_addrs.map (fun ipv4 => ipv4.addr.take 4 ++ ipv4.mask.take 4)).flatten ++ (toLE 4 (dev.ipv6_addrs.length % 2 ^ 32) ++ ((dev.ipv6_addrs.map (fun ipv6 => ipv6.addr.take 16 ++ [ipv6.prefix_len])).flatten ++ (1 :: (dev.mac_storage.take 6 ++ (dev.hardware ++ 0 :: (toLE 8 dev.speed ++ (toLE 2 (datalink % (2 ^ 16 : Int)).toNat ++ recs))))))))))) (if config.nano then 1 else 0)
  have h6 := getline_positioned ((((((toLE 4 MAGIC) ++ (toLE 8 0)) ++ (dev.cpu_model ++ [0])) ++ (dev.os_version ++ [0])) ++ (dev.name ++ [0])) ++ [(if config.nano then 1 else 0)]) (config.filter) (toLE 4 (config.snaplen % (2 ^ 32 : Int)).toNat ++ (toLE 4 (dev.ipv4_addrs.length % 2 ^ 32) ++ ((dev.ipv4_addrs.map (fun ipv4 => ipv4.addr.take 4 ++ ipv4.mask.take 4)).flatten ++ (toLE 4 (dev.ipv6_addrs.length % 2 ^ 32) ++ ((dev.ipv6_addrs.map (fun ipv6 => ipv6.addr.take 16 ++ [ipv6.prefix_len])).flatten ++ (1 :: (dev.mac_storage.take 6 ++ (dev.hardware ++ 0 :: (toLE 8 dev.speed ++ (toLE 2 (datalink % (2 ^ 16 : Int)).toNat ++ recs)))))))))) rs.filter_ 0 hwf.2.2.2.1
  have h7 := read_positioned (((((((toLE 4 MAGIC) ++ (toLE 8 0)) ++ (dev.cpu_model ++ [0])) ++ (dev.os_version ++ [0])) ++ (dev.name ++ [0])) ++ [(if config.nano then 1 else 0)]) ++ (config.filter ++ [0])) (toLE 4 (config.snaplen % (2 ^ 32 : Int)).toNat) (toLE 4 (dev.ipv4_addrs.length % 2 ^ 32) ++ ((dev.ipv4_addrs.map (fun ipv4 => ipv4.addr.take 4 ++ ipv4.mask.take 4)).flatten ++ (toLE 4 (dev.ipv6_addrs.length % 2 ^ 32) ++ ((dev.ipv6_addrs.map (fun ipv6 => ipv6.addr.take 16 ++ [ipv6.prefix_len])).flatten ++ (1 :: (dev.mac_storage.take 6 ++ (dev.hardware ++ 0 :: (toLE 8 dev.speed ++ (toLE 2 (datalink % (2 ^ 16 : Int)).toNat ++ recs))))))))) (n := 4) (toLE_length _ _)
  have h8 := read_positioned ((((((((toLE 4 MAGIC) ++ (toLE 8 0)) ++ (dev.cpu_model ++ [0])) ++ (dev.os_version ++ [0])) ++ (dev.name ++ [0])) ++ [(if config.nano then 1 else 0)]) ++ (config.filter ++ [0])) ++ (toLE 4 (config.snaplen % (2 ^ 32 : Int)).toNat)) (toLE 4 (dev.ipv4_addrs.length % 2 ^ 32)) ((dev.ipv4_addrs.map (fun ipv4 => ipv4.addr.take 4 ++ ipv4.mask.take 4)).flatten ++ (toLE 4 (dev.ipv6_addrs.length % 2 ^ 32) ++ ((dev.ipv6_addrs.map (fun ipv6 => ipv6.addr.take 16 ++ [ipv6.prefix_len])).flatten ++ (1 :: (dev.mac_storage.take 6 ++ (dev.hardware ++ 0 :: (toLE 8 dev.speed ++ (toLE 2 (datalink % (2 ^ 16 : Int)).toNat ++ recs)))))))) (n := 4) (toLE_length _ _)
  have h9 := readIPv4s_positioned dev.ipv4_addrs (fun a ha => by have := hwf.2.2.2.2.2.2.2.1 a ha; omega) (((((((((toLE 4 MAGIC) ++ (toLE 8 0)) ++ (dev.cpu_model ++ [0])) ++ (dev.os_version ++ [0])) ++ (dev.name ++ [0])) ++ [(if config.nano then 1 else 0)]) ++ (config.filter ++ [0])) ++ (toLE 4 (config.snaplen % (2 ^ 32 : Int)).toNat)) ++ (toLE 4 (dev.ipv4_addrs.length % 2 ^ 32))) (toLE 4 (dev.ipv6_addrs.length % 2 ^ 32) ++ ((dev.ipv6_addrs.map (fun ipv6 => ipv6.addr.take 16 ++ [ipv6.prefix_len])).flatten ++ (1 :: (dev.mac_storage.take 6 ++ (dev.hardware ++ 0 :: (toLE 8 dev.speed ++ (toLE 2 (datalink % (2 ^ 16 : Int)).toNat ++ recs)))))))
  have h10 := read_positioned ((((((((((toLE 4 MAGIC) ++ (toLE 8 0)) ++ (dev.cpu_model ++ [0])) ++ (dev.os_version ++ [0])) ++ (dev.name ++ [0])) ++ [(if config.nano then 1 else 0)]) ++ (config.filter ++ [0])) ++ (toLE 4 (config.snaplen % (2 ^ 32 : Int)).toNat)) ++ (toLE 4 (dev.ipv4_addrs.length % 2 ^ 32))) ++ ((dev.ipv4_addrs.map (fun ipv4 => ipv4.addr.take 4 ++ ipv4.mask.take 4)).flatten)) (toLE 4 (dev.ipv6_addrs.length % 2 ^ 32)) ((dev.ipv6_addrs.map (fun ipv6 => ipv6.addr.take 16 ++ [ipv6.prefix_len])).flatten ++ (1 :: (dev.mac_storage.take 6 ++ (dev.hardware ++ 0 :: (toLE 8 dev.speed ++ (toLE 2 (datalink % (2 ^ 16 : Int)).toNat ++ recs)))))) (n := 4) (toLE_length _ _)
  have h11 := readIPv6s_positioned dev.ipv6_addrs (fun a ha => by have := hwf.2.2.2.2.2.2.2.2.1 a ha; omega) (((((((((((toLE 4 MAGIC) ++ (toLE 8 0)) ++ (dev.cpu_model ++ [0])) ++ (dev.os_version ++ [0])) ++ (dev.name ++ [0])) ++ [(if config.nano then 1 else 0)]) ++ (config.filter ++ [0])) ++ (toLE 4 (config.snaplen % (2 ^ 32 : Int)).toNat)) ++ (toLE 4 (dev.ipv4_addrs.length % 2 ^ 32))) ++ ((dev.ipv4_addrs.map (fun ipv4 => ipv4.addr.take 4 ++ ipv4.mask.take 4)).flatten)) ++ (toLE 4 (dev.ipv6_addrs.length % 2 ^ 32))) (1 :: (dev.mac_storage.take 6 ++ (dev.hardware ++ 0 :: (toLE 8 dev.speed ++ (toLE 2 (datalink % (2 ^ 16 : Int)).toNat ++ recs)))))
  have h12 := read_one_positioned ((((((((((((toLE 4 MAGIC) ++ (toLE 8 0)) ++ (dev.cpu_model ++ [0])) ++ (dev.os_version ++ [0])) ++ (dev.name ++ [0])) ++ [(if config.nano then 1 else 0)]) ++ (config.filter ++ [0])) ++ (toLE 4 (config.snaplen % (2 ^ 32 : Int)).toNat)) ++ (toLE 4 (dev.ipv4_addrs.length % 2 ^ 32))) ++ ((dev.ipv4_addrs.map (fun ipv4 => ipv4.addr.take 4 ++ ipv4.mask.take 4)).flatten)) ++ (toLE 4 (dev.ipv6_addrs.length % 2 ^ 32))) ++ ((dev.ipv6_addrs.map (fun ipv6 => ipv6.addr.take 16 ++ [ipv6.prefix_len])).flatten)) (dev.mac_storage.take 6 ++ (dev.hardware ++ 0 :: (toLE 8 dev.speed ++ (toLE 2 (datalink % (2 ^ 16 : Int)).toNat ++ recs)))) 1
  have h13 := read_positioned (((((((((((((toLE 4 MAGIC) ++ (toLE 8 0)) ++ (dev.cpu_model ++ [0])) ++ (dev.os_version ++ [0])) ++ (dev.name ++ [0])) ++ [(if config.nano then 1 else 0)]) ++ (config.filter ++ [0])) ++ (toLE 4 (config.snaplen % (2 ^ 32 : Int)).toNat)) ++ (toLE 4 (dev.ipv4_addrs.length % 2 ^ 32))) ++ ((dev.ipv4_addrs.map (fun ipv4 => ipv4.addr.take 4 ++ ipv4.mask.take 4)).flatten)) ++ (toLE 4 (dev.ipv6_addrs.length % 2 ^ 32))) ++ ((dev.ipv6_addrs.map (fun ipv6 => ipv6.addr.take 16 ++ [ipv6.prefix_len])).flatten)) ++ [1]) (dev.mac_storage.take 6) (dev.hardware ++ 0 :: (toLE 8 dev.speed ++ (toLE 2 (datalink % (2 ^ 16 : Int)).toNat ++ recs))) (n := 6) (by rw [List.length_take]; have := hwf.2.2.2.2.2.2.2.2.2; omega)
  have h14 := getline_positioned ((((((((((((((toLE 4 MAGIC) ++ (toLE 8 0)) ++ (dev.cpu_model ++ [0])) ++ (dev.os_version ++ [0])) ++ (dev.name ++ [0])) ++ [(if config.nano then 1 else 0)]) ++ (config.filter ++ [0])) ++ (toLE 4 (config.snaplen % (2 ^ 32 : Int)).toNat)) ++ (toLE 4 (dev.ipv4_addrs.length % 2 ^ 32))) ++ ((dev.ipv4_addrs.map (fun ipv4 => ipv4.addr.take 4 ++ ipv4.mask.take 4)).flatten)) ++ (toLE 4 (dev.ipv6_addrs.length % 2 ^ 32))) ++ ((dev.ipv6_addrs.map (fun ipv6 => ipv6.addr.take 16 ++ [ipv6.prefix_len])).flatten)) ++ [1]) ++ (dev.mac_storage.take 6)) (dev.hardware) (toLE 8 dev.speed ++ (toLE 2 (datalink % (2 ^ 16 : Int)).toNat ++ recs)) rs.hardware_ 0 hwf.2.2.2.2.1
  have h15 := read_positioned (((((((((((((((toLE 4 MAGIC) ++ (toLE 8 0)) ++ (dev.cpu_model ++ [0])) ++ (dev.os_version ++ [0])) ++ (dev.name ++ [0])) ++ [(if config.nano then 1 else 0)]) ++ (config.filter ++ [0])) ++ (toLE 4 (config.snaplen % (2 ^ 32 : Int)).toNat)) ++ (toLE 4 (dev.ipv4_addrs.length % 2 ^ 32))) ++ ((dev.ipv4_addrs.map (fun ipv4 => ipv4.addr.take 4 ++ ipv4.mask.take 4)).flatten)) ++ (toLE 4 (dev.ipv6_addrs.length % 2 ^ 32))) ++ ((dev.ipv6_addrs.map (fun ipv6 => ipv6.addr.take 16 ++ [ipv6.prefix_len])).flatten)) ++ [1]) ++ (dev.mac_storage.take 6)) ++ (dev.hardware ++ [0])) (toLE 8 dev.speed) (toLE 2 (datalink % (2 ^ 16 : Int)).toNat ++ recs) (n := 8) (toLE_length _ _)
  have h16 := read_positioned ((((((((((((((((toLE 4 MAGIC) ++ (toLE 8 0)) ++ (dev.cpu_model ++ [0])) ++ (dev.os_version ++ [0])) ++ (dev.name ++ [0])) ++ [(if config.nano then 1 else 0)]) ++ (config.filter ++ [0])) ++ (toLE 4 (config.snaplen % (2 ^ 32 : Int)).toNat)) ++ (toLE 4 (dev.ipv4_addrs.length % 2 ^ 32))) ++ ((dev.ipv4_addrs.map (fun ipv4 => ipv4.addr.take 4 ++ ipv4.mask.take 4)).flatten)) ++ (toLE 4 (dev.ipv6_addrs.length % 2 ^ 32))) ++ ((dev.ipv6_addrs.map (fun ipv6 => ipv6.addr.take 16 ++ [ipv6.prefix_len])).flatten)) ++ [1]) ++ (dev.mac_storage.take 6)) ++ (dev.hardware ++ [0])) ++ (toLE 8 dev.speed)) (toLE 2 (datalink % (2 ^ 16 : Int)).toNat) recs (n := 2) (toLE_length _ _)
  unfold ReaderSet.read_lead
  rw [hf, hcontent, ← hpre]
  simp only [hn, hswap, decide_False, Bool.false_eq_true, if_false, h1, h2, h3, h4, h5, h6, h7, h8, h9, h10, h11, h12, h13, h14, h15, h16, hc4, hc6, show fromLE (overwrite [0] [1]) = 1 from rfl, ne_eq, one_ne_zero, not_false_eq_true, if_true]

theorem read_next_failed (r : Reader) (hf : r.file_.failbit = true)
    (he : r.file_.eofbit = false) :
    r.read_next.done_ = r.done_ ∧ r.read_next.hdr_.visit.1 = 0 := by
  have h0 : fromLE (overwrite (toLE 8 0) []) = 0 := by decide
  have h1 : (0 : Nat) &&& 2 ^ 63 = 0 := by decide
  have h2 : overwrite (List.replicate (SIZEOF_PKTHDR - 8) 0) [] = List.replicate 24 0 := by
    decide
  have h3 : byteswap 8 0 = 0 := by decide
  unfold Reader.read_next
  simp only [IFStream.eof, he, Bool.false_eq_true, if_false, read_failed _ hf, h0, h1,
    gt_iff_lt, lt_self_iff_false, h2]
  refine ⟨trivial, ?_⟩
  by_cases hn : r.native_ = 0
  · simp only [hn, if_true, Hdr.visit, h3]
  · simp only [hn, if_false, Hdr.visit]

theorem reader_new_general (d : Nat) (tail : List Nat) (hd : d < W64) :
    Reader.new (toLE 4 MAGIC ++ (toLE 8 d ++ tail)) =
      { file_ := IFStream.positioned (toLE 4 MAGIC) (toLE 8 d ++ tail),
        hdr_ := Hdr.pkt ⟨0, 0, 0, 0, 0⟩, data_ := [], native_ := 1,
        has_lead_ := decide (d = 0), done_ := false } := by
  have hW : W64 = 256 ^ 8 := by norm_num [W64]
  have hr1 := read_positioned [] (toLE 4 MAGIC) (toLE 8 d ++ tail) (n := 4) (toLE_length _ _)
  have hr2 := read_positioned (toLE 4 MAGIC) (toLE 8 d) tail (n := 8) (toLE_length _ _)
  have hmagic : fromLE (overwrite (toLE 4 0) (toLE 4 MAGIC)) = NATIVE_MAGIC := by decide
  have hid : fromLE (overwrite (toLE 8 0) (toLE 8 d)) = d := by
    rw [overwrite_full (by simp [toLE_length]), fromLE_toLE 8 d (hW ▸ hd)]
  have hback := seekg_back (toLE 4 MAGIC) (toLE 8 d) tail
  rw [toLE_length] at hback
  unfold Reader.new
  rw [ofFile_eq_positioned, hr1]
  simp only [hmagic, true_or, if_true]
  rw [positioned_nil_append, hr2]
  simp only [hid]
  rw [show (-8 : Int) = -((8 : Nat) : Int) from rfl, hback]

theorem entry_bytes_length (e : Entry) (hwf : e.wf = true) : 24 ≤ e.bytes.length := by
  obtain ⟨hdr, payload⟩ := e
  cases hdr with
  | pkt ph => simp [Entry.bytes, Hdr.diskBytes, PktHdr.bytes, toLE_length]; omega
  | stat sh => simp [Entry.bytes, Hdr.diskBytes, StatHdr.bytes, toLE_length]; omega

theorem holds_first (pre : List Nat) (es : List Entry) (hl : Bool)
    (hwf : ∀ e ∈ es, e.wf = true) :
    (({ file_ := IFStream.positioned pre (es.map Entry.bytes).flatten,
        hdr_ := Hdr.pkt ⟨0, 0, 0, 0, 0⟩, data_ := [], native_ := 1, has_lead_ := hl,
        done_ := false } : Reader).read_next).Holds es := by
  have hdummy : Reader.Holds
      { file_ := IFStream.positioned pre (es.map Entry.bytes).flatten,
        hdr_ := Hdr.pkt ⟨0, 0, 0, 0, 0⟩, data_ := [], native_ := 1, has_lead_ := hl,
        done_ := false }
      (⟨Hdr.pkt ⟨0, 0, 0, 0, 0⟩, some []⟩ :: es) :=
    ⟨rfl, rfl, fun _ => rfl, rfl, pre, rfl⟩
  exact holds_advance _ _ es [] hdummy hwf

theorem opensTo_lead (config : Config) (datalink : Int) (dev : DeviceInfo) (es : List Entry)
    (hlead : LeadOk config dev) (hwf : ∀ e ∈ es, e.wf = true) :
    OpensTo (shardFile (leadBytes config datalink dev) es) es := by
  obtain ⟨tl, htl⟩ : ∃ tl, leadBytes config datalink dev = toLE 8 0 ++ tl :=
    ⟨_, by simp only [leadBytes, List.append_assoc]; rfl⟩
  have hfile : shardFile (leadBytes config datalink dev) es =
      toLE 4 MAGIC ++ (toLE 8 0 ++ (tl ++ (es.map Entry.bytes).flatten)) := by
    unfold shardFile
    rw [htl, List.append_assoc, List.append_assoc]
  have hnew := reader_new_general 0 (tl ++ (es.map Entry.bytes).flatten) (by norm_num [W64])
  rw [← hfile] at hnew
  have hcontent : toLE 8 0 ++ (tl ++ (es.map Entry.bytes).flatten) =
      leadBytes config datalink dev ++ (es.map Entry.bytes).flatten := by
    rw [htl, List.append_assoc]
  rw [hcontent] at hnew
  refine ⟨by rw [hnew]; show ¬ ((1 : Int) < 0); decide, fun rs => ?_⟩
  have hl : (Reader.new (shardFile (leadBytes config datalink dev) es)).has_lead_ = true := by
    rw [hnew]; rfl
  rw [if_pos hl]
  have hstream : (rs.read_lead (Reader.new (shardFile (leadBytes config datalink dev) es))).2 =
      { Reader.new (shardFile (leadBytes config datalink dev) es) with file_ :=
        (((((IFStream.positioned (toLE 4 MAGIC ++ leadBytes config datalink dev)
          (es.map Entry.bytes).flatten).tellg.2.seekg_cur 8).read 8).2.read 8).2.seekg
          (IFStream.positioned (toLE 4 MAGIC ++ leadBytes config datalink dev)
            (es.map Entry.bytes).flatten).tellg.1) } := by
    cases hmac : dev.mac_addr with
    | none =>
      exact read_lead_stream_none rs _ config datalink dev _ hlead hmac (by rw [hnew])
        (by rw [hnew])
    | some m =>
      exact read_lead_stream_some rs _ config datalink dev _ hlead m hmac (by rw [hnew])
        (by rw [hnew])
  rw [hstream]
  cases es with
  | nil =>
    obtain ⟨p1, p2⟩ := peek_short (toLE 4 MAGIC ++ leadBytes config datalink dev)
    have := read_next_failed
      { Reader.new (shardFile (leadBytes config datalink dev) []) with file_ :=
        (((((IFStream.positioned (toLE 4 MAGIC ++ leadBytes config datalink dev)
          []).tellg.2.seekg_cur 8).read 8).2.read 8).2.seekg
          (IFStream.positioned (toLE 4 MAGIC ++ leadBytes config datalink dev)
            []).tellg.1) } p1 p2
    exact Or.inr this.2
  | cons e rest =>
    have hlen : 24 ≤ (((e :: rest).map Entry.bytes).flatten).length := by
      have := entry_bytes_length e (hwf e (List.mem_cons_self _ _))
      simp only [List.map_cons, List.flatten_cons, List.length_append]
      omega
    rw [peek_restores _ _ hlen, hnew]
    exact holds_first _ _ _ hwf

theorem opensTo_shardFiles (leads : List (List Nat)) (shards : List (List Entry))
    (hleads : List.Forall₂ (fun l _ => ValidLead l) leads shards)
    (hwf : ∀ s ∈ shards, ∀ e ∈ s, e.wf = true)
    (hpos : ∀ s ∈ shards, ∀ e ∈ s, 1 ≤ e.id) :
    List.Forall₂ OpensTo (shardFiles leads shards) shards := by
  induction hleads with
  | nil => exact List.Forall₂.nil
  | @cons l s ls ss hl hrest ih =>
    have ih' := ih (fun s' hs' => hwf s' (List.mem_cons_of_mem _ hs'))
      (fun s' hs' => hpos s' (List.mem_cons_of_mem _ hs'))
    have hws := hwf s (List.mem_cons_self _ _)
    have hps := hpos s (List.mem_cons_self _ _)
    show List.Forall₂ OpensTo (shardFile l s :: shardFiles ls ss) (s :: ss)
    refine List.Forall₂.cons ?_ ih'
    rcases hl with rfl | ⟨config, datalink, dev, hok, rfl⟩
    · exact opensTo_plain s hws hps
    · exact opensTo_lead config datalink dev s hok hws

theorem sortedUnion_single (s : List Entry) (hs : s.Pairwise (fun a b => a.id < b.id)) :
    sortedUnion [s] = s := by
  have h := eq_sortedUnion [s] s (by simp) hs
  exact h.symm

/-- Order of the merge. For shard files whose shards hold well-formed entries
with IDs strictly increasing inside each shard, all at least 1 and none twice,
any shard with or without a lead record: the first `n` calls of `next`, `n`
being the number of entries, return exactly the union of the entries sorted by
ID (the reference merge `sortedUnion`); when every shard holds at least one
entry the following call returns end-of-stream; a single shard is returned in
its stored order. `fuel` bounds the rounds of one call and exceeds every
ID. -/
theorem merge_eq_sortedUnion (leads : List (List Nat)) (shards : List (List Entry))
    (fuel : Nat)
    (hleads : List.Forall₂ (fun l _ => ValidLead l) leads shards)
    (hwf : ∀ s ∈ shards, ∀ e ∈ s, e.wf = true)
    (hsorted : ∀ s ∈ shards, s.Pairwise (fun a b => a.id < b.id))
    (hpos : ∀ s ∈ shards, ∀ e ∈ s, 1 ≤ e.id)
    (hnodup : (shards.flatten.map Entry.id).Nodup)
    (hfuel : ∀ s ∈ shards, ∀ e ∈ s, e.id < fuel) (hf : 0 < fuel) :
    merge fuel shards.flatten.length (shardFiles leads shards) =
      MergeResult.entries (sortedUnion shards) false ∧
    ((∀ s ∈ shards, s ≠ []) →
      merge fuel (shards.flatten.length + 1) (shardFiles leads shards) =
        MergeResult.entries (sortedUnion shards) true) ∧
    (∀ s, shards = [s] → sortedUnion shards = s) := by
  have hopen := opensTo_shardFiles leads shards hleads hwf hpos
  have hok : ShardsOk 1 shards :=
    ⟨hwf, hsorted, hnodup, fun e he => by
      obtain ⟨s, hs, hes⟩ := List.mem_flatten.mp he
      exact hpos s hs e hes⟩
  have hfuel' : ∀ e ∈ shards.flatten, e.id < fuel := fun e he => by
    obtain ⟨s, hs, hes⟩ := List.mem_flatten.mp he
    exact hfuel s hs e hes
  obtain ⟨h1, h2⟩ := merge_of_opensTo (shardFiles leads shards) shards fuel hopen hok hfuel' hf
  refine ⟨h1, h2, ?_⟩
  intro s hs
  subst hs
  exact sortedUnion_single s (hsorted s (List.mem_singleton_self _))

theorem ingestEntries_spec (pkts : List (pcap_pkthdr × List Nat)) : ∀ (ws : WriterSet),
    (∀ p ∈ pkts, p.1.caplen < 2 ^ 32 ∧ p.1.len < 2 ^ 32 ∧ p.1.caplen ≤ p.2.length) →
    ws.entry_count_ + pkts.length ≤ 2 ^ 63 →
    (∀ e ∈ ingestEntries ws pkts, e.wf = true ∧ ws.entry_count_ ≤ e.id) ∧
    (ingestEntries ws pkts).Pairwise (fun a b => a.id < b.id) ∧
    (ingestEntries ws pkts).length = pkts.length ∧
    (∀ e ∈ ingestEntries ws pkts, e.id < ws.entry_count_ + pkts.length) := by
  induction pkts with
  | nil =>
    intro ws _ _
    exact ⟨fun e he => (by cases he), List.Pairwise.nil, rfl, fun e he => (by cases he)⟩
  | cons p rest ih =>
    intro ws hp hb
    have hW := W64_val
    have h63 : (2:Nat) ^ 63 = 9223372036854775808 := by norm_num
    simp only [List.length_cons] at hb
    have hmod : (ws.entry_count_ + 1) % W64 = ws.entry_count_ + 1 :=
      Nat.mod_eq_of_lt (by omega)
    obtain ⟨i1, i2, i3, i4⟩ := ih { ws with entry_count_ := (ws.entry_count_ + 1) % W64 }
      (fun q hq => hp q (List.mem_cons_of_mem _ hq))
      (by show (ws.entry_count_ + 1) % W64 + rest.length ≤ 2 ^ 63; omega)
    obtain ⟨c1, c2, c3⟩ := hp p (List.mem_cons_self _ _)
    have hhead : (⟨Hdr.pkt (ws.pktHdrOf p.1), some (p.2.take p.1.caplen)⟩ : Entry).wf = true := by
      have hs : toU64 p.1.tv_sec < W64 := by
        unfold toU64
        have h1 : (0 : Int) ≤ p.1.tv_sec % (W64 : Int) := Int.emod_nonneg _ (by rw [hW]; norm_num)
        have h2 : p.1.tv_sec % (W64 : Int) < (W64 : Int) :=
          Int.emod_lt_of_pos _ (by rw [hW]; norm_num)
        omega
      have hu : toU64 p.1.tv_usec < W64 := by
        unfold toU64
        have h1 : (0 : Int) ≤ p.1.tv_usec % (W64 : Int) :=
          Int.emod_nonneg _ (by rw [hW]; norm_num)
        have h2 : p.1.tv_usec % (W64 : Int) < (W64 : Int) :=
          Int.emod_lt_of_pos _ (by rw [hW]; norm_num)
        omega
      have hl : (p.2.take p.1.caplen).length = p.1.caplen := by
        rw [List.length_take]; omega
      simp only [Entry.wf, WriterSet.pktHdrOf, Bool.and_eq_true, decide_eq_true_eq,
        Option.map_some', Option.some.injEq]
      exact ⟨⟨⟨⟨⟨by omega, hs⟩, hu⟩, c2⟩, c1⟩, hl⟩
    refine ⟨?_, ?_, ?_, ?_⟩
    · intro e he
      rcases List.mem_cons.mp he with rfl | hm
      · exact ⟨hhead, Nat.le_refl _⟩
      · obtain ⟨w1, w2⟩ := i1 e hm
        refine ⟨w1, ?_⟩
        have : (ws.entry_count_ + 1) % W64 ≤ e.id := w2
        omega
    · refine List.Pairwise.cons ?_ i2
      intro e he
      have : (ws.entry_count_ + 1) % W64 ≤ e.id := (i1 e he).2
      show ws.entry_count_ < e.id
      omega
    · simp only [ingestEntries, List.length_cons, i3]
    · intro e he
      rcases List.mem_cons.mp he with rfl | hm
      · show ws.entry_count_ < _
        simp only [List.length_cons]; omega
      · have : e.id < (ws.entry_count_ + 1) % W64 + rest.length := i4 e hm
        simp only [List.length_cons]; omega

theorem sessionFiles_eq (config : Config) (datalink : Int) (dev : DeviceInfo)
    (mem0 : Nat → Nat) (shards : List (List Entry)) (hk : 1 ≤ config.num_files) :
    sessionFiles config datalink dev mem0 shards =
      shardFiles (leadBytes config datalink dev :: List.replicate (config.num_files.toNat - 1) [])
        shards := by
  have hn : (if config.num_files = 1 then 1 else config.num_files.toNat) =
      (config.num_files.toNat - 1) + 1 := by
    split_ifs with h
    · rw [h]; rfl
    · omega
  unfold sessionFiles shardFiles WriterSet.new
  simp only [hn, List.replicate_succ, List.modifyHead_cons]
  cases shards with
  | nil => rfl
  | cons s ss =>
    simp only [List.zipWith_cons_cons, shardFile, List.append_assoc]
    congr 1
    generalize config.num_files.toNat - 1 = n
    induction n generalizing ss with
    | zero => rfl
    | succ n ih =>
      cases ss with
      | nil => rfl
      | cons s' ss' =>
        simp only [List.replicate_succ, List.zipWith_cons_cons, List.append_nil, ih, shardFile]

theorem forall₂_of_length {α β : Type} (P : α → Prop) :
    ∀ (l1 : List α) (l2 : List β), l1.length = l2.length → (∀ a ∈ l1, P a) →
    List.Forall₂ (fun a _ => P a) l1 l2 := by
  intro l1
  induction l1 with
  | nil =>
    intro l2 h _
    cases l2 with
    | nil => exact List.Forall₂.nil
    | cons b l2 => cases h
  | cons a l1 ih =>
    intro l2 h hP
    cases l2 with
    | nil => cases h
    | cons b l2 =>
      exact List.Forall₂.cons (hP a (List.mem_cons_self _ _))
        (ih l2 (by simpa using h) (fun x hx => hP x (List.mem_cons_of_mem _ hx)))

/-- C3. A session writes the magic to each of its `k = num_files` shards and the
lead record to the first; the packets `pkts` are admitted in order, so that
`write_packet` frames them with the entry IDs 1, 2, ... (`ingestEntries`), and
they are distributed over the shards in any way that keeps their relative order
inside each shard (the shards together hold exactly the ingested entries, each
shard a subsequence of them; shards may stay empty). Then the first
`pkts.length` calls of `ReaderSet::next` on the shard files return the ingested
entries in the original order, each with the entry ID, secs, frac, original
length, captured length and payload bytes that were written; when no shard is
left empty the following call returns end-of-stream. `fuel` bounds the rounds
of one call. -/
theorem capture_round_trip (config : Config) (datalink : Int) (dev : DeviceInfo)
    (mem0 : Nat → Nat) (pkts : List (pcap_pkthdr × List Nat)) (shards : List (List Entry))
    (fuel : Nat)
    (hlead : LeadOk config dev) (hfiles : 1 ≤ config.num_files)
    (hpk : ∀ p ∈ pkts, p.1.caplen < 2 ^ 32 ∧ p.1.len < 2 ^ 32 ∧ p.1.caplen ≤ p.2.length)
    (hN : pkts.length < 2 ^ 63)
    (hk : shards.length = config.num_files.toNat)
    (hperm : List.Perm shards.flatten
      (ingestEntries (WriterSet.new config datalink dev mem0) pkts))
    (hsub : ∀ s ∈ shards,
      List.Sublist s (ingestEntries (WriterSet.new config datalink dev mem0) pkts))
    (hfuel : pkts.length < fuel) :
    merge fuel pkts.length (sessionFiles config datalink dev mem0 shards) =
      MergeResult.entries (ingestEntries (WriterSet.new config datalink dev mem0) pkts) false ∧
    ((∀ s ∈ shards, s ≠ []) →
      merge fuel (pkts.length + 1) (sessionFiles config datalink dev mem0 shards) =
        MergeResult.entries (ingestEntries (WriterSet.new config datalink dev mem0) pkts)
          true) := by
  have h63 : (2:Nat) ^ 63 = 9223372036854775808 := by norm_num
  obtain ⟨i1, i2, i3, i4⟩ := ingestEntries_spec pkts (WriterSet.new config datalink dev mem0) hpk
    (by show 1 + pkts.length ≤ 2 ^ 63; omega)
  have hmem : ∀ s ∈ shards, ∀ e ∈ s,
      e ∈ ingestEntries (WriterSet.new config datalink dev mem0) pkts :=
    fun s hs e he => (hsub s hs).subset he
  have hleads : List.Forall₂ (fun l (_ : List Entry) => ValidLead l)
      (leadBytes config datalink dev :: List.replicate (config.num_files.toNat - 1) [])
      shards := by
    apply forall₂_of_length
    · simp only [List.length_cons, List.length_replicate]; omega
    · intro l hl
      rcases List.mem_cons.mp hl with rfl | hm
      · exact Or.inr ⟨config, datalink, dev, hlead, rfl⟩
      · exact Or.inl (List.eq_of_mem_replicate hm)
  have hnodup : (shards.flatten.map Entry.id).Nodup := by
    rw [List.Perm.nodup_iff (hperm.map Entry.id), List.Nodup, List.pairwise_map]
    exact i2.imp (fun h => Nat.ne_of_lt h)
  have hlen : shards.flatten.length = pkts.length := by rw [hperm.length_eq, i3]
  obtain ⟨g1, g2, -⟩ := merge_eq_sortedUnion
    (leadBytes config datalink dev :: List.replicate (config.num_files.toNat - 1) []) shards fuel
    hleads (fun s hs e he => (i1 e (hmem s hs e he)).1)
    (fun s hs => i2.sublist (hsub s hs))
    (fun s hs e he => (i1 e (hmem s hs e he)).2)
    hnodup
    (fun s hs e he => by
      have : e.id < 1 + pkts.length := i4 e (hmem s hs e he)
      omega)
    (by omega)
  have heq := eq_sortedUnion shards _ hperm.symm i2
  rw [sessionFiles_eq config datalink dev mem0 shards hfiles, heq, ← hlen]
  exact ⟨g1, g2⟩

theorem leadOk_sample : LeadOk sampleConfig sampleDevice := by
  unfold LeadOk
  decide

set_option maxRecDepth 100000 in
theorem capture_round_trip_witness :
    LeadOk sampleConfig sampleDevice ∧ (1 : Int) ≤ sampleConfig.num_files ∧
    (∀ p ∈ samplePackets, p.1.caplen < 2 ^ 32 ∧ p.1.len < 2 ^ 32 ∧ p.1.caplen ≤ p.2.length) ∧
    samplePackets.length < 2 ^ 63 ∧
    merge 4 samplePackets.length (sessionFiles sampleConfig 1 sampleDevice (fun _ => 0)
      [[⟨Hdr.pkt ⟨1, 100, 5, 2, 2⟩, some [170, 187]⟩, ⟨Hdr.pkt ⟨3, 101, 0, 0, 0⟩, some []⟩],
       [⟨Hdr.pkt ⟨2, 100, 6, 4, 1⟩, some [204]⟩]]) =
      MergeResult.entries
        (ingestEntries (WriterSet.new sampleConfig 1 sampleDevice (fun _ => 0)) samplePackets)
        false :=
  ⟨by unfold LeadOk; decide, by decide, by decide, by decide,
    (capture_round_trip sampleConfig 1 sampleDevice (fun _ => 0) samplePackets
      [[⟨Hdr.pkt ⟨1, 100, 5, 2, 2⟩, some [170, 187]⟩, ⟨Hdr.pkt ⟨3, 101, 0, 0, 0⟩, some []⟩],
       [⟨Hdr.pkt ⟨2, 100, 6, 4, 1⟩, some [204]⟩]] 4
      (by unfold LeadOk; decide) (by decide) (by decide) (by decide) (by decide) (by decide)
      (by decide) (by decide)).1⟩

/-! ## Shards written by the workers -/

set_option maxRecDepth 100000 in
/-- C11 fails on the code. One writer, a ring buffer of 128 bytes: packet 1 is
ingested and appended to the shard, then packets 2 and 3 are ingested. Packet 3
(64 payload bytes, framed size 104) is admitted although only 87 bytes are
free, because `distance(end = 80, free_end = 39)` evaluates to
`128 - 39 + 80 = 169`; its payload overwrites the unread record of packet 2.
The next round of the writer appends a record whose entry ID is 1 again: the
entry IDs appended to the shard are 1, 1, while the IDs admitted are 1, 2, 3.
The shard file holds the magic, the lead record and these two records. -/
theorem shard_ids_repeat_after_overrun :
    (admittedIds (WriterSet.new tinyConfig 1 sampleDevice (fun _ => 0)) overrunSteps).map
      (fun p => p.1) = [1, 2, 3] ∧
    (appendedBy 0 (WriterSet.new tinyConfig 1 sampleDevice (fun _ => 0)) overrunSteps).map
      recordId = [1, 1] ∧
    (runSteps (WriterSet.new tinyConfig 1 sampleDevice (fun _ => 0)) overrunSteps).files_ =
      [toLE 4 MAGIC ++ leadBytes tinyConfig 1 sampleDevice ++
        (appendedBy 0 (WriterSet.new tinyConfig 1 sampleDevice (fun _ => 0))
          overrunSteps).flatten] := by
  decide

/-! ## Truncated shards -/

set_option maxRecDepth 100000 in
/-- C12 fails on the code. The final record of the shard (packet 2, 32 header
bytes and 4 payload bytes) is cut short. Cut after 33 bytes, inside the payload,
it is returned as entry 2 with the payload padded with zero bytes; cut after 20
bytes, inside the header, it is returned as entry 2 with the missing header
fields zero. Only when the cut lies inside the entry ID (7 bytes kept) is the
record dropped and the shard reported exhausted after entry 1. -/
theorem truncated_record_returned_as_entry :
    merge 1 3 [truncatedShard 33] = MergeResult.entries
      [⟨Hdr.pkt ⟨1, 100, 5, 2, 2⟩, some [170, 187]⟩,
       ⟨Hdr.pkt ⟨2, 100, 6, 4, 4⟩, some [1, 0, 0, 0]⟩] true ∧
    merge 1 3 [truncatedShard 20] = MergeResult.entries
      [⟨Hdr.pkt ⟨1, 100, 5, 2, 2⟩, some [170, 187]⟩,
       ⟨Hdr.pkt ⟨2, 100, 6, 0, 0⟩, some []⟩] true ∧
    merge 1 3 [truncatedShard 7] = MergeResult.entries
      [⟨Hdr.pkt ⟨1, 100, 5, 2, 2⟩, some [170, 187]⟩] true := by
  decide

/-! ## Warnings and end of stream -/

set_option maxRecDepth 100000 in
/-- C13 fails on the code. Shard 0 holds the entries 1 and 3, shard 1 the magic
only, so the only ID missing up to the largest ID present is 2. The first two
calls of `next` return the entries 1 and 3 and log the warning for ID 2. The
third call does not return within three rounds and logs warnings for the IDs 4,
5 and 6, which lie beyond the largest ID present: the reader of the shard
without entries is never marked done. -/
theorem merge_warns_beyond_largest_id :
    merge 2 2 gapAndEmptyShard = MergeResult.entries
      [⟨Hdr.pkt ⟨1, 100, 5, 2, 2⟩, some [170, 187]⟩,
       ⟨Hdr.pkt ⟨3, 100, 6, 1, 1⟩, some [204]⟩] false ∧
    warningsOfMerge 2 2 3 gapAndEmptyShard = some ([2], false, [2, 4, 5, 6]) := by
  decide

theorem scan_inr (k : Nat) (data : List Nat) : ∀ (readers : List Reader) (dc d : Nat),
    ReaderSet.scan k data readers dc = Sum.inr d →
    d = dc + (readers.filter (fun r => r.done_)).length := by
  intro readers
  induction readers with
  | nil => intro dc d h; simp only [ReaderSet.scan, Sum.inr.injEq] at h; simp [h]
  | cons r rest ih =>
    intro dc d h
    by_cases hd : r.done_ = true
    · simp only [ReaderSet.scan, hd, Bool.not_true, Bool.false_eq_true, if_false] at h
      cases hs : ReaderSet.scan k data rest (dc + 1) with
      | inl x => rw [hs] at h; cases h
      | inr d' =>
        rw [hs] at h
        simp only [Sum.inr.injEq] at h
        have := ih (dc + 1) d' hs
        have hf : List.filter (fun r => r.done_) (r :: rest) =
            r :: List.filter (fun r => r.done_) rest := List.filter_cons_of_pos hd
        rw [hf, List.length_cons]; omega
    · simp only [Bool.not_eq_true] at hd
      simp only [ReaderSet.scan, hd, Bool.not_false, if_true] at h
      by_cases hm : r.hdr_.visit.1 = k
      · simp only [hm, if_true] at h; cases h
      · simp only [hm, if_false] at h
        cases hs : ReaderSet.scan k data rest dc with
        | inl x => rw [hs] at h; cases h
        | inr d' =>
          rw [hs] at h
          simp only [Sum.inr.injEq] at h
          have := ih dc d' hs
          have hf : List.filter (fun r => r.done_) (r :: rest) =
              List.filter (fun r => r.done_) rest :=
            List.filter_cons_of_neg (by simp [hd])
          rw [hf]; omega

theorem scan_all_done (k : Nat) (data : List Nat) : ∀ (readers : List Reader) (dc : Nat),
    (∀ r ∈ readers, r.done_ = true) →
    ReaderSet.scan k data readers dc = Sum.inr (dc + readers.length) := by
  intro readers
  induction readers with
  | nil => intro dc _; rfl
  | cons r rest ih =>
    intro dc h
    have hd := h r (List.mem_cons_self _ _)
    simp only [ReaderSet.scan, hd, Bool.not_true, Bool.false_eq_true, if_false,
      ih (dc + 1) (fun r' hr' => h r' (List.mem_cons_of_mem _ hr')), List.length_cons]
    congr 1; omega

theorem all_done_of_filter (readers : List Reader)
    (h : (readers.filter (fun r => r.done_)).length = readers.length) :
    ∀ r ∈ readers, r.done_ = true := by
  induction readers with
  | nil => intro r hr; cases hr
  | cons a rest ih =>
    by_cases hd : a.done_ = true
    · have hf : List.filter (fun r => r.done_) (a :: rest) =
          a :: List.filter (fun r => r.done_) rest := List.filter_cons_of_pos hd
      rw [hf, List.length_cons, List.length_cons] at h
      intro r hr
      rcases List.mem_cons.mp hr with rfl | hm
      · exact hd
      · exact ih (by omega) r hm
    · have hf : List.filter (fun r => r.done_) (a :: rest) =
          List.filter (fun r => r.done_) rest := List.filter_cons_of_neg hd
      rw [hf, List.length_cons] at h
      have := List.length_filter_le (fun r => r.done_) rest
      omega

theorem next_eos_all_done (fuel : Nat) : ∀ (rs rs' : ReaderSet) (data data' : List Nat),
    rs.next fuel data = some (none, rs', data') → ∀ r ∈ rs.readers_, r.done_ = true := by
  induction fuel with
  | zero => intro rs rs' data data' h; simp [ReaderSet.next] at h
  | succ fuel ih =>
    intro rs rs' data data' h
    rw [ReaderSet.next] at h
    cases hs : ReaderSet.scan rs.next_ data rs.readers_ 0 with
    | inl x =>
      obtain ⟨hdr, readers, data1⟩ := x
      rw [hs] at h; simp at h
    | inr d =>
      rw [hs] at h
      simp only at h
      have hd := scan_inr _ _ _ _ _ hs
      rw [Nat.zero_add] at hd
      by_cases hc : d = rs.readers_.length
      · exact all_done_of_filter _ (by rw [← hd]; exact hc)
      · rw [if_neg hc] at h
        have hall := ih _ rs' data data' h
        exact hall

/-- End-of-stream in terms of the flag `done_`. In every state of a
`ReaderSet`, a call of `ReaderSet::next` returns end-of-stream (within some
number of rounds of its loop) if and only if every reader has `done_` set when
it is called. A call that returns end-of-stream leaves the whole state
unchanged, so it logs no warning and keeps the expected-ID cursor `next_`, and
leaves `data` as it was; with every reader done the call returns end-of-stream
in its first round. -/
theorem next_end_of_stream_iff (rs : ReaderSet) (data : List Nat) :
    ((∃ fuel rs' data', rs.next fuel data = some (none, rs', data')) ↔
      ∀ r ∈ rs.readers_, r.done_ = true) ∧
    (∀ fuel rs' data', rs.next fuel data = some (none, rs', data') →
      rs' = rs ∧ data' = data) ∧
    ((∀ r ∈ rs.readers_, r.done_ = true) →
      ∀ fuel, rs.next (fuel + 1) data = some (none, rs, data)) := by
  have hret : (∀ r ∈ rs.readers_, r.done_ = true) →
      ∀ fuel, rs.next (fuel + 1) data = some (none, rs, data) := by
    intro h fuel
    have hs := scan_all_done rs.next_ data rs.readers_ 0 h
    rw [Nat.zero_add] at hs
    simp only [ReaderSet.next, hs, if_true]
  refine ⟨⟨?_, fun h => ⟨1, rs, data, hret h 0⟩⟩, ?_, hret⟩
  · rintro ⟨fuel, rs', data', h⟩
    exact next_eos_all_done fuel rs rs' data data' h
  · intro fuel rs' data' h
    have hall := next_eos_all_done fuel rs rs' data data' h
    cases fuel with
    | zero => simp [ReaderSet.next] at h
    | succ fuel =>
      rw [hret hall fuel] at h
      simp only [Option.some.injEq, Prod.mk.injEq, true_and] at h
      exact ⟨h.1.symm, h.2.symm⟩

/-! ## Opening the shards -/

theorem toLE_native : toLE 4 NATIVE_MAGIC = [80, 65, 67, 70] := by decide

theorem toLE_non_native : toLE 4 NON_NATIVE_MAGIC = [70, 67, 65, 80] := by decide

/-- The magic that the constructor of `Reader` reads from a file of bytes is the
native one exactly when the file starts with its four bytes, and likewise for
the magic of the opposite byte order. -/
theorem magic_eq_iff (content : List Nat) (hb : ∀ b ∈ content, b < 256) :
    (fromLE (overwrite (toLE 4 0) ((IFStream.ofFile content).read 4).1) = NATIVE_MAGIC ↔
      content.take 4 = toLE 4 NATIVE_MAGIC) ∧
    (fromLE (overwrite (toLE 4 0) ((IFStream.ofFile content).read 4).1) = NON_NATIVE_MAGIC ↔
      content.take 4 = toLE 4 NON_NATIVE_MAGIC) := by
  have hrd : ((IFStream.ofFile content).read 4).1 = content.take 4 := by
    simp only [IFStream.read, IFStream.ofFile, IFStream.good, Bool.not_false, Bool.and_self,
      if_true, List.drop_zero]
    split <;> rfl
  rw [hrd, toLE_native, toLE_non_native]
  have h0 : toLE 4 0 = [0, 0, 0, 0] := by decide
  rw [h0]
  match content, hb with
  | [], _ => simp [overwrite, fromLE, NATIVE_MAGIC, NON_NATIVE_MAGIC]
  | [a], hb =>
    have ha := hb a (by simp)
    simp only [overwrite, fromLE, NATIVE_MAGIC, NON_NATIVE_MAGIC, List.take, List.length_cons,
      List.length_nil, List.drop, List.cons_append, List.nil_append]
    constructor <;> constructor <;> intro h <;> first | omega | simp at h
  | [a, b], hb =>
    have ha := hb a (by simp)
    have hb' := hb b (by simp)
    simp only [overwrite, fromLE, NATIVE_MAGIC, NON_NATIVE_MAGIC, List.take, List.length_cons,
      List.length_nil, List.drop, List.cons_append, List.nil_append]
    constructor <;> constructor <;> intro h <;> first | omega | simp at h
  | [a, b, c], hb =>
    have ha := hb a (by simp)
    have hb' := hb b (by simp)
    have hc := hb c (by simp)
    simp only [overwrite, fromLE, NATIVE_MAGIC, NON_NATIVE_MAGIC, List.take, List.length_cons,
      List.length_nil, List.drop, List.cons_append, List.nil_append]
    constructor <;> constructor <;> intro h <;> first | omega | simp at h
  | a :: b :: c :: d :: rest, hb =>
    have ha := hb a (by simp)
    have hb' := hb b (by simp)
    have hc := hb c (by simp)
    have hd := hb d (by simp)
    simp only [overwrite, fromLE, NATIVE_MAGIC, NON_NATIVE_MAGIC, List.take, List.length_cons,
      List.length_nil, List.drop, List.cons_append, List.nil_append, List.cons.injEq, and_true]
    constructor <;> constructor <;> intro h <;> omega

theorem reader_new_native (content : List Nat) (hb : ∀ b ∈ content, b < 256) :
    (Reader.new content).native_ =
      if content.take 4 = toLE 4 NATIVE_MAGIC then 1
      else if content.take 4 = toLE 4 NON_NATIVE_MAGIC then 0 else -1 := by
  obtain ⟨h1, h2⟩ := magic_eq_iff content hb
  unfold Reader.new
  simp only [h1, h2]
  by_cases c1 : content.take 4 = toLE 4 NATIVE_MAGIC
  · simp only [c1, true_or, if_true]
  · by_cases c2 : content.take 4 = toLE 4 NON_NATIVE_MAGIC
    · simp only [c1, c2, or_true, if_true, if_false]
    · simp only [c1, c2, or_self, if_false]

theorem read_next_native (r : Reader) : r.read_next.native_ = r.native_ := by
  unfold Reader.read_next
  dsimp only
  split_ifs <;> rfl

theorem read_lead_native (rs : ReaderSet) (r : Reader) :
    (rs.read_lead r).2.native_ = r.native_ := rfl

theorem openAll_native (paths : List (List Nat)) : ∀ (rs : ReaderSet) (ok : Bool),
    (ReaderSet.openAll rs ok paths).2 =
      (ok && paths.all (fun p => decide (¬ (Reader.new p).native_ < 0))) ∧
    (ReaderSet.openAll rs ok paths).1.readers_.map (fun r => r.native_) =
      rs.readers_.map (fun r => r.native_) ++ paths.map (fun p => (Reader.new p).native_) := by
  induction paths with
  | nil => intro rs ok; simp [ReaderSet.openAll]
  | cons p ps ih =>
    intro rs ok
    rw [ReaderSet.openAll]
    simp only [List.all_cons, List.map_cons]
    by_cases hn : (Reader.new p).native_ < 0
    · have hd : decide (¬ (Reader.new p).native_ < 0) = false := decide_eq_false (not_not.mpr hn)
      rw [if_pos hn, hd]
      obtain ⟨i1, i2⟩ := ih { rs with readers_ := rs.readers_ ++ [Reader.new p] } false
      refine ⟨?_, ?_⟩
      · rw [i1]; simp
      · rw [i2]; simp
    · have hd : decide (¬ (Reader.new p).native_ < 0) = true := decide_eq_true hn
      rw [if_neg hn, hd, Bool.true_and]
      by_cases hl : (Reader.new p).has_lead_ = true
      · rw [if_pos hl]
        obtain ⟨i1, i2⟩ := ih { (rs.read_lead (Reader.new p)).1 with
          readers_ := rs.readers_ ++ [(rs.read_lead (Reader.new p)).2] } ok
        refine ⟨i1, ?_⟩
        rw [i2]
        simp [read_lead_native]
      · rw [if_neg hl]
        obtain ⟨i1, i2⟩ := ih { rs with readers_ := rs.readers_ ++ [Reader.new p] } ok
        refine ⟨i1, ?_⟩
        rw [i2]; simp

/-- C15. For every list of shard files (sequences of bytes): if the first four
bytes of some file are neither the native magic nor the magic of the opposite
byte order, which includes every file shorter than four bytes, the constructor
of `ReaderSet` ends the process with exit status 1, so that the merge produces
no entry; otherwise it returns a set with one reader per file, each marked
native (`native_ = 1`) or swapped (`native_ = 0`) according to the magic its
file starts with. -/
theorem readerSet_new_checks_magic (snaplen0 : Int) (paths : List (List Nat))
    (hbytes : ∀ p ∈ paths, ∀ b ∈ p, b < 256) :
    ((∃ p ∈ paths, p.take 4 ≠ toLE 4 NATIVE_MAGIC ∧ p.take 4 ≠ toLE 4 NON_NATIVE_MAGIC) →
      ReaderSet.new snaplen0 paths = Except.error 1 ∧
      ∀ fuel n, merge fuel n paths = MergeResult.exit 1) ∧
    ((∃ p ∈ paths, p.length < 4) →
      ∃ p ∈ paths, p.take 4 ≠ toLE 4 NATIVE_MAGIC ∧ p.take 4 ≠ toLE 4 NON_NATIVE_MAGIC) ∧
    ((∀ p ∈ paths, p.take 4 = toLE 4 NATIVE_MAGIC ∨ p.take 4 = toLE 4 NON_NATIVE_MAGIC) →
      ∃ rs, ReaderSet.new snaplen0 paths = Except.ok rs ∧
        rs.readers_.map (fun r => r.native_) =
          paths.map (fun p => if p.take 4 = toLE 4 NATIVE_MAGIC then 1 else 0)) := by
  have hbad : ∀ s0, (∃ p ∈ paths, p.take 4 ≠ toLE 4 NATIVE_MAGIC ∧
      p.take 4 ≠ toLE 4 NON_NATIVE_MAGIC) → ReaderSet.new s0 paths = Except.error 1 := by
    rintro s0 ⟨p, hp, h1, h2⟩
    have hflag : (ReaderSet.openAll (ReaderSet.init s0) true paths).2 = false := by
      rw [(openAll_native paths _ true).1, Bool.true_and, List.all_eq_false]
      refine ⟨p, hp, ?_⟩
      rw [reader_new_native p (hbytes p hp), if_neg h1, if_neg h2]
      decide
    simp only [ReaderSet.new, hflag, Bool.not_false, if_true]
  refine ⟨fun h => ⟨hbad snaplen0 h, fun fuel n => ?_⟩, ?_, ?_⟩
  · simp only [merge, hbad 0 h]
  · rintro ⟨p, hp, hlen⟩
    refine ⟨p, hp, ?_, ?_⟩ <;>
    · intro h
      have := congrArg List.length h
      rw [List.length_take, toLE_length] at this
      omega
  · intro hall
    have hflag : (ReaderSet.openAll (ReaderSet.init snaplen0) true paths).2 = true := by
      rw [(openAll_native paths _ true).1, Bool.true_and, List.all_eq_true]
      intro p hp
      rw [reader_new_native p (hbytes p hp)]
      rcases hall p hp with h | h
      · rw [if_pos h]; decide
      · by_cases h1 : p.take 4 = toLE 4 NATIVE_MAGIC
        · rw [if_pos h1]; decide
        · rw [if_neg h1, if_pos h]; decide
    have hnew : ReaderSet.new snaplen0 paths = Except.ok
        { (ReaderSet.openAll (ReaderSet.init snaplen0) true paths).1 with
          readers_ := (ReaderSet.openAll (ReaderSet.init snaplen0) true paths).1.readers_.map
            Reader.read_next } := by
      simp only [ReaderSet.new, hflag, Bool.not_true, Bool.false_eq_true, if_false]
    refine ⟨_, hnew, ?_⟩
    simp only [List.map_map]
    have hcomp : ((fun r : Reader => r.native_) ∘ Reader.read_next) = fun r => r.native_ := by
      funext r; exact read_next_native r
    rw [hcomp, (openAll_native paths _ true).2]
    simp only [ReaderSet.init, List.map_nil, List.nil_append]
    apply List.map_congr_left
    intro p hp
    rw [reader_new_native p (hbytes p hp)]
    rcases hall p hp with h | h
    · rw [if_pos h, if_pos h]
    · by_cases h1 : p.take 4 = toLE 4 NATIVE_MAGIC
      · rw [if_pos h1, if_pos h1]
      · rw [if_neg h1, if_pos h, if_neg h1]

theorem readerSet_new_checks_magic_witness :
    (∀ p ∈ [[80, 65, 67, 70, 1], [70, 67, 65]], ∀ b ∈ p, b < 256) ∧
    ReaderSet.new 0 [[80, 65, 67, 70, 1], [70, 67, 65]] = Except.error 1 :=
  ⟨by decide, ((readerSet_new_checks_magic 0 [[80, 65, 67, 70, 1], [70, 67, 65]] (by decide)).1
    ⟨[70, 67, 65], by decide, by decide, by decide⟩).1⟩

set_option maxRecDepth 100000 in
/-- C16 fails on the code. The reader opened on a shard that consists of the
magic only has `has_lead_` set, although no entry ID follows the magic: the
failed read leaves the variable `entry_id` at its initial value 0. In a session
with nanosecond timestamps and two writers in which the first writer takes the
only packet, the second shard is such a shard: both shards are taken for lead
shards, `read_lead` runs on the second one too, every read of it fails, and
the nanosecond flag parsed from the real lead record (`true` when the first
shard is opened alone) is replaced by `false`. -/
theorem magic_only_shard_taken_for_lead :
    (Reader.new (toLE 4 MAGIC)).has_lead_ = true ∧
    nanoSession.drop 1 = [toLE 4 MAGIC] ∧
    nanoSession.map (fun f => (Reader.new f).has_lead_) = [true, true] ∧
    (ReaderSet.new 0 (nanoSession.take 1)).toOption.map (fun rs => rs.nano_) = some true ∧
    (ReaderSet.new 0 nanoSession).toOption.map (fun rs => rs.nano_) = some false := by
  decide

/-! ## The lead record -/

/-- C17 fails on the code. For a device with the MAC address 02:00:00:00:00:01
the lead record holds the flag byte 0 after the two subnet counts, followed at
once by the hardware description: no MAC byte is written. For a device without
MAC address the flag byte is 1, followed by the six bytes found in the storage
of the empty optional. -/
theorem lead_mac_flag_inverted :
    sampleDevice.mac_addr = some [2, 0, 0, 0, 0, 1] ∧
    leadBytes sampleConfig 1 sampleDevice =
      toLE 8 0 ++ cstr [99, 112, 117] ++ cstr [111, 115] ++ cstr [101, 116, 104, 48] ++ [0] ++
        cstr [] ++ toLE 4 65536 ++ toLE 4 0 ++ toLE 4 0 ++
        [0] ++ cstr [110, 105, 99] ++ toLE 8 1000 ++ toLE 2 1 ∧
    noMacDevice.mac_addr = none ∧
    leadBytes sampleConfig 1 noMacDevice =
      toLE 8 0 ++ cstr [99, 112, 117] ++ cstr [111, 115] ++ cstr [101, 116, 104, 48] ++ [0] ++
        cstr [] ++ toLE 4 65536 ++ toLE 4 0 ++ toLE 4 0 ++
        [1] ++ [9, 9, 9, 9, 9, 9] ++ cstr [110, 105, 99] ++ toLE 8 1000 ++ toLE 2 1 := by
  decide

set_option maxRecDepth 100000 in
/-- C18 fails on the code. `read_lead` applied to the first shard as the
constructor of `WriterSet` leaves it recovers the CPU model, OS version,
interface name, nanosecond flag, filter, snaplen, subnets, hardware
description, link speed and link type that were written, but not the MAC
address: for the device with the MAC address 02:00:00:00:00:01 it yields no MAC
address, and for the device without MAC address it yields the six bytes
09:09:09:09:09:09. -/
theorem lead_mac_not_recovered :
    sampleDevice.mac_addr = some [2, 0, 0, 0, 0, 1] ∧
    ((ReaderSet.init 0).read_lead (Reader.new
      ((WriterSet.new sampleConfig 1 sampleDevice (fun _ => 0)).files_.headD []))).1.mac_ =
        none ∧
    noMacDevice.mac_addr = none ∧
    ((ReaderSet.init 0).read_lead (Reader.new
      ((WriterSet.new sampleConfig 1 noMacDevice (fun _ => 0)).files_.headD []))).1.mac_ =
        some [9, 9, 9, 9, 9, 9] ∧
    (fun rs : ReaderSet => (rs.cpu_model_, rs.os_version_, rs.dev_name_, rs.hardware_))
      ((ReaderSet.init 0).read_lead (Reader.new
        ((WriterSet.new sampleConfig 1 sampleDevice (fun _ => 0)).files_.headD []))).1 =
      (sampleDevice.cpu_model, sampleDevice.os_version, sampleDevice.name,
        sampleDevice.hardware) ∧
    (fun rs : ReaderSet => (rs.nano_, rs.filter_, rs.snaplen_, rs.ipv4s_, rs.ipv6s_))
      ((ReaderSet.init 0).read_lead (Reader.new
        ((WriterSet.new sampleConfig 1 sampleDevice (fun _ => 0)).files_.headD []))).1 =
      (sampleConfig.nano, sampleConfig.filter, sampleConfig.snaplen, sampleDevice.ipv4_addrs,
        sampleDevice.ipv6_addrs) ∧
    (fun rs : ReaderSet => (rs.speed_, rs.link_))
      ((ReaderSet.init 0).read_lead (Reader.new
        ((WriterSet.new sampleConfig 1 sampleDevice (fun _ => 0)).files_.headD []))).1 =
      (sampleDevice.speed, 1) := by
  decide

/-! ## Files of a new writer pool -/

theorem magic_bytes : toLE 4 MAGIC = [80, 65, 67, 70] := by decide

theorem leadBytes_take (config : Config) (datalink : Int) (dev : DeviceInfo) :
    (leadBytes config datalink dev).take 8 = toLE 8 0 := by
  unfold leadBytes
  simp only [List.append_assoc]
  rw [List.take_append_of_le_length (by rw [toLE_length])]
  exact List.take_of_length_le (by rw [toLE_length])

/-- C19. After the construction of a `WriterSet` with `N = num_files ≥ 1`
shards there are `N` files; each starts with the four bytes `50 41 43 46`, the
magic `0x46434150` in the byte order of the host; the first file continues
after the magic with the lead record, whose first eight bytes are the entry ID
0; every other file holds the magic and nothing else. -/
theorem writerSet_new_files (config : Config) (datalink : Int) (dev : DeviceInfo)
    (mem0 : Nat → Nat) (hN : 1 ≤ config.num_files) :
    toLE 4 MAGIC = [0x50, 0x41, 0x43, 0x46] ∧
    (WriterSet.new config datalink dev mem0).files_.length = config.num_files.toNat ∧
    (∀ f ∈ (WriterSet.new config datalink dev mem0).files_, f.take 4 = toLE 4 MAGIC) ∧
    (WriterSet.new config datalink dev mem0).files_[0]? =
      some (toLE 4 MAGIC ++ leadBytes config datalink dev) ∧
    (leadBytes config datalink dev).take 8 = [0, 0, 0, 0, 0, 0, 0, 0] ∧
    (∀ i, 1 ≤ i → i < config.num_files.toNat →
      (WriterSet.new config datalink dev mem0).files_[i]? = some (toLE 4 MAGIC)) := by
  have hn : (if config.num_files = 1 then 1 else config.num_files.toNat) =
      (config.num_files.toNat - 1) + 1 := by
    split_ifs with h
    · rw [h]; rfl
    · omega
  have hfiles : (WriterSet.new config datalink dev mem0).files_ =
      (toLE 4 MAGIC ++ leadBytes config datalink dev) ::
        List.replicate (config.num_files.toNat - 1) (toLE 4 MAGIC) := by
    unfold WriterSet.new
    simp only [hn, List.replicate_succ, List.modifyHead_cons]
  have h8 : toLE 8 0 = [0, 0, 0, 0, 0, 0, 0, 0] := by decide
  rw [hfiles]
  refine ⟨magic_bytes, ?_, ?_, List.getElem?_cons_zero, ?_, ?_⟩
  · simp only [List.length_cons, List.length_replicate]; omega
  · intro f hf
    rcases List.mem_cons.mp hf with rfl | hm
    · rw [List.take_append_of_le_length (by rw [toLE_length])]
      exact List.take_of_length_le (by rw [toLE_length])
    · rw [List.eq_of_mem_replicate hm]
      exact List.take_of_length_le (by rw [toLE_length])
  · rw [leadBytes_take, h8]
  · intro i h1 h2
    obtain ⟨j, rfl⟩ : ∃ j, i = j + 1 := ⟨i - 1, by omega⟩
    rw [List.getElem?_cons_succ, List.getElem?_replicate]
    rw [if_pos (by omega)]

set_option maxRecDepth 100000 in
theorem writerSet_new_files_witness :
    (1 : Int) ≤ sampleConfig.num_files ∧
    (WriterSet.new sampleConfig 1 sampleDevice (fun _ => 0)).files_[1]? = some (toLE 4 MAGIC) :=
  ⟨by decide, (writerSet_new_files sampleConfig 1 sampleDevice (fun _ => 0) (by decide)).2.2.2.2.2
    1 (by decide) (by decide)⟩

/-! ## Names of the shard files -/

/-- C20 as stated fails on the code. For the name `a.b.c` and two shards the
code opens `a.b.0.c` and `a.b.1.c`: the extension it moves behind the shard
number is `.c`, the part from the last period on. With the longest trailing
segment that begins with a period, `.b.c`, the names would be `a.0.b.c` and
`a.1.b.c`. -/
theorem shard_names_differ_from_longest_extension :
    WriterSet.fileNames { sampleConfig with fname := [97, 46, 98, 46, 99], num_files := 2 } =
      [[97, 46, 98, 46, 48, 46, 99], [97, 46, 98, 46, 49, 46, 99]] ∧
    specFileNames [97, 46, 98, 46, 99] 2 =
      [[97, 46, 48, 46, 98, 46, 99], [97, 46, 49, 46, 98, 46, 99]] := by
  decide

theorem filename_split (p : List Nat) :
    ∃ dir, p = dir ++ filename p ∧ SLASH ∉ filename p ∧
      (dir = [] ∨ dir.getLast? = some SLASH) := by
  refine ⟨(p.reverse.dropWhile (fun c => c != SLASH)).reverse, ?_, ?_, ?_⟩
  · unfold filename
    rw [← List.reverse_append, List.takeWhile_append_dropWhile, List.reverse_reverse]
  · unfold filename
    intro h
    have := List.mem_takeWhile_imp (List.mem_reverse.mp h)
    simp at this
  · cases hd : p.reverse.dropWhile (fun c => c != SLASH) with
    | nil => left; rfl
    | cons a rest =>
      right
      have hne : p.reverse.dropWhile (fun c => c != SLASH) ≠ [] := by rw [hd]; simp
      have hh := List.head_dropWhile_not (fun c => c != SLASH) p.reverse hne
      simp only [hd, List.head_cons, bne_iff_ne, ne_eq, Bool.not_eq_true,
        bne_eq_false_iff_eq] at hh
      simp [List.getLast?_reverse, hh]

theorem last_dot_split (f : List Nat) (h : DOT ∈ f) :
    ∃ stem, f = stem ++ DOT :: (f.reverse.takeWhile (fun c => c != DOT)).reverse ∧
      DOT ∉ (f.reverse.takeWhile (fun c => c != DOT)).reverse := by
  have hne : f.reverse.dropWhile (fun c => c != DOT) ≠ [] := by
    intro h0
    have hall := List.dropWhile_eq_nil_iff.mp h0
    have := hall DOT (List.mem_reverse.mpr h)
    simp at this
  cases hd : f.reverse.dropWhile (fun c => c != DOT) with
  | nil => exact absurd hd hne
  | cons a rest =>
    have hh := List.head_dropWhile_not (fun c => c != DOT) f.reverse hne
    simp only [hd, List.head_cons, bne_iff_ne, ne_eq, Bool.not_eq_true,
      bne_eq_false_iff_eq] at hh
    subst hh
    refine ⟨rest.reverse, ?_, ?_⟩
    · have := List.takeWhile_append_dropWhile (fun c => c != DOT) f.reverse
      rw [hd] at this
      generalize List.takeWhile (fun c => c != DOT) f.reverse = t at this ⊢
      have h2 := congrArg List.reverse this
      rw [List.reverse_reverse] at h2
      rw [← h2]
      simp
    · intro hm
      have := List.mem_takeWhile_imp (List.mem_reverse.mp hm)
      simp at this

/-- C20, amended. With one shard the file has the given name verbatim. With
`N > 1` shards the name splits as `dir ++ stem ++ ext`, where `stem ++ ext` is
the final path component (it holds no `/`, and `dir` is empty or ends with
`/`) and `ext` is its extension in the sense of
`std::filesystem::path::extension`: either `ext` begins at the last period of
the component, that period is not its first character and the component is not
`..`; or `ext` is empty and the component is `..` or has no period other than
as its first character. There are `N` shards and shard `i` is named
`dir ++ stem ++ "." ++ i ++ ext` with `i` in decimal. -/
theorem shard_names_use_last_extension (config : Config) :
    (config.num_files = 1 → WriterSet.fileNames config = [config.fname]) ∧
    (1 < config.num_files →
      ∃ dir stem ext, config.fname = dir ++ (stem ++ ext) ∧
        SLASH ∉ stem ++ ext ∧ (dir = [] ∨ dir.getLast? = some SLASH) ∧
        ((ext = [] ∧ (stem = [DOT, DOT] ∨ DOT ∉ stem.tail)) ∨
         (∃ e, ext = DOT :: e ∧ DOT ∉ e ∧ stem ≠ [] ∧ stem ++ ext ≠ [DOT, DOT])) ∧
        (WriterSet.fileNames config).length = config.num_files.toNat ∧
        ∀ i, i < config.num_files.toNat →
          (WriterSet.fileNames config)[i]? =
            some (dir ++ stem ++ [DOT] ++ decimal i ++ ext)) := by
  refine ⟨fun h => by simp only [WriterSet.fileNames, h, if_true], fun hN => ?_⟩
  have hne : ¬ config.num_files = 1 := by omega
  obtain ⟨dir, hsplit, hslash, hdir⟩ := filename_split config.fname
  have key : ∃ stem ext, filename config.fname = stem ++ ext ∧ extension config.fname = ext ∧
      ((ext = [] ∧ (stem = [DOT, DOT] ∨ DOT ∉ stem.tail)) ∨
       (∃ e, ext = DOT :: e ∧ DOT ∉ e ∧ stem ≠ [] ∧ stem ++ ext ≠ [DOT, DOT])) := by
    by_cases hc : filename config.fname = [DOT, DOT] ∨ DOT ∉ (filename config.fname).tail
    · refine ⟨filename config.fname, [], (List.append_nil _).symm, ?_, Or.inl ⟨rfl, hc⟩⟩
      simp only [extension, hc, if_true]
    · have hc1 : filename config.fname ≠ [DOT, DOT] := fun h => hc (Or.inl h)
      have hc2 : DOT ∈ (filename config.fname).tail := by
        by_contra h; exact hc (Or.inr h)
      obtain ⟨stem, hst, hnd⟩ := last_dot_split (filename config.fname) (List.mem_of_mem_tail hc2)
      refine ⟨stem, _, hst, ?_, Or.inr ⟨_, rfl, hnd, ?_, ?_⟩⟩
      · simp only [extension, hc, if_false]
      · intro h0
        rw [h0, List.nil_append] at hst
        rw [hst, List.tail_cons] at hc2
        exact hnd hc2
      · rw [← hst]; exact hc1
  obtain ⟨stem, ext, hf, hext, hcase⟩ := key
  refine ⟨dir, stem, ext, by rw [← hf]; exact hsplit, by rw [← hf]; exact hslash, hdir, hcase,
    ?_, ?_⟩
  · simp only [WriterSet.fileNames, hne, if_false, List.length_map, List.length_range]
  · intro i hi
    have htake : config.fname.take (config.fname.length - ext.length) = dir ++ stem := by
      have hname : config.fname = (dir ++ stem) ++ ext := by
        rw [List.append_assoc, ← hf]; exact hsplit
      have hl : config.fname.length - ext.length = (dir ++ stem).length := by
        rw [congrArg List.length hname, List.length_append]; omega
      rw [hl]
      nth_rewrite 1 [hname]
      exact List.take_left' rfl
    simp only [WriterSet.fileNames, hne, if_false, hext, htake]
    rw [List.getElem?_map, List.getElem?_range hi]
    rfl

/-! ## Warnings of a complete merge -/

/-- When the readers hold the entries of their shards that are still to be
returned and none of them is stuck on the entry ID 0, every reader is marked
done exactly when no entry is left in any shard. -/
theorem all_done_iff_no_entry_left (readers : List Reader) (shards : List (List Entry))
    (hh : List.Forall₂ Reader.Holds readers shards) (hns : NoStuck readers) :
    (∀ r ∈ readers, r.done_ = true) ↔ shards.flatten = [] := by
  constructor
  · intro hall
    by_contra hne
    obtain ⟨e, he⟩ := List.exists_mem_of_ne_nil _ hne
    apply exists_not_done readers shards hh ⟨e, he⟩
    rw [List.filter_eq_self.mpr hall]
  · intro hempty
    exact all_done_of_filter _ (all_done_of_empty readers shards hh hempty hns)

theorem openAll_warnings (files : List (List Nat)) : ∀ (rs : ReaderSet) (ok : Bool),
    (ReaderSet.openAll rs ok files).1.warnings_ = rs.warnings_ := by
  induction files with
  | nil => intro rs ok; rfl
  | cons p ps ih =>
    intro rs ok
    rw [ReaderSet.openAll]
    split_ifs
    · rw [ih]
    · rw [ih]; rfl
    · rw [ih]

theorem next_warnings (fuel : Nat) : ∀ (rs : ReaderSet) (data : List Nat)
    (shards : List (List Entry)) (e0 : Entry),
    List.Forall₂ Reader.Holds rs.readers_ shards → ShardsOk rs.next_ shards → 1 ≤ rs.next_ →
    e0 ∈ shards.flatten → e0.id < rs.next_ + fuel →
    ∀ hdr rs' data', rs.next fuel data = some (some hdr, rs', data') →
      rs'.warnings_ = rs.warnings_ ++ List.range' rs.next_ (rs'.next_ - 1 - rs.next_) := by
  induction fuel with
  | zero =>
    intro rs data shards e0 _ hok _ he0 hlt
    have := hok.lower e0 he0
    omega
  | succ fuel ih =>
    intro rs data shards e0 hh hok hk he0 hlt hdr rs' data' hret
    have hW : W64 = 18446744073709551616 := W64_val
    have h63 : (2:Nat) ^ 63 = 9223372036854775808 := by norm_num
    have hid0 : e0.id < 2 ^ 63 := by
      obtain ⟨s, hs, hes⟩ := mem_shard_of_mem_flatten he0
      exact entry_id_lt_of_wf (hok.wf s hs e0 hes)
    have hlow := hok.lower e0 he0
    have hmod : (rs.next_ + 1) % W64 = rs.next_ + 1 := Nat.mod_eq_of_lt (by omega)
    cases hpop : popId rs.next_ shards with
    | some p =>
      obtain ⟨e, shards'⟩ := p
      obtain ⟨readers', data1, h1, -, -, -⟩ :=
        scan_some rs.next_ data hk rs.readers_ shards hh 0 e shards' hok.wf hpop
      simp only [ReaderSet.next, h1, Option.some.injEq, Prod.mk.injEq] at hret
      obtain ⟨-, hrs, -⟩ := hret
      subst hrs
      show rs.warnings_ = rs.warnings_ ++ List.range' rs.next_ ((rs.next_ + 1) % W64 - 1 - rs.next_)
      rw [hmod]
      simp
    | none =>
      have hscan := scan_none rs.next_ data hk rs.readers_ shards hh 0 hpop
      rw [Nat.zero_add] at hscan
      have hnd := exists_not_done rs.readers_ shards hh ⟨e0, he0⟩
      have hne : e0.id ≠ rs.next_ := fun h =>
        popId_isSome_of_mem rs.next_ shards hok.sorted hok.lower e0 he0 h hpop
      simp only [ReaderSet.next, hscan, hnd, if_false] at hret
      have hok1 : ShardsOk ((rs.next_ + 1) % W64) shards := by
        rw [hmod]; exact shardsOk_skip hok hpop
      have hih := ih
        { rs with warnings_ := rs.warnings_ ++ [rs.next_], next_ := (rs.next_ + 1) % W64 }
        data shards e0 hh hok1
        (by show 1 ≤ (rs.next_ + 1) % W64; omega) he0
        (by show e0.id < (rs.next_ + 1) % W64 + fuel; omega) hdr rs' data' hret
      obtain ⟨e, shards', rs'', data'', g1, -, -, -, g5, g6, -, -⟩ :=
        next_spec fuel
          { rs with warnings_ := rs.warnings_ ++ [rs.next_], next_ := (rs.next_ + 1) % W64 }
          data shards e0 hh hok1
        (by show 1 ≤ (rs.next_ + 1) % W64; omega) he0
        (by show e0.id < (rs.next_ + 1) % W64 + fuel; omega)
      rw [hret] at g1
      simp only [Option.some.injEq, Prod.mk.injEq] at g1
      obtain ⟨-, hrs, -⟩ := g1
      subst hrs
      have g6' : rs.next_ + 1 ≤ e.id := by
        have : (rs.next_ + 1) % W64 ≤ e.id := g6
        omega
      rw [hih]
      show (rs.warnings_ ++ [rs.next_]) ++
        List.range' ((rs.next_ + 1) % W64) (rs'.next_ - 1 - (rs.next_ + 1) % W64) = _
      rw [hmod, g5, List.append_assoc]
      congr 1
      have : e.id + 1 - 1 - rs.next_ = (e.id + 1 - 1 - (rs.next_ + 1)) + 1 := by omega
      rw [this, List.range'_succ]
      rfl


theorem filter_gaps (ids ids' : List Nat) (a x M : Nat) (hax : a ≤ x) (hxM : x ≤ M)
    (hmem : ∀ k, k ∈ ids ↔ k = x ∨ k ∈ ids') (hlow : ∀ k ∈ ids, x ≤ k) :
    (List.range' a (M + 1 - a)).filter (fun k => decide (k ∉ ids)) =
      List.range' a (x - a) ++
        (List.range' (x + 1) (M + 1 - (x + 1))).filter (fun k => decide (k ∉ ids')) := by
  have hsplit : List.range' a (M + 1 - a) =
      List.range' a (x - a) ++ (x :: List.range' (x + 1) (M + 1 - (x + 1))) := by
    have h1 : M + 1 - a = ((M + 1 - (x + 1)) + 1) + (x - a) := by omega
    have h2 : x = a + (x - a) := by omega
    rw [h1, ← List.range'_append_1, List.range'_succ, ← h2]
  rw [hsplit, List.filter_append]
  congr 1
  · rw [List.filter_eq_self]
    intro k hk
    have hk' := List.mem_range'_1.mp hk
    have : k ∉ ids := fun h => by have := hlow k h; omega
    simp [this]
  · have hx : x ∈ ids := (hmem x).mpr (Or.inl rfl)
    rw [List.filter_cons_of_neg (by simp [hx])]
    apply List.filter_congr
    intro k hk
    have hk' := List.mem_range'_1.mp hk
    have : k ∈ ids ↔ k ∈ ids' := by
      rw [hmem k]
      constructor
      · rintro (h | h)
        · omega
        · exact h
      · exact Or.inr
    simp [this]

theorem callNext_spec (fuel M : Nat) : ∀ (n : Nat) (rs : ReaderSet) (data : List Nat)
    (shards : List (List Entry)),
    shards.flatten.length = n → List.Forall₂ Reader.Holds rs.readers_ shards →
    ShardsOk rs.next_ shards → 1 ≤ rs.next_ → (∀ e ∈ shards.flatten, e.id < fuel) →
    NoStuck rs.readers_ → (∀ e ∈ shards.flatten, e.id ≤ M) →
    ((∃ e ∈ shards.flatten, e.id = M) ∨ M < rs.next_) →
    ∃ rs' data', callNext fuel n rs data = some (rs', data') ∧
      rs'.warnings_ = rs.warnings_ ++ (List.range' rs.next_ (M + 1 - rs.next_)).filter
        (fun k => decide (k ∉ shards.flatten.map Entry.id)) ∧
      (∀ r ∈ rs'.readers_, r.done_ = true) := by
  intro n
  induction n with
  | zero =>
    intro rs data shards hlen hh hok hk _ hns _ hM
    have hempty : shards.flatten = [] := List.length_eq_zero.mp hlen
    have hlt : M < rs.next_ := by
      rcases hM with ⟨e, he, _⟩ | h
      · rw [hempty] at he; cases he
      · exact h
    refine ⟨rs, data, rfl, ?_, ?_⟩
    · have : M + 1 - rs.next_ = 0 := by omega
      rw [this]; simp
    · exact all_done_of_filter _ (all_done_of_empty rs.readers_ shards hh hempty hns)
  | succ n ih =>
    intro rs data shards hlen hh hok hk hfuel hns hle hM
    obtain ⟨e0, he0⟩ : ∃ e0, e0 ∈ shards.flatten := by
      cases hfl : shards.flatten with
      | nil => rw [hfl] at hlen; cases hlen
      | cons a l => exact ⟨a, List.mem_cons_self _ _⟩
    obtain ⟨e, shards', rs', data', h1, h2, h3, h4, h5, h6, h7, h8⟩ :=
      next_spec fuel rs data shards e0 hh hok hk he0 (by have := hfuel e0 he0; omega)
    have hw := next_warnings fuel rs data shards e0 hh hok hk he0
      (by have := hfuel e0 he0; omega) e.hdr rs' data' h1
    have hlen' : shards'.flatten.length = n := by
      have := h2.length_eq
      rw [hlen, List.length_cons] at this
      omega
    have hsub : ∀ e' ∈ shards'.flatten, e' ∈ shards.flatten :=
      fun e' he' => h2.symm.subset (List.mem_cons_of_mem _ he')
    have heM : e.id ≤ M := hle e (h2.symm.subset (List.mem_cons_self _ _))
    obtain ⟨rs'', data'', g1, g2, g3⟩ := ih rs' data' shards' hlen' h3 h4 (by omega)
      (fun e' he' => hfuel e' (hsub e' he')) (h8 hns) (fun e' he' => hle e' (hsub e' he'))
      (by
        rcases hM with ⟨x, hx, hxM⟩ | h
        · rcases List.mem_cons.mp (h2.subset hx) with rfl | hm
          · right; omega
          · left; exact ⟨x, hm, hxM⟩
        · right; omega)
    refine ⟨rs'', data'', ?_, ?_, g3⟩
    · rw [callNext, h1]
      exact g1
    · rw [g2, hw, h5, List.append_assoc]
      congr 1
      have hfg := filter_gaps (shards.flatten.map Entry.id) (shards'.flatten.map Entry.id)
        rs.next_ e.id M h6 heM
        (fun k => by
          rw [(h2.map Entry.id).mem_iff, List.map_cons, List.mem_cons])
        (fun k hk => by
          obtain ⟨x, hx, rfl⟩ := List.mem_map.mp hk
          rcases List.mem_cons.mp (h2.subset hx) with rfl | hm
          · exact Nat.le_refl _
          · have := h4.lower x hm
            omega)
      rw [hfg]
      simp


theorem foldl_max_spec (l : List Nat) : ∀ (init : Nat),
    (∀ x ∈ l, x ≤ l.foldl max init) ∧ init ≤ l.foldl max init ∧
    (l.foldl max init = init ∨ l.foldl max init ∈ l) := by
  induction l with
  | nil => intro init; simp
  | cons a l ih =>
    intro init
    obtain ⟨i1, i2, i3⟩ := ih (max init a)
    simp only [List.foldl_cons]
    refine ⟨?_, ?_, ?_⟩
    · intro x hx
      rcases List.mem_cons.mp hx with rfl | hm
      · exact Nat.le_trans (Nat.le_max_right _ _) i2
      · exact i1 x hm
    · exact Nat.le_trans (Nat.le_max_left _ _) i2
    · rcases i3 with h | h
      · rw [h]
        rcases Nat.le_total init a with hle | hle
        · right; rw [Nat.max_eq_right hle]; exact List.mem_cons_self _ _
        · left; exact Nat.max_eq_left hle
      · right; exact List.mem_cons_of_mem _ h

/-- For shard files whose shards hold well-formed entries with IDs that are at
least 1, strictly increasing inside each shard and pairwise distinct, and
of which no shard is without entries: once `next` has returned all entries,
the warnings logged are exactly the IDs between 1 and the largest ID present
that occur in no shard, each once and in increasing order, and the following
call returns in its first round without a further warning. -/
theorem merge_warnings_are_gaps (leads : List (List Nat)) (shards : List (List Entry))
    (fuel : Nat)
    (hleads : List.Forall₂ (fun l _ => ValidLead l) leads shards)
    (hwf : ∀ s ∈ shards, ∀ e ∈ s, e.wf = true)
    (hsorted : ∀ s ∈ shards, s.Pairwise (fun a b => a.id < b.id))
    (hpos : ∀ s ∈ shards, ∀ e ∈ s, 1 ≤ e.id)
    (hnodup : (shards.flatten.map Entry.id).Nodup)
    (hfuel : ∀ s ∈ shards, ∀ e ∈ s, e.id < fuel)
    (hne : ∀ s ∈ shards, s ≠ []) :
    warningsOfMerge fuel shards.flatten.length 1 (shardFiles leads shards) =
      some (missingIds shards, true, missingIds shards) := by
  have hopen := opensTo_shardFiles leads shards hleads hwf hpos
  have hok : ShardsOk 1 shards :=
    ⟨hwf, hsorted, hnodup, fun e he => by
      obtain ⟨s, hs, hes⟩ := List.mem_flatten.mp he
      exact hpos s hs e hes⟩
  have hfuel' : ∀ e ∈ shards.flatten, e.id < fuel := fun e he => by
    obtain ⟨s, hs, hes⟩ := List.mem_flatten.mp he
    exact hfuel s hs e hes
  obtain ⟨h1, h2, opened, h3, h4⟩ :=
    openAll_spec (shardFiles leads shards) shards hopen (ReaderSet.init 0) true
  have hwarn := openAll_warnings (shardFiles leads shards) (ReaderSet.init 0) true
  have hnew : ReaderSet.new 0 (shardFiles leads shards) =
      Except.ok { (ReaderSet.openAll (ReaderSet.init 0) true (shardFiles leads shards)).1 with
        readers_ := (ReaderSet.openAll (ReaderSet.init 0) true
          (shardFiles leads shards)).1.readers_.map Reader.read_next } := by
    unfold ReaderSet.new
    simp only [h1, Bool.not_true, Bool.false_eq_true, if_false]
  have hholds : List.Forall₂ Reader.Holds
      ((ReaderSet.openAll (ReaderSet.init 0) true (shardFiles leads shards)).1.readers_.map
        Reader.read_next) shards := by
    rw [h3]
    show List.Forall₂ Reader.Holds (([] ++ opened).map Reader.read_next) shards
    rw [List.nil_append, List.forall₂_map_left_iff]
    exact h4
  obtain ⟨m1, m2, m3⟩ := foldl_max_spec (shards.flatten.map Entry.id) 0
  obtain ⟨rs', data', g1, g2, g3⟩ := callNext_spec fuel
    ((shards.flatten.map Entry.id).foldl max 0) shards.flatten.length
    { (ReaderSet.openAll (ReaderSet.init 0) true (shardFiles leads shards)).1 with
        readers_ := (ReaderSet.openAll (ReaderSet.init 0) true
          (shardFiles leads shards)).1.readers_.map Reader.read_next } [] shards rfl hholds
    (by show ShardsOk (ReaderSet.openAll (ReaderSet.init 0) true
          (shardFiles leads shards)).1.next_ shards
        rw [h2]; exact hok)
    (by show 1 ≤ (ReaderSet.openAll (ReaderSet.init 0) true (shardFiles leads shards)).1.next_
        rw [h2]; exact Nat.le_refl 1)
    hfuel' (noStuck_of_holds _ shards hholds hne hpos)
    (fun e he => m1 e.id (List.mem_map_of_mem _ he))
    (by
      rcases m3 with h | h
      · right
        show _ < (ReaderSet.openAll (ReaderSet.init 0) true (shardFiles leads shards)).1.next_
        rw [h, h2]; exact Nat.zero_lt_one
      · left
        obtain ⟨e, he, hid⟩ := List.mem_map.mp h
        exact ⟨e, he, hid⟩)
  have hw : rs'.warnings_ = missingIds shards := by
    rw [g2]
    show (ReaderSet.openAll (ReaderSet.init 0) true (shardFiles leads shards)).1.warnings_ ++
      (List.range' (ReaderSet.openAll (ReaderSet.init 0) true (shardFiles leads shards)).1.next_
        _).filter _ = _
    rw [hwarn, h2]
    rfl
  have hlast : rs'.nextRounds 1 data' = (true, rs') := by
    have hs := scan_all_done rs'.next_ data' rs'.readers_ 0 g3
    rw [Nat.zero_add] at hs
    simp only [ReaderSet.nextRounds, hs, if_true]
  simp only [warningsOfMerge, hnew, g1, Option.map_some', hlast, hw]

/-! ## Fields recovered from the lead record -/

/-- The first loop of `read_lead` reads back the IPv4 subnets that the writer
stored. -/
theorem readIPv4s_values (addrs : List IPv4Subnet)
    (hlen : ∀ a ∈ addrs, a.addr.length = 4 ∧ a.mask.length = 4) :
    ∀ pre rest,
    (readIPv4s (IFStream.positioned pre
      ((addrs.map (fun ipv4 => ipv4.addr.take 4 ++ ipv4.mask.take 4)).flatten ++ rest))
      addrs.length).1 = addrs := by
  induction addrs with
  | nil => intro pre rest; simp [readIPv4s]
  | cons a as ih =>
    intro pre rest
    obtain ⟨h1, h2⟩ := hlen a (List.mem_cons_self _ _)
    have hr1 := read_positioned pre (a.addr.take 4)
      (a.mask.take 4 ++ ((as.map (fun ipv4 => ipv4.addr.take 4 ++ ipv4.mask.take 4)).flatten
        ++ rest)) (n := 4) (by rw [List.length_take]; omega)
    have hr2 := read_positioned (pre ++ a.addr.take 4) (a.mask.take 4)
      ((as.map (fun ipv4 => ipv4.addr.take 4 ++ ipv4.mask.take 4)).flatten ++ rest) (n := 4)
      (by rw [List.length_take]; omega)
    have ih' := ih (fun x hx => hlen x (List.mem_cons_of_mem _ hx))
      ((pre ++ a.addr.take 4) ++ a.mask.take 4) rest
    have ta : a.addr.take 4 = a.addr := List.take_of_length_le (by omega)
    have tm : a.mask.take 4 = a.mask := List.take_of_length_le (by omega)
    simp only [List.map_cons, List.flatten_cons, List.length_cons, readIPv4s, List.append_assoc]
      at hr1 hr2 ih' ⊢
    rw [hr1]
    simp only []
    rw [hr2]
    simp only []
    rw [ih']
    rw [overwrite_full (by simp [h1]), overwrite_full (by simp [h2]), ta, tm]

/-- The second loop of `read_lead` reads back the IPv6 subnets that the writer
stored. -/
theorem readIPv6s_values (addrs : List IPv6Subnet)
    (hlen : ∀ a ∈ addrs, a.addr.length = 16) :
    ∀ pre rest,
    (readIPv6s (IFStream.positioned pre
      ((addrs.map (fun ipv6 => ipv6.addr.take 16 ++ [ipv6.prefix_len])).flatten ++ rest))
      addrs.length).1 = addrs := by
  induction addrs with
  | nil => intro pre rest; simp [readIPv6s]
  | cons a as ih =>
    intro pre rest
    have h1 := hlen a (List.mem_cons_self _ _)
    have hr1 := read_positioned pre (a.addr.take 16)
      ([a.prefix_len] ++ ((as.map (fun ipv6 => ipv6.addr.take 16 ++ [ipv6.prefix_len])).flatten
        ++ rest)) (n := 16) (by rw [List.length_take]; omega)
    have hr2 := read_positioned (pre ++ a.addr.take 16) [a.prefix_len]
      ((as.map (fun ipv6 => ipv6.addr.take 16 ++ [ipv6.prefix_len])).flatten ++ rest) (n := 1)
      rfl
    have ih' := ih (fun x hx => hlen x (List.mem_cons_of_mem _ hx))
      ((pre ++ a.addr.take 16) ++ [a.prefix_len]) rest
    have ta : a.addr.take 16 = a.addr := List.take_of_length_le (by omega)
    simp only [List.map_cons, List.flatten_cons, List.length_cons, readIPv6s, List.append_assoc]
      at hr1 hr2 ih' ⊢
    rw [hr1]
    simp only []
    rw [hr2]
    simp only []
    rw [ih']
    rw [overwrite_full (by simp [h1]), ta]
    simp [overwrite, fromLE]

/-- From the lead record of a device that has a MAC address, `read_lead`
recovers every field that was written except the MAC address, which it leaves
as it was. -/
theorem read_lead_values_some (rs : ReaderSet) (r : Reader) (config : Config) (datalink : Int)
    (dev : DeviceInfo) (recs : List Nat) (hwf : LeadOk config dev) (m : List Nat) (hmac : dev.mac_addr = some m)
    (hf : r.file_ = IFStream.positioned (toLE 4 MAGIC) (leadBytes config datalink dev ++ recs))
    (hn : r.native_ = 1)
    (hsnap : -2 ^ 31 ≤ config.snaplen ∧ config.snaplen < 2 ^ 31) (hspeed : dev.speed < W64) :
    (rs.read_lead r).1.cpu_model_ = dev.cpu_model ∧
    (rs.read_lead r).1.os_version_ = dev.os_version ∧
    (rs.read_lead r).1.dev_name_ = dev.name ∧
    (rs.read_lead r).1.nano_ = config.nano ∧
    (rs.read_lead r).1.filter_ = config.filter ∧
    (rs.read_lead r).1.snaplen_ = config.snaplen ∧
    (rs.read_lead r).1.ipv4s_ = rs.ipv4s_ ++ dev.ipv4_addrs ∧
    (rs.read_lead r).1.ipv6s_ = rs.ipv6s_ ++ dev.ipv6_addrs ∧
    (rs.read_lead r).1.hardware_ = dev.hardware ∧
    (rs.read_lead r).1.speed_ = dev.speed ∧
    (rs.read_lead r).1.link_ = (datalink % (2 ^ 16 : Int)).toNat ∧
    (rs.read_lead r).1.mac_ = rs.mac_ := by
  have hcontent : leadBytes config datalink dev ++ recs = (toLE 8 0 ++ (dev.cpu_model ++ 0 :: (dev.os_version ++ 0 :: (dev.name ++ 0 :: ((if config.nano then 1 else 0) :: (config.filter ++ 0 :: (toLE 4 (config.snaplen % (2 ^ 32 : Int)).toNat ++ (toLE 4 (dev.ipv4_addrs.length % 2 ^ 32) ++ ((dev.ipv4_addrs.map (fun ipv4 => ipv4.addr.take 4 ++ ipv4.mask.take 4)).flatten ++ (toLE 4 (dev.ipv6_addrs.length % 2 ^ 32) ++ ((dev.ipv6_addrs.map (fun ipv6 => ipv6.addr.take 16 ++ [ipv6.prefix_len])).flatten ++ (0 :: (dev.hardware ++ 0 :: (toLE 8 dev.speed ++ (toLE 2 (datalink % (2 ^ 16 : Int)).toNat ++ recs))))))))))))))) := by
    simp only [leadBytes, cstr, hmac, List.append_assoc, List.singleton_append, List.cons_append, List.nil_append]
  have hpre : ((((((((((((((((toLE 4 MAGIC) ++ (toLE 8 0)) ++ (dev.cpu_model ++ [0])) ++ (dev.os_version ++ [0])) ++ (dev.name ++ [0])) ++ [(if config.nano then 1 else 0)]) ++ (config.filter ++ [0])) ++ (toLE 4 (config.snaplen % (2 ^ 32 : Int)).toNat)) ++ (toLE 4 (dev.ipv4_addrs.length % 2 ^ 32))) ++ ((dev.ipv4_addrs.map (fun ipv4 => ipv4.addr.take 4 ++ ipv4.mask.take 4)).flatten)) ++ (toLE 4 (dev.ipv6_addrs.length % 2 ^ 32))) ++ ((dev.ipv6_addrs.map (fun ipv6 => ipv6.addr.take 16 ++ [ipv6.prefix_len])).flatten)) ++ [0]) ++ (dev.hardware ++ [0])) ++ (toLE 8 dev.speed)) ++ (toLE 2 (datalink % (2 ^ 16 : Int)).toNat)) = toLE 4 MAGIC ++ leadBytes config datalink dev := by
    simp only [leadBytes, cstr, hmac, List.append_assoc, List.singleton_append, List.cons_append, List.nil_append]
  have hswap : decide ((1 : Int) = 0) = false := by decide
  have hc4 : fromLE (overwrite (toLE 4 0) (toLE 4 (dev.ipv4_addrs.length % 2 ^ 32))) = dev.ipv4_addrs.length := by
    rw [overwrite_full (by simp [toLE_length]), Nat.mod_eq_of_lt hwf.2.2.2.2.2.1,
      fromLE_toLE 4 _ (by have := hwf.2.2.2.2.2.1; norm_num at this ⊢; omega)]
  have hc6 : fromLE (overwrite (toLE 4 0) (toLE 4 (dev.ipv6_addrs.length % 2 ^ 32))) = dev.ipv6_addrs.length := by
    rw [overwrite_full (by simp [toLE_length]), Nat.mod_eq_of_lt hwf.2.2.2.2.2.2.1,
      fromLE_toLE 4 _ (by have := hwf.2.2.2.2.2.2.1; norm_num at this ⊢; omega)]
  have h1 := read_positioned (toLE 4 MAGIC) (toLE 8 0) (dev.cpu_model ++ 0 :: (dev.os_version ++ 0 :: (dev.name ++ 0 :: ((if config.nano then 1 else 0) :: (config.filter ++ 0 :: (toLE 4 (config.snaplen % (2 ^ 32 : Int)).toNat ++ (toLE 4 (dev.ipv4_addrs.length % 2 ^ 32) ++ ((dev.ipv4_addrs.map (fun ipv4 => ipv4.addr.take 4 ++ ipv4.mask.take 4)).flatten ++ (toLE 4 (dev.ipv6_addrs.length % 2 ^ 32) ++ ((dev.ipv6_addrs.map (fun ipv6 => ipv6.addr.take 16 ++ [ipv6.prefix_len])).flatten ++ (0 :: (dev.hardware ++ 0 :: (toLE 8 dev.speed ++ (toLE 2 (datalink % (2 ^ 16 : Int)).toNat ++ recs)))))))))))))) (n := 8) (toLE_length _ _)
  have h2 := getline_positioned ((toLE 4 MAGIC) ++ (toLE 8 0)) (dev.cpu_model) (dev.os_version ++ 0 :: (dev.name ++ 0 :: ((if config.nano then 1 else 0) :: (config.filter ++ 0 :: (toLE 4 (config.snaplen % (2 ^ 32 : Int)).toNat ++ (toLE 4 (dev.ipv4_addrs.length % 2 ^ 32) ++ ((dev.ipv4_addrs.map (fun ipv4 => ipv4.addr.take 4 ++ ipv4.mask.take 4)).flatten ++ (toLE 4 (dev.ipv6_addrs.length % 2 ^ 32) ++ ((dev.ipv6_addrs.map (fun ipv6 => ipv6.addr.take 16 ++ [ipv6.prefix_len])).flatten ++ (0 :: (dev.hardware ++ 0 :: (toLE 8 dev.speed ++ (toLE 2 (datalink % (2 ^ 16 : Int)).toNat ++ recs))))))))))))) rs.cpu_model_ 0 hwf.1
  have h3 := getline_positioned (((toLE 4 MAGIC) ++ (toLE 8 0)) ++ (dev.cpu_model ++ [0])) (dev.os_version) (dev.name ++ 0 :: ((if config.nano then 1 else 0) :: (config.filter ++ 0 :: (toLE 4 (config.snaplen % (2 ^ 32 : Int)).toNat ++ (toLE 4 (dev.ipv4_addrs.length % 2 ^ 32) ++ ((dev.ipv4_addrs.map (fun ipv4 => ipv4.addr.take 4 ++ ipv4.mask.take 4)).flatten ++ (toLE 4 (dev.ipv6_addrs.length % 2 ^ 32) ++ ((dev.ipv6_addrs.map (fun ipv6 => ipv6.addr.take 16 ++ [ipv6.prefix_len])).flatten ++ (0 :: (dev.hardware ++ 0 :: (toLE 8 dev.speed ++ (toLE 2 (datalink % (2 ^ 16 : Int)).toNat ++ recs)))))))))))) rs.os_version_ 0 hwf.2.1
  have h4 := getline_positioned ((((toLE 4 MAGIC) ++ (toLE 8 0)) ++ (dev.cpu_model ++ [0])) ++ (dev.os_version ++ [0])) (dev.name) ((if config.nano then 1 else 0) :: (config.filter ++ 0 :: (toLE 4 (config.snaplen % (2 ^ 32 : Int)).toNat ++ (toLE 4 (dev.ipv4_addrs.length % 2 ^ 32) ++ ((dev.ipv4_addrs.map (fun ipv4 => ipv4.addr.take 4 ++ ipv4.mask.take 4)).flatten ++ (toLE 4 (dev.ipv6_addrs.length % 2 ^ 32) ++ ((dev.ipv6_addrs.map (fun ipv6 => ipv6.addr.take 16 ++ [ipv6.prefix_len])).flatten ++ (0 :: (dev.hardware ++ 0 :: (toLE 8 dev.speed ++ (toLE 2 (datalink % (2 ^ 16 : Int)).toNat ++ recs))))))))))) rs.dev_name_ 0 hwf.2.2.1
  have h5 := read_one_positioned (((((toLE 4 MAGIC) ++ (toLE 8 0)) ++ (dev.cpu_model ++ [0])) ++ (dev.os_version ++ [0])) ++ (dev.name ++ [0])) (config.filter ++ 0 :: (toLE 4 (config.snaplen % (2 ^ 32 : Int)).toNat ++ (toLE 4 (dev.ipv4_addrs.length % 2 ^ 32) ++ ((dev.ipv4_addrs.map (fun ipv4 => ipv4.addr.take 4 ++ ipv4.mask.take 4)).flatten ++ (toLE 4 (dev.ipv6_addrs.length % 2 ^ 32) ++ ((dev.ipv6_addrs.map (fun ipv6 => ipv6.addr.take 16 ++ [ipv6.prefix_len])).flatten ++ (0 :: (dev.hardware ++ 0 :: (toLE 8 dev.speed ++ (toLE 2 (datalink % (2 ^ 16 : Int)).toNat ++ recs)))))))))) (if config.nano then 1 else 0)
  have h6 := getline_positioned ((((((toLE 4 MAGIC) ++ (toLE 8 0)) ++ (dev.cpu_model ++ [0])) ++ (dev.os_version ++ [0])) ++ (dev.name ++ [0])) ++ [(if config.nano then 1 else 0)]) (config.filter) (toLE 4 (config.snaplen % (2 ^ 32 : Int)).toNat ++ (toLE 4 (dev.ipv4_addrs.length % 2 ^ 32) ++ ((dev.ipv4_addrs.map (fun ipv4 => ipv4.addr.take 4 ++ ipv4.mask.take 4)).flatten ++ (toLE 4 (dev.ipv6_addrs.length % 2 ^ 32) ++ ((dev.ipv6_addrs.map (fun ipv6 => ipv6.addr.take 16 ++ [ipv6.prefix_len])).flatten ++ (0 :: (dev.hardware ++ 0 :: (toLE 8 dev.speed ++ (toLE 2 (datalink % (2 ^ 16 : Int)).toNat ++ recs))))))))) rs.filter_ 0 hwf.2.2.2.1
  have h7 := read_positioned (((((((toLE 4 MAGIC) ++ (toLE 8 0)) ++ (dev.cpu_model ++ [0])) ++ (dev.os_version ++ [0])) ++ (dev.name ++ [0])) ++ [(if config.nano then 1 else 0)]) ++ (config.filter ++ [0])) (toLE 4 (config.snaplen % (2 ^ 32 : Int)).toNat) (toLE 4 (dev.ipv4_addrs.length % 2 ^ 32) ++ ((dev.ipv4_addrs.map (fun ipv4 => ipv4.addr.take 4 ++ ipv4.mask.take 4)).flatten ++ (toLE 4 (dev.ipv6_addrs.length % 2 ^ 32) ++ ((dev.ipv6_addrs.map (fun ipv6 => ipv6.addr.take 16 ++ [ipv6.prefix_len])).flatten ++ (0 :: (dev.hardware ++ 0 :: (toLE 8 dev.speed ++ (toLE 2 (datalink % (2 ^ 16 : Int)).toNat ++ recs)))))))) (n := 4) (toLE_length _ _)
  have h8 := read_positioned ((((((((toLE 4 MAGIC) ++ (toLE 8 0)) ++ (dev.cpu_model ++ [0])) ++ (dev.os_version ++ [0])) ++ (dev.name ++ [0])) ++ [(if config.nano then 1 else 0)]) ++ (config.filter ++ [0])) ++ (toLE 4 (config.snaplen % (2 ^ 32 : Int)).toNat)) (toLE 4 (dev.ipv4_addrs.length % 2 ^ 32)) ((dev.ipv4_addrs.map (fun ipv4 => ipv4.addr.take 4 ++ ipv4.mask.take 4)).flatten ++ (toLE 4 (dev.ipv6_addrs.length % 2 ^ 32) ++ ((dev.ipv6_addrs.map (fun ipv6 => ipv6.addr.take 16 ++ [ipv6.prefix_len])).flatten ++ (0 :: (dev.hardware ++ 0 :: (toLE 8 dev.speed ++ (toLE 2 (datalink % (2 ^ 16 : Int)).toNat ++ recs))))))) (n := 4) (toLE_length _ _)
  have h9 := readIPv4s_positioned dev.ipv4_addrs (fun a ha => by have := hwf.2.2.2.2.2.2.2.1 a ha; omega) (((((((((toLE 4 MAGIC) ++ (toLE 8 0)) ++ (dev.cpu_model ++ [0])) ++ (dev.os_version ++ [0])) ++ (dev.name ++ [0])) ++ [(if config.nano then 1 else 0)]) ++ (config.filter ++ [0])) ++ (toLE 4 (config.snaplen % (2 ^ 32 : Int)).toNat)) ++ (toLE 4 (dev.ipv4_addrs.length % 2 ^ 32))) (toLE 4 (dev.ipv6_addrs.length % 2 ^ 32) ++ ((dev.ipv6_addrs.map (fun ipv6 => ipv6.addr.take 16 ++ [ipv6.prefix_len])).flatten ++ (0 :: (dev.hardware ++ 0 :: (toLE 8 dev.speed ++ (toLE 2 (datalink % (2 ^ 16 : Int)).toNat ++ recs))))))
  have h10 := read_positioned ((((((((((toLE 4 MAGIC) ++ (toLE 8 0)) ++ (dev.cpu_model ++ [0])) ++ (dev.os_version ++ [0])) ++ (dev.name ++ [0])) ++ [(if config.nano then 1 else 0)]) ++ (config.filter ++ [0])) ++ (toLE 4 (config.snaplen % (2 ^ 32 : Int)).toNat)) ++ (toLE 4 (dev.ipv4_addrs.length % 2 ^ 32))) ++ ((dev.ipv4_addrs.map (fun ipv4 => ipv4.addr.take 4 ++ ipv4.mask.take 4)).flatten)) (toLE 4 (dev.ipv6_addrs.length % 2 ^ 32)) ((dev.ipv6_addrs.map (fun ipv6 => ipv6.addr.take 16 ++ [ipv6.prefix_len])).flatten ++ (0 :: (dev.hardware ++ 0 :: (toLE 8 dev.speed ++ (toLE 2 (datalink % (2 ^ 16 : Int)).toNat ++ recs))))) (n := 4) (toLE_length _ _)
  have h11 := readIPv6s_positioned dev.ipv6_addrs (fun a ha => by have := hwf.2.2.2.2.2.2.2.2.1 a ha; omega) (((((((((((toLE 4 MAGIC) ++ (toLE 8 0)) ++ (dev.cpu_model ++ [0])) ++ (dev.os_version ++ [0])) ++ (dev.name ++ [0])) ++ [(if config.nano then 1 else 0)]) ++ (config.filter ++ [0])) ++ (toLE 4 (config.snaplen % (2 ^ 32 : Int)).toNat)) ++ (toLE 4 (dev.ipv4_addrs.length % 2 ^ 32))) ++ ((dev.ipv4_addrs.map (fun ipv4 => ipv4.addr.take 4 ++ ipv4.mask.take 4)).flatten)) ++ (toLE 4 (dev.ipv6_addrs.length % 2 ^ 32))) (0 :: (dev.hardware ++ 0 :: (toLE 8 dev.speed ++ (toLE 2 (datalink % (2 ^ 16 : Int)).toNat ++ recs))))
  have h12 := read_one_positioned ((((((((((((toLE 4 MAGIC) ++ (toLE 8 0)) ++ (dev.cpu_model ++ [0])) ++ (dev.os_version ++ [0])) ++ (dev.name ++ [0])) ++ [(if config.nano then 1 else 0)]) ++ (config.filter ++ [0])) ++ (toLE 4 (config.snaplen % (2 ^ 32 : Int)).toNat)) ++ (toLE 4 (dev.ipv4_addrs.length % 2 ^ 32))) ++ ((dev.ipv4_addrs.map (fun ipv4 => ipv4.addr.take 4 ++ ipv4.mask.take 4)).flatten)) ++ (toLE 4 (dev.ipv6_addrs.length % 2 ^ 32))) ++ ((dev.ipv6_addrs.map (fun ipv6 => ipv6.addr.take 16 ++ [ipv6.prefix_len])).flatten)) (dev.hardware ++ 0 :: (toLE 8 dev.speed ++ (toLE 2 (datalink % (2 ^ 16 : Int)).toNat ++ recs))) 0
  have h13 := getline_positioned (((((((((((((toLE 4 MAGIC) ++ (toLE 8 0)) ++ (dev.cpu_model ++ [0])) ++ (dev.os_version ++ [0])) ++ (dev.name ++ [0])) ++ [(if config.nano then 1 else 0)]) ++ (config.filter ++ [0])) ++ (toLE 4 (config.snaplen % (2 ^ 32 : Int)).toNat)) ++ (toLE 4 (dev.ipv4_addrs.length % 2 ^ 32))) ++ ((dev.ipv4_addrs.map (fun ipv4 => ipv4.addr.take 4 ++ ipv4.mask.take 4)).flatten)) ++ (toLE 4 (dev.ipv6_addrs.length % 2 ^ 32))) ++ ((dev.ipv6_addrs.map (fun ipv6 => ipv6.addr.take 16 ++ [ipv6.prefix_len])).flatten)) ++ [0]) (dev.hardware) (toLE 8 dev.speed ++ (toLE 2 (datalink % (2 ^ 16 : Int)).toNat ++ recs)) rs.hardware_ 0 hwf.2.2.2.2.1
  have h14 := read_positioned ((((((((((((((toLE 4 MAGIC) ++ (toLE 8 0)) ++ (dev.cpu_model ++ [0])) ++ (dev.os_version ++ [0])) ++ (dev.name ++ [0])) ++ [(if config.nano then 1 else 0)]) ++ (config.filter ++ [0])) ++ (toLE 4 (config.snaplen % (2 ^ 32 : Int)).toNat)) ++ (toLE 4 (dev.ipv4_addrs.length % 2 ^ 32))) ++ ((dev.ipv4_addrs.map (fun ipv4 => ipv4.addr.take 4 ++ ipv4.mask.take 4)).flatten)) ++ (toLE 4 (dev.ipv6_addrs.length % 2 ^ 32))) ++ ((dev.ipv6_addrs.map (fun ipv6 => ipv6.addr.take 16 ++ [ipv6.prefix_len])).flatten)) ++ [0]) ++ (dev.hardware ++ [0])) (toLE 8 dev.speed) (toLE 2 (datalink % (2 ^ 16 : Int)).toNat ++ recs) (n := 8) (toLE_length _ _)
  have h15 := read_positioned (((((((((((((((toLE 4 MAGIC) ++ (toLE 8 0)) ++ (dev.cpu_model ++ [0])) ++ (dev.os_version ++ [0])) ++ (dev.name ++ [0])) ++ [(if config.nano then 1 else 0)]) ++ (config.filter ++ [0])) ++ (toLE 4 (config.snaplen % (2 ^ 32 : Int)).toNat)) ++ (toLE 4 (dev.ipv4_addrs.length % 2 ^ 32))) ++ ((dev.ipv4_addrs.map (fun ipv4 => ipv4.addr.take 4 ++ ipv4.mask.take 4)).flatten)) ++ (toLE 4 (dev.ipv6_addrs.length % 2 ^ 32))) ++ ((dev.ipv6_addrs.map (fun ipv6 => ipv6.addr.take 16 ++ [ipv6.prefix_len])).flatten)) ++ [0]) ++ (dev.hardware ++ [0])) ++ (toLE 8 dev.speed)) (toLE 2 (datalink % (2 ^ 16 : Int)).toNat) recs (n := 2) (toLE_length _ _)
  have hv4 := readIPv4s_values dev.ipv4_addrs hwf.2.2.2.2.2.2.2.1 (((((((((toLE 4 MAGIC) ++ (toLE 8 0)) ++ (dev.cpu_model ++ [0])) ++ (dev.os_version ++ [0])) ++ (dev.name ++ [0])) ++ [(if config.nano then 1 else 0)]) ++ (config.filter ++ [0])) ++ (toLE 4 (config.snaplen % (2 ^ 32 : Int)).toNat)) ++ (toLE 4 (dev.ipv4_addrs.length % 2 ^ 32))) (toLE 4 (dev.ipv6_addrs.length % 2 ^ 32) ++ ((dev.ipv6_addrs.map (fun ipv6 => ipv6.addr.take 16 ++ [ipv6.prefix_len])).flatten ++ (0 :: (dev.hardware ++ 0 :: (toLE 8 dev.speed ++ (toLE 2 (datalink % (2 ^ 16 : Int)).toNat ++ recs))))))
  have hv6 := readIPv6s_values dev.ipv6_addrs hwf.2.2.2.2.2.2.2.2.1 (((((((((((toLE 4 MAGIC) ++ (toLE 8 0)) ++ (dev.cpu_model ++ [0])) ++ (dev.os_version ++ [0])) ++ (dev.name ++ [0])) ++ [(if config.nano then 1 else 0)]) ++ (config.filter ++ [0])) ++ (toLE 4 (config.snaplen % (2 ^ 32 : Int)).toNat)) ++ (toLE 4 (dev.ipv4_addrs.length % 2 ^ 32))) ++ ((dev.ipv4_addrs.map (fun ipv4 => ipv4.addr.take 4 ++ ipv4.mask.take 4)).flatten)) ++ (toLE 4 (dev.ipv6_addrs.length % 2 ^ 32))) (0 :: (dev.hardware ++ 0 :: (toLE 8 dev.speed ++ (toLE 2 (datalink % (2 ^ 16 : Int)).toNat ++ recs))))

  have hsl : toInt32 (fromLE (overwrite (toLE 4 (ofInt32 rs.snaplen_))
      (toLE 4 (config.snaplen % (2 ^ 32 : Int)).toNat))) = config.snaplen := by
    rw [overwrite_full (by simp [toLE_length]), fromLE_toLE 4 _ (by omega)]
    unfold toInt32
    split_ifs <;> omega
  have hsp : fromLE (overwrite (toLE 8 rs.speed_) (toLE 8 dev.speed)) = dev.speed := by
    rw [overwrite_full (by simp [toLE_length]), fromLE_toLE 8 _ (by rw [W64_val] at hspeed; omega)]
  have hlk : fromLE (overwrite (toLE 2 rs.link_) (toLE 2 (datalink % (2 ^ 16 : Int)).toNat)) =
      (datalink % (2 ^ 16 : Int)).toNat := by
    rw [overwrite_full (by simp [toLE_length]), fromLE_toLE 2 _ (by omega)]
  have hnano : decide (fromLE (overwrite [0] [if config.nano then 1 else 0]) ≠ 0) = config.nano := by
    cases config.nano <;> decide
  unfold ReaderSet.read_lead
  rw [hf, hcontent]
  simp only [hn, hswap, decide_False, Bool.false_eq_true, if_false, h1, h2, h3, h4, h5, h6, h7, h8, h9, h10, h11, h12, h13, h14, h15, show fromLE (overwrite [0] [0]) = 0 from rfl, hc4, hc6, hv4, hv6, hsl, hsp, hlk, hnano, ne_eq, not_true_eq_false, one_ne_zero, not_false_eq_true, if_true, and_self]

/-- From the lead record of a device that has no MAC address, `read_lead`
recovers every field that was written and takes the six bytes that follow the
flag for a MAC address. -/
theorem read_lead_values_none (rs : ReaderSet) (r : Reader) (config : Config) (datalink : Int)
    (dev : DeviceInfo) (recs : List Nat) (hwf : LeadOk config dev) (hmac : dev.mac_addr = none)
    (hf : r.file_ = IFStream.positioned (toLE 4 MAGIC) (leadBytes config datalink dev ++ recs))
    (hn : r.native_ = 1)
    (hsnap : -2 ^ 31 ≤ config.snaplen ∧ config.snaplen < 2 ^ 31) (hspeed : dev.speed < W64) :
    (rs.read_lead r).1.cpu_model_ = dev.cpu_model ∧
    (rs.read_lead r).1.os_version_ = dev.os_version ∧
    (rs.read_lead r).1.dev_name_ = dev.name ∧
    (rs.read_lead r).1.nano_ = config.nano ∧
    (rs.read_lead r).1.filter_ = config.filter ∧
    (rs.read_lead r).1.snaplen_ = config.snaplen ∧
    (rs.read_lead r).1.ipv4s_ = rs.ipv4s_ ++ dev.ipv4_addrs ∧
    (rs.read_lead r).1.ipv6s_ = rs.ipv6s_ ++ dev.ipv6_addrs ∧
    (rs.read_lead r).1.hardware_ = dev.hardware ∧
    (rs.read_lead r).1.speed_ = dev.speed ∧
    (rs.read_lead r).1.link_ = (datalink % (2 ^ 16 : Int)).toNat ∧
    (rs.read_lead r).1.mac_ = some dev.mac_storage := by
  have hcontent : leadBytes config datalink dev ++ recs = (toLE 8 0 ++ (dev.cpu_model ++ 0 :: (dev.os_version ++ 0 :: (dev.name ++ 0 :: ((if config.nano then 1 else 0) :: (config.filter ++ 0 :: (toLE 4 (config.snaplen % (2 ^ 32 : Int)).toNat ++ (toLE 4 (dev.ipv4_addrs.length % 2 ^ 32) ++ ((dev.ipv4_addrs.map (fun ipv4 => ipv4.addr.take 4 ++ ipv4.mask.take 4)).flatten ++ (toLE 4 (dev.ipv6_addrs.length % 2 ^ 32) ++ ((dev.ipv6_addrs.map (fun ipv6 => ipv6.addr.take 16 ++ [ipv6.prefix_len])).flatten ++ (1 :: (dev.mac_storage.take 6 ++ (dev.hardware ++ 0 :: (toLE 8 dev.speed ++ (toLE 2 (datalink % (2 ^ 16 : Int)).toNat ++ recs)))))))))))))))) := by
    simp only [leadBytes, cstr, hmac, List.append_assoc, List.singleton_append, List.cons_append, List.nil_append]
  have hpre : (((((((((((((((((toLE 4 MAGIC) ++ (toLE 8 0)) ++ (dev.cpu_model ++ [0])) ++ (dev.os_version ++ [0])) ++ (dev.name ++ [0])) ++ [(if config.nano then 1 else 0)]) ++ (config.filter ++ [0])) ++ (toLE 4 (config.snaplen % (2 ^ 32 : Int)).toNat)) ++ (toLE 4 (dev.ipv4_addrs.length % 2 ^ 32))) ++ ((dev.ipv4_addrs.map (fun ipv4 => ipv4.addr.take 4 ++ ipv4.mask.take 4)).flatten)) ++ (toLE 4 (dev.ipv6_addrs.length % 2 ^ 32))) ++ ((dev.ipv6_addrs.map (fun ipv6 => ipv6.addr.take 16 ++ [ipv6.prefix_len])).flatten)) ++ [1]) ++ (dev.mac_storage.take 6)) ++ (dev.hardware ++ [0])) ++ (toLE 8 dev.speed)) ++ (toLE 2 (datalink % (2 ^ 16 : Int)).toNat)) = toLE 4 MAGIC ++ leadBytes config datalink dev := by
    simp only [leadBytes, cstr, hmac, List.append_assoc, List.singleton_append, List.cons_append, List.nil_append]
  have hswap : decide ((1 : Int) = 0) = false := by decide
  have hc4 : fromLE (overwrite (toLE 4 0) (toLE 4 (dev.ipv4_addrs.length % 2 ^ 32))) = dev.ipv4_addrs.length := by
    rw [overwrite_full (by simp [toLE_length]), Nat.mod_eq_of_lt hwf.2.2.2.2.2.1,
      fromLE_toLE 4 _ (by have := hwf.2.2.2.2.2.1; norm_num at this ⊢; omega)]
  have hc6 : fromLE (overwrite (toLE 4 0) (toLE 4 (dev.ipv6_addrs.length % 2 ^ 32))) = dev.ipv6_addrs.length := by
    rw [overwrite_full (by simp [toLE_length]), Nat.mod_eq_of_lt hwf.2.2.2.2.2.2.1,
      fromLE_toLE 4 _ (by have := hwf.2.2.2.2.2.2.1; norm_num at this ⊢; omega)]
  have h1 := read_positioned (toLE 4 MAGIC) (toLE 8 0) (dev.cpu_model ++ 0 :: (dev.os_version ++ 0 :: (dev.name ++ 0 :: ((if config.nano then 1 else 0) :: (config.filter ++ 0 :: (toLE 4 (config.snaplen % (2 ^ 32 : Int)).toNat ++ (toLE 4 (dev.ipv4_addrs.length % 2 ^ 32) ++ ((dev.ipv4_addrs.map (fun ipv4 => ipv4.addr.take 4 ++ ipv4.mask.take 4)).flatten ++ (toLE 4 (dev.ipv6_addrs.length % 2 ^ 32) ++ ((dev.ipv6_addrs.map (fun ipv6 => ipv6.addr.take 16 ++ [ipv6.prefix_len])).flatten ++ (1 :: (dev.mac_storage.take 6 ++ (dev.hardware ++ 0 :: (toLE 8 dev.speed ++ (toLE 2 (datalink % (2 ^ 16 : Int)).toNat ++ recs))))))))))))))) (n := 8) (toLE_length _ _)
  have h2 := getline_positioned ((toLE 4 MAGIC) ++ (toLE 8 0)) (dev.cpu_model) (dev.os_version ++ 0 :: (dev.name ++ 0 :: ((if config.nano then 1 else 0) :: (config.filter ++ 0 :: (toLE 4 (config.snaplen % (2 ^ 32 : Int)).toNat ++ (toLE 4 (dev.ipv4_addrs.length % 2 ^ 32) ++ ((dev.ipv4_addrs.map (fun ipv4 => ipv4.addr.take 4 ++ ipv4.mask.take 4)).flatten ++ (toLE 4 (dev.ipv6_addrs.length % 2 ^ 32) ++ ((dev.ipv6_addrs.map (fun ipv6 => ipv6.addr.take 16 ++ [ipv6.prefix_len])).flatten ++ (1 :: (dev.mac_storage.take 6 ++ (dev.hardware ++ 0 :: (toLE 8 dev.speed ++ (toLE 2 (datalink % (2 ^ 16 : Int)).toNat ++ recs)))))))))))))) rs.cpu_model_ 0 hwf.1
  have h3 := getline_positioned (((toLE 4 MAGIC) ++ (toLE 8 0)) ++ (dev.cpu_model ++ [0])) (dev.os_version) (dev.name ++ 0 :: ((if config.nano then 1 else 0) :: (config.filter ++ 0 :: (toLE 4 (config.snaplen % (2 ^ 32 : Int)).toNat ++ (toLE 4 (dev.ipv4_addrs.length % 2 ^ 32) ++ ((dev.ipv4_addrs.map (fun ipv4 => ipv4.addr.take 4 ++ ipv4.mask.take 4)).flatten ++ (toLE 4 (dev.ipv6_addrs.length % 2 ^ 32) ++ ((dev.ipv6_addrs.map (fun ipv6 => ipv6.addr.take 16 ++ [ipv6.prefix_len])).flatten ++ (1 :: (dev.mac_storage.take 6 ++ (dev.hardware ++ 0 :: (toLE 8 dev.speed ++ (toLE 2 (datalink % (2 ^ 16 : Int)).toNat ++ recs))))))))))))) rs.os_version_ 0 hwf.2.1
  have h4 := getline_positioned ((((toLE 4 MAGIC) ++ (toLE 8 0)) ++ (dev.cpu_model ++ [0])) ++ (dev.os_version ++ [0])) (dev.name) ((if config.nano then 1 else 0) :: (config.filter ++ 0 :: (toLE 4 (config.snaplen % (2 ^ 32 : Int)).toNat ++ (toLE 4 (dev.ipv4_addrs.length % 2 ^ 32) ++ ((dev.ipv4_addrs.map (fun ipv4 => ipv4.addr.take 4 ++ ipv4.mask.take 4)).flatten ++ (toLE 4 (dev.ipv6_addrs.length % 2 ^ 32) ++ ((dev.ipv6_addrs.map (fun ipv6 => ipv6.addr.take 16 ++ [ipv6.prefix_len])).flatten ++ (1 :: (dev.mac_storage.take 6 ++ (dev.hardware ++ 0 :: (toLE 8 dev.speed ++ (toLE 2 (datalink % (2 ^ 16 : Int)).toNat ++ recs)))))))))))) rs.dev_name_ 0 hwf.2.2.1
  have h5 := read_one_positioned (((((toLE 4 MAGIC) ++ (toLE 8 0)) ++ (dev.cpu_model ++ [0])) ++ (dev.os_version ++ [0])) ++ (dev.name ++ [0])) (config.filter ++ 0 :: (toLE 4 (config.snaplen % (2 ^ 32 : Int)).toNat ++ (toLE 4 (dev.ipv4_addrs.length % 2 ^ 32) ++ ((dev.ipv4_addrs.map (fun ipv4 => ipv4.addr.take 4 ++ ipv4.mask.take 4)).flatten ++ (toLE 4 (dev.ipv6_addrs.length % 2 ^ 32) ++ ((dev.ipv6_addrs.map (fun ipv6 => ipv6.addr.take 16 ++ [ipv6.prefix_len])).flatten ++ (1 :: (dev.mac_storage.take 6 ++ (dev.hardware ++ 0 :: (toLE 8 dev.speed ++ (toLE 2 (datalink % (2 ^ 16 : Int)).toNat ++ recs))))))))))) (if config.nano then 1 else 0)
  have h6 := getline_positioned ((((((toLE 4 MAGIC) ++ (toLE 8 0)) ++ (dev.cpu_model ++ [0])) ++ (dev.os_version ++ [0])) ++ (dev.name ++ [0])) ++ [(if config.nano then 1 else 0)]) (config.filter) (toLE 4 (config.snaplen % (2 ^ 32 : Int)).toNat ++ (toLE 4 (dev.ipv4_addrs.length % 2 ^ 32) ++ ((dev.ipv4_addrs.map (fun ipv4 => ipv4.addr.take 4 ++ ipv4.mask.take 4)).flatten ++ (toLE 4 (dev.ipv6_addrs.length % 2 ^ 32) ++ ((dev.ipv6_addrs.map (fun ipv6 => ipv6.addr.take 16 ++ [ipv6.prefix_len])).flatten ++ (1 :: (dev.mac_storage.take 6 ++ (dev.hardware ++ 0 :: (toLE 8 dev.speed ++ (toLE 2 (datalink % (2 ^ 16 : Int)).toNat ++ recs)))))))))) rs.filter_ 0 hwf.2.2.2.1
  have h7 := read_positioned (((((((toLE 4 MAGIC) ++ (toLE 8 0)) ++ (dev.cpu_model ++ [0])) ++ (dev.os_version ++ [0])) ++ (dev.name ++ [0])) ++ [(if config.nano then 1 else 0)]) ++ (config.filter ++ [0])) (toLE 4 (config.snaplen % (2 ^ 32 : Int)).toNat) (toLE 4 (dev.ipv4_addrs.length % 2 ^ 32) ++ ((dev.ipv4_addrs.map (fun ipv4 => ipv4.addr.take 4 ++ ipv4.mask.take 4)).flatten ++ (toLE 4 (dev.ipv6_addrs.length % 2 ^ 32) ++ ((dev.ipv6_addrs.map (fun ipv6 => ipv6.addr.take 16 ++ [ipv6.prefix_len])).flatten ++ (1 :: (dev.mac_storage.take 6 ++ (dev.hardware ++ 0 :: (toLE 8 dev.speed ++ (toLE 2 (datalink % (2 ^ 16 : Int)).toNat ++ recs))))))))) (n := 4) (toLE_length _ _)
  have h8 := read_positioned ((((((((toLE 4 MAGIC) ++ (toLE 8 0)) ++ (dev.cpu_model ++ [0])) ++ (dev.os_version ++ [0])) ++ (dev.name ++ [0])) ++ [(if config.nano then 1 else 0)]) ++ (config.filter ++ [0])) ++ (toLE 4 (config.snaplen % (2 ^ 32 : Int)).toNat)) (toLE 4 (dev.ipv4_addrs.length % 2 ^ 32)) ((dev.ipv4_addrs.map (fun ipv4 => ipv4.addr.take 4 ++ ipv4.mask.take 4)).flatten ++ (toLE 4 (dev.ipv6_addrs.length % 2 ^ 32) ++ ((dev.ipv6_addrs.map (fun ipv6 => ipv6.addr.take 16 ++ [ipv6.prefix_len])).flatten ++ (1 :: (dev.mac_storage.take 6 ++ (dev.hardware ++ 0 :: (toLE 8 dev.speed ++ (toLE 2 (datalink % (2 ^ 16 : Int)).toNat ++ recs)))))))) (n := 4) (toLE_length _ _)
  have h9 := readIPv4s_positioned dev.ipv4_addrs (fun a ha => by have := hwf.2.2.2.2.2.2.2.1 a ha; omega) (((((((((toLE 4 MAGIC) ++ (toLE 8 0)) ++ (dev.cpu_model ++ [0])) ++ (dev.os_version ++ [0])) ++ (dev.name ++ [0])) ++ [(if config.nano then 1 else 0)]) ++ (config.filter ++ [0])) ++ (toLE 4 (config.snaplen % (2 ^ 32 : Int)).toNat)) ++ (toLE 4 (dev.ipv4_addrs.length % 2 ^ 32))) (toLE 4 (dev.ipv6_addrs.length % 2 ^ 32) ++ ((dev.ipv6_addrs.map (fun ipv6 => ipv6.addr.take 16 ++ [ipv6.prefix_len])).flatten ++ (1 :: (dev.mac_storage.take 6 ++ (dev.hardware ++ 0 :: (toLE 8 dev.speed ++ (toLE 2 (datalink % (2 ^ 16 : Int)).toNat ++ recs)))))))
  have h10 := read_positioned ((((((((((toLE 4 MAGIC) ++ (toLE 8 0)) ++ (dev.cpu_model ++ [0])) ++ (dev.os_version ++ [0])) ++ (dev.name ++ [0])) ++ [(if config.nano then 1 else 0)]) ++ (config.filter ++ [0])) ++ (toLE 4 (config.snaplen % (2 ^ 32 : Int)).toNat)) ++ (toLE 4 (dev.ipv4_addrs.length % 2 ^ 32))) ++ ((dev.ipv4_addrs.map (fun ipv4 => ipv4.addr.take 4 ++ ipv4.mask.take 4)).flatten)) (toLE 4 (dev.ipv6_addrs.length % 2 ^ 32)) ((dev.ipv6_addrs.map (fun ipv6 => ipv6.addr.take 16 ++ [ipv6.prefix_len])).flatten ++ (1 :: (dev.mac_storage.take 6 ++ (dev.hardware ++ 0 :: (toLE 8 dev.speed ++ (toLE 2 (datalink % (2 ^ 16 : Int)).toNat ++ recs)))))) (n := 4) (toLE_length _ _)
  have h11 := readIPv6s_positioned dev.ipv6_addrs (fun a ha => by have := hwf.2.2.2.2.2.2.2.2.1 a ha; omega) (((((((((((toLE 4 MAGIC) ++ (toLE 8 0)) ++ (dev.cpu_model ++ [0])) ++ (dev.os_version ++ [0])) ++ (dev.name ++ [0])) ++ [(if config.nano then 1 else 0)]) ++ (config.filter ++ [0])) ++ (toLE 4 (config.snaplen % (2 ^ 32 : Int)).toNat)) ++ (toLE 4 (dev.ipv4_addrs.length % 2 ^ 32))) ++ ((dev.ipv4_addrs.map (fun ipv4 => ipv4.addr.take 4 ++ ipv4.mask.take 4)).flatten)) ++ (toLE 4 (dev.ipv6_addrs.length % 2 ^ 32))) (1 :: (dev.mac_storage.take 6 ++ (dev.hardware ++ 0 :: (toLE 8 dev.speed ++ (toLE 2 (datalink % (2 ^ 16 : Int)).toNat ++ recs)))))
  have h12 := read_one_positioned ((((((((((((toLE 4 MAGIC) ++ (toLE 8 0)) ++ (dev.cpu_model ++ [0])) ++ (dev.os_version ++ [0])) ++ (dev.name ++ [0])) ++ [(if config.nano then 1 else 0)]) ++ (config.filter ++ [0])) ++ (toLE 4 (config.snaplen % (2 ^ 32 : Int)).toNat)) ++ (toLE 4 (dev.ipv4_addrs.length % 2 ^ 32))) ++ ((dev.ipv4_addrs.map (fun ipv4 => ipv4.addr.take 4 ++ ipv4.mask.take 4)).flatten)) ++ (toLE 4 (dev.ipv6_addrs.length % 2 ^ 32))) ++ ((dev.ipv6_addrs.map (fun ipv6 => ipv6.addr.take 16 ++ [ipv6.prefix_len])).flatten)) (dev.mac_storage.take 6 ++ (dev.hardware ++ 0 :: (toLE 8 dev.speed ++ (toLE 2 (datalink % (2 ^ 16 : Int)).toNat ++ recs)))) 1
  have h13 := read_positioned (((((((((((((toLE 4 MAGIC) ++ (toLE 8 0)) ++ (dev.cpu_model ++ [0])) ++ (dev.os_version ++ [0])) ++ (dev.name ++ [0])) ++ [(if config.nano then 1 else 0)]) ++ (config.filter ++ [0])) ++ (toLE 4 (config.snaplen % (2 ^ 32 : Int)).toNat)) ++ (toLE 4 (dev.ipv4_addrs.length % 2 ^ 32))) ++ ((dev.ipv4_addrs.map (fun ipv4 => ipv4.addr.take 4 ++ ipv4.mask.take 4)).flatten)) ++ (toLE 4 (dev.ipv6_addrs.length % 2 ^ 32))) ++ ((dev.ipv6_addrs.map (fun ipv6 => ipv6.addr.take 16 ++ [ipv6.prefix_len])).flatten)) ++ [1]) (dev.mac_storage.take 6) (dev.hardware ++ 0 :: (toLE 8 dev.speed ++ (toLE 2 (datalink % (2 ^ 16 : Int)).toNat ++ recs))) (n := 6) (by rw [List.length_take]; have := hwf.2.2.2.2.2.2.2.2.2; omega)
  have h14 := getline_positioned ((((((((((((((toLE 4 MAGIC) ++ (toLE 8 0)) ++ (dev.cpu_model ++ [0])) ++ (dev.os_version ++ [0])) ++ (dev.name ++ [0])) ++ [(if config.nano then 1 else 0)]) ++ (config.filter ++ [0])) ++ (toLE 4 (config.snaplen % (2 ^ 32 : Int)).toNat)) ++ (toLE 4 (dev.ipv4_addrs.length % 2 ^ 32))) ++ ((dev.ipv4_addrs.map (fun ipv4 => ipv4.addr.take 4 ++ ipv4.mask.take 4)).flatten)) ++ (toLE 4 (dev.ipv6_addrs.length % 2 ^ 32))) ++ ((dev.ipv6_addrs.map (fun ipv6 => ipv6.addr.take 16 ++ [ipv6.prefix_len])).flatten)) ++ [1]) ++ (dev.mac_storage.take 6)) (dev.hardware) (toLE 8 dev.speed ++ (toLE 2 (datalink % (2 ^ 16 : Int)).toNat ++ recs)) rs.hardware_ 0 hwf.2.2.2.2.1
  have h15 := read_positioned (((((((((((((((toLE 4 MAGIC) ++ (toLE 8 0)) ++ (dev.cpu_model ++ [0])) ++ (dev.os_version ++ [0])) ++ (dev.name ++ [0])) ++ [(if config.nano then 1 else 0)]) ++ (config.filter ++ [0])) ++ (toLE 4 (config.snaplen % (2 ^ 32 : Int)).toNat)) ++ (toLE 4 (dev.ipv4_addrs.length % 2 ^ 32))) ++ ((dev.ipv4_addrs.map (fun ipv4 => ipv4.addr.take 4 ++ ipv4.mask.take 4)).flatten)) ++ (toLE 4 (dev.ipv6_addrs.length % 2 ^ 32))) ++ ((dev.ipv6_addrs.map (fun ipv6 => ipv6.addr.take 16 ++ [ipv6.prefix_len])).flatten)) ++ [1]) ++ (dev.mac_storage.take 6)) ++ (dev.hardware ++ [0])) (toLE 8 dev.speed) (toLE 2 (datalink % (2 ^ 16 : Int)).toNat ++ recs) (n := 8) (toLE_length _ _)
  have h16 := read_positioned ((((((((((((((((toLE 4 MAGIC) ++ (toLE 8 0)) ++ (dev.cpu_model ++ [0])) ++ (dev.os_version ++ [0])) ++ (dev.name ++ [0])) ++ [(if config.nano then 1 else 0)]) ++ (config.filter ++ [0])) ++ (toLE 4 (config.snaplen % (2 ^ 32 : Int)).toNat)) ++ (toLE 4 (dev.ipv4_addrs.length % 2 ^ 32))) ++ ((dev.ipv4_addrs.map (fun ipv4 => ipv4.addr.take 4 ++ ipv4.mask.take 4)).flatten)) ++ (toLE 4 (dev.ipv6_addrs.length % 2 ^ 32))) ++ ((dev.ipv6_addrs.map (fun ipv6 => ipv6.addr.take 16 ++ [ipv6.prefix_len])).flatten)) ++ [1]) ++ (dev.mac_storage.take 6)) ++ (dev.hardware ++ [0])) ++ (toLE 8 dev.speed)) (toLE 2 (datalink % (2 ^ 16 : Int)).toNat) recs (n := 2) (toLE_length _ _)
  have hv4 := readIPv4s_values dev.ipv4_addrs hwf.2.2.2.2.2.2.2.1 (((((((((toLE 4 MAGIC) ++ (toLE 8 0)) ++ (dev.cpu_model ++ [0])) ++ (dev.os_version ++ [0])) ++ (dev.name ++ [0])) ++ [(if config.nano then 1 else 0)]) ++ (config.filter ++ [0])) ++ (toLE 4 (config.snaplen % (2 ^ 32 : Int)).toNat)) ++ (toLE 4 (dev.ipv4_addrs.length % 2 ^ 32))) (toLE 4 (dev.ipv6_addrs.length % 2 ^ 32) ++ ((dev.ipv6_addrs.map (fun ipv6 => ipv6.addr.take 16 ++ [ipv6.prefix_len])).flatten ++ (1 :: (dev.mac_storage.take 6 ++ (dev.hardware ++ 0 :: (toLE 8 dev.speed ++ (toLE 2 (datalink % (2 ^ 16 : Int)).toNat ++ recs)))))))
  have hv6 := readIPv6s_values dev.ipv6_addrs hwf.2.2.2.2.2.2.2.2.1 (((((((((((toLE 4 MAGIC) ++ (toLE 8 0)) ++ (dev.cpu_model ++ [0])) ++ (dev.os_version ++ [0])) ++ (dev.name ++ [0])) ++ [(if config.nano then 1 else 0)]) ++ (config.filter ++ [0])) ++ (toLE 4 (config.snaplen % (2 ^ 32 : Int)).toNat)) ++ (toLE 4 (dev.ipv4_addrs.length % 2 ^ 32))) ++ ((dev.ipv4_addrs.map (fun ipv4 => ipv4.addr.take 4 ++ ipv4.mask.take 4)).flatten)) ++ (toLE 4 (dev.ipv6_addrs.length % 2 ^ 32))) (1 :: (dev.mac_storage.take 6 ++ (dev.hardware ++ 0 :: (toLE 8 dev.speed ++ (toLE 2 (datalink % (2 ^ 16 : Int)).toNat ++ recs)))))

  have hsl : toInt32 (fromLE (overwrite (toLE 4 (ofInt32 rs.snaplen_))
      (toLE 4 (config.snaplen % (2 ^ 32 : Int)).toNat))) = config.snaplen := by
    rw [overwrite_full (by simp [toLE_length]), fromLE_toLE 4 _ (by omega)]
    unfold toInt32
    split_ifs <;> omega
  have hsp : fromLE (overwrite (toLE 8 rs.speed_) (toLE 8 dev.speed)) = dev.speed := by
    rw [overwrite_full (by simp [toLE_length]), fromLE_toLE 8 _ (by rw [W64_val] at hspeed; omega)]
  have hlk : fromLE (overwrite (toLE 2 rs.link_) (toLE 2 (datalink % (2 ^ 16 : Int)).toNat)) =
      (datalink % (2 ^ 16 : Int)).toNat := by
    rw [overwrite_full (by simp [toLE_length]), fromLE_toLE 2 _ (by omega)]
  have hnano : decide (fromLE (overwrite [0] [if config.nano then 1 else 0]) ≠ 0) = config.nano := by
    cases config.nano <;> decide
  unfold ReaderSet.read_lead
  rw [hf, hcontent]
  simp only [hn, hswap, decide_False, Bool.false_eq_true, if_false, h1, h2, h3, h4, h5, h6, h7, h8, h9, h10, h11, h12, h13, h14, h15, h16, show fromLE (overwrite [0] [1]) = 1 from rfl, hc4, hc6, hv4, hv6, hsl, hsp, hlk, hnano, ne_eq, not_true_eq_false, one_ne_zero, not_false_eq_true, if_true, and_self, true_and]
  rw [overwrite_full (by simp [hwf.2.2.2.2.2.2.2.2.2]), List.take_of_length_le (by rw [hwf.2.2.2.2.2.2.2.2.2])]

/-! ## Shard names of ordinary file names -/

theorem filename_of_no_slash (p : List Nat) (h : SLASH ∉ p) : filename p = p := by
  unfold filename
  rw [List.takeWhile_eq_self_iff.mpr, List.reverse_reverse]
  intro x hx
  have : x ≠ SLASH := fun hxs => h (hxs ▸ List.mem_reverse.mp hx)
  simp [this]

theorem dropWhile_ne_append (s : List Nat) (d : Nat) (rest : List Nat) (hs : d ∉ s) :
    (s ++ d :: rest).dropWhile (fun c => c != d) = d :: rest := by
  induction s with
  | nil => simp [List.dropWhile]
  | cons a s ih =>
    have ha : a ≠ d := fun h => hs (h ▸ List.mem_cons_self _ _)
    have hs' : d ∉ s := fun h => hs (List.mem_cons_of_mem _ h)
    have hb : (a != d) = true := by simp [ha]
    simp [List.dropWhile, hb, ih hs']

/-- For a name without directory part that holds no period, or one period that
is not its first character, the extension that the code uses is the extension
in the words of the specification, and so are the shard names. -/
theorem fileNames_eq_spec_of_single_dot (config : Config) (hN : 1 ≤ config.num_files)
    (hslash : SLASH ∉ config.fname)
    (hdot : DOT ∉ config.fname ∨
      ∃ a b, config.fname = a ++ DOT :: b ∧ a ≠ [] ∧ DOT ∉ a ∧ DOT ∉ b) :
    extension config.fname = specExt config.fname ∧
    WriterSet.fileNames config = specFileNames config.fname config.num_files.toNat := by
  have hext : extension config.fname = specExt config.fname := by
    unfold extension specExt
    rw [filename_of_no_slash _ hslash]
    rcases hdot with h | ⟨a, b, hab, hne, ha, hb⟩
    · have h1 : DOT ∉ config.fname.tail := fun hm => h (List.mem_of_mem_tail hm)
      simp only [h1, not_false_eq_true, or_true, if_true]
      symm
      rw [List.dropWhile_eq_nil_iff]
      intro x hx
      have : x ≠ DOT := fun hxd => h (hxd ▸ hx)
      simp [this]
    · rw [hab]
      obtain ⟨x, a', rfl⟩ := List.exists_cons_of_ne_nil hne
      have hx : x ≠ DOT := fun h => ha (h ▸ List.mem_cons_self _ _)
      have h1 : ¬ ((x :: a' ++ DOT :: b) = [DOT, DOT] ∨ DOT ∉ (x :: a' ++ DOT :: b).tail) := by
        rintro (h | h)
        · simp only [List.cons_append, List.cons.injEq] at h
          exact hx h.1
        · apply h
          simp
      rw [if_neg h1, dropWhile_ne_append _ _ _ ha]
      congr 1
      have hrev : (x :: a' ++ DOT :: b).reverse = b.reverse ++ DOT :: (x :: a').reverse := by
        simp
      rw [hrev, takeWhile_ne_append _ _ _ (fun h => hb (List.mem_reverse.mp h)),
        List.reverse_reverse]
  refine ⟨hext, ?_⟩
  unfold WriterSet.fileNames specFileNames
  by_cases h1 : config.num_files = 1
  · rw [if_pos h1, h1]; rfl
  · have h2 : ¬ config.num_files.toNat = 1 := by omega
    rw [if_neg h1, if_neg h2]
    simp only [hext]

/-! ## PCAPNG emitter -/

namespace PcapNGWriter

theorem append_nil (w : PcapNGWriter) (h : w.file_.pos = w.file_.content.length) :
    w.append [] = w := by
  cases w with
  | mk f r s p =>
    cases f with
    | mk c pos =>
      simp only at h
      simp [append, h]

@[simp] theorem append_readers (w : PcapNGWriter) (a : List Nat) :
    (w.append a).readers_ = w.readers_ := rfl

@[simp] theorem append_pkt_count (w : PcapNGWriter) (a : List Nat) :
    (w.append a).pkt_count_ = w.pkt_count_ := rfl

theorem write_append (w : PcapNGWriter) (a buf : List Nat) (len : Nat) :
    (w.append a).write buf len = w.append (a ++ buf.take len) := by
  have h1 : (w.file_.content ++ a).take (w.file_.content.length + a.length) =
      w.file_.content ++ a := List.take_of_length_le (by simp)
  have h2 : (w.file_.content ++ a).drop
      (w.file_.content.length + a.length + (buf.take len).length) = [] :=
    List.drop_of_length_le (by simp)
  rw [Nat.add_assoc] at h2
  simp only [write, append, OFStream.write, h1, List.length_append, Nat.sub_self,
    List.replicate_zero, List.append_nil, List.append_assoc, Nat.add_assoc, h2]

theorem writeT_append (w : PcapNGWriter) (a : List Nat) (k x : Nat) :
    (w.append a).writeT k x = w.append (a ++ toLE k x) := by
  rw [writeT, write_append, List.take_of_length_le (by rw [toLE_length])]

theorem position_append (w : PcapNGWriter) (a : List Nat) :
    (w.append a).position = ((w.file_.content.length + a.length : Nat) : Int) := rfl

theorem take_padding (n : Nat) :
    List.take (padding n) PADDING = List.replicate (padding n) 0 := by
  have h : padding n < 4 := by unfold padding; omega
  generalize padding n = p at h
  interval_cases p <;> rfl

theorem pad_append_norm (w : PcapNGWriter) (a : List Nat) (n : Nat) :
    (if padding n ≠ 0 then w.append (a ++ List.take (padding n) PADDING) else w.append a) =
      w.append (a ++ List.replicate (padding n) 0) := by
  rw [take_padding]
  split
  · rfl
  · rename_i h
    have h0 : padding n = 0 := by omega
    rw [h0, List.replicate_zero, List.append_nil]

theorem OFStream.write_over (pre mid post bytes : List Nat) (h : bytes.length = mid.length) :
    OFStream.write { content := pre ++ (mid ++ post), pos := pre.length } bytes bytes.length =
      { content := pre ++ (bytes ++ post), pos := pre.length + bytes.length } := by
  have h1 : (pre ++ (mid ++ post)).take pre.length = pre := List.take_left' rfl
  have h2 : (pre ++ (mid ++ post)).drop (pre.length + bytes.length) = post := by
    rw [← List.append_assoc]
    exact List.drop_left' (by simp [h])
  have ht : bytes.take bytes.length = bytes := List.take_length _
  have h3 : pre.length - (pre ++ (mid ++ post)).length = 0 := by simp
  simp only [OFStream.write, ht, h1, h2, h3, List.replicate_zero, List.append_nil,
    List.append_assoc]

theorem patch_block (w : PcapNGWriter) (a id4 len4 body : List Nat) (L : Nat)
    (hlen : len4.length = 4) :
    ((((w.append (a ++ (id4 ++ (len4 ++ body)))).seek (w.append (a ++ id4)).position).writeT
      4 L).seek (w.append (a ++ (id4 ++ (len4 ++ body)))).position).writeT 4 L =
      w.append (a ++ (id4 ++ (toLE 4 L ++ (body ++ toLE 4 L)))) := by
  have hl : (toLE 4 L).length = 4 := toLE_length _ _
  have e1 : ((w.append (a ++ (id4 ++ (len4 ++ body)))).seek
      (w.append (a ++ id4)).position).file_ =
      { content := (w.file_.content ++ (a ++ id4)) ++ (len4 ++ body),
        pos := (w.file_.content ++ (a ++ id4)).length } := by
    simp only [seek, position, append, OFStream.seekp, OFStream.tellp, Int.toNat_ofNat,
      List.length_append, List.append_assoc]
  have e2 : (((w.append (a ++ (id4 ++ (len4 ++ body)))).seek
      (w.append (a ++ id4)).position).writeT 4 L).file_ =
      { content := (w.file_.content ++ (a ++ id4)) ++ (toLE 4 L ++ body),
        pos := (w.file_.content ++ (a ++ id4)).length + (toLE 4 L).length } := by
    have := OFStream.write_over (w.file_.content ++ (a ++ id4)) len4 body (toLE 4 L)
      (by rw [hl, hlen])
    rw [hl] at this
    simp only [writeT, write, e1]
    rw [this, hl]
  have e3 : ((((w.append (a ++ (id4 ++ (len4 ++ body)))).seek
      (w.append (a ++ id4)).position).writeT 4 L).seek
        (w.append (a ++ (id4 ++ (len4 ++ body)))).position) =
      w.append (a ++ (id4 ++ (toLE 4 L ++ body))) := by
    have hp : (w.append (a ++ (id4 ++ (len4 ++ body)))).position =
        ((w.file_.content.length + (a ++ (id4 ++ (toLE 4 L ++ body))).length : Nat) : Int) := by
      rw [position_append]
      simp only [List.length_append, hl, hlen]
    rw [hp]
    have hr : ∀ (x : PcapNGWriter) (c : List Nat) (p : Nat),
        x.file_ = { content := c, pos := p } → x.readers_ = w.readers_ →
        x.start_time_ = w.start_time_ → x.pkt_count_ = w.pkt_count_ →
        ∀ n : Nat, x.seek (n : Int) = { w with file_ := { content := c, pos := n } } := by
      intro x c p h4 h1 h2 h3 n
      cases x with
      | mk f r s k =>
        simp only at h1 h2 h3 h4
        subst h1 h2 h3 h4
        simp [seek, OFStream.seekp]
    rw [hr _ _ _ e2 rfl rfl rfl]
    simp [append]
  rw [e3, writeT_append]
  simp

theorem toLE_mod (k : Nat) : ∀ n, toLE k (n % 256 ^ k) = toLE k n := by
  induction k with
  | zero => intro n; rfl
  | succ k ih =>
    intro n
    have h1 : n % 256 ^ (k + 1) % 256 = n % 256 := by
      rw [pow_succ]
      exact Nat.mod_mul_left_mod n (256 ^ k) 256
    have h2 : n % 256 ^ (k + 1) / 256 = (n / 256) % 256 ^ k := by
      rw [pow_succ, Nat.mul_comm, Nat.mod_mul_right_div_self]
    simp only [toLE, h1, h2, ih]

theorem toLE2_mod (n : Nat) : toLE 2 (n % 2 ^ 16) = toLE 2 n := toLE_mod 2 n

theorem toLE4_mod (n : Nat) : toLE 4 (n % 2 ^ 32) = toLE 4 n := toLE_mod 4 n

theorem padding_mod (n : Nat) : padding (n % 2 ^ 16) = padding n := by
  unfold padding
  omega

theorem block_len_pos (c : Nat) (a id4 len4 rest : List Nat) (h4 : id4.length = 4)
    (h5 : len4.length = 4) :
    toLE 4 ((((((c + (a ++ (id4 ++ (len4 ++ rest))).length : Nat) : Int) -
      ((c + (a ++ id4).length : Nat) : Int)) + 8) % (2 ^ 32 : Int)).toNat) =
      toLE 4 (rest.length + 12) := by
  rw [← toLE4_mod (rest.length + 12)]
  congr 1
  simp only [List.length_append, h4, h5]
  omega

set_option maxHeartbeats 1000000 in
theorem write_shb_append (w : PcapNGWriter) (a : List Nat) :
    (w.append a).write_shb = w.append (a ++ blockBytes 0x0A0D0D0A (shbBody w.readers_)) := by
  unfold write_shb
  simp only [writeT_append, write_append, append_readers, pad_append_norm,
    padding_mod, toLE2_mod, List.take_length]
  simp only [List.append_assoc]
  rw [patch_block _ _ _ _ _ _ (toLE_length _ _), position_append, position_append,
    block_len_pos _ _ _ _ _ (toLE_length _ _) (toLE_length _ _)]
  simp only [blockBytes, shbBody, optionBytes, endOfOptions, List.append_assoc]


theorem foldl_append {α : Type} (f : PcapNGWriter → α → PcapNGWriter) (g : α → List Nat)
    (hf : ∀ (w : PcapNGWriter) (a : List Nat) (x : α), f (w.append a) x = w.append (a ++ g x)) (l : List α) :
    ∀ (w : PcapNGWriter) (a : List Nat),
      l.foldl f (w.append a) = w.append (a ++ (l.map g).flatten) := by
  induction l with
  | nil => intro w a; simp
  | cons x l ih =>
    intro w a
    rw [List.foldl_cons, hf, ih]
    simp

theorem epbBody_length (ts : Nat × Nat) (hdr : PktHdr) (data : List Nat) :
    (epbBody ts hdr data).length = 20 + data.length + padding data.length := by
  simp only [epbBody, List.length_append, toLE_length, List.length_replicate]

theorem padding_eight : padding 8 = 0 := rfl

theorem isbBody_length (ts : Nat × Nat) (hdr : StatHdr) : (isbBody ts hdr).length = 52 := by
  simp only [isbBody, optionBytes, endOfOptions, List.length_append, toLE_length,
    List.length_replicate, padding_eight]

theorem write_epb_append (w : PcapNGWriter) (a : List Nat) (hdr : PktHdr) (data : List Nat) :
    (w.append a).write_epb hdr data =
      { w.append (a ++ blockBytes 6 (epbBody (w.timestamp hdr.secs hdr.frac) hdr data)) with
        pkt_count_ := (w.pkt_count_ + 1) % W64 } := by
  have ht : (w.append a).timestamp hdr.secs hdr.frac = w.timestamp hdr.secs hdr.frac := rfl
  have hlen : (epbBody (w.timestamp hdr.secs hdr.frac) hdr data).length + 12 =
      32 + data.length + padding data.length := by
    rw [epbBody_length]
    omega
  unfold write_epb
  simp only [writeT_append, write_append, append_readers, pad_append_norm, ht,
    toLE4_mod, List.take_length, append_pkt_count]
  simp only [blockBytes, hlen]
  simp only [epbBody, List.append_assoc]

theorem write_isb_append (w : PcapNGWriter) (a : List Nat) (hdr : StatHdr) :
    (w.append a).write_isb hdr =
      w.append (a ++ blockBytes 5 (isbBody (w.timestamp hdr.secs hdr.frac) hdr)) := by
  have ht : (w.append a).timestamp hdr.secs hdr.frac = w.timestamp hdr.secs hdr.frac := rfl
  unfold write_isb
  simp only [writeT_append, write_append, append_readers, ht]
  simp only [blockBytes, isbBody_length]
  simp only [isbBody, optionBytes, endOfOptions, List.append_assoc, toLE_length,
    padding_eight, List.replicate_zero, List.nil_append]

theorem foldl_ipv4 (l : List IPv4Subnet) (w : PcapNGWriter) (a : List Nat) :
    List.foldl (fun (w : PcapNGWriter) (ipv4 : IPv4Subnet) =>
      (((w.writeT 2 4).writeT 2 8).write ipv4.addr 4).write ipv4.mask 4) (w.append a) l =
    w.append (a ++ (l.map (fun ipv4 =>
      toLE 2 4 ++ toLE 2 8 ++ List.take 4 ipv4.addr ++ List.take 4 ipv4.mask)).flatten) :=
  foldl_append _ _ (fun w a x => by simp only [writeT_append, write_append, List.append_assoc])
    l w a

theorem foldl_ipv6 (l : List IPv6Subnet) (w : PcapNGWriter) (a : List Nat) :
    List.foldl (fun (w : PcapNGWriter) (ipv6 : IPv6Subnet) =>
      ((((w.writeT 2 5).writeT 2 17).write ipv6.addr 16).writeT 1 ipv6.prefix_len).write
        PADDING 3) (w.append a) l =
    w.append (a ++ (l.map (fun ipv6 =>
      toLE 2 5 ++ toLE 2 17 ++ List.take 16 ipv6.addr ++ toLE 1 ipv6.prefix_len ++
        List.take 3 PADDING)).flatten) :=
  foldl_append _ _ (fun w a x => by simp only [writeT_append, write_append, List.append_assoc])
    l w a

theorem map_ipv4 (l : List IPv4Subnet) (h : ∀ a ∈ l, a.addr.length = 4 ∧ a.mask.length = 4) :
    l.map (fun ipv4 =>
      toLE 2 4 ++ toLE 2 8 ++ List.take 4 ipv4.addr ++ List.take 4 ipv4.mask) =
    l.map (fun ipv4 => optionBytes 4 (ipv4.addr ++ ipv4.mask)) := by
  apply List.map_congr_left
  intro ip hip
  have h1 := (h ip hip).1
  have h2 := (h ip hip).2
  have e1 : List.take 4 ip.addr = ip.addr := List.take_of_length_le (by omega)
  have e2 : List.take 4 ip.mask = ip.mask := List.take_of_length_le (by omega)
  have hl : (ip.addr ++ ip.mask).length = 8 := by rw [List.length_append, h1, h2]
  simp only [optionBytes, hl, e1, e2, padding_eight, List.replicate_zero, List.append_nil,
    List.append_assoc]

theorem map_ipv6 (l : List IPv6Subnet) (h : ∀ a ∈ l, a.addr.length = 16) :
    l.map (fun ipv6 =>
      toLE 2 5 ++ toLE 2 17 ++ List.take 16 ipv6.addr ++ toLE 1 ipv6.prefix_len ++
        List.take 3 PADDING) =
    l.map (fun ipv6 => optionBytes 5 (ipv6.addr ++ toLE 1 ipv6.prefix_len)) := by
  apply List.map_congr_left
  intro ip hip
  have h1 := h ip hip
  have e1 : List.take 16 ip.addr = ip.addr := List.take_of_length_le (by omega)
  have e3 : List.take 3 PADDING = List.replicate (padding 17) 0 := rfl
  have hl : (ip.addr ++ toLE 1 ip.prefix_len).length = 17 := by
    rw [List.length_append, h1, toLE_length]
  simp only [optionBytes, hl, e1, e3, List.append_assoc]

theorem block_len_pos_idb (c : Nat) (a id4 len4 rest : List Nat) (h4 : id4.length = 4)
    (h5 : len4.length = 4) :
    toLE 4 (((((((c + (a ++ (id4 ++ (len4 ++ rest))).length : Nat) : Int) -
      ((c + (a ++ id4).length : Nat) : Int)) % (2 ^ 32 : Int)).toNat) + 8) % 2 ^ 32) =
      toLE 4 (rest.length + 12) := by
  rw [toLE4_mod, ← toLE4_mod (rest.length + 12), ← toLE4_mod]
  congr 1
  simp only [List.length_append, h4, h5]
  omega

set_option maxHeartbeats 4000000 in
theorem write_idb_append (w : PcapNGWriter) (a : List Nat) (h : ArraysOk w.readers_) :
    (w.append a).write_idb = w.append (a ++ blockBytes 1 (idbBody w.readers_)) := by
  have h4 := map_ipv4 _ h.1
  have h6 := map_ipv6 _ h.2.1
  have e3 : List.take 3 PADDING = List.replicate (padding 1) 0 := rfl
  have e2 : List.take 2 PADDING = List.replicate (padding 6) 0 := rfl
  have e0 : toLE 1 0 = [0] := rfl
  have e8 : ∀ x, (toLE 8 x).length = 8 := fun x => toLE_length 8 x
  have e1 : ∀ x, (toLE 1 x).length = 1 := fun x => toLE_length 1 x
  unfold write_idb
  cases hm : w.readers_.mac_ with
  | none =>
    by_cases hf : w.readers_.filter_ = []
    · have hfe : w.readers_.filter_.isEmpty = true := by rw [hf]; rfl
      simp only [writeT_append, write_append, append_readers, pad_append_norm,
        padding_mod, toLE2_mod, List.take_length, foldl_ipv4, foldl_ipv6, h4, h6, hm, hfe,
        not_true_eq_false, if_false]
      simp only [List.append_assoc]
      rw [patch_block _ _ _ _ _ _ (toLE_length _ _), position_append, position_append,
        block_len_pos_idb _ _ _ _ _ (toLE_length _ _) (toLE_length _ _)]
      simp only [blockBytes, idbBody, optionBytes, endOfOptions, List.append_assoc, hm, hf, e3,
        e8, e1, padding_eight, List.replicate_zero, List.nil_append, if_true]
    · have hfe : w.readers_.filter_.isEmpty = false := by
        cases hx : w.readers_.filter_ with
        | nil => exact absurd hx hf
        | cons x xs => rfl
      simp only [writeT_append, write_append, append_readers, pad_append_norm,
        padding_mod, toLE2_mod, List.take_length, foldl_ipv4, foldl_ipv6, h4, h6, hm, hfe,
        Bool.false_eq_true, not_false_eq_true, if_true]
      simp only [List.append_assoc]
      rw [patch_block _ _ _ _ _ _ (toLE_length _ _), position_append, position_append,
        block_len_pos_idb _ _ _ _ _ (toLE_length _ _) (toLE_length _ _)]
      simp only [blockBytes, idbBody, optionBytes, endOfOptions, List.append_assoc, hm, hf, e3,
        e8, e1, e0, padding_eight, List.replicate_zero, List.nil_append, if_false,
        List.length_cons, List.singleton_append, List.cons_append]
  | some mac =>
    have hmac : mac.length = 6 := h.2.2 mac hm
    have em : List.take 6 mac = mac := List.take_of_length_le (by omega)
    by_cases hf : w.readers_.filter_ = []
    · have hfe : w.readers_.filter_.isEmpty = true := by rw [hf]; rfl
      simp only [writeT_append, write_append, append_readers, pad_append_norm,
        padding_mod, toLE2_mod, List.take_length, foldl_ipv4, foldl_ipv6, h4, h6, hm, hfe,
        not_true_eq_false, if_false]
      simp only [List.append_assoc]
      rw [patch_block _ _ _ _ _ _ (toLE_length _ _), position_append, position_append,
        block_len_pos_idb _ _ _ _ _ (toLE_length _ _) (toLE_length _ _)]
      simp only [blockBytes, idbBody, optionBytes, endOfOptions, List.append_assoc, hm, hf, e3,
        e8, e1, e2, em, hmac, padding_eight, List.replicate_zero, List.nil_append, if_true]
    · have hfe : w.readers_.filter_.isEmpty = false := by
        cases hx : w.readers_.filter_ with
        | nil => exact absurd hx hf
        | cons x xs => rfl
      simp only [writeT_append, write_append, append_readers, pad_append_norm,
        padding_mod, toLE2_mod, List.take_length, foldl_ipv4, foldl_ipv6, h4, h6, hm, hfe,
        Bool.false_eq_true, not_false_eq_true, if_true]
      simp only [List.append_assoc]
      rw [patch_block _ _ _ _ _ _ (toLE_length _ _), position_append, position_append,
        block_len_pos_idb _ _ _ _ _ (toLE_length _ _) (toLE_length _ _)]
      simp only [blockBytes, idbBody, optionBytes, endOfOptions, List.append_assoc, hm, hf, e3,
        e8, e1, e2, e0, em, hmac, padding_eight, List.replicate_zero, List.nil_append, if_false,
        List.length_cons, List.singleton_append, List.cons_append]

end PcapNGWriter

theorem emod_chain (a s m f N : Int) :
    ((a + N - s) % N * m % N + f) % N = ((a - s) * m + f) % N := by
  have e1 : (a + N - s) % N = (a - s) % N := by
    rw [show a + N - s = (a - s) + N by ring, Int.add_emod_self]
  have h1 : Int.ModEq N ((a + N - s) % N) (a - s) := (Int.mod_modEq _ _).trans e1
  have h3 : Int.ModEq N ((a + N - s) % N * m % N) ((a - s) * m) :=
    (Int.mod_modEq _ _).trans (h1.mul_right m)
  exact h3.add_right f

theorem split_hi_lo (t : Nat) (ht : t < 2 ^ 64) :
    ((t >>> 32) % 2 ^ 32 = t / 2 ^ 32) ∧ ((t &&& 0xFFFFFFFF) % 2 ^ 32 = t % 2 ^ 32) := by
  have hmask : (0xFFFFFFFF : Nat) = 2 ^ 32 - 1 := by norm_num
  rw [Nat.shiftRight_eq_div_pow, hmask, Nat.and_pow_two_sub_one_eq_mod]
  constructor
  · apply Nat.mod_eq_of_lt
    omega
  · exact Nat.mod_mod _ _

theorem timestamp_eq (w : PcapNGWriter) (secs frac : Nat)
    (hstart : w.readers_.start_sec_ < W64) :
    w.timestamp secs frac =
      (((((secs : Int) - (w.readers_.start_sec_ : Int)) *
        (if w.readers_.nano_ then 10 ^ 9 else 10 ^ 6) + (frac : Int)) % 2 ^ 64).toNat / 2 ^ 32,
       ((((secs : Int) - (w.readers_.start_sec_ : Int)) *
        (if w.readers_.nano_ then 10 ^ 9 else 10 ^ 6) + (frac : Int)) % 2 ^ 64).toNat % 2 ^ 32) := by
  have hWi : ((W64 : Nat) : Int) = 2 ^ 64 := by norm_num [W64]
  have key : ∀ m : Nat,
      ((((secs + W64 - w.readers_.start_sec_) % W64 * m) % W64 + frac) % W64 : Nat) =
      ((((secs : Int) - (w.readers_.start_sec_ : Int)) * (m : Int) + (frac : Int)) %
        2 ^ 64).toNat := by
    intro m
    have h1 : (((((secs + W64 - w.readers_.start_sec_) % W64 * m) % W64 + frac) % W64 : Nat) :
        Int) =
        (((secs : Int) - (w.readers_.start_sec_ : Int)) * (m : Int) + (frac : Int)) % 2 ^ 64 := by
      rw [← hWi]
      push_cast [Nat.cast_sub (show w.readers_.start_sec_ ≤ secs + W64 by omega)]
      exact emod_chain _ _ _ _ _
    omega
  have hlt : ∀ m : Nat,
      ((((secs + W64 - w.readers_.start_sec_) % W64 * m) % W64 + frac) % W64 : Nat) < 2 ^ 64 :=
    fun m => Nat.mod_lt _ (by norm_num [W64])
  cases hn : w.readers_.nano_ with
  | true =>
    have k := key 1000000000
    have s := split_hi_lo _ (hlt 1000000000)
    simp only [PcapNGWriter.timestamp, hn, if_true]
    rw [s.1, s.2, k]
    norm_num
  | false =>
    have k := key 1000000
    have s := split_hi_lo _ (hlt 1000000)
    simp only [PcapNGWriter.timestamp, hn, Bool.false_eq_true, if_false]
    rw [s.1, s.2, k]
    norm_num

theorem padding_lt (n : Nat) : padding n < 4 := by
  unfold padding
  omega

theorem padding_add_mod (n : Nat) : (n + padding n) % 4 = 0 := by
  unfold padding
  omega

theorem padding_unique (n p : Nat) (hp : p < 4) : (n + p) % 4 = 0 ↔ p = padding n := by
  unfold padding
  omega

theorem fromLE_toLE_mod (k n : Nat) : fromLE (toLE k n) = n % 256 ^ k := by
  rw [← PcapNGWriter.toLE_mod k n]
  exact fromLE_toLE k _ (Nat.mod_lt _ (by positivity))

theorem optionBytes_length (code : Nat) (value : List Nat) :
    (optionBytes code value).length = 4 + (value.length + padding value.length) := by
  simp only [optionBytes, List.length_append, toLE_length, List.length_replicate]
  omega

theorem optionBytes_length_mod (code : Nat) (value : List Nat) :
    (optionBytes code value).length % 4 = 0 := by
  have := padding_add_mod value.length
  rw [optionBytes_length]
  omega

theorem flatten_length_mod (l : List (List Nat)) (h : ∀ x ∈ l, x.length % 4 = 0) :
    l.flatten.length % 4 = 0 := by
  induction l with
  | nil => rfl
  | cons x l ih =>
    have h1 := h x (List.mem_cons_self _ _)
    have h2 := ih (fun y hy => h y (List.mem_cons_of_mem _ hy))
    rw [List.flatten_cons, List.length_append]
    omega

theorem blockBytes_length (t : Nat) (body : List Nat) :
    (blockBytes t body).length = body.length + 12 := by
  simp only [blockBytes, List.length_append, toLE_length]
  omega

theorem blockBytes_leading (t : Nat) (body : List Nat) :
    ((blockBytes t body).drop 4).take 4 = toLE 4 (body.length + 12) := by
  have e : blockBytes t body =
      toLE 4 t ++ (toLE 4 (body.length + 12) ++ (body ++ toLE 4 (body.length + 12))) := by
    simp only [blockBytes, List.append_assoc]
  rw [e, List.drop_left' (toLE_length _ _), List.take_left' (toLE_length _ _)]

theorem blockBytes_trailing (t : Nat) (body : List Nat) :
    (blockBytes t body).drop ((blockBytes t body).length - 4) = toLE 4 (body.length + 12) := by
  rw [blockBytes_length]
  have e : blockBytes t body =
      (toLE 4 t ++ toLE 4 (body.length + 12) ++ body) ++ toLE 4 (body.length + 12) := rfl
  rw [e]
  exact List.drop_left' (by simp only [List.length_append, toLE_length]; omega)

theorem framed_block_iff (old : List Nat) (t : Nat) (body : List Nat) :
    Framed old (old ++ blockBytes t body) ↔
      (body.length + 12 < 2 ^ 32 ∧ body.length % 4 = 0) := by
  unfold Framed
  rw [List.drop_left, List.take_left, blockBytes_leading, blockBytes_trailing,
    blockBytes_length, fromLE_toLE_mod]
  constructor
  · rintro ⟨-, h1, -, h3⟩
    have h256 : (256 : Nat) ^ 4 = 2 ^ 32 := by norm_num
    rw [h256] at h1
    constructor
    · by_contra hc
      have := Nat.mod_lt (body.length + 12) (show 0 < 2 ^ 32 by norm_num)
      omega
    · omega
  · rintro ⟨h1, h2⟩
    have h256 : (256 : Nat) ^ 4 = 2 ^ 32 := by norm_num
    rw [h256, Nat.mod_eq_of_lt h1]
    exact ⟨rfl, rfl, rfl, by omega⟩

theorem shbBody_length_mod (rs : ReaderSet) : (shbBody rs).length % 4 = 0 := by
  have h1 := optionBytes_length_mod 2 rs.cpu_model_
  have h2 := optionBytes_length_mod 3 rs.os_version_
  have h3 := optionBytes_length_mod 4 [70, 97, 115, 116, 99, 97, 112]
  simp only [shbBody, endOfOptions, List.length_append, toLE_length]
  omega

theorem idbBody_eq_options (rs : ReaderSet) :
    idbBody rs = toLE 2 rs.link_ ++ toLE 2 0 ++ toLE 4 (ofInt32 rs.snaplen_) ++
      ((idbOptions rs).map (fun o => optionBytes o.1 o.2)).flatten ++ endOfOptions := by
  have e1 : ∀ ip : IPv6Subnet, toLE 1 ip.prefix_len = [ip.prefix_len % 256] := fun ip => rfl
  have e9 : toLE 1 (if rs.nano_ then 9 else 6) = [if rs.nano_ then 9 else 6] := by
    cases rs.nano_ <;> rfl
  unfold idbBody idbOptions
  cases hm : rs.mac_ <;> by_cases hf : rs.filter_ = [] <;>
    simp only [hf, if_true, if_false, List.map_append, List.map_map, List.flatten_append,
      List.map_cons, List.map_nil, List.flatten_cons, List.flatten_nil, List.append_nil,
      List.append_assoc, List.nil_append, Function.comp_def, e1, e9]

theorem idbBody_length_mod (rs : ReaderSet) : (idbBody rs).length % 4 = 0 := by
  rw [idbBody_eq_options]
  have h := flatten_length_mod ((idbOptions rs).map (fun o => optionBytes o.1 o.2))
    (fun x hx => by
      obtain ⟨o, -, rfl⟩ := List.mem_map.mp hx
      exact optionBytes_length_mod _ _)
  simp only [endOfOptions, List.length_append, toLE_length]
  omega

theorem epbBody_length_mod (ts : Nat × Nat) (hdr : PktHdr) (data : List Nat) :
    (epbBody ts hdr data).length % 4 = 0 := by
  have := padding_add_mod data.length
  rw [PcapNGWriter.epbBody_length]
  omega

namespace PcapNGWriter

theorem write_shb_at_end (w : PcapNGWriter) (hend : w.file_.pos = w.file_.content.length) :
    w.write_shb = w.append (blockBytes 0x0A0D0D0A (shbBody w.readers_)) := by
  have h := write_shb_append w []
  rwa [append_nil w hend, List.nil_append] at h

theorem write_idb_at_end (w : PcapNGWriter) (hend : w.file_.pos = w.file_.content.length)
    (harr : ArraysOk w.readers_) :
    w.write_idb = w.append (blockBytes 1 (idbBody w.readers_)) := by
  have h := write_idb_append w [] harr
  rwa [append_nil w hend, List.nil_append] at h

theorem write_epb_at_end (w : PcapNGWriter) (hend : w.file_.pos = w.file_.content.length)
    (hdr : PktHdr) (data : List Nat) :
    w.write_epb hdr data =
      { w.append (blockBytes 6 (epbBody (w.timestamp hdr.secs hdr.frac) hdr data)) with
        pkt_count_ := (w.pkt_count_ + 1) % W64 } := by
  have h := write_epb_append w [] hdr data
  rwa [append_nil w hend, List.nil_append] at h

theorem write_isb_at_end (w : PcapNGWriter) (hend : w.file_.pos = w.file_.content.length)
    (hdr : StatHdr) :
    w.write_isb hdr = w.append (blockBytes 5 (isbBody (w.timestamp hdr.secs hdr.frac) hdr)) := by
  have h := write_isb_append w [] hdr
  rwa [append_nil w hend, List.nil_append] at h

end PcapNGWriter

theorem next_meta (fuel : Nat) : ∀ (rs rs1 : ReaderSet) (data data1 : List Nat) (r : Option Hdr),
    rs.next fuel data = some (r, rs1, data1) →
      rs1.start_sec_ = rs.start_sec_ ∧ rs1.nano_ = rs.nano_ := by
  induction fuel with
  | zero => intro rs rs1 data data1 r h; simp [ReaderSet.next] at h
  | succ fuel ih =>
    intro rs rs1 data data1 r h
    unfold ReaderSet.next at h
    cases hs : ReaderSet.scan rs.next_ data rs.readers_ 0 with
    | inl x =>
      obtain ⟨hdr, readers, d1⟩ := x
      rw [hs] at h
      simp only [Option.some.injEq, Prod.mk.injEq] at h
      obtain ⟨-, h2, -⟩ := h
      subst h2
      exact ⟨rfl, rfl⟩
    | inr dc =>
      rw [hs] at h
      dsimp only at h
      split_ifs at h with hd
      · simp only [Option.some.injEq, Prod.mk.injEq] at h
        obtain ⟨-, h2, -⟩ := h
        subst h2
        exact ⟨rfl, rfl⟩
      · have hall := ih _ _ _ _ _ h
        exact hall

namespace PcapNGWriter

theorem timestamp_congr (w1 w2 : PcapNGWriter)
    (h1 : w1.readers_.start_sec_ = w2.readers_.start_sec_)
    (h2 : w1.readers_.nano_ = w2.readers_.nano_) (s f : Nat) :
    w1.timestamp s f = w2.timestamp s f := by
  simp only [timestamp, h1, h2]

theorem entryBlock_congr (rs1 rs : ReaderSet) (h1 : rs1.start_sec_ = rs.start_sec_)
    (h2 : rs1.nano_ = rs.nano_) (e : Entry) : entryBlock rs1 e = entryBlock rs e := by
  unfold entryBlock
  cases e.hdr with
  | pkt h =>
    simp only
    rw [timestamp_congr (PcapNGWriter.new rs1) (PcapNGWriter.new rs) h1 h2]
  | stat h =>
    simp only
    rw [timestamp_congr (PcapNGWriter.new rs1) (PcapNGWriter.new rs) h1 h2]

theorem write_entries_spec (fuel : Nat) : ∀ (n : Nat) (w : PcapNGWriter) (a data : List Nat)
    (es : List Entry), w.pkt_count_ < W64 →
    drain fuel n w.readers_ data = some (es, true) →
    ∃ rs1, write_entries fuel n (w.append a) data =
      some { w.append (a ++ (es.map (entryBlock w.readers_)).flatten) with
        readers_ := rs1,
        pkt_count_ := (w.pkt_count_ + (es.filter (fun e => e.hdr.visit.2)).length) % W64 } := by
  intro n
  induction n with
  | zero => intro w a data es _ h; simp [drain] at h
  | succ n ih =>
    intro w a data es hpk h
    unfold drain at h
    unfold write_entries
    simp only [append_readers]
    cases hn : w.readers_.next fuel data with
    | none => rw [hn] at h; simp at h
    | some res =>
      obtain ⟨r, rs1, data1⟩ := res
      have hmeta := next_meta fuel _ _ _ _ _ hn
      rw [hn] at h
      cases r with
      | none =>
        simp only [Option.some.injEq, Prod.mk.injEq] at h
        obtain ⟨h1, -⟩ := h
        subst h1
        refine ⟨rs1, ?_⟩
        simp only [List.map_nil, List.flatten_nil, List.append_nil, List.filter_nil,
          List.length_nil, Nat.add_zero, Nat.mod_eq_of_lt hpk]
        rfl
      | some hdr =>
        simp only at h
        cases hd : drain fuel n rs1 data1 with
        | none => rw [hd] at h; simp at h
        | some res2 =>
          obtain ⟨es2, eos⟩ := res2
          rw [hd] at h
          simp only [Option.some.injEq, Prod.mk.injEq] at h
          obtain ⟨h1, h2⟩ := h
          subst h1 h2
          have hcongr : ∀ e, entryBlock rs1 e = entryBlock w.readers_ e :=
            entryBlock_congr rs1 w.readers_ hmeta.1 hmeta.2
          cases hdr with
          | pkt ph =>
            have e1 : ({ w.append a with readers_ := rs1 } : PcapNGWriter) =
                ({ w with readers_ := rs1 } : PcapNGWriter).append a := rfl
            have hw := ih ({ w with readers_ := rs1, pkt_count_ := (w.pkt_count_ + 1) % W64 })
              (a ++ blockBytes 6 (epbBody (({ w with readers_ := rs1 } : PcapNGWriter).timestamp
                ph.secs ph.frac) ph data1)) data1 es2
              (Nat.mod_lt _ (by norm_num [W64])) hd
            obtain ⟨rs2, hw⟩ := hw
            refine ⟨rs2, ?_⟩
            simp only [e1, write_epb_append]
            refine Eq.trans hw ?_
            have ets : ({ w with readers_ := rs1 } : PcapNGWriter).timestamp ph.secs ph.frac =
                (PcapNGWriter.new w.readers_).timestamp ph.secs ph.frac :=
              timestamp_congr _ _ hmeta.1 hmeta.2 _ _
            have hv : (Hdr.pkt ph).visit.2 = true := rfl
            simp only [List.map_cons, List.flatten_cons, List.filter_cons, hv, if_true,
              List.length_cons, entryBlock, Option.getD_some, ets, List.append_assoc,
              List.map_congr_left (fun e _ => hcongr e)]
            congr 1
            have : ((w.pkt_count_ + 1) % W64 + (es2.filter (fun e => e.hdr.visit.2)).length) % W64 =
                (w.pkt_count_ + ((es2.filter (fun e => e.hdr.visit.2)).length + 1)) % W64 := by
              rw [Nat.mod_add_mod, Nat.add_assoc, Nat.add_comm 1]
            simp only [append, this]
          | stat sh =>
            have e1 : ({ w.append a with readers_ := rs1 } : PcapNGWriter) =
                ({ w with readers_ := rs1 } : PcapNGWriter).append a := rfl
            have hw := ih ({ w with readers_ := rs1 })
              (a ++ blockBytes 5 (isbBody (({ w with readers_ := rs1 } : PcapNGWriter).timestamp
                sh.secs sh.frac) sh)) data1 es2 hpk hd
            obtain ⟨rs2, hw⟩ := hw
            refine ⟨rs2, ?_⟩
            simp only [e1, write_isb_append]
            refine Eq.trans hw ?_
            have ets : ({ w with readers_ := rs1 } : PcapNGWriter).timestamp sh.secs sh.frac =
                (PcapNGWriter.new w.readers_).timestamp sh.secs sh.frac :=
              timestamp_congr _ _ hmeta.1 hmeta.2 _ _
            have hv : (Hdr.stat sh).visit.2 = false := rfl
            simp only [List.map_cons, List.flatten_cons, List.filter_cons, hv,
              Bool.false_eq_true, if_false, entryBlock, ets, List.append_assoc,
              List.map_congr_left (fun e _ => hcongr e)]
            rfl

end PcapNGWriter

/-- C21. For all `secs` and `frac`, both values of the `nano` flag and every
64-bit session start `start_sec_`: `PcapNGWriter::timestamp` returns `(hi, lo)`
with `hi * 2^32 + lo = ((secs - start_sec_) * (nano ? 10^9 : 10^6) + frac) mod
2^64`, `hi` being the upper and `lo` the lower 32 bits of that number. -/
theorem timestamp_splits_ticks (w : PcapNGWriter) (secs frac : Nat)
    (hstart : w.readers_.start_sec_ < W64) :
    (((w.timestamp secs frac).1 * 2 ^ 32 + (w.timestamp secs frac).2 : Nat) : Int) =
      (((secs : Int) - (w.readers_.start_sec_ : Int)) *
        (if w.readers_.nano_ then 10 ^ 9 else 10 ^ 6) + (frac : Int)) % 2 ^ 64 ∧
    (w.timestamp secs frac).1 =
      ((((secs : Int) - (w.readers_.start_sec_ : Int)) *
        (if w.readers_.nano_ then 10 ^ 9 else 10 ^ 6) + (frac : Int)) % 2 ^ 64).toNat / 2 ^ 32 ∧
    (w.timestamp secs frac).2 =
      ((((secs : Int) - (w.readers_.start_sec_ : Int)) *
        (if w.readers_.nano_ then 10 ^ 9 else 10 ^ 6) + (frac : Int)) % 2 ^ 64).toNat % 2 ^ 32 ∧
    (w.timestamp secs frac).1 < 2 ^ 32 ∧ (w.timestamp secs frac).2 < 2 ^ 32 := by
  have h := timestamp_eq w secs frac hstart
  generalize (((secs : Int) - (w.readers_.start_sec_ : Int)) *
    (if w.readers_.nano_ then 10 ^ 9 else 10 ^ 6) + (frac : Int)) = x at h ⊢
  have h0 : 0 ≤ x % 2 ^ 64 := Int.emod_nonneg x (by norm_num)
  have h1 : x % 2 ^ 64 < 2 ^ 64 := Int.emod_lt_of_pos x (by norm_num)
  rw [h]
  refine ⟨?_, rfl, rfl, ?_, ?_⟩
  · simp only
    omega
  · simp only
    omega
  · simp only
    omega

set_option maxRecDepth 100000 in
theorem timestamp_splits_ticks_witness :
    (PcapNGWriter.new sampleReaders).readers_.start_sec_ < W64 ∧
    ((((PcapNGWriter.new sampleReaders).timestamp 101 7).1 * 2 ^ 32 +
      ((PcapNGWriter.new sampleReaders).timestamp 101 7).2 : Nat) : Int) =
      ((((101 : Nat) : Int) - ((PcapNGWriter.new sampleReaders).readers_.start_sec_ : Int)) *
        (if (PcapNGWriter.new sampleReaders).readers_.nano_ then 10 ^ 9 else 10 ^ 6) +
        ((7 : Nat) : Int)) % 2 ^ 64 :=
  ⟨by decide, (timestamp_splits_ticks (PcapNGWriter.new sampleReaders) 101 7 (by decide)).1⟩

theorem file_content_append (w : PcapNGWriter) (a : List Nat) :
    (w.append a).file_.content = w.file_.content ++ a := rfl

/-- The Enhanced Packet Block of a payload of `2^32 - 4` bytes: 4294967324
bytes are added to the file, the leading length field holds
`static_cast<uint32_t>(32 + 4294967292 + 0) = 28`. -/
theorem epb_length_field_wraps_general (w : PcapNGWriter)
    (hend : w.file_.pos = w.file_.content.length) (hdr : PktHdr) (data : List Nat)
    (hlen : data.length = 4294967292) :
    ((w.write_epb hdr data).file_.content.drop w.file_.content.length).length = 4294967324 ∧
    fromLE ((((w.write_epb hdr data).file_.content.drop w.file_.content.length).drop 4).take 4)
      = 28 ∧
    ¬ Framed w.file_.content (w.write_epb hdr data).file_.content := by
  have hp : padding 4294967292 = 0 := by decide
  have hc : (w.write_epb hdr data).file_.content = w.file_.content ++
      blockBytes 6 (epbBody (w.timestamp hdr.secs hdr.frac) hdr data) := by
    rw [PcapNGWriter.write_epb_at_end w hend]
    rfl
  have hb : (epbBody (w.timestamp hdr.secs hdr.frac) hdr data).length = 4294967312 := by
    rw [PcapNGWriter.epbBody_length, hlen, hp]
  rw [hc, List.drop_left]
  refine ⟨?_, ?_, ?_⟩
  · rw [blockBytes_length, hb]
  · rw [blockBytes_leading, fromLE_toLE_mod, hb]
    norm_num
  · rw [framed_block_iff, hb]
    norm_num

/-- C22 fails on the code. A packet entry with a payload of `2^32 - 4` bytes
(`caplen = 0xFFFFFFFC` in the record, `data_.resize(hdr.caplen)` in `read_next`):
`write_epb` adds 4294967324 bytes to the file, and the leading
block_total_length field holds `static_cast<uint32_t>(32 + 4294967292 + 0) = 28`:
the block is not framed by its length. -/
theorem epb_length_field_wraps :
    (((PcapNGWriter.new sampleReaders).write_epb ⟨1, 100, 0, 4294967292, 4294967292⟩
      (List.replicate 4294967292 0)).file_.content.drop
        (PcapNGWriter.new sampleReaders).file_.content.length).length = 4294967324 ∧
    fromLE (((((PcapNGWriter.new sampleReaders).write_epb ⟨1, 100, 0, 4294967292, 4294967292⟩
      (List.replicate 4294967292 0)).file_.content.drop
        (PcapNGWriter.new sampleReaders).file_.content.length).drop 4).take 4) = 28 ∧
    ¬ Framed (PcapNGWriter.new sampleReaders).file_.content
      ((PcapNGWriter.new sampleReaders).write_epb ⟨1, 100, 0, 4294967292, 4294967292⟩
        (List.replicate 4294967292 0)).file_.content :=
  epb_length_field_wraps_general (PcapNGWriter.new sampleReaders) rfl
    ⟨1, 100, 0, 4294967292, 4294967292⟩ (List.replicate 4294967292 0)
    (List.length_replicate _ _)

/-- C22, amended. For an emitter at the end of its file, the SHB and the IDB of
metadata for which these blocks are shorter than `2^32` bytes, the EPB of a
payload of at most `2^32 - 36` bytes and the ISB: the leading and the trailing
block_total_length field both hold the number of bytes written for the block,
and this number is a multiple of 4; `padding len` is below 4, makes
`len + padding len` divisible by 4, and is the only such number below 4. -/
theorem blocks_framed (w : PcapNGWriter) (hdr : PktHdr) (shdr : StatHdr) (data : List Nat)
    (hend : w.file_.pos = w.file_.content.length) (harr : ArraysOk w.readers_)
    (hshb : (blockBytes 0x0A0D0D0A (shbBody w.readers_)).length < 2 ^ 32)
    (hidb : (blockBytes 1 (idbBody w.readers_)).length < 2 ^ 32)
    (hepb : data.length + 36 ≤ 2 ^ 32) :
    Framed w.file_.content w.write_shb.file_.content ∧
    Framed w.file_.content w.write_idb.file_.content ∧
    Framed w.file_.content (w.write_epb hdr data).file_.content ∧
    Framed w.file_.content (w.write_isb shdr).file_.content ∧
    (∀ len : Nat, padding len < 4 ∧ (len + padding len) % 4 = 0 ∧
      ∀ p, p < 4 → (len + p) % 4 = 0 → p = padding len) := by
  rw [blockBytes_length] at hshb hidb
  refine ⟨?_, ?_, ?_, ?_, ?_⟩
  · rw [PcapNGWriter.write_shb_at_end w hend, file_content_append, framed_block_iff]
    exact ⟨hshb, shbBody_length_mod _⟩
  · rw [PcapNGWriter.write_idb_at_end w hend harr, file_content_append, framed_block_iff]
    exact ⟨hidb, idbBody_length_mod _⟩
  · have hc : (w.write_epb hdr data).file_.content = w.file_.content ++
        blockBytes 6 (epbBody (w.timestamp hdr.secs hdr.frac) hdr data) := by
      rw [PcapNGWriter.write_epb_at_end w hend]
      rfl
    rw [hc, framed_block_iff]
    refine ⟨?_, epbBody_length_mod _ _ _⟩
    rw [PcapNGWriter.epbBody_length]
    have h1 := padding_lt data.length
    have h2 := padding_add_mod data.length
    omega
  · rw [PcapNGWriter.write_isb_at_end w hend, file_content_append, framed_block_iff,
      PcapNGWriter.isbBody_length]
    exact ⟨by norm_num, by norm_num⟩
  · intro len
    exact ⟨padding_lt len, padding_add_mod len, fun p hp h => (padding_unique len p hp).mp h⟩

set_option maxRecDepth 100000 in
theorem arraysOk_sample : ArraysOk sampleReaders := by
  refine ⟨?_, ?_, ?_⟩
  · have h : sampleReaders.ipv4s_ = [] := by decide
    rw [h]
    intro a ha
    cases ha
  · have h : sampleReaders.ipv6s_ = [] := by decide
    rw [h]
    intro a ha
    cases ha
  · have h : sampleReaders.mac_ = none := by decide
    rw [h]
    intro m hm
    cases hm

set_option maxRecDepth 100000 in
theorem blocks_framed_witness :
    (PcapNGWriter.new sampleReaders).file_.pos =
      (PcapNGWriter.new sampleReaders).file_.content.length ∧
    ArraysOk (PcapNGWriter.new sampleReaders).readers_ ∧
    (blockBytes 0x0A0D0D0A (shbBody (PcapNGWriter.new sampleReaders).readers_)).length < 2 ^ 32 ∧
    (blockBytes 1 (idbBody (PcapNGWriter.new sampleReaders).readers_)).length < 2 ^ 32 ∧
    [170, 187, 204].length + 36 ≤ 2 ^ 32 ∧
    Framed (PcapNGWriter.new sampleReaders).file_.content
      ((PcapNGWriter.new sampleReaders).write_epb ⟨1, 100, 5, 3, 3⟩ [170, 187, 204]).file_.content :=
  ⟨rfl, arraysOk_sample, by decide, by decide, by decide,
    (blocks_framed (PcapNGWriter.new sampleReaders) ⟨1, 100, 5, 3, 3⟩ ⟨2, 101, 0, 3, 0, 0⟩
      [170, 187, 204] rfl arraysOk_sample (by decide) (by decide) (by decide)).2.2.1⟩

/-- C23. For every packet header and payload, `write_epb` at the end of the
file adds exactly: block type 6, block_total_length (`32 + len + pad` as a
32-bit value), interface_id 0, ts_hi, ts_lo, captured length, original length,
the payload bytes unchanged, `padding len` zero bytes that bring the payload to
a 4-byte boundary, and block_total_length again, with no options; the packet
count goes up by one. -/
theorem write_epb_layout (w : PcapNGWriter) (hdr : PktHdr) (data : List Nat)
    (hend : w.file_.pos = w.file_.content.length) :
    (w.write_epb hdr data).file_.content =
      w.file_.content ++
        (toLE 4 6 ++ toLE 4 ((32 + data.length + padding data.length) % 2 ^ 32) ++
          toLE 4 0 ++ toLE 4 (w.timestamp hdr.secs hdr.frac).1 ++
          toLE 4 (w.timestamp hdr.secs hdr.frac).2 ++ toLE 4 hdr.caplen ++ toLE 4 hdr.len ++
          data ++ List.replicate (padding data.length) 0 ++
          toLE 4 ((32 + data.length + padding data.length) % 2 ^ 32)) ∧
    padding data.length < 4 ∧ (data.length + padding data.length) % 4 = 0 ∧
    (w.write_epb hdr data).file_.pos = (w.write_epb hdr data).file_.content.length ∧
    (w.write_epb hdr data).pkt_count_ = (w.pkt_count_ + 1) % W64 := by
  have hl : (epbBody (w.timestamp hdr.secs hdr.frac) hdr data).length + 12 =
      32 + data.length + padding data.length := by
    rw [PcapNGWriter.epbBody_length]
    omega
  rw [PcapNGWriter.write_epb_at_end w hend]
  refine ⟨?_, padding_lt _, padding_add_mod _, ?_, rfl⟩
  · show w.file_.content ++ blockBytes 6 _ = _
    simp only [blockBytes, hl]
    simp only [epbBody, PcapNGWriter.toLE4_mod, List.append_assoc]
  · show w.file_.content.length + _ = (w.file_.content ++ _).length
    rw [List.length_append]

theorem write_epb_layout_witness :
    (PcapNGWriter.new sampleReaders).file_.pos =
      (PcapNGWriter.new sampleReaders).file_.content.length ∧
    ((PcapNGWriter.new sampleReaders).write_epb ⟨1, 100, 5, 3, 3⟩ [170, 187, 204]).pkt_count_ =
      ((PcapNGWriter.new sampleReaders).pkt_count_ + 1) % W64 :=
  ⟨rfl, (write_epb_layout (PcapNGWriter.new sampleReaders) ⟨1, 100, 5, 3, 3⟩ [170, 187, 204]
    rfl).2.2.2.2⟩

/-- C24. For every statistics header, `write_isb` at the end of the file adds
exactly: block type 5, block_total_length 64, interface_id 0, ts_hi, ts_lo, the
options `isb_ifrecv` (code 4), `isb_ifdrop` (code 5) and `isb_osdrop` (code 7),
each of length 8 and carrying `recv`, `iface_drops` and `os_drops`, the option
terminator `{0, 0}` and block_total_length 64 again: 64 bytes. -/
theorem write_isb_layout (w : PcapNGWriter) (hdr : StatHdr)
    (hend : w.file_.pos = w.file_.content.length) :
    (w.write_isb hdr).file_.content =
      w.file_.content ++
        (toLE 4 5 ++ toLE 4 64 ++ toLE 4 0 ++ toLE 4 (w.timestamp hdr.secs hdr.frac).1 ++
          toLE 4 (w.timestamp hdr.secs hdr.frac).2 ++
          (toLE 2 4 ++ toLE 2 8 ++ toLE 8 hdr.recv) ++
          (toLE 2 5 ++ toLE 2 8 ++ toLE 8 hdr.iface_drops) ++
          (toLE 2 7 ++ toLE 2 8 ++ toLE 8 hdr.os_drops) ++
          (toLE 2 0 ++ toLE 2 0) ++ toLE 4 64) ∧
    (w.write_isb hdr).file_.content.length = w.file_.content.length + 64 ∧
    (w.write_isb hdr).file_.pos = (w.write_isb hdr).file_.content.length ∧
    (w.write_isb hdr).pkt_count_ = w.pkt_count_ := by
  rw [PcapNGWriter.write_isb_at_end w hend]
  refine ⟨?_, ?_, ?_, rfl⟩
  · show w.file_.content ++ blockBytes 5 _ = _
    simp only [blockBytes, PcapNGWriter.isbBody_length]
    simp only [isbBody, optionBytes, endOfOptions,
      toLE_length, PcapNGWriter.padding_eight, List.replicate_zero, List.append_nil,
      List.append_assoc, List.nil_append]
  · show (w.file_.content ++ blockBytes 5 _).length = _
    rw [List.length_append, blockBytes_length, PcapNGWriter.isbBody_length]
  · show w.file_.content.length + _ = (w.file_.content ++ _).length
    rw [List.length_append]

theorem write_isb_layout_witness :
    (PcapNGWriter.new sampleReaders).file_.pos =
      (PcapNGWriter.new sampleReaders).file_.content.length ∧
    ((PcapNGWriter.new sampleReaders).write_isb ⟨7, 102, 0, 3, 0, 0⟩).file_.content.length =
      (PcapNGWriter.new sampleReaders).file_.content.length + 64 :=
  ⟨rfl, (write_isb_layout (PcapNGWriter.new sampleReaders) ⟨7, 102, 0, 3, 0, 0⟩ rfl).2.1⟩

theorem declaredLength_optionBytes (code : Nat) (value : List Nat) :
    declaredLength (optionBytes code value) = value.length % 2 ^ 16 := by
  have e : optionBytes code value = toLE 2 code ++ (toLE 2 value.length ++
      (value ++ List.replicate (padding value.length) 0)) := by
    simp only [optionBytes, List.append_assoc]
  unfold declaredLength
  rw [e, List.drop_left' (toLE_length _ _), List.take_left' (toLE_length _ _), fromLE_toLE_mod]
  norm_num

theorem idbOptions_lengths (rs : ReaderSet) (harr : ArraysOk rs)
    (hdev : rs.dev_name_.length < 2 ^ 16) (hfilter : rs.filter_.length + 1 < 2 ^ 16)
    (hos : rs.os_version_.length < 2 ^ 16) (hhw : rs.hardware_.length < 2 ^ 16) :
    ∀ o ∈ idbOptions rs, o.2.length < 2 ^ 16 := by
  intro o ho
  have h8 : ∀ x, (toLE 8 x).length = 8 := fun x => toLE_length 8 x
  unfold idbOptions at ho
  simp only [List.mem_append, List.mem_cons, List.mem_singleton, List.mem_map,
    List.not_mem_nil, or_false] at ho
  rcases ho with ((((((h | h) | h) | h) | h) | h) | h)
  · subst h; exact hdev
  · obtain ⟨a, ha, rfl⟩ := h
    have := harr.1 a ha
    simp only [List.length_append, this.1, this.2]
    norm_num
  · obtain ⟨a, ha, rfl⟩ := h
    have := harr.2.1 a ha
    simp only [List.length_append, this, List.length_singleton]
    norm_num
  · cases hm : rs.mac_ with
    | none => rw [hm] at h; simp at h
    | some mac =>
      rw [hm] at h
      simp only [List.mem_singleton] at h
      subst h
      have := harr.2.2 mac hm
      simp only [this]
      norm_num
  · rcases h with h | h
    · subst h; simp only [h8]; norm_num
    · subst h; simp only [List.length_singleton]; norm_num
  · by_cases hf : rs.filter_ = []
    · simp [hf] at h
    · simp only [hf, if_false, List.mem_singleton] at h
      subst h
      simp only [List.length_cons]
      exact hfilter
  · rcases h with h | h | h
    · subst h; exact hos
    · subst h; simp only [h8]; norm_num
    · subst h; exact hhw

/-- C25, amended. For metadata whose interface name, OS version and hardware
text are shorter than `2^16` bytes and whose filter text is shorter than
`2^16 - 1` bytes: `write_idb` at the end of the file adds block type 1 with the
link type and the snaplen of the lead record, followed by the options of
`idbOptions` in that order (`if_name`; an `if_IPv4addr` of 8 bytes per IPv4
subnet; an `if_IPv6addr` of 17 bytes and 3 bytes of padding per IPv6 subnet;
`if_MACaddr` if and only if a MAC is present; `if_speed`; `if_tsresol` with
value 9 when `nano` and 6 otherwise; `if_filter`, one prefix byte and the
filter text, if and only if the filter text is not empty; `if_os`;
`if_tsoffset`; `if_hardware`) and the terminator `{0, 0}`; the declared length
of each option equals the length of its value. -/
theorem write_idb_options (w : PcapNGWriter) (hend : w.file_.pos = w.file_.content.length)
    (harr : ArraysOk w.readers_)
    (hdev : w.readers_.dev_name_.length < 2 ^ 16)
    (hfilter : w.readers_.filter_.length + 1 < 2 ^ 16)
    (hos : w.readers_.os_version_.length < 2 ^ 16)
    (hhw : w.readers_.hardware_.length < 2 ^ 16) :
    w.write_idb.file_.content = w.file_.content ++
      blockBytes 1 (toLE 2 w.readers_.link_ ++ toLE 2 0 ++ toLE 4 (ofInt32 w.readers_.snaplen_) ++
        ((idbOptions w.readers_).map (fun o => optionBytes o.1 o.2)).flatten ++
        endOfOptions) ∧
    (∀ o ∈ idbOptions w.readers_, declaredLength (optionBytes o.1 o.2) = o.2.length) := by
  constructor
  · rw [PcapNGWriter.write_idb_at_end w hend harr, file_content_append, idbBody_eq_options]
  · intro o ho
    rw [declaredLength_optionBytes]
    exact Nat.mod_eq_of_lt (idbOptions_lengths _ harr hdev hfilter hos hhw o ho)

set_option maxRecDepth 100000 in
theorem arraysOk_rich : ArraysOk richReaders := by
  refine ⟨?_, ?_, ?_⟩
  · intro a ha
    have h : richReaders.ipv4s_ = [⟨[10, 0, 0, 1], [255, 255, 255, 0]⟩] := rfl
    rw [h, List.mem_singleton] at ha
    subst ha
    exact ⟨rfl, rfl⟩
  · intro a ha
    have h : richReaders.ipv6s_ =
        [⟨[254, 128, 0, 0, 0, 0, 0, 0, 0, 0, 0, 0, 0, 0, 0, 1], 64⟩] := rfl
    rw [h, List.mem_singleton] at ha
    subst ha
    rfl
  · intro m hm
    have h : richReaders.mac_ = some [2, 0, 0, 0, 0, 1] := rfl
    rw [h] at hm
    cases hm
    rfl

set_option maxRecDepth 100000 in
theorem write_idb_options_witness :
    (PcapNGWriter.new richReaders).file_.pos =
      (PcapNGWriter.new richReaders).file_.content.length ∧
    ArraysOk (PcapNGWriter.new richReaders).readers_ ∧
    (PcapNGWriter.new richReaders).readers_.dev_name_.length < 2 ^ 16 ∧
    (PcapNGWriter.new richReaders).readers_.filter_.length + 1 < 2 ^ 16 ∧
    (PcapNGWriter.new richReaders).readers_.os_version_.length < 2 ^ 16 ∧
    (PcapNGWriter.new richReaders).readers_.hardware_.length < 2 ^ 16 ∧
    (∀ o ∈ idbOptions (PcapNGWriter.new richReaders).readers_,
      declaredLength (optionBytes o.1 o.2) = o.2.length) :=
  ⟨rfl, arraysOk_rich, by decide, by decide, by decide, by decide,
    (write_idb_options (PcapNGWriter.new richReaders) rfl arraysOk_rich (by decide) (by decide)
      (by decide) (by decide)).2⟩

theorem replicate_ne_nil (n x : Nat) (h : 0 < n) : List.replicate n x ≠ [] := by
  intro hc
  have := congrArg List.length hc
  rw [List.length_replicate] at this
  simp only [List.length_nil] at this
  omega

theorem filter_option_mem (rs : ReaderSet) (h : rs.filter_ ≠ []) :
    (11, 0 :: rs.filter_) ∈ idbOptions rs := by
  unfold idbOptions
  simp only [h, if_false, List.mem_append, List.mem_singleton, List.mem_cons, true_or, or_true]

theorem arraysOk_longFilter : ArraysOk longFilterReaders := arraysOk_sample

set_option maxRecDepth 100000 in
/-- C25 fails on the code. For a filter text of 65535 bytes the value of the
`if_filter` option has 65536 bytes (prefix byte and text) and its declared
length is `static_cast<uint16_t>(65535 + 1) = 0`. -/
theorem long_filter_declared_length_zero :
    (PcapNGWriter.new longFilterReaders).write_idb.file_.content =
      blockBytes 1 (toLE 2 longFilterReaders.link_ ++ toLE 2 0 ++
        toLE 4 (ofInt32 longFilterReaders.snaplen_) ++
        ((idbOptions longFilterReaders).map (fun o => optionBytes o.1 o.2)).flatten ++
        endOfOptions) ∧
    (11, 0 :: List.replicate 65535 97) ∈ idbOptions longFilterReaders ∧
    (0 :: List.replicate 65535 97).length = 65536 ∧
    declaredLength (optionBytes 11 (0 :: List.replicate 65535 97)) = 0 := by
  have hf : longFilterReaders.filter_ = List.replicate 65535 97 := rfl
  refine ⟨?_, ?_, ?_, ?_⟩
  · have hr : (PcapNGWriter.new longFilterReaders).readers_ = longFilterReaders := rfl
    have hcn : (PcapNGWriter.new longFilterReaders).file_.content = [] := rfl
    rw [PcapNGWriter.write_idb_at_end (PcapNGWriter.new longFilterReaders) rfl
      arraysOk_longFilter, file_content_append, idbBody_eq_options, hr, hcn, List.nil_append]
  · have := filter_option_mem longFilterReaders (by rw [hf]; exact replicate_ne_nil _ _ (by norm_num))
    rwa [hf] at this
  · rw [List.length_cons, List.length_replicate]
  · rw [declaredLength_optionBytes, List.length_cons, List.length_replicate]
    norm_num

theorem entryBlock_type (rs : ReaderSet) (e : Entry) :
    (entryBlock rs e).take 4 = toLE 4 (if e.hdr.visit.2 then 6 else 5) := by
  unfold entryBlock
  cases e.hdr with
  | pkt h =>
    show (toLE 4 6 ++ _ ++ _ ++ _).take 4 = toLE 4 6
    rw [List.append_assoc, List.append_assoc]
    exact List.take_left' (toLE_length _ _)
  | stat h =>
    show (toLE 4 5 ++ _ ++ _ ++ _).take 4 = toLE 4 5
    rw [List.append_assoc, List.append_assoc]
    exact List.take_left' (toLE_length _ _)

/-- C26. For every reader set and every sequence `es` of entries that the calls
of `ReaderSet::next` return up to end-of-stream (within `n` calls of `fuel`
rounds each): `write_all` returns, and the file holds one SHB, then one IDB,
then exactly one block per entry of `es` in the order returned, an EPB (block
type 6) for a packet entry and an ISB (block type 5) for a statistics entry;
the final packet count is the number of packet entries. -/
theorem write_all_emits_blocks (rs : ReaderSet) (fuel n : Nat) (es : List Entry)
    (harr : ArraysOk rs) (hdrain : drain fuel n rs [] = some (es, true)) :
    ∃ w, (PcapNGWriter.new rs).write_all fuel n = some w ∧
      w.file_.content = blockBytes 0x0A0D0D0A (shbBody rs) ++ blockBytes 1 (idbBody rs) ++
        (es.map (entryBlock rs)).flatten ∧
      w.pkt_count_ = (es.filter (fun e => e.hdr.visit.2)).length % W64 ∧
      (∀ e ∈ es, (entryBlock rs e).take 4 = toLE 4 (if e.hdr.visit.2 then 6 else 5)) := by
  have h1 : (PcapNGWriter.new rs).write_shb =
      (PcapNGWriter.new rs).append (blockBytes 0x0A0D0D0A (shbBody rs)) :=
    PcapNGWriter.write_shb_at_end _ rfl
  have h2 : ((PcapNGWriter.new rs).append (blockBytes 0x0A0D0D0A (shbBody rs))).write_idb =
      (PcapNGWriter.new rs).append
        (blockBytes 0x0A0D0D0A (shbBody rs) ++ blockBytes 1 (idbBody rs)) :=
    PcapNGWriter.write_idb_append _ _ harr
  obtain ⟨rs1, h3⟩ := PcapNGWriter.write_entries_spec fuel n (PcapNGWriter.new rs)
    (blockBytes 0x0A0D0D0A (shbBody rs) ++ blockBytes 1 (idbBody rs)) [] es
    (by show 0 < W64; norm_num [W64]) hdrain
  have h4 : (PcapNGWriter.new rs).write_all fuel n =
      PcapNGWriter.write_entries fuel n ((PcapNGWriter.new rs).append
        (blockBytes 0x0A0D0D0A (shbBody rs) ++ blockBytes 1 (idbBody rs))) [] := by
    unfold PcapNGWriter.write_all
    rw [h1, h2]
  rw [h4, h3]
  refine ⟨_, rfl, ?_, ?_, fun e _ => entryBlock_type rs e⟩
  · show [] ++ (_ ++ _) = _
    rw [List.nil_append]
    rfl
  · show (0 + _) % W64 = _
    rw [Nat.zero_add]

set_option maxRecDepth 100000 in
theorem write_all_emits_blocks_witness :
    ArraysOk sampleReaders ∧
    drain 8 6 sampleReaders [] = some
      ([⟨Hdr.pkt ⟨1, 100, 5, 2, 2⟩, some [170, 187]⟩, ⟨Hdr.pkt ⟨2, 100, 6, 1, 1⟩, some [204]⟩,
        ⟨Hdr.pkt ⟨4, 101, 0, 1, 1⟩, some [9]⟩, ⟨Hdr.pkt ⟨5, 101, 1, 0, 0⟩, some []⟩,
        ⟨Hdr.stat ⟨7, 102, 0, 3, 0, 0⟩, none⟩], true) ∧
    ∃ w, (PcapNGWriter.new sampleReaders).write_all 8 6 = some w ∧
      w.file_.content = blockBytes 0x0A0D0D0A (shbBody sampleReaders) ++
        blockBytes 1 (idbBody sampleReaders) ++
        (([⟨Hdr.pkt ⟨1, 100, 5, 2, 2⟩, some [170, 187]⟩, ⟨Hdr.pkt ⟨2, 100, 6, 1, 1⟩, some [204]⟩,
          ⟨Hdr.pkt ⟨4, 101, 0, 1, 1⟩, some [9]⟩, ⟨Hdr.pkt ⟨5, 101, 1, 0, 0⟩, some []⟩,
          ⟨Hdr.stat ⟨7, 102, 0, 3, 0, 0⟩, none⟩] : List Entry).map
            (entryBlock sampleReaders)).flatten ∧
      w.pkt_count_ = 4 :=
  ⟨arraysOk_sample, by decide,
    (write_all_emits_blocks sampleReaders 8 6 _ arraysOk_sample (by decide)).imp
      (fun _ h => ⟨h.1, h.2.1, h.2.2.1⟩)⟩

/-! ## Command line, capture thread and signal handler -/

theorem shr_int_max : shr INT_MAX (20 - 1) = 4095 := by decide

theorem shl_in_range (b : Int) (h1 : 1 ≤ b) (h2 : b ≤ 4095) : shl b (20 - 1) = b * 2 ^ 19 := by
  unfold shl toInt32 ofInt32
  have e : (20 : Nat) - 1 = 19 := rfl
  rw [e]
  have hm : (b * 2 ^ 19) % (2 ^ 32 : Int) = b * 2 ^ 19 := by
    apply Int.emod_eq_of_lt <;> omega
  rw [hm]
  have ht : ((b * 2 ^ 19).toNat : Int) = b * 2 ^ 19 := Int.toNat_of_nonneg (by omega)
  have hlt : (b * 2 ^ 19).toNat < 2 ^ 31 := by omega
  have hmod : (b * 2 ^ 19).toNat % 2 ^ 32 = (b * 2 ^ 19).toNat := Nat.mod_eq_of_lt (by omega)
  rw [hmod, if_pos hlt, ht]

theorem bufsizeInRange_iff (b : Int) : bufsizeInRange b = true ↔ 1 ≤ b ∧ b ≤ 4095 := by
  unfold bufsizeInRange
  rw [decide_eq_true_iff, shr_int_max]

theorem Sniffer.new_buffer_size (config : Config) (env : PcapEnv) :
    ∀ p, (Sniffer.new config env).pcap_ = some p → p.buffer_size = config.bufsz := by
  intro p
  unfold Sniffer.new
  dsimp only
  split_ifs <;> intro hp <;> cases hp
  rfl

/-- C27 fails on the code. The value 1 of the option `-b` is accepted, and the
ring buffer of the capture then has a capacity of `1 << (20 - 1) = 524288`
bytes, not `1 * 2^20`. -/
theorem bufsize_one_gives_half_mib :
    bufsizeInRange 1 = true ∧
    (fastcap_bufsz sampleConfig (some 1)).map
      (fun c => (WriterSet.new c 1 sampleDevice (fun _ => 0)).buf_.cap_) = some 524288 ∧
    524288 ≠ 1 * 2 ^ 20 := by decide

/-- C27, amended. For every accepted value `b` of the option `-b`
(`1 <= b <= 4095`): `config.bufsz` becomes `b * 2^19`, so the ring buffer used
for capture has a capacity of `b * 2^19` bytes (half of `b` MiB); libpcap is
asked for a buffer of the same size, which makes `b * 2^20` bytes for the two.
Without the option the default 256 gives `256 * 2^19`. -/
theorem ring_capacity_half_mib (config : Config) (datalink : Int) (dev : DeviceInfo)
    (mem0 : Nat → Nat) (env : PcapEnv) (b : Int) (hb : bufsizeInRange b = true) :
    1 ≤ b ∧ b ≤ 4095 ∧
    ∃ c, fastcap_bufsz config (some b) = some c ∧
      ((WriterSet.new c datalink dev mem0).buf_.cap_ : Int) = b * 2 ^ 19 ∧
      (∀ p, (Sniffer.new c env).pcap_ = some p → p.buffer_size = b * 2 ^ 19) ∧
      ((WriterSet.new c datalink dev mem0).buf_.cap_ : Int) + b * 2 ^ 19 = b * 2 ^ 20 ∧
      (fastcap_bufsz ({} : Config) none).map (fun d => d.bufsz) = some (256 * 2 ^ 19) := by
  obtain ⟨h1, h2⟩ := (bufsizeInRange_iff b).mp hb
  refine ⟨h1, h2, { config with bufsz := b * 2 ^ 19 }, ?_, ?_, ?_, ?_, by decide⟩
  · simp only [fastcap_bufsz, hb, if_true, shl_in_range b h1 h2]
  · show ((toU64 (b * 2 ^ 19) : Nat) : Int) = b * 2 ^ 19
    unfold toU64
    have hW : ((W64 : Nat) : Int) = 2 ^ 64 := by norm_num [W64]
    rw [hW, Int.emod_eq_of_lt (by omega) (by omega), Int.toNat_of_nonneg (by omega)]
  · intro p hp
    exact Sniffer.new_buffer_size _ env p hp
  · show ((toU64 (b * 2 ^ 19) : Nat) : Int) + b * 2 ^ 19 = b * 2 ^ 20
    unfold toU64
    have hW : ((W64 : Nat) : Int) = 2 ^ 64 := by norm_num [W64]
    rw [hW, Int.emod_eq_of_lt (by omega) (by omega), Int.toNat_of_nonneg (by omega)]
    ring

set_option maxRecDepth 100000 in
theorem ring_capacity_half_mib_witness :
    bufsizeInRange 256 = true ∧
    ∃ c, fastcap_bufsz sampleConfig (some 256) = some c ∧
      ((WriterSet.new c 1 sampleDevice (fun _ => 0)).buf_.cap_ : Int) = 256 * 2 ^ 19 :=
  ⟨by decide, (ring_capacity_half_mib sampleConfig 1 sampleDevice (fun _ => 0) goodEnv 256
    (by decide)).2.2.imp (fun _ h => ⟨h.1, h.2.1⟩)⟩

set_option maxRecDepth 100000 in
/-- C28 fails on the code. The interface exists and the user may not capture on
it (`pcap_activate` returns `PCAP_ERROR_PERM_DENIED`), two output files named
`out`: `Sniffer::ok()` is false after construction and `capture` returns 1, but
the constructor of `WriterSet` ran before the test of `ok()`: the files `out.0`
(magic and lead record, 53 bytes) and `out.1` (magic) are on disk. -/
theorem capture_failure_leaves_files :
    (Sniffer.new sampleConfig deniedEnv).ok = false ∧
    capture sampleConfig deniedEnv sampleDevice (fun _ => 0) Slot.nullptr [] =
      some (1, [([111, 117, 116, 46, 48],
                 [80, 65, 67, 70, 0, 0, 0, 0, 0, 0, 0, 0, 99, 112, 117, 0, 111, 115, 0, 101, 116,
                  104, 48, 0, 0, 0, 0, 0, 1, 0, 0, 0, 0, 0, 0, 0, 0, 0, 0, 110, 105, 99, 0, 232, 3,
                  0, 0, 0, 0, 0, 0, 0, 0]),
                ([111, 117, 116, 46, 49], [80, 65, 67, 70])]) := by
  decide

theorem signal_invariant (events : List SignalEvent) : ∀ st : SignalState,
    (st.g_sniffer = Slot.invalid_ptr ∨ st.stops = 0) → st.stops ≤ 1 →
    ((runSignals st events).g_sniffer = Slot.invalid_ptr ∨ (runSignals st events).stops = 0) ∧
      (runSignals st events).stops ≤ 1 := by
  induction events with
  | nil => intro st h1 h2; exact ⟨h1, h2⟩
  | cons e es ih =>
    intro st h1 h2
    have step : ((e.apply st).g_sniffer = Slot.invalid_ptr ∨ (e.apply st).stops = 0) ∧
        (e.apply st).stops ≤ 1 := by
      cases e with
      | sigint written =>
        unfold SignalEvent.apply
        dsimp only
        by_cases hx : st.exited.isSome = true
        · rw [if_pos hx]
          exact ⟨h1, h2⟩
        · rw [if_neg hx]
          unfold signal_handler
          dsimp only
          by_cases hg : st.g_sniffer ≠ Slot.nullptr ∧ st.g_sniffer ≠ Slot.invalid_ptr
          · have h0 : st.stops = 0 := h1.resolve_left hg.2
            rw [if_pos hg]
            split_ifs <;> exact ⟨Or.inl rfl, by show st.stops + 1 ≤ 1; omega⟩
          · rw [if_neg hg]
            exact ⟨Or.inl rfl, h2⟩
      | registration =>
        unfold SignalEvent.apply
        dsimp only
        by_cases hx : st.exited.isSome = true
        · rw [if_pos hx]
          exact ⟨h1, h2⟩
        · rw [if_neg hx]
          unfold register
          by_cases hg : st.g_sniffer = Slot.nullptr
          · rw [if_pos hg]
            have h0 : st.stops = 0 := h1.resolve_left (by rw [hg]; decide)
            exact ⟨Or.inr h0, h2⟩
          · rw [if_neg hg]
            exact ⟨h1, h2⟩
    exact ih _ step.1 step.2

theorem signals_after_sentinel (events : List SignalEvent) : ∀ st : SignalState,
    st.g_sniffer = Slot.invalid_ptr → runSignals st events = st := by
  induction events with
  | nil => intro st _; rfl
  | cons e es ih =>
    intro st h
    have step : e.apply st = st := by
      cases st with
      | mk g f n x =>
        simp only at h
        subst h
        cases e with
        | sigint written =>
          unfold SignalEvent.apply
          dsimp only
          split_ifs <;> rfl
        | registration =>
          unfold SignalEvent.apply
          dsimp only
          split_ifs <;> rfl
    show runSignals (e.apply st) es = st
    rw [step]
    exact ih st h

/-- C29. For every sequence of `SIGINT` deliveries and registrations during a
capture, `Sniffer::stop` is called at most once; every run of the handler
leaves the invalid pointer in `g_sniffer`; a run that finds it there changes
nothing, the registration of `capture` fails on it, and so no later event has
any effect. -/
theorem stop_at_most_once (events : List SignalEvent) :
    (runSignals SignalState.init events).stops ≤ 1 ∧
    (∀ (st : SignalState) (written : Int),
      (signal_handler st written).g_sniffer = Slot.invalid_ptr) ∧
    (∀ (st : SignalState) (written : Int), st.g_sniffer = Slot.invalid_ptr →
      signal_handler st written = st) ∧
    (∀ st : SignalState, st.g_sniffer = Slot.invalid_ptr → register st = (false, st)) ∧
    (∀ (st : SignalState) (later : List SignalEvent), st.g_sniffer = Slot.invalid_ptr →
      runSignals st later = st) := by
  refine ⟨(signal_invariant events SignalState.init (Or.inr rfl) (by decide)).2, ?_, ?_, ?_,
    fun st later h => signals_after_sentinel later st h⟩
  · intro st written
    unfold signal_handler
    dsimp only
    split_ifs <;> rfl
  · intro st written h
    cases st with
    | mk g f n e =>
      simp only at h
      subst h
      rfl
  · intro st h
    unfold register
    rw [h]
    rfl

theorem stop_at_most_once_witness :
    (runSignals SignalState.init
      [SignalEvent.registration, SignalEvent.sigint 8, SignalEvent.sigint 8,
        SignalEvent.sigint 8]).stops ≤ 1 ∧
    signal_handler ⟨Slot.invalid_ptr, true, 1, none⟩ 8 = ⟨Slot.invalid_ptr, true, 1, none⟩ :=
  ⟨(stop_at_most_once [SignalEvent.registration, SignalEvent.sigint 8, SignalEvent.sigint 8,
      SignalEvent.sigint 8]).1,
    (stop_at_most_once []).2.2.1 ⟨Slot.invalid_ptr, true, 1, none⟩ 8 rfl⟩

namespace Sniffer

end Sniffer

/-- In the wrapped case `e < s` the code returns `cap - e + s`. -/
theorem distance_of_gt {cap s e : Nat} (hes : e < s) (hs : s ≤ cap) (hc : cap < 2 ^ 63) :
    distance cap s e = cap - e + s := by
  unfold distance boolToSize
  simp only [W64_val, hes, decide_True, if_true,
    show (1:Nat) ^^^ 1 = 0 from rfl, Nat.mul_zero, Nat.mul_one, Nat.zero_mod, Nat.zero_or,
    Nat.mod_mod]
  omega

set_option maxRecDepth 100000 in
/-- C31 fails on the code. Capacity 128: a record of 3 payload bytes and one of
81 payload bytes are committed and the first is read, which leaves `begin = 11`,
`end = 100` and `free_end = 10`. For these cursors `distance(end, free_end)`
evaluates to `128 - 10 + 100 = 218`, whereas `(10 - 100) mod 128 = 38`: the free
space that the producer sees exceeds `C - 1 = 127`. -/
theorem distance_wrapped_exceeds_capacity :
    (runFresh 128 (fun _ => 0)
      [Op.write [1, 2, 3], Op.write (List.replicate 81 0), Op.read]).map
      (fun r => (r.rb.cap_, r.rb.begin_, r.rb.end_, r.rb.free_end_)) = some (128, 11, 100, 10) ∧
    distance 128 100 10 = 218 ∧ ((10 : Int) - 100) % 128 = 38 ∧
    (runFresh 128 (fun _ => 0)
      [Op.write [1, 2, 3], Op.write (List.replicate 81 0), Op.read]).map
      (fun r => decide (distance r.rb.cap_ r.rb.end_ r.rb.free_end_ ≤ r.rb.cap_ - 1)) =
        some false := by
  decide

/-- C32 fails on the code. Capacity 128: a record of 3 payload bytes is
committed at position 0 (`begin = 0`, `end = 11`, `free_end = 127`) and read.
The length header of the record started at `b = 0`, and `decrement(0) = 127`,
but after the successful `try_read` the cursors are `begin = 11` and
`free_end = 10 = decrement(11)`. -/
theorem free_end_after_read_is_not_before_start :
    (runFresh 128 (fun _ => 0) [Op.write [1, 2, 3]]).map
      (fun r => (r.rb.begin_, r.rb.end_, r.rb.free_end_)) = some (0, 11, 127) ∧
    (runFresh 128 (fun _ => 0) [Op.write [1, 2, 3], Op.read]).map
      (fun r => (r.delivered, r.rb.begin_, r.rb.free_end_)) = some ([[1, 2, 3]], 11, 10) ∧
    decrement 128 0 = 127 ∧ decrement 128 11 = 10 := by
  decide

/-- C32, amended. A successful `try_read` of a record whose length header
started at position `b` and holds the length `n` finds `free_end` equal to
`decrement(b)`, the byte before the start of the record, and leaves `begin` at
`b' = offset_add(b, n + sizeof(size_t))`, the start of the following record, and
`free_end` at `decrement(b')`, the last byte of the record read; the payload
returned is the `n` bytes after the length header. -/
theorem try_read_publishes_last_byte_of_record (rb rb1 : RingBuffer) (buf out : List Nat)
    (h : rb.try_read buf = Except.ok (true, rb1, out)) :
    rb.free_end_ = decrement rb.cap_ rb.begin_.toNat ∧
    rb1.begin_ = RingBuffer.toPtrdiff (offset_add rb.cap_ rb.begin_.toNat
      ((fromLE (read_impl rb.mem_ rb.cap_ rb.begin_.toNat SIZEOF_SIZE_T) + SIZEOF_SIZE_T) % W64)) ∧
    rb1.free_end_ = decrement rb.cap_ (offset_add rb.cap_ rb.begin_.toNat
      ((fromLE (read_impl rb.mem_ rb.cap_ rb.begin_.toNat SIZEOF_SIZE_T) + SIZEOF_SIZE_T) % W64)) ∧
    out = read_impl rb.mem_ rb.cap_ (offset_add rb.cap_ rb.begin_.toNat SIZEOF_SIZE_T)
      (fromLE (read_impl rb.mem_ rb.cap_ rb.begin_.toNat SIZEOF_SIZE_T)) := by
  unfold RingBuffer.try_read at h
  dsimp only at h
  split_ifs at h with h1 h2 h3
  · simp only [Except.ok.injEq, Prod.mk.injEq, Bool.false_eq_true, false_and] at h
  · simp only [Except.ok.injEq, Prod.mk.injEq, true_and] at h
    obtain ⟨hrb, hout⟩ := h
    subst hrb
    exact ⟨h3, rfl, rfl, hout.symm⟩

theorem try_read_publishes_last_byte_of_record_witness :
    ∃ rb1 : RingBuffer, ∃ out : List Nat,
      (produce (RingBuffer.new 128 (fun _ => 0)) [1, 2, 3]).2.try_read [] =
        Except.ok (true, rb1, out) ∧
      rb1.free_end_ = decrement 128 (offset_add 128 0 ((3 + 8) % W64)) ∧ rb1.free_end_ = 10 ∧
      out = [1, 2, 3] :=
  ⟨_, _, rfl,
    (try_read_publishes_last_byte_of_record
      (produce (RingBuffer.new 128 (fun _ => 0)) [1, 2, 3]).2 _ [] _ rfl).2.2.1,
    by decide, by decide⟩

set_option maxRecDepth 100000 in
/-- C33 fails on the code. Capacity 128 (initially `begin = 0`, `end = 0`,
`free_end = 127`): a record of 3 payload bytes is committed and read
(`begin = 11`, `free_end = 10`), a record of 50 payload bytes is committed
(`end = 69`), and a record of 100 payload bytes is admitted although 69 bytes
are free, because `distance(69, 10)` evaluates to `128 - 10 + 69 = 187`. Its
payload wraps and overwrites the length header of the unread record at
positions 11 to 18 with the value 237. The successful `try_read` that follows
leaves `begin = offset_add(11, 237 + 8) = 128`, which is not in `[0, 128)`. -/
theorem cursor_leaves_range_after_overrun :
    ((RingBuffer.new 128 (fun _ => 0)).begin_, (RingBuffer.new 128 (fun _ => 0)).end_,
      (RingBuffer.new 128 (fun _ => 0)).free_end_) = (0, 0, 127) ∧
    (runFresh 128 (fun _ => 0)
      [Op.write [1, 2, 3], Op.read, Op.write (List.replicate 50 0)]).map
      (fun r => (r.rb.begin_, r.rb.end_, r.rb.free_end_,
        distance r.rb.cap_ r.rb.end_ r.rb.free_end_)) = some (11, 69, 10, 187) ∧
    (runFresh 128 (fun _ => 0)
      [Op.write [1, 2, 3], Op.read, Op.write (List.replicate 50 0),
       Op.write ((List.replicate 62 0 ++ [237]) ++ List.replicate 37 0), Op.read]).map
      (fun r => (r.committed.length, r.delivered.length, r.rb.cap_, r.rb.begin_, r.rb.end_,
        r.rb.free_end_)) = some (3, 2, 128, 128, 49, 127) := by
  decide

/-- One round of `Writer::work` is one call of `try_read_while` with the
predicate `!stop_` that meets no wake-up, followed by the write to the file
when the call returned `true`. -/
theorem work_eq_try_read_while (ws : WriterSet) (i : Nat) :
    ws.work i = ws.afterRead i (ws.buf_.try_read_while (!ws.stop_) [] []) := by
  unfold WriterSet.work RingBuffer.try_read_while
  by_cases hs : ws.stop_ = true
  · have hn : (!ws.stop_) = false := by rw [hs]; rfl
    rw [if_pos hs, hn]
    rfl
  · have hn : (!ws.stop_) = true := by
      simp only [hs, Bool.not_eq_true, Bool.not_eq_eq_eq_not, Bool.not_true]
    rw [if_neg hs, hn]
    simp only [Bool.not_true, Bool.false_eq_true, if_false, RingBuffer.try_read_do_while]
    cases h : ws.buf_.try_read [] with
    | error rb => rfl
    | ok r =>
      obtain ⟨b, rb, out⟩ := r
      cases b <;> rfl

theorem work_after_stop (ws : WriterSet) (hs : ws.stop_ = true) (workers : List Nat) :
    runSteps ws (workers.map Step.work) = ws := by
  induction workers with
  | nil => rfl
  | cons i workers ih =>
    have h1 : ws.work i = ws := by
      unfold WriterSet.work
      simp only [hs, if_true]
    simp only [List.map_cons, runSteps, List.foldl_cons, Step.apply, h1]
    exact ih

/-- C35. A call of `try_read_while` that finds `pred()` false returns `false`
and leaves the buffer, with every committed record in it, and the caller's
vector as they are, whatever the buffer holds; and a call that is waiting
returns `false` in the same way as soon as an evaluation of the wait predicate
finds `pred()` false, even when the producer has committed records in the
meantime. Hence, once the stop flag is set, the call made by `Writer::work`
with the predicate `!stop_` returns `false`, and any number of rounds of any
workers leave the buffer and the files as they are: the records still in the
buffer are not written. -/
theorem try_read_while_false_consumes_nothing (rb : RingBuffer) (wakeups : List Wakeup)
    (buf : List Nat) (produced : List (List Nat)) (ws : WriterSet) (workers : List Nat) :
    rb.try_read_while false wakeups buf = ReadOutcome.returned false rb buf ∧
    rb.wait buf (⟨produced, false⟩ :: wakeups) =
      ReadOutcome.returned false (produceAll rb produced) buf ∧
    (ws.stop_ = true →
      ws.buf_.try_read_while (!ws.stop_) wakeups buf = ReadOutcome.returned false ws.buf_ buf ∧
      runSteps ws (workers.map Step.work) = ws) := by
  refine ⟨rfl, rfl, fun hs => ⟨?_, work_after_stop ws hs workers⟩⟩
  rw [hs]
  rfl

set_option maxRecDepth 100000 in
theorem try_read_while_false_consumes_nothing_witness :
    stoppedSession.stop_ = true ∧
    (stoppedSession.buf_.begin_, stoppedSession.buf_.end_) = (0, 42) ∧
    runSteps stoppedSession ([0, 1, 0].map Step.work) = stoppedSession ∧
    (runSteps stoppedSession ([0, 1, 0].map Step.work)).files_.map List.length = [53, 4] :=
  ⟨by decide, by decide,
    ((try_read_while_false_consumes_nothing stoppedSession.buf_ [] [] [] stoppedSession
      [0, 1, 0]).2.2 (by decide)).2, by decide⟩

/-! ## Lock-free queue -/

theorem LFQueue.new_stuck (c storage : Nat) (hW : c + 2 < W64) :
    (LFQueue.new c storage).Stuck c storage 0 := by
  have hn : (c + 2) % W64 = c + 2 := Nat.mod_eq_of_lt hW
  have hq : LFQueue.new c storage =
      { alloc_ := (((List.range (c + 2)).map (fun i =>
            ({ data := { data_ := storage, flag_ := 0 }, next := some (i + 1) } : LFEntry))).modify
            (fun e => { e with next := none }) (c + 1)).modify (fun e => { e with next := none }) c,
        free_head_ := some 0, tail_ := some (c + 1), free_tail_ := some c,
        head_ := some (c + 1) } := by
    unfold LFQueue.new
    simp only [hn]
    rfl
  rw [hq]
  refine ⟨rfl, rfl, Nat.zero_le _, ?_, ?_⟩
  · intro j _ hj
    have hjr : j < c + 2 := by omega
    simp only [List.getElem?_modify, List.getElem?_map, List.getElem?_range hjr, Option.map_some',
      Option.map_eq_map]
    have h1 : ¬ (c + 1 = j) := by omega
    simp only [h1, if_false]
    by_cases h2 : c = j
    · subst h2
      simp only [if_true, lt_self_iff_false, if_false]
    · have : j < c := by omega
      simp only [h2, if_false, this, if_true]
  · refine ⟨{ data := { data_ := storage, flag_ := 0 }, next := none }, ?_, rfl⟩
    have hjr : c + 1 < c + 2 := by omega
    simp only [List.getElem?_modify, List.getElem?_map, List.getElem?_range hjr, Option.map_some',
      Option.map_eq_map]
    have h2 : ¬ (c = c + 1) := by omega
    simp only [h2, if_true, if_false]

theorem LFQueue.try_pop_stuck {c storage i : Nat} {q : LFQueue} (h : q.Stuck c storage i) :
    ∃ q1, q.try_pop = some (none, q1) ∧ q1.Stuck c storage i := by
  obtain ⟨hf, hh, hi, hfree, e, he, hflag⟩ := h
  have hlt : c + 1 < q.alloc_.length := by
    rcases List.getElem?_eq_some.mp he with ⟨hl, _⟩
    exact hl
  refine ⟨q.assign (some (c + 1)) { e with data := { e.data with flag_ := 0 } }, ?_, ?_⟩
  · unfold LFQueue.try_pop LFQueue.deref
    simp only [hh, he, LFData.take, hflag, lt_self_iff_false, if_false, gt_iff_lt,
      Option.isSome_none, Bool.false_eq_true]
  · refine ⟨hf, hh, hi, ?_, ?_⟩
    · intro j hij hj
      show (q.alloc_.set (c + 1) _)[j]? = _
      rw [List.getElem?_set_ne (by omega)]
      exact hfree j hij hj
    · refine ⟨{ e with data := { e.data with flag_ := 0 } }, ?_, rfl⟩
      show (q.alloc_.set (c + 1) _)[c + 1]? = _
      rw [List.getElem?_set_self hlt]

theorem LFQueue.try_push_stuck_full {c storage : Nat} {q : LFQueue} (h : q.Stuck c storage c)
    (v : Nat) : ∃ q1, q.try_push v = some (some v, q1) ∧ q1.Stuck c storage c := by
  obtain ⟨hf, hh, hi, hfree, e, he, hflag⟩ := h
  have hc := hfree c (Nat.le_refl _) (Nat.le_refl _)
  simp only [lt_self_iff_false, if_false] at hc
  have hlt : c < q.alloc_.length := by
    rcases List.getElem?_eq_some.mp hc with ⟨hl, _⟩
    exact hl
  refine ⟨q.assign (some c) { data := { data_ := storage, flag_ := 0 }, next := none },
    ?_, ?_⟩
  · unfold LFQueue.try_push LFQueue.new_entry LFQueue.deref
    simp only [hf, hc, if_true]
  · refine ⟨hf, hh, hi, ?_, ?_⟩
    · intro j hij hj
      have hjc : j = c := by omega
      subst hjc
      show (q.alloc_.set j _)[j]? = _
      rw [List.getElem?_set_self hlt]
      simp only [lt_self_iff_false, if_false]
    · refine ⟨e, ?_, hflag⟩
      show (q.alloc_.set c _)[c + 1]? = _
      rw [List.getElem?_set_ne (by omega)]
      exact he

theorem LFQueue.try_push_stuck_room {c storage i : Nat} {q : LFQueue} (h : q.Stuck c storage i)
    (hic : i < c) (v : Nat) :
    ∃ q1, q.try_push v = some (none, q1) ∧ q1.Stuck c storage (i + 1) := by
  obtain ⟨hf, hh, hi, hfree, e, he, hflag⟩ := h
  have hc := hfree i (Nat.le_refl _) hi
  simp only [hic, if_true] at hc
  have hlt : i < q.alloc_.length := by
    rcases List.getElem?_eq_some.mp hc with ⟨hl, _⟩
    exact hl
  have hd : ((q.alloc_.set i { data := { data_ := storage, flag_ := 0 }, next := none })[i]? :
      Option LFEntry) = some { data := { data_ := storage, flag_ := 0 }, next := none } :=
    List.getElem?_set_self hlt
  refine ⟨⟨(q.alloc_.set i ⟨⟨storage, 0⟩, none⟩).set i ⟨⟨v, 1⟩, q.tail_⟩, some (i + 1), some i,
    q.free_tail_, q.head_⟩, ?_, ?_⟩
  · unfold LFQueue.try_push LFQueue.new_entry LFQueue.deref
    simp only [hf, hc, LFQueue.assign, reduceCtorEq, if_false, hd, LFData.set,
      lt_self_iff_false]
  · refine ⟨rfl, hh, hic, ?_, ?_⟩
    · intro j hij hj
      show ((q.alloc_.set i _).set i _)[j]? = _
      rw [List.getElem?_set_ne (by omega), List.getElem?_set_ne (by omega)]
      exact hfree j (by omega) hj
    · refine ⟨e, ?_, hflag⟩
      show ((q.alloc_.set i _).set i _)[c + 1]? = _
      rw [List.getElem?_set_ne (by omega), List.getElem?_set_ne (by omega)]
      exact he

theorem LFQueue.results_stuck (c storage : Nat) (ops : List QueueOp) :
    ∀ (i : Nat) (q : LFQueue), q.Stuck c storage i →
      q.results ops = some (stuckResults (c - i) ops) := by
  induction ops with
  | nil => intro i q _; simp only [LFQueue.results, stuckResults]
  | cons op ops ih =>
    intro i q h
    cases op with
    | pop =>
      obtain ⟨q1, h1, h2⟩ := LFQueue.try_pop_stuck h
      simp only [LFQueue.results, h1, ih i q1 h2, Option.map_some', stuckResults]
    | push v =>
      by_cases hic : i < c
      · obtain ⟨q1, h1, h2⟩ := LFQueue.try_push_stuck_room h hic v
        have hk : ¬ (c - i = 0) := by omega
        have hk1 : c - (i + 1) = c - i - 1 := by omega
        simp only [LFQueue.results, h1, ih (i + 1) q1 h2, Option.map_some', hk, hk1,
          stuckResults, if_false]
      · have hi : i ≤ c := h.2.2.1
        have hic1 : i = c := by omega
        subst hic1
        obtain ⟨q1, h1, h2⟩ := LFQueue.try_push_stuck_full h v
        simp only [LFQueue.results, h1, ih i q1 h2, Option.map_some', Nat.sub_self,
          stuckResults, if_true]

theorem LFQueue.results_fresh (c storage : Nat) (hW : c + 2 < W64) (ops : List QueueOp) :
    (LFQueue.new c storage).results ops = some (stuckResults c ops) :=
  LFQueue.results_stuck c storage ops 0 _ (LFQueue.new_stuck c storage hW)

set_option maxRecDepth 100000 in
/-- C40 fails on the code. On a fresh `Spsc` queue of capacity 1, `try_push(7)`
succeeds (it returns nothing), and the `try_pop` that follows returns nothing
instead of 7. On a fresh queue of capacity 4 the values 1, 2, 3 are pushed
with success and the three calls of `try_pop` that follow return nothing. The
consumer takes from the entry `head_`, which is the last entry of `alloc_`; the
producer stores each value in an entry of the free list and points that entry
to the old `tail_`, so the entry `head_` never holds a value and never gets a
successor. -/
theorem spsc_pop_after_push_returns_nothing :
    (LFQueue.new 1 0).results [QueueOp.push 7, QueueOp.pop] = some [none, none] ∧
    (LFQueue.new 4 0).results [QueueOp.push 1, QueueOp.push 2, QueueOp.push 3, QueueOp.pop,
      QueueOp.pop, QueueOp.pop] = some [none, none, none, none, none, none] ∧
    ((LFQueue.new 1 0).try_push 7).map (fun p => (p.2.head_, p.2.tail_, p.2.alloc_)) =
      some (some 2, some 0, [⟨⟨7, 1⟩, some 2⟩, ⟨⟨0, 0⟩, none⟩, ⟨⟨0, 0⟩, none⟩]) := by
  decide

/-! ## Final statistics of a capture with a stats interval -/

namespace Sniffer

theorem timedLoop_eq_loop (interval : Int) (do_stats : Bool) (rounds : List TimedRound) :
    ∀ (s : Sniffer) (writers : WriterSet) (start : Int) (jds : Bool) (calls : List Call),
      (timedLoop interval do_stats rounds s writers start jds calls).map
        (fun e => (e.rc, e.sniffer, e.writers, e.calls)) =
      loop do_stats (untimed interval do_stats start rounds) s writers jds calls := by
  induction rounds with
  | nil => intro s writers start jds calls; rfl
  | cons r rest ih =>
    intro s writers start jds calls
    have hfin : (fun e : TimedExit => (e.rc, e.sniffer, e.writers, e.calls))
        (timedFinish s writers jds r start calls) = finish s writers jds r.pcap_stats calls := by
      unfold timedFinish finish TimedExit.calls
      cases jds <;> rfl
    unfold timedLoop untimed loop
    simp only [TimedRound.toRound, TimedRound.emits]
    by_cases h1 : r.stop_flag = true
    · simp only [h1, if_true, Option.map_some', hfin]
    · simp only [h1, if_false, Bool.false_eq_true]
      by_cases h2 : r.poll = -1
      · simp only [h2, if_true, Option.map_some', TimedExit.calls, Bool.false_eq_true, if_false]
      · simp only [h2, if_false]
        by_cases h3 : r.poll = 0
        · simp only [h3, if_true]
          rw [← ih]
          simp
        · simp only [h3, if_false]
          by_cases h4 : r.stop_revents = 0
          · simp only [h4, ne_eq, not_true_eq_false, if_false]
            by_cases h5 : r.pcap_revents = 0
            · simp only [h5, ne_eq, not_true_eq_false, if_false]
              rw [← ih]
              simp
            · simp only [h5, ne_eq, not_false_eq_true, if_true]
              by_cases h6 : r.dispatch = PCAP_ERROR
              · simp only [h6, if_true, Option.map_some', TimedExit.calls, Bool.false_eq_true,
                  if_false]
              · simp only [h6, if_false]
                cases do_stats with
                | false =>
                  simp only [Bool.false_eq_true, if_false]
                  rw [← ih]
                  simp
                | true =>
                  simp only [if_true]
                  by_cases h7 : r.clock - start ≥ interval
                  · simp only [h7, if_true, decide_True]
                    rw [← ih]
                    simp [h2, h3]
                  · simp only [h7, if_false, decide_False, Bool.false_eq_true]
                    rw [← ih]
                    simp
          · simp only [h4, ne_eq, not_false_eq_true, if_true, Option.map_some', hfin]

theorem timedRun_eq_run (s : Sniffer) (writers : WriterSet) (ticks start : Int)
    (rounds : List TimedRound) :
    (s.timedRun writers ticks start rounds).map
      (fun e => (e.rc, e.sniffer, e.writers, e.calls)) =
      s.run writers
        (untimed (s.stats_interval_ * ticks) (decide (s.stats_interval_ ≥ 0)) start rounds) := by
  unfold timedRun run
  by_cases hok : (!s.ok) = true
  · rw [if_pos hok, if_pos hok]
    rfl
  · rw [if_neg hok, if_neg hok]
    exact timedLoop_eq_loop _ _ rounds s writers start false []

end Sniffer

theorem scan_inl_id (k : Nat) (data : List Nat) : ∀ (readers : List Reader) (dc : Nat)
    (hdr : Hdr) (readers1 : List Reader) (data1 : List Nat),
    ReaderSet.scan k data readers dc = Sum.inl (hdr, readers1, data1) → hdr.visit.1 = k := by
  intro readers
  induction readers with
  | nil => intro dc hdr readers1 data1 h; simp [ReaderSet.scan] at h
  | cons r rest ih =>
    intro dc hdr readers1 data1 h
    unfold ReaderSet.scan at h
    by_cases h1 : (!r.done_) = true
    · rw [if_pos h1] at h
      by_cases h2 : r.hdr_.visit.1 = k
      · rw [if_pos h2] at h
        simp only [Sum.inl.injEq, Prod.mk.injEq] at h
        rw [← h.1]
        exact h2
      · rw [if_neg h2] at h
        cases hs : ReaderSet.scan k data rest dc with
        | inl x =>
          obtain ⟨hdr', rest', data'⟩ := x
          rw [hs] at h
          simp only [Sum.inl.injEq, Prod.mk.injEq] at h
          rw [← h.1]
          exact ih dc hdr' rest' data' hs
        | inr d => rw [hs] at h; simp at h
    · rw [if_neg h1] at h
      cases hs : ReaderSet.scan k data rest (dc + 1) with
      | inl x =>
        obtain ⟨hdr', rest', data'⟩ := x
        rw [hs] at h
        simp only [Sum.inl.injEq, Prod.mk.injEq] at h
        rw [← h.1]
        exact ih (dc + 1) hdr' rest' data' hs
      | inr d => rw [hs] at h; simp at h

theorem next_returns_cursor (fuel : Nat) : ∀ (rs rs1 : ReaderSet) (data data1 : List Nat)
    (hdr : Hdr), rs.next fuel data = some (some hdr, rs1, data1) →
    rs.next_ + rs.increments fuel data < W64 →
    rs.next_ ≤ hdr.visit.1 ∧ rs1.next_ = hdr.visit.1 + 1 := by
  induction fuel with
  | zero => intro rs rs1 data data1 hdr h; simp [ReaderSet.next] at h
  | succ fuel ih =>
    intro rs rs1 data data1 hdr h hw
    unfold ReaderSet.next at h
    unfold ReaderSet.increments at hw
    cases hs : ReaderSet.scan rs.next_ data rs.readers_ 0 with
    | inl x =>
      obtain ⟨hdr', readers', data'⟩ := x
      rw [hs] at h hw
      simp only [Option.some.injEq, Prod.mk.injEq] at h
      obtain ⟨h1, h2, _⟩ := h
      have hid := scan_inl_id _ _ _ _ _ _ _ hs
      rw [← h1, ← h2, hid]
      simp only at hw
      refine ⟨Nat.le_refl _, ?_⟩
      show (rs.next_ + 1) % W64 = rs.next_ + 1
      exact Nat.mod_eq_of_lt hw
    | inr dc =>
      rw [hs] at h hw
      simp only at h hw
      split_ifs at h hw with hd
      · simp at h
      · have hlt : rs.next_ + 1 < W64 := by omega
        have hn : (rs.next_ + 1) % W64 = rs.next_ + 1 := Nat.mod_eq_of_lt hlt
        have := ih _ rs1 data data1 hdr h (by
          show (rs.next_ + 1) % W64 + _ < W64
          omega)
        have h1 : (rs.next_ + 1) % W64 ≤ hdr.visit.1 := this.1
        rw [hn] at h1
        exact ⟨by omega, this.2⟩

theorem drain_ids_increasing (fuel : Nat) : ∀ (n : Nat) (rs : ReaderSet) (data : List Nat)
    (es : List Entry) (eos : Bool), drain fuel n rs data = some (es, eos) →
    noWrap fuel n rs data = true →
    (es.map Entry.id).Pairwise (fun a b => a < b) ∧ ∀ e ∈ es, rs.next_ ≤ e.id := by
  intro n
  induction n with
  | zero =>
    intro rs data es eos h _
    simp only [drain, Option.some.injEq, Prod.mk.injEq] at h
    rw [← h.1]
    exact ⟨List.Pairwise.nil, fun e he => by cases he⟩
  | succ n ih =>
    intro rs data es eos h hw
    unfold drain at h
    unfold noWrap at hw
    cases hn : rs.next fuel data with
    | none => rw [hn] at h; simp at h
    | some x =>
      obtain ⟨r, rs1, data1⟩ := x
      cases r with
      | none =>
        rw [hn] at h
        simp only [Option.some.injEq, Prod.mk.injEq] at h
        rw [← h.1]
        exact ⟨List.Pairwise.nil, fun e he => by cases he⟩
      | some hdr =>
        rw [hn] at h hw
        simp only [] at h
        simp only [Bool.and_eq_true, decide_eq_true_eq] at hw
        obtain ⟨hw1, hw2⟩ := hw
        obtain ⟨hc1, hc2⟩ := next_returns_cursor fuel rs rs1 data data1 hdr hn hw1
        cases hd : drain fuel n rs1 data1 with
        | none => rw [hd] at h; simp at h
        | some y =>
          obtain ⟨es', eos'⟩ := y
          rw [hd] at h
          simp only [Option.some.injEq, Prod.mk.injEq] at h
          obtain ⟨ih1, ih2⟩ := ih rs1 data1 es' eos' hd hw2
          rw [← h.1]
          refine ⟨?_, ?_⟩
          · simp only [List.map_cons, List.pairwise_cons]
            refine ⟨?_, ih1⟩
            intro a ha
            obtain ⟨e', he', rfl⟩ := List.mem_map.mp ha
            have := ih2 e' he'
            show hdr.visit.1 < e'.id
            omega
          · intro e he
            rcases List.mem_cons.mp he with rfl | he'
            · exact hc1
            · have := ih2 e he'
              omega

theorem read_lead_next (rs : ReaderSet) (r : Reader) : (rs.read_lead r).1.next_ = rs.next_ :=
  rfl

theorem openAll_next (files : List (List Nat)) : ∀ (rs : ReaderSet) (ok : Bool),
    (ReaderSet.openAll rs ok files).1.next_ = rs.next_ := by
  induction files with
  | nil => intro rs ok; rfl
  | cons p ps ih =>
    intro rs ok
    rw [ReaderSet.openAll]
    split_ifs
    · rw [ih]
    · rw [ih]; rfl
    · rw [ih]

theorem new_next (snaplen0 : Int) (paths : List (List Nat)) (rs : ReaderSet)
    (h : ReaderSet.new snaplen0 paths = Except.ok rs) : rs.next_ = 1 := by
  unfold ReaderSet.new at h
  dsimp only at h
  split_ifs at h
  simp only [Except.ok.injEq] at h
  rw [← h]
  show (ReaderSet.openAll (ReaderSet.init snaplen0) true paths).1.next_ = 1
  rw [openAll_next]
  rfl

/-- C38. For any shard files that the constructor of `ReaderSet` accepts, the
entries returned by successive calls of `next`, as long as no increment wraps
the cursor `next_` past `2 ^ 64 - 1`, have strictly increasing entry IDs, each
at least 1: an entry is returned only when its ID equals the cursor, and the
cursor is the ID plus one afterwards. Nothing is assumed on the order of the
IDs in the files. -/
theorem returned_ids_strictly_increasing (snaplen0 : Int) (paths : List (List Nat))
    (rs : ReaderSet) (fuel n : Nat) (data : List Nat) (es : List Entry) (eos : Bool)
    (hnew : ReaderSet.new snaplen0 paths = Except.ok rs)
    (hdrain : drain fuel n rs data = some (es, eos))
    (hwrap : noWrap fuel n rs data = true) :
    (es.map Entry.id).Pairwise (fun a b => a < b) ∧ ∀ e ∈ es, 1 ≤ e.id := by
  have h := drain_ids_increasing fuel n rs data es eos hdrain hwrap
  rw [new_next snaplen0 paths rs hnew] at h
  exact h

set_option maxRecDepth 100000 in
theorem returned_ids_strictly_increasing_witness :
    ∃ rs es eos, ReaderSet.new 0 gapAndEmptyShard = Except.ok rs ∧
      drain 5 2 rs [] = some (es, eos) ∧ noWrap 5 2 rs [] = true ∧
      es.map Entry.id = [1, 3] ∧
      ((es.map Entry.id).Pairwise (fun a b => a < b) ∧ ∀ e ∈ es, 1 ≤ e.id) :=
  ⟨_, _, _, rfl, rfl, rfl, rfl,
    returned_ids_strictly_increasing 0 gapAndEmptyShard _ 5 2 [] _ _ rfl rfl rfl⟩

/-- A reader that holds an entry of a well-formed shard set is not done and
its entry ID is at least the cursor. -/
theorem holding_readers_not_below_cursor (k : Nat) (readers : List Reader)
    (shards : List (List Entry)) (hh : List.Forall₂ Reader.Holds readers shards)
    (hok : ShardsOk k shards) :
    List.Forall₂ (fun r s => s ≠ [] → r.done_ = false ∧ k ≤ r.hdr_.visit.1) readers shards := by
  have hlow : ∀ s ∈ shards, ∀ e ∈ s, k ≤ e.id := fun s hs e he =>
    hok.lower e (List.mem_flatten.mpr ⟨s, hs, he⟩)
  clear hok
  induction hh with
  | nil => exact List.Forall₂.nil
  | @cons r s rs ss hr _ ih =>
    refine List.Forall₂.cons ?_ (ih (fun s' hs' => hlow s' (List.mem_cons_of_mem _ hs')))
    intro hne
    cases s with
    | nil => exact absurd rfl hne
    | cons e es =>
      refine ⟨hr.1, ?_⟩
      rw [hr.2.1]
      exact hlow _ (List.mem_cons_self _ _) e (List.mem_cons_self _ _)

set_option maxRecDepth 100000 in
/-- C37 fails on the code. Shard 0 holds the lead record and the packet
entries 1 and 2, shard 1 the magic only. The constructor returns and the first
two calls of `next` return in one round each, without a warning. The third
call has not returned after any number of rounds up to `2 ^ 64 - 3`, although
no entry ID is missing. -/
theorem next_after_last_entry_never_returns :
    ∃ rs2 data2,
      (ReaderSet.new 0 sampleShards).toOption.bind (fun rs => callNext 1 2 rs []) =
        some (rs2, data2) ∧
      rs2.warnings_ = [] ∧
      ∀ fuel, fuel + 3 ≤ W64 → rs2.next fuel data2 = none :=
  ⟨_, _, rfl, by decide, fun fuel hf =>
    next_none_of_stuck fuel _ _ (by decide) (by decide) (by decide)
      (by show 3 + fuel ≤ W64; omega)⟩

/-! ## Session start -/

theorem read_lead_peek (rs : ReaderSet) (r : Reader) :
    ∃ L : IFStream,
      (rs.read_lead r).2 = { r with file_ :=
        ((((L.tellg.2.seekg_cur 8).read 8).2.read 8).2.seekg L.tellg.1) } ∧
      (rs.read_lead r).1.start_sec_ =
        (if decide (r.native_ = 0) then
          byteswap 8 (fromLE (overwrite (toLE 8 rs.start_sec_)
            ((L.tellg.2.seekg_cur 8).read 8).1))
         else fromLE (overwrite (toLE 8 rs.start_sec_) ((L.tellg.2.seekg_cur 8).read 8).1)) :=
  ⟨_, rfl, rfl⟩

theorem read_failbit (f : IFStream) (n : Nat) (hf : f.failbit = true) :
    (f.read n).2.failbit = true := by
  rw [read_failed f hf]
  exact hf

theorem seekg_failbit (f : IFStream) (p : Int) (hf : f.failbit = true) :
    (f.seekg p).failbit = true := by
  unfold IFStream.seekg
  simp only [hf, if_true]

theorem seekg_cur_failbit (f : IFStream) (p : Int) (hf : f.failbit = true) :
    (f.seekg_cur p).failbit = true := by
  unfold IFStream.seekg_cur
  simp only [hf, if_true]

theorem read_short_failbit (f : IFStream) (n : Nat) (hn : 0 < n)
    (h : f.content.length < f.pos + n) :
    (f.read n).2.failbit = true := by
  have hl : ((f.content.drop f.pos).take n).length < n := by
    simp only [List.length_take, List.length_drop]
    omega
  unfold IFStream.read
  by_cases h1 : f.good = true
  · simp only [h1, if_true, hl]
  · simp only [h1, Bool.false_eq_true, if_false]

theorem peek_inj (L : IFStream) (pre recs : List Nat)
    (h : ((((L.tellg.2.seekg_cur 8).read 8).2.read 8).2.seekg L.tellg.1) =
      IFStream.positioned pre recs) : L = IFStream.positioned pre recs := by
  have hfb : ((((L.tellg.2.seekg_cur 8).read 8).2.read 8).2.seekg L.tellg.1).failbit = false := by
    rw [h]; rfl
  by_cases hg : L.good = true
  · obtain ⟨content, pos, eofbit, failbit⟩ := L
    simp only [IFStream.good, Bool.and_eq_true, Bool.not_eq_true'] at hg
    obtain ⟨he, hf⟩ := hg
    subst he hf
    have ht : (IFStream.mk content pos false false).tellg =
        ((pos : Int), IFStream.mk content pos false false) := rfl
    have hs : (IFStream.mk content pos false false).seekg_cur 8 =
        IFStream.mk content (pos + 8) false false := by
      simp only [IFStream.seekg_cur, Bool.false_eq_true, if_false]
      rw [if_neg (by omega)]
      congr 1
    rw [ht] at h hfb
    simp only [hs] at h hfb
    by_cases h1 : content.length < pos + 8 + 8
    · exfalso
      have := read_short_failbit (IFStream.mk content (pos + 8) false false) 8 (by omega) h1
      have := seekg_failbit _ (pos : Int) (read_failbit _ 8 this)
      rw [this] at hfb
      cases hfb
    · have hr1 := read_state (IFStream.mk content (pos + 8) false false) 8 rfl rfl
        (by show pos + 8 + 8 ≤ content.length; omega)
      rw [hr1] at h hfb
      by_cases h2 : content.length < pos + 8 + 8 + 8
      · exfalso
        have := read_short_failbit (IFStream.mk content (pos + 8 + 8) false false) 8 (by omega) h2
        have := seekg_failbit _ (pos : Int) this
        rw [this] at hfb
        cases hfb
      · have hr2 := read_state (IFStream.mk content (pos + 8 + 8) false false) 8 rfl rfl
          (by show pos + 8 + 8 + 8 ≤ content.length; omega)
        rw [hr2] at h
        rw [← h]
        simp only [IFStream.seekg, Bool.false_eq_true, if_false]
        rw [if_neg (by omega)]
        congr 1
  · exfalso
    have h1 : L.tellg = (-1, { L with failbit := true }) := by
      unfold IFStream.tellg
      rw [if_neg hg]
    rw [h1] at hfb
    have := seekg_failbit _ (-1) (read_failbit _ 8 (read_failbit _ 8
      (seekg_cur_failbit { L with failbit := true } 8 rfl)))
    rw [this] at hfb
    cases hfb

theorem peek_value (pre recs : List Nat) (h : 16 ≤ recs.length) :
    (((IFStream.positioned pre recs).tellg.2.seekg_cur 8).read 8).1 = (recs.drop 8).take 8 := by
  have h1 : (IFStream.positioned pre recs).tellg =
      ((pre.length : Int), IFStream.positioned pre recs) := by
    simp [IFStream.tellg, IFStream.positioned, IFStream.good]
  have h2 : (IFStream.positioned pre recs).seekg_cur 8 =
      { content := pre ++ recs, pos := pre.length + 8, eofbit := false, failbit := false } := by
    simp only [IFStream.seekg_cur, IFStream.positioned, Bool.false_eq_true, if_false]
    rw [if_neg (by omega)]
    congr 1
  rw [h1]
  simp only []
  rw [h2]
  have hd : (pre ++ recs).drop (pre.length + 8) = recs.drop 8 := by
    rw [← List.drop_drop, List.drop_left]
  simp only [IFStream.read, IFStream.good, Bool.not_false, Bool.and_self, if_true, hd]
  have hl : ¬ ((recs.drop 8).take 8).length < 8 := by
    simp only [List.length_take, List.length_drop]
    omega
  rw [if_neg hl]

theorem entry_secs_bytes (e : Entry) (hwf : e.wf = true) (rest : List Nat) :
    fromLE (((e.bytes ++ rest).drop 8).take 8) = e.hdr.secs := by
  obtain ⟨hdr, payload⟩ := e
  cases hdr with
  | pkt ph =>
    have hs : ph.secs < 256 ^ 8 := by
      simp only [Entry.wf, Bool.and_eq_true, decide_eq_true_eq] at hwf
      have := hwf.1.1.1.1.2
      rw [W64_val] at this
      omega
    have : ((({ hdr := Hdr.pkt ph, payload := payload } : Entry).bytes ++ rest).drop 8).take 8 =
        toLE 8 ph.secs := by
      simp only [Entry.bytes, Hdr.diskBytes, PktHdr.bytes, List.append_assoc]
      rw [List.drop_left' (toLE_length 8 _), List.take_left' (toLE_length 8 _)]
    rw [this, fromLE_toLE 8 _ hs]
    rfl
  | stat sh =>
    have hs : sh.secs < 256 ^ 8 := by
      simp only [Entry.wf, Bool.and_eq_true, decide_eq_true_eq] at hwf
      have := hwf.1.1.1.1.1.2
      rw [W64_val] at this
      omega
    have : ((({ hdr := Hdr.stat sh, payload := payload } : Entry).bytes ++ rest).drop 8).take 8 =
        toLE 8 sh.secs := by
      simp only [Entry.bytes, Hdr.diskBytes, StatHdr.bytes, List.append_assoc]
      rw [List.drop_left' (toLE_length 8 _), List.take_left' (toLE_length 8 _)]
    rw [this, fromLE_toLE 8 _ hs]
    rfl

theorem read_lead_start_sec (rs : ReaderSet) (r : Reader) (config : Config) (datalink : Int)
    (dev : DeviceInfo) (recs : List Nat) (hwf : LeadOk config dev)
    (hf : r.file_ = IFStream.positioned (toLE 4 MAGIC) (leadBytes config datalink dev ++ recs))
    (hn : r.native_ = 1) (hlen : 24 ≤ recs.length) :
    (rs.read_lead r).1.start_sec_ = fromLE ((recs.drop 8).take 8) ∧
    (rs.read_lead r).2 =
      { r with file_ := (IFStream.positioned (toLE 4 MAGIC ++ leadBytes config datalink dev) recs) } := by
  obtain ⟨L, h1, h2⟩ := read_lead_peek rs r
  have hstream : (rs.read_lead r).2 = { r with file_ :=
      (((((IFStream.positioned (toLE 4 MAGIC ++ leadBytes config datalink dev)
        recs).tellg.2.seekg_cur 8).read 8).2.read 8).2.seekg
        (IFStream.positioned (toLE 4 MAGIC ++ leadBytes config datalink dev) recs).tellg.1) } := by
    cases hmac : dev.mac_addr with
    | none => exact read_lead_stream_none rs r config datalink dev recs hwf hmac hf hn
    | some m => exact read_lead_stream_some rs r config datalink dev recs hwf m hmac hf hn
  rw [peek_restores _ _ hlen] at hstream
  have hL := peek_inj L _ _ (congrArg Reader.file_ (h1.symm.trans hstream))
  subst hL
  refine ⟨?_, hstream⟩
  rw [h2, hn, peek_value _ _ (by omega)]
  have hl : (toLE 8 rs.start_sec_).length ≤ ((recs.drop 8).take 8).length := by
    simp only [toLE_length, List.length_take, List.length_drop]
    omega
  rw [overwrite_full hl]
  rfl

theorem read_lead_failed_start_sec (rs : ReaderSet) (r : Reader) (hf : r.file_.failbit = true)
    (he : r.file_.eofbit = false) (hn : r.native_ = 1) (hs : rs.start_sec_ < W64) :
    (rs.read_lead r).1.start_sec_ = rs.start_sec_ := by
  have h0 : fromLE (overwrite (toLE 4 0) []) = 0 := by decide
  have h1 : fromLE (overwrite [0] []) = 0 := by decide
  have hb : byteswap 4 0 = 0 := by decide
  have hsw : decide ((1 : Int) = 0) = false := by decide
  have hv : fromLE (overwrite (toLE 8 rs.start_sec_) []) = rs.start_sec_ := by
    have : overwrite (toLE 8 rs.start_sec_) [] = toLE 8 rs.start_sec_ := rfl
    rw [this, fromLE_toLE 8 _ (by rw [W64_val] at hs; omega)]
  unfold ReaderSet.read_lead
  simp only [read_failed _ hf, getline_failed _ hf, tellg_failed _ hf, seekg_cur_failed _ hf he,
    seekg_failed _ hf he, h0, h1, hb, ite_self, readIPv4s, readIPv6s, ne_eq, not_true_eq_false,
    if_false, hn, hsw, Bool.false_eq_true, hv]

theorem openAll_append (a b : List (List Nat)) : ∀ (rs : ReaderSet) (ok : Bool),
    ReaderSet.openAll rs ok (a ++ b) =
      ReaderSet.openAll (ReaderSet.openAll rs ok a).1 (ReaderSet.openAll rs ok a).2 b := by
  induction a with
  | nil => intro rs ok; rfl
  | cons p ps ih =>
    intro rs ok
    simp only [List.cons_append, ReaderSet.openAll]
    split_ifs
    · exact ih _ _
    · exact ih _ _
    · exact ih _ _

theorem reader_empty_stream :
    (Reader.new (shardFile [] [])).file_.failbit = true ∧
    (Reader.new (shardFile [] [])).file_.eofbit = false := by
  decide

theorem openAll_plain_start_sec (shards : List (List Entry))
    (hwf : ∀ s ∈ shards, ∀ x ∈ s, x.wf = true ∧ 1 ≤ x.id) : ∀ (rs : ReaderSet) (ok : Bool),
    rs.start_sec_ < W64 →
    (ReaderSet.openAll rs ok (shards.map (shardFile []))).1.start_sec_ = rs.start_sec_ := by
  induction shards with
  | nil => intro rs ok _; rfl
  | cons s ss ih =>
    intro rs ok hs
    have ih' := ih (fun s' hs' => hwf s' (List.mem_cons_of_mem _ hs'))
    have hws := hwf s (List.mem_cons_self _ _)
    by_cases hne : s = []
    · subst hne
      obtain ⟨g1, g2, g3, -⟩ := reader_opened_empty rs
      have hst := read_lead_failed_start_sec rs (Reader.new (shardFile [] []))
        reader_empty_stream.1 reader_empty_stream.2 g1 hs
      have hstep : ReaderSet.openAll rs ok (shardFile [] [] :: ss.map (shardFile [])) =
          ReaderSet.openAll { (rs.read_lead (Reader.new (shardFile [] []))).1 with
            readers_ := rs.readers_ ++ [(rs.read_lead (Reader.new (shardFile [] []))).2] } ok
            (ss.map (shardFile [])) := by
        simp only [ReaderSet.openAll, g2, if_true]
        rw [if_neg (by rw [g1]; decide)]
      rw [List.map_cons, hstep]
      generalize rs.read_lead (Reader.new (shardFile [] [])) = R at hst ⊢
      have h1 := ih' { R.1 with readers_ := rs.readers_ ++ [R.2] } ok (lt_of_eq_of_lt hst hs)
      exact h1.trans hst
    · obtain ⟨g1, g2, -⟩ := reader_opened_holds s (fun x hx => (hws x hx).1)
        (fun x hx => (hws x hx).2) hne
      have hstep : ReaderSet.openAll rs ok (shardFile [] s :: ss.map (shardFile [])) =
          ReaderSet.openAll { rs with readers_ := rs.readers_ ++ [Reader.new (shardFile [] s)] }
            ok (ss.map (shardFile [])) := by
        simp only [ReaderSet.openAll, g2, Bool.false_eq_true, if_false]
        rw [if_neg (by rw [g1]; decide)]
      rw [List.map_cons, hstep]
      exact ih' _ ok hs

theorem opensTo_plain_all (shards : List (List Entry))
    (hwf : ∀ s ∈ shards, ∀ x ∈ s, x.wf = true ∧ 1 ≤ x.id) :
    List.Forall₂ OpensTo (shards.map (shardFile [])) shards := by
  induction shards with
  | nil => exact List.Forall₂.nil
  | cons s ss ih =>
    have hws := hwf s (List.mem_cons_self _ _)
    exact List.Forall₂.cons
      (opensTo_plain s (fun x hx => (hws x hx).1) (fun x hx => (hws x hx).2))
      (ih (fun s' hs' => hwf s' (List.mem_cons_of_mem _ hs')))

theorem rel_getElem {α β : Type} (R : α → β → Prop) :
    ∀ (as : List α) (bs : List β), List.Forall₂ R as bs →
    ∀ (i : Nat) (b : β), bs[i]? = some b → ∃ a, as[i]? = some a ∧ R a b := by
  intro as bs h
  induction h with
  | nil => intro i b hb; simp at hb
  | @cons a b as bs hab _ ih =>
    intro i b' hb
    cases i with
    | zero =>
      simp only [List.getElem?_cons_zero, Option.some.injEq] at hb
      subst hb
      exact ⟨a, List.getElem?_cons_zero, hab⟩
    | succ i =>
      simp only [List.getElem?_cons_succ] at hb ⊢
      exact ih i b' hb

/-- Session start in native byte order. For a shard set written in the byte
order of the reading host in which one shard holds the lead record followed by
at least one record, the other shards holding no lead record: the constructor
of `ReaderSet` returns, and `start_seconds` is the field `secs` of the record
stored immediately after the lead record; the reader of the lead shard holds
that record as its current entry, so the merge still returns it; the value is
the one advertised as `if_tsoffset` (option 14) and subtracted from the seconds
in `PcapNGWriter::timestamp`. It is therefore at most the `secs` of every entry
exactly when that record carries the smallest `secs`. -/
theorem start_seconds_is_secs_after_lead (config : Config) (datalink : Int) (dev : DeviceInfo)
    (e : Entry) (es : List Entry) (pre post : List (List Entry)) (snaplen0 : Int)
    (hlead : LeadOk config dev) (hwf : ∀ x ∈ e :: es, x.wf = true)
    (hplain : ∀ s ∈ pre ++ post, ∀ x ∈ s, x.wf = true ∧ 1 ≤ x.id) :
    ∃ rs, ReaderSet.new snaplen0 (pre.map (shardFile []) ++
        shardFile (leadBytes config datalink dev) (e :: es) :: post.map (shardFile [])) =
          Except.ok rs ∧
      rs.start_seconds = e.hdr.secs ∧
      (∃ r, rs.readers_[pre.length]? = some r ∧ r.Holds (e :: es)) ∧
      (14, toLE 8 e.hdr.secs) ∈ idbOptions rs ∧
      (∀ secs frac, (PcapNGWriter.new rs).timestamp secs frac =
        ((((((secs + W64 - e.hdr.secs) % W64 * (if rs.nano_ then 1000000000 else 1000000)) % W64 +
            frac) % W64) >>> 32) % 2 ^ 32,
         (((((secs + W64 - e.hdr.secs) % W64 * (if rs.nano_ then 1000000000 else 1000000)) % W64 +
            frac) % W64) &&& 0xFFFFFFFF) % 2 ^ 32)) ∧
      ((∀ x ∈ (pre ++ (e :: es) :: post).flatten, rs.start_seconds ≤ x.hdr.secs) ↔
        ∀ x ∈ (pre ++ (e :: es) :: post).flatten, e.hdr.secs ≤ x.hdr.secs) := by
  have hpre : ∀ s ∈ pre, ∀ x ∈ s, x.wf = true ∧ 1 ≤ x.id :=
    fun s hs => hplain s (List.mem_append_left _ hs)
  have hpost : ∀ s ∈ post, ∀ x ∈ s, x.wf = true ∧ 1 ≤ x.id :=
    fun s hs => hplain s (List.mem_append_right _ hs)
  have hopen : List.Forall₂ OpensTo
      (pre.map (shardFile []) ++
        shardFile (leadBytes config datalink dev) (e :: es) :: post.map (shardFile []))
      (pre ++ (e :: es) :: post) :=
    List.rel_append (opensTo_plain_all pre hpre)
      (List.Forall₂.cons (opensTo_lead config datalink dev (e :: es) hlead hwf)
        (opensTo_plain_all post hpost))
  obtain ⟨h1, h2, opened, h3, h4⟩ := openAll_spec _ _ hopen (ReaderSet.init snaplen0) true
  have hsecs : e.hdr.secs < W64 := by
    have := hwf e (List.mem_cons_self _ _)
    obtain ⟨hdr, payload⟩ := e
    cases hdr with
    | pkt ph =>
      simp only [Entry.wf, Bool.and_eq_true, decide_eq_true_eq] at this
      exact this.1.1.1.1.2
    | stat sh =>
      simp only [Entry.wf, Bool.and_eq_true, decide_eq_true_eq] at this
      exact this.1.1.1.1.1.2
  have hstart : (ReaderSet.openAll (ReaderSet.init snaplen0) true
      (pre.map (shardFile []) ++
        shardFile (leadBytes config datalink dev) (e :: es) :: post.map (shardFile []))).1.start_sec_
        = e.hdr.secs := by
    rw [openAll_append]
    have hp := openAll_plain_start_sec pre hpre (ReaderSet.init snaplen0) true
      (by show (0 : Nat) < W64; norm_num [W64])
    generalize ReaderSet.openAll (ReaderSet.init snaplen0) true (pre.map (shardFile [])) = A
      at hp ⊢
    obtain ⟨tl, htl⟩ : ∃ tl, leadBytes config datalink dev = toLE 8 0 ++ tl :=
      ⟨_, by simp only [leadBytes, List.append_assoc]; rfl⟩
    have hfile : shardFile (leadBytes config datalink dev) (e :: es) =
        toLE 4 MAGIC ++ (toLE 8 0 ++ (tl ++ ((e :: es).map Entry.bytes).flatten)) := by
      unfold shardFile
      rw [htl, List.append_assoc, List.append_assoc]
    have hnew := reader_new_general 0 (tl ++ ((e :: es).map Entry.bytes).flatten)
      (by norm_num [W64])
    rw [← hfile] at hnew
    have hcontent : toLE 8 0 ++ (tl ++ ((e :: es).map Entry.bytes).flatten) =
        leadBytes config datalink dev ++ ((e :: es).map Entry.bytes).flatten := by
      rw [htl, List.append_assoc]
    rw [hcontent] at hnew
    have hl : (Reader.new (shardFile (leadBytes config datalink dev) (e :: es))).has_lead_ =
        true := by rw [hnew]; rfl
    have hnat : (Reader.new (shardFile (leadBytes config datalink dev) (e :: es))).native_ = 1 := by
      rw [hnew]
    have hlen : 24 ≤ (((e :: es).map Entry.bytes).flatten).length := by
      have := entry_bytes_length e (hwf e (List.mem_cons_self _ _))
      simp only [List.map_cons, List.flatten_cons, List.length_append]
      omega
    have hrl := (read_lead_start_sec A.1 _ config datalink dev _ hlead
      (by rw [hnew]) hnat hlen).1
    have hval : fromLE (((((e :: es).map Entry.bytes).flatten).drop 8).take 8) = e.hdr.secs := by
      simp only [List.map_cons, List.flatten_cons]
      exact entry_secs_bytes e (hwf e (List.mem_cons_self _ _)) _
    rw [hval] at hrl
    have hstep : ReaderSet.openAll A.1 A.2
        (shardFile (leadBytes config datalink dev) (e :: es) :: post.map (shardFile [])) =
        ReaderSet.openAll
          { (A.1.read_lead (Reader.new (shardFile (leadBytes config datalink dev) (e :: es)))).1
            with readers_ := A.1.readers_ ++
              [(A.1.read_lead (Reader.new (shardFile (leadBytes config datalink dev)
                (e :: es)))).2] } A.2 (post.map (shardFile [])) := by
      simp only [ReaderSet.openAll, hl, if_true]
      rw [if_neg (by rw [hnat]; decide)]
    rw [hstep]
    generalize A.1.read_lead (Reader.new (shardFile (leadBytes config datalink dev) (e :: es)))
      = R at hrl ⊢
    have hq := openAll_plain_start_sec post hpost
      { R.1 with readers_ := A.1.readers_ ++ [R.2] } A.2 (lt_of_eq_of_lt hrl hsecs)
    exact hq.trans hrl
  refine ⟨{ (ReaderSet.openAll (ReaderSet.init snaplen0) true
      (pre.map (shardFile []) ++
        shardFile (leadBytes config datalink dev) (e :: es) :: post.map (shardFile []))).1 with
      readers_ := (ReaderSet.openAll (ReaderSet.init snaplen0) true
        (pre.map (shardFile []) ++ shardFile (leadBytes config datalink dev) (e :: es) ::
          post.map (shardFile []))).1.readers_.map Reader.read_next }, ?_, hstart, ?_, ?_, ?_, ?_⟩
  · unfold ReaderSet.new
    simp only [h1, Bool.not_true, Bool.false_eq_true, if_false]
  · have hh : List.Forall₂ Reader.Holds (opened.map Reader.read_next) (pre ++ (e :: es) :: post) := by
      rw [List.forall₂_map_left_iff]
      exact h4
    have hidx : (pre ++ (e :: es) :: post)[pre.length]? = some (e :: es) := by
      rw [List.getElem?_append_right (Nat.le_refl _), Nat.sub_self]
      exact List.getElem?_cons_zero
    obtain ⟨r, hr1, hr2⟩ := rel_getElem _ _ _ hh _ _ hidx
    refine ⟨r, ?_, hr2⟩
    show ((ReaderSet.openAll _ _ _).1.readers_.map Reader.read_next)[pre.length]? = some r
    rw [h3]
    exact hr1
  · unfold idbOptions
    simp only [List.mem_append, List.mem_cons]
    right
    right; left
    show (14, toLE 8 e.hdr.secs) = (14, toLE 8 (ReaderSet.openAll _ _ _).1.start_sec_)
    rw [hstart]
  · intro secs frac
    unfold PcapNGWriter.timestamp
    simp only [PcapNGWriter.new]
    rw [hstart]
    split_ifs <;> rfl
  · show (∀ x ∈ _, (ReaderSet.openAll _ _ _).1.start_sec_ ≤ _) ↔ _
    rw [hstart]

set_option maxRecDepth 100000 in
theorem start_seconds_is_secs_after_lead_witness :
    LeadOk sampleConfig sampleDevice ∧
    ∃ rs, ReaderSet.new 0 (([] : List (List Entry)).map (shardFile []) ++
        shardFile (leadBytes sampleConfig 1 sampleDevice)
          [⟨Hdr.pkt ⟨1, 100, 5, 2, 2⟩, some [170, 187]⟩, ⟨Hdr.pkt ⟨2, 100, 6, 1, 1⟩, some [204]⟩] ::
        [[]].map (shardFile [])) = Except.ok rs ∧
      rs.start_seconds = 100 :=
  ⟨leadOk_sample,
    (start_seconds_is_secs_after_lead sampleConfig 1 sampleDevice
      ⟨Hdr.pkt ⟨1, 100, 5, 2, 2⟩, some [170, 187]⟩ [⟨Hdr.pkt ⟨2, 100, 6, 1, 1⟩, some [204]⟩]
      [] [[]] 0 leadOk_sample (by decide) (by decide)).imp (fun _ h => ⟨h.1, h.2.1⟩)⟩

/-! ## Shards without records: end-of-stream and session start -/

set_option maxRecDepth 100000 in
/-- C14 fails on the code. Shard 0 holds the packet entry 1, shard 1 the magic
only. After the first call of `next` has returned entry 1, both files are read
to their end (positions 38 of 38 and 4 of 4), so every reader is exhausted; the
second call does not return end-of-stream within any number of rounds up to
`2 ^ 64 - 2`, because the reader of shard 1 never has `done_` set. -/
theorem no_end_of_stream_with_all_shards_read :
    ∃ rs1 data1,
      (ReaderSet.new 0 emptyShardSet).toOption.bind (fun rs => callNext 1 1 rs []) =
        some (rs1, data1) ∧
      rs1.progress = [(true, 38, 38), (false, 4, 4)] ∧
      ∀ fuel, fuel + 2 ≤ W64 → rs1.next fuel data1 = none :=
  ⟨_, _, rfl, by decide, fun fuel hf =>
    next_none_of_stuck fuel _ _ (by decide) (by decide) (by decide)
      (by show 2 + fuel ≤ W64; omega)⟩

end Fastcap
